import Mathlib

/-!
# Device-side cloud protocol core (`spark_protocol.cpp`)

A shallow embedding of `communication/src/spark_protocol.cpp`.

* Bytes are natural numbers; a store through `poke` truncates to 8 bits.
* The staging buffer `queue` is a list of bytes; a pointer into it is an offset.
* `unsigned short` / `unsigned char` / `system_tick_t` arithmetic is taken modulo
  `2^16` / `2^8` / `2^32`.
* The host callbacks (`send`, `receive`, `millis`) are scripted: the `World` holds the
  results the successive calls will return, and the bytes put on the wire so far.
* The cryptographic primitives of the external library are parameters (`Primitives`).
-/

namespace SparkProtocol

/-! ## Memory -/

/-- The constructor's `QUEUE_SIZE(640)`. -/
def QUEUE_SIZE : Nat := 640

/-- Read of `buf[i]`. -/
def peek (buf : List Nat) (i : Nat) : Nat := buf.getD i 0

/-- Store `buf[i] = v` into an `unsigned char` cell; a store past the end of the list is
dropped. -/
def poke (buf : List Nat) (i v : Nat) : List Nat := buf.set i (v % 256)

/-- The `n` bytes at `buf + off`. -/
def slice (buf : List Nat) (off n : Nat) : List Nat := (buf.drop off).take n

/-- The call `memcpy(buf + off, src, src.length)`. -/
def memcpy : List Nat → Nat → List Nat → List Nat
  | buf, _, [] => buf
  | buf, off, b :: bs => memcpy (buf.set off b) (off + 1) bs

/-- The call `memset(buf + off, v, n)`. -/
def memset (buf : List Nat) (off v n : Nat) : List Nat :=
  memcpy buf off (List.replicate n (v % 256))

/-- A clock value as a `system_tick_t` (32-bit unsigned). -/
def tick (t : Nat) : Nat := t % 2 ^ 32

/-- The subtraction `a - b` of two `system_tick_t` (32-bit unsigned) values. -/
def tick_sub (a b : Nat) : Nat := (a % 2 ^ 32 + 2 ^ 32 - b % 2 ^ 32) % 2 ^ 32

/-- Byte-wise exclusive or of two blocks. -/
def xorBlock (a b : List Nat) : List Nat := List.zipWith Nat.xor a b

/-! ## External primitives -/

/-- The primitives of the external crypto library and of `handshake.h`, and the
constant of `device_keys.h`, that `spark_protocol.cpp` calls but does not define. -/
structure Primitives where
  /-- `aes_crypt_ecb(AES_ENCRYPT)` under a key: one 16-byte block to one block. -/
  aes_encrypt_block : List Nat → List Nat → List Nat
  /-- `aes_crypt_ecb(AES_DECRYPT)` under a key. -/
  aes_decrypt_block : List Nat → List Nat → List Nat
  /-- `MAX_DEVICE_PUBLIC_KEY_LENGTH`. -/
  MAX_DEVICE_PUBLIC_KEY_LENGTH : Nat
  /-- `parse_device_pubkey_from_privkey`: the public key bytes of a private key. -/
  parse_device_pubkey_from_privkey : List Nat → List Nat
  /-- `rsa_pkcs1_encrypt` with the server public key: error code and ciphertext. -/
  rsa_pkcs1_encrypt : List Nat → List Nat → Int × List Nat
  /-- `decipher_aes_credentials`: error code and the 40 credential bytes. -/
  decipher_aes_credentials : List Nat → List Nat → Int × List Nat
  /-- `calculate_ciphertext_hmac` of the ciphertext and the credentials. -/
  calculate_ciphertext_hmac : List Nat → List Nat → List Nat
  /-- `verify_signature(signature, server_public_key, hmac)`: zero when it verifies. -/
  verify_signature : List Nat → List Nat → List Nat → Int

/-- Modelled from the spec: the external `aes_crypt_cbc(AES_ENCRYPT)` over `n` blocks of
the buffer at `off`, in place: each block is xored with the running IV and enciphered,
and the cipher block becomes the running IV. Returns the final IV and the buffer. -/
def aes_crypt_cbc_encrypt (E : List Nat → List Nat) :
    Nat → List Nat → List Nat → Nat → List Nat × List Nat
  | 0, iv, buf, _ => (iv, buf)
  | n + 1, iv, buf, off =>
    let out := E (xorBlock (slice buf off 16) iv)
    aes_crypt_cbc_encrypt E n out (memcpy buf off out) (off + 16)

/-- Modelled from the spec: the external `aes_crypt_cbc(AES_DECRYPT)` over `n` blocks of
the buffer at `off`, in place: each cipher block is deciphered and xored with the running
IV, and the cipher block becomes the running IV. -/
def aes_crypt_cbc_decrypt (D : List Nat → List Nat) :
    Nat → List Nat → List Nat → Nat → List Nat × List Nat
  | 0, iv, buf, _ => (iv, buf)
  | n + 1, iv, buf, off =>
    let temp := slice buf off 16
    let out := xorBlock (D temp) iv
    aes_crypt_cbc_decrypt D n temp (memcpy buf off out) (off + 16)

/-! ## Session state -/

/-- The scopes of `SubscriptionScope::Enum` (declared in `events.h`). -/
inductive SubscriptionScope where
  | MY_DEVICES | FIREHOSE
  deriving DecidableEq, Repr

/-- One slot of the `event_handlers` table (`struct FilteringEventHandler`, declared in
`events.h`): the `filter` and `device_id` character arrays, the handler function pointer
(0 is `NULL`) and the scope. -/
structure FilteringEventHandler where
  filter : List Nat
  handler : Nat
  scope : SubscriptionScope
  device_id : List Nat
  deriving DecidableEq, Repr

/-- The data members of `class SparkProtocol` that the modelled methods touch. -/
structure Session where
  server_public_key : List Nat
  core_private_key : List Nat
  device_id : List Nat
  key : List Nat
  iv_send : List Nat
  iv_receive : List Nat
  salt : List Nat
  _message_id : Nat
  _token : Nat
  /-- The four bytes last handed to `random_seed_from_cloud`, in memory order. -/
  random_seed : List Nat
  queue : List Nat
  expecting_ping_ack : Bool
  updating : Bool
  last_message_millis : Nat
  last_chunk_millis : Nat
  chunk_index : Nat
  product_id : Nat
  product_firmware_version : Nat
  event_handlers : List FilteringEventHandler
  deriving DecidableEq, Repr

/-- `SparkProtocol::encrypt(buf, length)` with `buf = queue + off`: CBC-encrypt in place
with `iv_send`, then `memcpy(iv_send, buf, 16)`. The external routine (mbedTLS) rejects a
length that is not a multiple of 16 and leaves buffer and IV alone. -/
def encrypt (c : Primitives) (p : Session) (off length : Nat) : Session :=
  let r := if length % 16 = 0
    then aes_crypt_cbc_encrypt (c.aes_encrypt_block p.key) (length / 16) p.iv_send p.queue off
    else (p.iv_send, p.queue)
  { p with queue := r.2, iv_send := slice r.2 off 16 }

/-- `SparkProtocol::wrap(buf, msglen)` with `buf = queue + off`; `size_t` is 32 bits. -/
def wrap (c : Primitives) (p : Session) (off msglen : Nat) : Session × Nat :=
  let buflen := ((msglen &&& 0xFFFFFFF0) + 16) % 2 ^ 32
  let pad := (buflen + 2 ^ 32 - msglen % 2 ^ 32) % 256
  let p1 := { p with queue := memset p.queue (off + 2 + msglen) pad pad }
  let p2 := encrypt c p1 (off + 2) buflen
  let q1 := poke p2.queue off ((buflen >>> 8) &&& 0xff)
  let q2 := poke q1 (off + 1) (buflen &&& 0xff)
  ({ p2 with queue := q2 }, (buflen + 2) % 2 ^ 32)

/-- `SparkProtocol::next_message_id`: `return ++_message_id` on an `unsigned short`. -/
def next_message_id (p : Session) : Nat × Session :=
  let m := (p._message_id + 1) % 2 ^ 16
  (m, { p with _message_id := m })

/-- `SparkProtocol::next_token`: `return ++_token` on an `unsigned char`. -/
def next_token (p : Session) : Nat × Session :=
  let t := (p._token + 1) % 2 ^ 8
  (t, { p with _token := t })

/-- The value returned by the `k`-th of `k` successive `next_message_id` calls
(`k = 0`: no call yet, the current counter). -/
def nth_message_id : Nat → Session → Nat
  | 0, p => p._message_id
  | 1, p => (next_message_id p).1
  | k + 2, p => nth_message_id (k + 1) (next_message_id p).2

/-- The value returned by the `k`-th of `k` successive `next_token` calls. -/
def nth_token : Nat → Session → Nat
  | 0, p => p._token
  | 1, p => (next_token p).1
  | k + 2, p => nth_token (k + 1) (next_token p).2

/-! ## Fixed-size message builders -/

/-- `SparkProtocol::hello(buf, newly_upgraded)` with `buf = queue + off`. -/
def hello (c : Primitives) (p : Session) (off : Nat) (newly_upgraded : Bool) : Session :=
  let (message_id, p) := next_message_id p
  let q := poke p.queue off 0x50
  let q := poke q (off + 1) 0x02
  let q := poke q (off + 2) (message_id >>> 8)
  let q := poke q (off + 3) (message_id &&& 0xff)
  let q := poke q (off + 4) 0xb1
  let q := poke q (off + 5) 'h'.toNat
  let q := poke q (off + 6) 0xff
  let q := poke q (off + 7) (p.product_id >>> 8)
  let q := poke q (off + 8) (p.product_id &&& 0xff)
  let q := poke q (off + 9) (p.product_firmware_version >>> 8)
  let q := poke q (off + 10) (p.product_firmware_version &&& 0xff)
  let q := poke q (off + 11) 0
  let q := poke q (off + 12) (if newly_upgraded then 1 else 0)
  let q := memset q (off + 13) 3 3
  encrypt c { p with queue := q } off 16

/-- `SparkProtocol::chunk_missed(buf, chunk_index)` with `buf = queue + off`. -/
def chunk_missed (c : Primitives) (p : Session) (off chunk_index : Nat) : Session :=
  let (message_id, p) := next_message_id p
  let q := poke p.queue off 0x40
  let q := poke q (off + 1) 0x01
  let q := poke q (off + 2) (message_id >>> 8)
  let q := poke q (off + 3) (message_id &&& 0xff)
  let q := poke q (off + 4) 0xb1
  let q := poke q (off + 5) 'c'.toNat
  let q := poke q (off + 6) 0xff
  let q := poke q (off + 7) (chunk_index >>> 8)
  let q := poke q (off + 8) (chunk_index &&& 0xff)
  let q := memset q (off + 9) 7 7
  encrypt c { p with queue := q } off 16

/-- `SparkProtocol::ping(buf)` with `buf = queue + off`. -/
def ping (c : Primitives) (p : Session) (off : Nat) : Session :=
  let (message_id, p) := next_message_id p
  let q := poke p.queue off 0x40
  let q := poke q (off + 1) 0x00
  let q := poke q (off + 2) (message_id >>> 8)
  let q := poke q (off + 3) (message_id &&& 0xff)
  let q := memset q (off + 4) 12 12
  encrypt c { p with queue := q } off 16

/-- `SparkProtocol::empty_ack(buf, message_id_msb, message_id_lsb)`. -/
def empty_ack (c : Primitives) (p : Session) (off message_id_msb message_id_lsb : Nat) :
    Session :=
  let q := poke p.queue off 0x60
  let q := poke q (off + 1) 0x00
  let q := poke q (off + 2) message_id_msb
  let q := poke q (off + 3) message_id_lsb
  let q := memset q (off + 4) 12 12
  encrypt c { p with queue := q } off 16

/-- `SparkProtocol::coded_ack(buf, token, code, message_id_msb, message_id_lsb)`. -/
def coded_ack (c : Primitives) (p : Session) (off token code message_id_msb
    message_id_lsb : Nat) : Session :=
  let q := poke p.queue off 0x61
  let q := poke q (off + 1) code
  let q := poke q (off + 2) message_id_msb
  let q := poke q (off + 3) message_id_lsb
  let q := poke q (off + 4) token
  let q := memset q (off + 5) 11 11
  encrypt c { p with queue := q } off 16

/-! ## Host callbacks -/

/-- The host side of the callbacks: what the successive calls of `callback_millis`,
`callback_receive` and `callback_send` will return, and the bytes the transport has
accepted so far. A `callback_receive` result is its return value and the bytes it
stored into the buffer it was given. -/
structure World where
  millis : List Nat
  receive : List (Int × List Nat)
  send : List Int
  sent : List Nat
  deriving DecidableEq, Repr

/-- One call of `callback_millis()`; `none` when the script has no further result. -/
def callback_millis (w : World) : Option (Nat × World) :=
  match w.millis with
  | [] => none
  | t :: ts => some (tick t, { w with millis := ts })

/-- One call of `callback_receive(buf + off, length)`: the bytes the host reports to have
read are stored at `buf + off`. -/
def callback_receive (w : World) (buf : List Nat) (off : Nat) :
    Option (Int × List Nat × World) :=
  match w.receive with
  | [] => none
  | (r, data) :: rs =>
    some (r, (if 0 < r then memcpy buf off (data.take r.toNat) else buf),
      { w with receive := rs })

/-- The loop of `SparkProtocol::blocking_send(buf + off, length)`, after `_millis` was
read: `sends` are the results the coming `callback_send` calls return. -/
def blocking_send_loop (buf : List Nat) (off : Nat) (length : Int) (_millis : Nat)
    (receive : List (Int × List Nat)) :
    List Int → List Nat → List Nat → Int → Option (Int × World)
  | sends, millis, sent, byte_count =>
    if length > byte_count then
      match sends with
      | [] => none
      | bytes_or_error :: sends =>
        if 0 > bytes_or_error then
          some (bytes_or_error, ⟨millis, receive, sends, sent⟩)
        else if 0 < bytes_or_error then
          blocking_send_loop buf off length _millis receive sends millis
            (sent ++ slice buf (off + byte_count.toNat) bytes_or_error.toNat)
            (byte_count + bytes_or_error)
        else
          match millis with
          | [] => none
          | t :: millis =>
            if 20000 < tick_sub t _millis then
              some (-1, ⟨millis, receive, sends, sent⟩)
            else
              blocking_send_loop buf off length _millis receive sends millis sent byte_count
    else some (byte_count, ⟨millis, receive, sends, sent⟩)

/-- `SparkProtocol::blocking_send(buf + off, length)`: bytes sent or a negative error. -/
def blocking_send (buf : List Nat) (off : Nat) (length : Int) (w : World) :
    Option (Int × World) :=
  match callback_millis w with
  | none => none
  | some (_millis, w) =>
    blocking_send_loop buf off length _millis w.receive w.send w.millis w.sent 0

/-- The loop of `SparkProtocol::blocking_receive(buf + off, length)`, after `_millis`
was read: `receives` are the results the coming `callback_receive` calls return. -/
def blocking_receive_loop (off : Nat) (length : Int) (_millis : Nat)
    (send : List Int) (sent : List Nat) :
    List (Int × List Nat) → List Nat → List Nat → Int → Option (Int × List Nat × World)
  | receives, millis, buf, byte_count =>
    if length > byte_count then
      match receives with
      | [] => none
      | (bytes_or_error, data) :: receives =>
        if 0 > bytes_or_error then
          some (bytes_or_error, buf, ⟨millis, receives, send, sent⟩)
        else if 0 < bytes_or_error then
          blocking_receive_loop off length _millis send sent receives millis
            (memcpy buf (off + byte_count.toNat) (data.take bytes_or_error.toNat))
            (byte_count + bytes_or_error)
        else
          match millis with
          | [] => none
          | t :: millis =>
            if 20000 < tick_sub t _millis then
              some (-1, buf, ⟨millis, receives, send, sent⟩)
            else
              blocking_receive_loop off length _millis send sent receives millis buf
                byte_count
    else some (byte_count, buf, ⟨millis, receives, send, sent⟩)

/-- `SparkProtocol::blocking_receive(buf + off, length)`: bytes received or a negative
error, and the buffer with the received bytes stored. -/
def blocking_receive (buf : List Nat) (off : Nat) (length : Int) (w : World) :
    Option (Int × List Nat × World) :=
  match callback_millis w with
  | none => none
  | some (_millis, w) =>
    blocking_receive_loop off length _millis w.send w.sent w.receive w.millis buf 0

/-! ## Message classifier -/

/-- The codes of `CoAPCode::Enum` (declared in `coap.h`). -/
inductive CoAPCode where
  | GET | POST | PUT | EMPTY | CONTENT | ERROR
  deriving DecidableEq, Repr

/-- The types of `CoAPType::Enum` (declared in `coap.h`). -/
inductive CoAPType where
  | CON | NON | ACK | RESET
  deriving DecidableEq, Repr

/-- The message types of `CoAPMessageType::Enum` (declared in `spark_protocol.h`). -/
inductive CoAPMessageType where
  | HELLO | DESCRIBE | FUNCTION_CALL | VARIABLE_REQUEST | SAVE_BEGIN | UPDATE_BEGIN
  | UPDATE_DONE | CHUNK | EVENT | KEY_CHANGE | SIGNAL_START | SIGNAL_STOP | TIME
  | EMPTY_ACK | PING | ERROR
  deriving DecidableEq, Repr

/-- Modelled from the spec: `CoAP::code` of `coap.cpp`, which is not among the sources:
the code is byte 1 of the message, `0.00` empty, `0.01` GET, `0.02` POST, `0.03` PUT,
`2.05` (0x45) CONTENT. -/
def CoAP.code (buf : List Nat) (off : Nat) : CoAPCode :=
  match peek buf (off + 1) with
  | 0x00 => .EMPTY
  | 0x01 => .GET
  | 0x02 => .POST
  | 0x03 => .PUT
  | 0x45 => .CONTENT
  | _ => .ERROR

/-- Modelled from the spec: `CoAP::type` of `coap.cpp`, which is not among the sources:
the type is held by the high bits (mask 0x30) of byte 0. -/
def CoAP.type (buf : List Nat) (off : Nat) : CoAPType :=
  match peek buf off &&& 0x30 with
  | 0x00 => .CON
  | 0x10 => .NON
  | 0x20 => .ACK
  | _ => .RESET

/-- The `switch` of `SparkProtocol::received_message` on the decrypted buffer at
`queue + off`. -/
def received_message_type (buf : List Nat) (off : Nat) : CoAPMessageType :=
  let path := peek buf (off + 5 + (peek buf off &&& 0x0F))
  match CoAP.code buf off with
  | .GET =>
    if path = 'v'.toNat then .VARIABLE_REQUEST
    else if path = 'd'.toNat then .DESCRIBE
    else .ERROR
  | .POST =>
    if path = 'E'.toNat then .EVENT
    else if path = 'e'.toNat then .EVENT
    else if path = 'h'.toNat then .HELLO
    else if path = 'f'.toNat then .FUNCTION_CALL
    else if path = 's'.toNat then .SAVE_BEGIN
    else if path = 'u'.toNat then .UPDATE_BEGIN
    else if path = 'c'.toNat then .CHUNK
    else .ERROR
  | .PUT =>
    if path = 'k'.toNat then .KEY_CHANGE
    else if path = 'u'.toNat then .UPDATE_DONE
    else if path = 's'.toNat then
      if peek buf (off + 8) ≠ 0 then .SIGNAL_START else .SIGNAL_STOP
    else .ERROR
  | .EMPTY =>
    match CoAP.type buf off with
    | .CON => .PING
    | _ => .EMPTY_ACK
  | .CONTENT => .TIME
  | _ => .ERROR

/-- `SparkProtocol::received_message(buf, length)` with `buf = queue + off`: keep the
first 16 cipher bytes, CBC-decrypt in place with `iv_receive`, install the kept bytes as
`iv_receive`, classify. -/
def received_message (c : Primitives) (p : Session) (off length : Nat) :
    CoAPMessageType × Session :=
  let next_iv := slice p.queue off 16
  let r := if length % 16 = 0
    then aes_crypt_cbc_decrypt (c.aes_decrypt_block p.key) (length / 16) p.iv_receive
      p.queue off
    else (p.iv_receive, p.queue)
  (received_message_type r.2 off, { p with queue := r.2, iv_receive := next_iv })

/-! ## Handshake -/

/-- `SparkProtocol::set_key(signed_encrypted_credentials)`: the 128-byte ciphertext is
deciphered to the credentials, the 256 bytes after it are the signature. -/
def set_key (c : Primitives) (p : Session) (signed_encrypted_credentials : List Nat) :
    Int × Session :=
  let r := c.decipher_aes_credentials p.core_private_key
    (slice signed_encrypted_credentials 0 128)
  if 0 ≠ r.1 then (1, p)
  else
    let credentials := r.2
    let hmac := c.calculate_ciphertext_hmac (slice signed_encrypted_credentials 0 128)
      credentials
    if 0 = c.verify_signature (slice signed_encrypted_credentials 128 256)
        p.server_public_key hmac then
      (0, { p with
        key := slice credentials 0 16
        iv_send := slice credentials 16 16
        iv_receive := slice credentials 16 16
        salt := slice credentials 32 8
        _message_id := ((peek credentials 32 <<< 8) ||| peek credentials 33) % 2 ^ 16
        _token := peek credentials 34 % 2 ^ 8
        random_seed := slice credentials 35 4 })
    else (2, p)

/-- `SparkProtocol::handshake()`; `was_ota_upgrade_successful` is what the descriptor's
callback of that name returns. -/
def handshake (c : Primitives) (was_ota_upgrade_successful : Bool) (p : Session)
    (w : World) : Option (Int × Session × World) := do
  let q := memcpy p.queue 40 (slice p.device_id 0 12)
  let (err, q, w) ← blocking_receive q 0 40 w
  if 0 > err then return (err, { p with queue := q }, w)
  let q := memcpy q 52 (c.parse_device_pubkey_from_privkey p.core_private_key)
  let len := 52 + c.MAX_DEVICE_PUBLIC_KEY_LENGTH
  let (err, out) := c.rsa_pkcs1_encrypt p.server_public_key (slice q 0 len)
  let q := memcpy q len out
  if err ≠ 0 then return (err, { p with queue := q }, w)
  let (_, w) ← blocking_send q len 256 w
  let (err, q, w) ← blocking_receive q 0 384 w
  if 0 > err then return (err, { p with queue := q }, w)
  let (err, p) := set_key c { p with queue := q } q
  if err ≠ 0 then return (err, p, w)
  let q := poke p.queue 0 0x00
  let q := poke q 1 0x10
  let p := hello c { p with queue := q } 2 was_ota_upgrade_successful
  let (_, w) ← blocking_send p.queue 0 18 w
  return (0, p, w)

/-! ## Dispatch loop -/

/-- `SparkProtocol::event_loop()`: `true` if no errors and still connected, `false` if
there was an error. The method `handle_received_message` it delegates to when a length
prefix has arrived is passed in. -/
def event_loop (c : Primitives)
    (handle_received_message : Session → World → Option (Bool × Session × World))
    (p : Session) (w : World) : Option (Bool × Session × World) := do
  let (bytes_received, q, w) ← callback_receive w p.queue 0
  let p := { p with queue := q }
  if 2 ≤ bytes_received then
    let (success, p, w) ← handle_received_message p w
    if !success then return (false, p, w)
    return (true, p, w)
  else
    if 0 > bytes_received then return (false, p, w)
    if p.updating then
      let (now, w) ← callback_millis w
      let millis_since_last_chunk := tick_sub now p.last_chunk_millis
      if 3000 < millis_since_last_chunk then
        let q := poke p.queue 0 0
        let q := poke q 1 16
        let p := chunk_missed c { p with queue := q } 2 p.chunk_index
        let (r, w) ← blocking_send p.queue 0 18 w
        if 0 > r then return (false, p, w)
        let (now, w) ← callback_millis w
        return (true, { p with last_chunk_millis := now }, w)
      return (true, p, w)
    else
      let (now, w) ← callback_millis w
      let millis_since_last_message := tick_sub now p.last_message_millis
      if p.expecting_ping_ack then
        if 10000 < millis_since_last_message then
          let (now, w) ← callback_millis w
          return (false, { p with expecting_ping_ack := false, last_message_millis := now }, w)
        return (true, p, w)
      else
        if 15000 < millis_since_last_message then
          let q := poke p.queue 0 0
          let q := poke q 1 16
          let p := ping c { p with queue := q } 2
          let (_, w) ← blocking_send p.queue 0 18 w
          let (now, w) ← callback_millis w
          return (true, { p with expecting_ping_ack := true, last_message_millis := now }, w)
        return (true, p, w)

/-! ## A concrete instance of the primitives

AES-128 as FIPS-197 defines it, so that the embedding can be run on concrete frames.
-/

namespace AES

/-- The AES S-box. -/
def sbox : List Nat := [
  0x63, 0x7c, 0x77, 0x7b, 0xf2, 0x6b, 0x6f, 0xc5, 0x30, 0x01, 0x67, 0x2b, 0xfe, 0xd7, 0xab, 0x76,
  0xca, 0x82, 0xc9, 0x7d, 0xfa, 0x59, 0x47, 0xf0, 0xad, 0xd4, 0xa2, 0xaf, 0x9c, 0xa4, 0x72, 0xc0,
  0xb7, 0xfd, 0x93, 0x26, 0x36, 0x3f, 0xf7, 0xcc, 0x34, 0xa5, 0xe5, 0xf1, 0x71, 0xd8, 0x31, 0x15,
  0x04, 0xc7, 0x23, 0xc3, 0x18, 0x96, 0x05, 0x9a, 0x07, 0x12, 0x80, 0xe2, 0xeb, 0x27, 0xb2, 0x75,
  0x09, 0x83, 0x2c, 0x1a, 0x1b, 0x6e, 0x5a, 0xa0, 0x52, 0x3b, 0xd6, 0xb3, 0x29, 0xe3, 0x2f, 0x84,
  0x53, 0xd1, 0x00, 0xed, 0x20, 0xfc, 0xb1, 0x5b, 0x6a, 0xcb, 0xbe, 0x39, 0x4a, 0x4c, 0x58, 0xcf,
  0xd0, 0xef, 0xaa, 0xfb, 0x43, 0x4d, 0x33, 0x85, 0x45, 0xf9, 0x02, 0x7f, 0x50, 0x3c, 0x9f, 0xa8,
  0x51, 0xa3, 0x40, 0x8f, 0x92, 0x9d, 0x38, 0xf5, 0xbc, 0xb6, 0xda, 0x21, 0x10, 0xff, 0xf3, 0xd2,
  0xcd, 0x0c, 0x13, 0xec, 0x5f, 0x97, 0x44, 0x17, 0xc4, 0xa7, 0x7e, 0x3d, 0x64, 0x5d, 0x19, 0x73,
  0x60, 0x81, 0x4f, 0xdc, 0x22, 0x2a, 0x90, 0x88, 0x46, 0xee, 0xb8, 0x14, 0xde, 0x5e, 0x0b, 0xdb,
  0xe0, 0x32, 0x3a, 0x0a, 0x49, 0x06, 0x24, 0x5c, 0xc2, 0xd3, 0xac, 0x62, 0x91, 0x95, 0xe4, 0x79,
  0xe7, 0xc8, 0x37, 0x6d, 0x8d, 0xd5, 0x4e, 0xa9, 0x6c, 0x56, 0xf4, 0xea, 0x65, 0x7a, 0xae, 0x08,
  0xba, 0x78, 0x25, 0x2e, 0x1c, 0xa6, 0xb4, 0xc6, 0xe8, 0xdd, 0x74, 0x1f, 0x4b, 0xbd, 0x8b, 0x8a,
  0x70, 0x3e, 0xb5, 0x66, 0x48, 0x03, 0xf6, 0x0e, 0x61, 0x35, 0x57, 0xb9, 0x86, 0xc1, 0x1d, 0x9e,
  0xe1, 0xf8, 0x98, 0x11, 0x69, 0xd9, 0x8e, 0x94, 0x9b, 0x1e, 0x87, 0xe9, 0xce, 0x55, 0x28, 0xdf,
  0x8c, 0xa1, 0x89, 0x0d, 0xbf, 0xe6, 0x42, 0x68, 0x41, 0x99, 0x2d, 0x0f, 0xb0, 0x54, 0xbb, 0x16]

/-- The inverse AES S-box. -/
def inv_sbox : List Nat := [
  0x52, 0x09, 0x6a, 0xd5, 0x30, 0x36, 0xa5, 0x38, 0xbf, 0x40, 0xa3, 0x9e, 0x81, 0xf3, 0xd7, 0xfb,
  0x7c, 0xe3, 0x39, 0x82, 0x9b, 0x2f, 0xff, 0x87, 0x34, 0x8e, 0x43, 0x44, 0xc4, 0xde, 0xe9, 0xcb,
  0x54, 0x7b, 0x94, 0x32, 0xa6, 0xc2, 0x23, 0x3d, 0xee, 0x4c, 0x95, 0x0b, 0x42, 0xfa, 0xc3, 0x4e,
  0x08, 0x2e, 0xa1, 0x66, 0x28, 0xd9, 0x24, 0xb2, 0x76, 0x5b, 0xa2, 0x49, 0x6d, 0x8b, 0xd1, 0x25,
  0x72, 0xf8, 0xf6, 0x64, 0x86, 0x68, 0x98, 0x16, 0xd4, 0xa4, 0x5c, 0xcc, 0x5d, 0x65, 0xb6, 0x92,
  0x6c, 0x70, 0x48, 0x50, 0xfd, 0xed, 0xb9, 0xda, 0x5e, 0x15, 0x46, 0x57, 0xa7, 0x8d, 0x9d, 0x84,
  0x90, 0xd8, 0xab, 0x00, 0x8c, 0xbc, 0xd3, 0x0a, 0xf7, 0xe4, 0x58, 0x05, 0xb8, 0xb3, 0x45, 0x06,
  0xd0, 0x2c, 0x1e, 0x8f, 0xca, 0x3f, 0x0f, 0x02, 0xc1, 0xaf, 0xbd, 0x03, 0x01, 0x13, 0x8a, 0x6b,
  0x3a, 0x91, 0x11, 0x41, 0x4f, 0x67, 0xdc, 0xea, 0x97, 0xf2, 0xcf, 0xce, 0xf0, 0xb4, 0xe6, 0x73,
  0x96, 0xac, 0x74, 0x22, 0xe7, 0xad, 0x35, 0x85, 0xe2, 0xf9, 0x37, 0xe8, 0x1c, 0x75, 0xdf, 0x6e,
  0x47, 0xf1, 0x1a, 0x71, 0x1d, 0x29, 0xc5, 0x89, 0x6f, 0xb7, 0x62, 0x0e, 0xaa, 0x18, 0xbe, 0x1b,
  0xfc, 0x56, 0x3e, 0x4b, 0xc6, 0xd2, 0x79, 0x20, 0x9a, 0xdb, 0xc0, 0xfe, 0x78, 0xcd, 0x5a, 0xf4,
  0x1f, 0xdd, 0xa8, 0x33, 0x88, 0x07, 0xc7, 0x31, 0xb1, 0x12, 0x10, 0x59, 0x27, 0x80, 0xec, 0x5f,
  0x60, 0x51, 0x7f, 0xa9, 0x19, 0xb5, 0x4a, 0x0d, 0x2d, 0xe5, 0x7a, 0x9f, 0x93, 0xc9, 0x9c, 0xef,
  0xa0, 0xe0, 0x3b, 0x4d, 0xae, 0x2a, 0xf5, 0xb0, 0xc8, 0xeb, 0xbb, 0x3c, 0x83, 0x53, 0x99, 0x61,
  0x17, 0x2b, 0x04, 0x7e, 0xba, 0x77, 0xd6, 0x26, 0xe1, 0x69, 0x14, 0x63, 0x55, 0x21, 0x0c, 0x7d]

def subByte (b : Nat) : Nat := sbox.getD b 0

def invSubByte (b : Nat) : Nat := inv_sbox.getD b 0

/-- Multiplication by `x` in GF(2^8) modulo `x^8 + x^4 + x^3 + x + 1`. -/
def xtime (b : Nat) : Nat := ((b <<< 1) ^^^ (if b &&& 0x80 = 0 then 0 else 0x1b)) &&& 0xff

def shiftRows (s : List Nat) : List Nat :=
  [0, 5, 10, 15, 4, 9, 14, 3, 8, 13, 2, 7, 12, 1, 6, 11].map (fun i => s.getD i 0)

def invShiftRows (s : List Nat) : List Nat :=
  [0, 13, 10, 7, 4, 1, 14, 11, 8, 5, 2, 15, 12, 9, 6, 3].map (fun i => s.getD i 0)

def mixColumn : List Nat → List Nat
  | [a0, a1, a2, a3] =>
    [xtime a0 ^^^ (xtime a1 ^^^ a1) ^^^ a2 ^^^ a3,
     a0 ^^^ xtime a1 ^^^ (xtime a2 ^^^ a2) ^^^ a3,
     a0 ^^^ a1 ^^^ xtime a2 ^^^ (xtime a3 ^^^ a3),
     (xtime a0 ^^^ a0) ^^^ a1 ^^^ a2 ^^^ xtime a3]
  | s => s

def mul9 (a : Nat) : Nat := xtime (xtime (xtime a)) ^^^ a

def mul11 (a : Nat) : Nat := xtime (xtime (xtime a)) ^^^ xtime a ^^^ a

def mul13 (a : Nat) : Nat := xtime (xtime (xtime a)) ^^^ xtime (xtime a) ^^^ a

def mul14 (a : Nat) : Nat := xtime (xtime (xtime a)) ^^^ xtime (xtime a) ^^^ xtime a

def invMixColumn : List Nat → List Nat
  | [a0, a1, a2, a3] =>
    [mul14 a0 ^^^ mul11 a1 ^^^ mul13 a2 ^^^ mul9 a3,
     mul9 a0 ^^^ mul14 a1 ^^^ mul11 a2 ^^^ mul13 a3,
     mul13 a0 ^^^ mul9 a1 ^^^ mul14 a2 ^^^ mul11 a3,
     mul11 a0 ^^^ mul13 a1 ^^^ mul9 a2 ^^^ mul14 a3]
  | s => s

/-- A column transformation applied to the four columns of the state. -/
def columns (f : List Nat → List Nat) (s : List Nat) : List Nat :=
  f (s.take 4) ++ f ((s.drop 4).take 4) ++ f ((s.drop 8).take 4) ++ f ((s.drop 12).take 4)

/-- The round key that follows `rk` in the AES-128 key schedule. -/
def nextRoundKey (rcon : Nat) (rk : List Nat) : List Nat :=
  let t := [subByte (rk.getD 13 0) ^^^ rcon, subByte (rk.getD 14 0),
    subByte (rk.getD 15 0), subByte (rk.getD 12 0)]
  let w0 := xorBlock (rk.take 4) t
  let w1 := xorBlock ((rk.drop 4).take 4) w0
  let w2 := xorBlock ((rk.drop 8).take 4) w1
  let w3 := xorBlock ((rk.drop 12).take 4) w2
  w0 ++ w1 ++ w2 ++ w3

/-- The round constants of the ten rounds. -/
def rcons : List Nat := [0x01, 0x02, 0x04, 0x08, 0x10, 0x20, 0x40, 0x80, 0x1b, 0x36]

/-- The round keys after `rk`, one for each round constant. -/
def roundKeys : List Nat → List Nat → List (List Nat)
  | [], _ => []
  | rcon :: rest, rk => nextRoundKey rcon rk :: roundKeys rest (nextRoundKey rcon rk)

/-- The rounds of the cipher; the last one has no MixColumns. -/
def rounds : List (List Nat) → List Nat → List Nat
  | [], s => s
  | [rk], s => xorBlock (shiftRows (s.map subByte)) rk
  | rk :: rks, s => rounds rks (xorBlock (columns mixColumn (shiftRows (s.map subByte))) rk)

/-- The rounds of the inverse cipher, round keys in reverse order. -/
def invRounds : List (List Nat) → List Nat → List Nat
  | [], s => s
  | [rk], s => xorBlock ((invShiftRows s).map invSubByte) rk
  | rk :: rks, s =>
    invRounds rks (columns invMixColumn (xorBlock ((invShiftRows s).map invSubByte) rk))

/-- AES-128 encryption of one block. -/
def encryptBlock (key block : List Nat) : List Nat :=
  rounds (roundKeys rcons key) (xorBlock block key)

/-- AES-128 decryption of one block. -/
def decryptBlock (key block : List Nat) : List Nat :=
  match (key :: roundKeys rcons key).reverse with
  | [] => block
  | rk :: rks => invRounds rks (xorBlock block rk)

end AES

/-- The primitives with AES-128 as the block cipher. The RSA and HMAC routines are
stand-ins that pass their input through: the credentials are the first 40 bytes of the
block and every signature verifies. -/
def reference : Primitives where
  aes_encrypt_block := AES.encryptBlock
  aes_decrypt_block := AES.decryptBlock
  MAX_DEVICE_PUBLIC_KEY_LENGTH := 162
  parse_device_pubkey_from_privkey := fun k => slice k 0 162
  rsa_pkcs1_encrypt := fun _ m => (0, slice m 0 256)
  decipher_aes_credentials := fun _ m => (0, slice m 0 40)
  calculate_ciphertext_hmac := fun _ _ => List.replicate 20 0
  verify_signature := fun _ _ _ => 0

/-- A session right after construction: zeroed key material and counters, the 640-byte
staging buffer, product id and firmware version at their default 0xffff, a table of four
empty event handler slots. -/
def fresh : Session where
  server_public_key := []
  core_private_key := []
  device_id := List.replicate 12 0
  key := List.replicate 16 0
  iv_send := List.replicate 16 0
  iv_receive := List.replicate 16 0
  salt := List.replicate 8 0
  _message_id := 0
  _token := 0
  random_seed := []
  queue := List.replicate 640 0
  expecting_ping_ack := false
  updating := false
  last_message_millis := 0
  last_chunk_millis := 0
  chunk_index := 0
  product_id := 0xffff
  product_firmware_version := 0xffff
  event_handlers := List.replicate 4 ⟨List.replicate 64 0, 0, .MY_DEVICES, List.replicate 13 0⟩

/-! ## The timer rules as the specification words them -/

/-- What one tick without inbound bytes does. -/
inductive TimerAction where
  | send_chunk_missed | disconnect | send_ping | idle
  deriving DecidableEq, Repr

/-- The timer rules read as one else-if chain, as the specification lists them: the
chunk rule, else the ping-ack timeout, else the keep-alive ping, each on its own
condition. `now` is the clock reading of the tick. -/
def timer_chain_spec (p : Session) (now : Nat) : TimerAction :=
  if p.updating = true ∧ 3000 < tick_sub now p.last_chunk_millis then .send_chunk_missed
  else if p.expecting_ping_ack = true ∧ 10000 < tick_sub now p.last_message_millis then
    .disconnect
  else if p.expecting_ping_ack = false ∧ 15000 < tick_sub now p.last_message_millis then
    .send_ping
  else .idle

/-! ## The host side of the message handlers -/

/-- The variable types of `SparkReturnType::Enum` (declared in `spark_descriptor.h`). -/
inductive SparkReturnType where
  | BOOLEAN | INT | STRING | DOUBLE
  deriving DecidableEq, Repr

/-- The memory a pointer returned by `descriptor.get_variable` refers to, as read through
each of the types the handler casts the pointer to: `*(bool *)`, `*(int *)`, the C string
at `(char *)` without its terminator, and the 8 bytes of `*(double *)`. -/
structure Pointee where
  as_bool : Bool
  as_int : Int
  as_string : List Nat
  as_double : List Nat

/-- The callbacks of `SparkDescriptor` (declared in `spark_descriptor.h`).
`copy_function_key i` and `copy_variable_key i` are the bytes the host stores at the
destination it is given. -/
structure SparkDescriptor where
  num_functions : Nat
  copy_function_key : Nat → List Nat
  call_function : List Nat → List Nat → Int
  num_variables : Nat
  copy_variable_key : Nat → List Nat
  variable_type : List Nat → SparkReturnType
  get_variable : List Nat → Pointee
  was_ota_upgrade_successful : Bool

/-- The header constants and the value-returning callbacks of `SparkCallbacks` that the
handlers use and `spark_protocol.cpp` does not define. -/
structure Host where
  descriptor : SparkDescriptor
  /-- `callback_calculate_crc(buf, length)` on the bytes it is given. -/
  calculate_crc : List Nat → Nat
  /-- `callback_save_firmware_chunk(buf, length)`: the next chunk index. -/
  save_firmware_chunk : List Nat → Nat
  /-- `MAX_FUNCTION_ARG_LENGTH`. -/
  MAX_FUNCTION_ARG_LENGTH : Nat
  /-- The integer value of each `SparkReturnType` enumerator. -/
  return_type_value : SparkReturnType → Nat
  /-- `ChunkReceivedCode::OK`. -/
  ChunkReceivedCode_OK : Nat
  /-- `ChunkReceivedCode::BAD`. -/
  ChunkReceivedCode_BAD : Nat
  /-- `sizeof(FilteringEventHandler)`. -/
  sizeof_FilteringEventHandler : Nat
  /-- `sizeof(EventHandler)`, a function pointer. -/
  sizeof_EventHandler : Nat

/-- What a message handler does to the outside, in order: a buffer handed to
`blocking_send`, a call of a host callback, or a read past the end of the
`event_handlers` table. -/
inductive Effect where
  | send (frame : List Nat)
  | call_function (key arg : List Nat)
  | calculate_crc (data : List Nat)
  | save_firmware_chunk (data : List Nat)
  | prepare_to_save_file (sflash_address file_size : Nat)
  | prepare_for_firmware_update
  | finish_firmware_update (ok : Bool)
  | signal (active : Bool)
  | set_time (time : Nat)
  | ota_upgrade_status_sent
  | event_handler (handler : Nat) (event_name : List Nat) (data : Option (List Nat))
  | event_handlers_overrun (index : Nat)
  deriving DecidableEq, Repr

/-- The C string at `buf + off`: the bytes before the first zero byte. -/
def cstr (buf : List Nat) (off : Nat) : List Nat := (buf.drop off).takeWhile (fun b => b ≠ 0)

/-- The call `strlen(buf + off)`. -/
def strlen (buf : List Nat) (off : Nat) : Nat := (cstr buf off).length

/-- The byte an `int` leaves in an `unsigned char` after `>> shift` (and `& 0xff`). -/
def int_byte (v : Int) (shift : Nat) : Nat := ((v >>> shift) % 256).toNat

/-! ## Response builders -/

/-- `SparkProtocol::separate_response_with_payload(buf, token, code, payload, payload_len)`
with `buf = queue + off`; `payload` is `none` for `NULL`. -/
def separate_response_with_payload (c : Primitives) (p : Session) (off token code : Nat)
    (payload : Option (List Nat)) : Session :=
  let (message_id, p) := next_message_id p
  let q := poke p.queue off 0x51
  let q := poke q (off + 1) code
  let q := poke q (off + 2) (message_id >>> 8)
  let q := poke q (off + 3) (message_id &&& 0xff)
  let q := poke q (off + 4) token
  let len := 5
  let (q, len) := match payload with
    | some (b :: bs) =>
      let q := poke q (off + 5) 0xFF
      (memcpy q (off + 6) (b :: bs), len + 1 + (b :: bs).length)
    | _ => (q, len)
  let q := memset q (off + len) ((2 ^ 32 + 16 - len) % 2 ^ 32) ((2 ^ 32 + 16 - len) % 2 ^ 32)
  encrypt c { p with queue := q } off 16

/-- `SparkProtocol::separate_response(buf, token, code)`. -/
def separate_response (c : Primitives) (p : Session) (off token code : Nat) : Session :=
  separate_response_with_payload c p off token code none

/-- `SparkProtocol::key_changed(buf, token)`. -/
def key_changed (c : Primitives) (p : Session) (off token : Nat) : Session :=
  separate_response c p off token 0x44

/-- `SparkProtocol::chunk_received(buf, token, code)`. -/
def chunk_received (c : Primitives) (p : Session) (off token code : Nat) : Session :=
  separate_response c p off token code

/-- `SparkProtocol::update_ready(buf, token)`. -/
def update_ready (c : Primitives) (p : Session) (off token : Nat) : Session :=
  separate_response_with_payload c p off token 0x44 (some [1])

/-- `SparkProtocol::function_return(buf, token, return_value)` with `buf = queue + off`. -/
def function_return (c : Primitives) (p : Session) (off token : Nat) (return_value : Int) :
    Session :=
  let (message_id, p) := next_message_id p
  let q := poke p.queue off 0x51
  let q := poke q (off + 1) 0x44
  let q := poke q (off + 2) (message_id >>> 8)
  let q := poke q (off + 3) (message_id &&& 0xff)
  let q := poke q (off + 4) token
  let q := poke q (off + 5) 0xff
  let q := poke q (off + 6) (int_byte return_value 24)
  let q := poke q (off + 7) (int_byte return_value 16)
  let q := poke q (off + 8) (int_byte return_value 8)
  let q := poke q (off + 9) (int_byte return_value 0)
  let q := memset q (off + 10) 6 6
  encrypt c { p with queue := q } off 16

/-- `SparkProtocol::variable_value(buf, token, msb, lsb, bool return_value)`. -/
def variable_value_bool (c : Primitives) (p : Session) (off token message_id_msb
    message_id_lsb : Nat) (return_value : Bool) : Session :=
  let q := poke p.queue off 0x61
  let q := poke q (off + 1) 0x45
  let q := poke q (off + 2) message_id_msb
  let q := poke q (off + 3) message_id_lsb
  let q := poke q (off + 4) token
  let q := poke q (off + 5) 0xff
  let q := poke q (off + 6) (if return_value then 1 else 0)
  let q := memset q (off + 7) 9 9
  encrypt c { p with queue := q } off 16

/-- `SparkProtocol::variable_value(buf, token, msb, lsb, int return_value)`. -/
def variable_value_int (c : Primitives) (p : Session) (off token message_id_msb
    message_id_lsb : Nat) (return_value : Int) : Session :=
  let q := poke p.queue off 0x61
  let q := poke q (off + 1) 0x45
  let q := poke q (off + 2) message_id_msb
  let q := poke q (off + 3) message_id_lsb
  let q := poke q (off + 4) token
  let q := poke q (off + 5) 0xff
  let q := poke q (off + 6) (int_byte return_value 24)
  let q := poke q (off + 7) (int_byte return_value 16)
  let q := poke q (off + 8) (int_byte return_value 8)
  let q := poke q (off + 9) (int_byte return_value 0)
  let q := memset q (off + 10) 6 6
  encrypt c { p with queue := q } off 16

/-- `SparkProtocol::variable_value(buf, token, msb, lsb, double return_value)`; the
eight bytes of the double are copied in host order. -/
def variable_value_double (c : Primitives) (p : Session) (off token message_id_msb
    message_id_lsb : Nat) (return_value : List Nat) : Session :=
  let q := poke p.queue off 0x61
  let q := poke q (off + 1) 0x45
  let q := poke q (off + 2) message_id_msb
  let q := poke q (off + 3) message_id_lsb
  let q := poke q (off + 4) token
  let q := poke q (off + 5) 0xff
  let q := memcpy q (off + 6) (slice return_value 0 8)
  let q := memset q (off + 14) 2 2
  encrypt c { p with queue := q } off 16

/-- `SparkProtocol::variable_value(buf, token, msb, lsb, const void *return_value,
int length)`: returns the length of the buffer to send. -/
def variable_value_string (c : Primitives) (p : Session) (off token message_id_msb
    message_id_lsb : Nat) (return_value : List Nat) (length : Nat) : Session × Nat :=
  let q := poke p.queue off 0x61
  let q := poke q (off + 1) 0x45
  let q := poke q (off + 2) message_id_msb
  let q := poke q (off + 3) message_id_lsb
  let q := poke q (off + 4) token
  let q := poke q (off + 5) 0xff
  let q := memcpy q (off + 6) (slice return_value 0 length)
  let msglen := 6 + length
  let buflen := ((msglen &&& 0xFFFFFFF0) + 16) % 2 ^ 32
  let pad := (buflen + 2 ^ 32 - msglen % 2 ^ 32) % 256
  let q := memset q (off + msglen) pad pad
  (encrypt c { p with queue := q } off buflen, buflen)

/-- Modelled from the spec: `MAX_FUNCTION_KEY_LENGTH = 12` (declared in a header that is
not among the sources). -/
def MAX_FUNCTION_KEY_LENGTH : Nat := 12

/-- Modelled from the spec: `MAX_VARIABLE_KEY_LENGTH = 12` (declared in a header that is
not among the sources). -/
def MAX_VARIABLE_KEY_LENGTH : Nat := 12

/-- The first loop of `SparkProtocol::description`, from index `i` for `n` more function
keys: a comma before every key but the first, the key between quotes, cut to
`MAX_FUNCTION_KEY_LENGTH`. Returns the buffer and `buf_ptr`. -/
def description_functions (d : SparkDescriptor) : Nat → Nat → List Nat → Nat → List Nat × Nat
  | 0, _, buf, buf_ptr => (buf, buf_ptr)
  | n + 1, i, buf, buf_ptr =>
    let (buf, buf_ptr) :=
      if i ≠ 0 then (poke buf buf_ptr ','.toNat, buf_ptr + 1) else (buf, buf_ptr)
    let buf := poke buf buf_ptr 0x22
    let buf_ptr := buf_ptr + 1
    let buf := memcpy buf buf_ptr (d.copy_function_key i)
    let function_name_length := strlen buf buf_ptr
    let function_name_length :=
      if MAX_FUNCTION_KEY_LENGTH < function_name_length then MAX_FUNCTION_KEY_LENGTH
      else function_name_length
    let buf_ptr := buf_ptr + function_name_length
    let buf := poke buf buf_ptr 0x22
    description_functions d n (i + 1) buf (buf_ptr + 1)

/-- The second loop of `SparkProtocol::description`, from index `i` for `n` more
variables: the key between quotes, cut to `MAX_VARIABLE_KEY_LENGTH`, a colon and the
digit of its type. -/
def description_variables (h : Host) : Nat → Nat → List Nat → Nat → List Nat × Nat
  | 0, _, buf, buf_ptr => (buf, buf_ptr)
  | n + 1, i, buf, buf_ptr =>
    let (buf, buf_ptr) :=
      if i ≠ 0 then (poke buf buf_ptr ','.toNat, buf_ptr + 1) else (buf, buf_ptr)
    let buf := poke buf buf_ptr 0x22
    let buf_ptr := buf_ptr + 1
    let buf := memcpy buf buf_ptr (h.descriptor.copy_variable_key i)
    let variable_name_length := strlen buf buf_ptr
    let t := h.descriptor.variable_type (cstr buf buf_ptr)
    let variable_name_length :=
      if MAX_VARIABLE_KEY_LENGTH < variable_name_length then MAX_VARIABLE_KEY_LENGTH
      else variable_name_length
    let buf_ptr := buf_ptr + variable_name_length
    let buf := memcpy buf buf_ptr [0x22, ':'.toNat]
    let buf_ptr := buf_ptr + 2
    let buf := poke buf buf_ptr ('0'.toNat + h.return_type_value t)
    description_variables h n (i + 1) buf (buf_ptr + 1)

/-- `SparkProtocol::description(buf, token, message_id_msb, message_id_lsb)` with
`buf = queue + off`: returns the padded length. The three text pieces are given by their
bytes: the opening of the object with the key `f` and its list, the end of the list with
the key `v` and its object, and the two closing braces. -/
def description (c : Primitives) (h : Host) (p : Session) (off token message_id_msb
    message_id_lsb : Nat) : Session × Nat :=
  let q := poke p.queue off 0x61
  let q := poke q (off + 1) 0x45
  let q := poke q (off + 2) message_id_msb
  let q := poke q (off + 3) message_id_lsb
  let q := poke q (off + 4) token
  let q := poke q (off + 5) 0xff
  let q := memcpy q (off + 6) [0x7b, 0x22, 'f'.toNat, 0x22, ':'.toNat, '['.toNat]
  let buf_ptr := off + 12
  let (q, buf_ptr) := description_functions h.descriptor h.descriptor.num_functions 0 q buf_ptr
  let q := memcpy q buf_ptr [']'.toNat, ','.toNat, 0x22, 'v'.toNat, 0x22, ':'.toNat, 0x7b]
  let buf_ptr := buf_ptr + 7
  let (q, buf_ptr) := description_variables h h.descriptor.num_variables 0 q buf_ptr
  let q := memcpy q buf_ptr [0x7d, 0x7d]
  let buf_ptr := buf_ptr + 2
  let msglen := buf_ptr - off
  let buflen := ((msglen &&& 0xFFFFFFF0) + 16) % 2 ^ 32
  let pad := (buflen + 2 ^ 32 - msglen % 2 ^ 32) % 256
  let q := memset q buf_ptr pad pad
  (encrypt c { p with queue := q } off buflen, buflen)

/-! ## CoAP options -/

/-- Modelled from the spec: `CoAP::option_decode(&option)` of `coap.cpp`, which is not
among the sources: the length of the option whose header is at `option`, by the extended
length rule (nibble below 13: the nibble; 13: 13 plus the next byte; 14: 269 plus the next
two bytes, big-endian; 15: reserved, length 0 and the pointer is left alone), and the
pointer moved to the option value. -/
def CoAP.option_decode (buf : List Nat) (option : Nat) : Nat × Nat :=
  let nibble := peek buf option &&& 0x0f
  if 13 > nibble then (nibble, option + 1)
  else if 13 = nibble then (peek buf (option + 1) + 13, option + 2)
  else if 14 = nibble then
    (((peek buf (option + 1) <<< 8) ||| peek buf (option + 2)) + 269, option + 3)
  else (0, option)

/-! ## Message handlers

Each handler works on the decrypted request in `queue[0 .. len)` and returns whether all
is well, the session, the host side and the effects in the order they happened. -/

/-- The `DESCRIBE` case of `handle_received_message`. -/
def handle_describe (c : Primitives) (h : Host) (p : Session) (w : World) (token : Nat) :
    Option (Bool × Session × World × List Effect) := do
  let (p, desc_len) := description c h p 2 token (peek p.queue 2) (peek p.queue 3)
  let q := poke p.queue 0 ((desc_len >>> 8) &&& 0xff)
  let q := poke q 1 (desc_len &&& 0xff)
  let p := { p with queue := q }
  let (r, w) ← blocking_send p.queue 0 (desc_len + 2) w
  if 0 > r then return (false, p, w, [.send (slice p.queue 0 (desc_len + 2))])
  return (true, p, w, [.send (slice p.queue 0 (desc_len + 2))])

/-- The statements `*msg_to_send = 0; *(msg_to_send + 1) = 16; empty_ack(msg_to_send + 2,
queue[2], queue[3])` that several cases start with, `msg_to_send = queue + len`. The
source writes these 18 bytes at `queue + len` whatever `len` is; the model follows it
while `len + 18` is at most the size of the queue, and drops the stores past the end. -/
def stage_empty_ack (c : Primitives) (p : Session) (msg_to_send : Nat) : Session :=
  let q := poke p.queue msg_to_send 0
  let q := poke q (msg_to_send + 1) 16
  empty_ack c { p with queue := q } (msg_to_send + 2) (peek q 2) (peek q 3)

/-- `function_key_length = queue[7] & 0x0F` of the `FUNCTION_CALL` case. -/
def function_key_length (queue : List Nat) : Nat := peek queue 7 &&& 0x0F

/-- The array `char function_key[13]` of the `FUNCTION_CALL` case after
`memset(function_key, 0, 13)` and `memcpy(function_key, queue + 8, function_key_length)`;
the model drops what the copy writes past the thirteenth byte, so it follows the source
for a key length of at most 12, where the key and a null byte lie inside the array. -/
def function_key (queue : List Nat) : List Nat :=
  memcpy (List.replicate 13 0) 0 (slice queue 8 (function_key_length queue))

/-- The argument length decode of the `FUNCTION_CALL` case: the final `q_index` and
`query_length`. -/
def function_query (queue : List Nat) : Nat × Nat :=
  let q_index := 8 + function_key_length queue
  let query_length := peek queue q_index &&& 0x0F
  if 13 = query_length then
    let q_index := q_index + 1
    (q_index, 13 + peek queue q_index)
  else if 14 = query_length then
    let q_index := q_index + 1
    let query_length := peek queue q_index <<< 8
    let q_index := q_index + 1
    let query_length := query_length ||| peek queue q_index
    (q_index, query_length + 269)
  else (q_index, query_length)

/-- The buffer `function_arg` of the `FUNCTION_CALL` case after the argument was copied
and null-terminated, up to the terminator. -/
def function_arg (queue : List Nat) : List Nat :=
  slice queue ((function_query queue).1 + 1) (function_query queue).2 ++ [0]

/-- The `FUNCTION_CALL` case of `handle_received_message`. -/
def handle_function_call (c : Primitives) (h : Host) (p : Session) (w : World)
    (len token : Nat) : Option (Bool × Session × World × List Effect) := do
  let msg_to_send := len
  let p := stage_empty_ack c p msg_to_send
  let fx := [Effect.send (slice p.queue msg_to_send 18)]
  let (r, w) ← blocking_send p.queue msg_to_send 18 w
  if 0 > r then return (false, p, w, fx)
  let key := function_key p.queue
  let query_length := (function_query p.queue).2
  if h.MAX_FUNCTION_ARG_LENGTH ≤ query_length then return (false, p, w, fx)
  let arg := function_arg p.queue
  let return_value := h.descriptor.call_function (cstr key 0) (cstr arg 0)
  let fx := fx ++ [.call_function (cstr key 0) (cstr arg 0)]
  let q := poke p.queue msg_to_send 0
  let q := poke q (msg_to_send + 1) 16
  let p := function_return c { p with queue := q } (msg_to_send + 2) token return_value
  let fx := fx ++ [.send (slice p.queue msg_to_send 18)]
  let (r, w) ← blocking_send p.queue msg_to_send 18 w
  if 0 > r then return (false, p, w, fx)
  return (true, p, w, fx)

/-- The array `char variable_key[13]` of the `VARIABLE_REQUEST` case: the key length is
clamped to 12 and the rest of the array is zeroed. -/
def variable_key (queue : List Nat) : List Nat :=
  let variable_key_length := peek queue 7 &&& 0x0F
  let variable_key_length := if 12 < variable_key_length then 12 else variable_key_length
  let key := memcpy (List.replicate 13 0) 0 (slice queue 8 variable_key_length)
  memset key variable_key_length 0 (13 - variable_key_length)

/-- The `VARIABLE_REQUEST` case of `handle_received_message` up to its `blocking_send`:
the key copy, the default length prefix and the reply staged by the `variable_value`
overload of the variable's type. -/
def stage_variable_value (c : Primitives) (h : Host) (p : Session) (token : Nat) : Session :=
  let key := variable_key p.queue
  let q := poke p.queue 0 0
  let q := poke q 1 16
  let p := { p with queue := q }
  let var_type := h.descriptor.variable_type (cstr key 0)
  let v := h.descriptor.get_variable (cstr key 0)
  match var_type with
  | .BOOLEAN => variable_value_bool c p 2 token (peek p.queue 2) (peek p.queue 3) v.as_bool
  | .INT => variable_value_int c p 2 token (peek p.queue 2) (peek p.queue 3) v.as_int
  | .STRING =>
    let max_length := QUEUE_SIZE - 2 - 16
    let str_length := v.as_string.length
    let str_length := if str_length > max_length then max_length else str_length
    let (p, buf_size) := variable_value_string c p 2 token (peek p.queue 2) (peek p.queue 3)
      v.as_string str_length
    let q := poke p.queue 1 (buf_size &&& 0xff)
    let q := poke q 0 ((buf_size >>> 8) &&& 0xff)
    { p with queue := q }
  | .DOUBLE =>
    variable_value_double c p 2 token (peek p.queue 2) (peek p.queue 3) v.as_double

/-- The `VARIABLE_REQUEST` case of `handle_received_message`. -/
def handle_variable_request (c : Primitives) (h : Host) (p : Session) (w : World)
    (token : Nat) : Option (Bool × Session × World × List Effect) := do
  let p := stage_variable_value c h p token
  let length := (peek p.queue 0 <<< 8) + peek p.queue 1 + 2
  let (r, w) ← blocking_send p.queue 0 length w
  if 0 > r then return (false, p, w, [.send (slice p.queue 0 length)])
  return (true, p, w, [.send (slice p.queue 0 length)])

/-- The big-endian 32-bit value `queue[i] << 24 | queue[i+1] << 16 | queue[i+2] << 8 |
queue[i+3]`. -/
def be32_at (queue : List Nat) (i : Nat) : Nat :=
  (peek queue i <<< 24) ||| (peek queue (i + 1) <<< 16) ||| (peek queue (i + 2) <<< 8)
    ||| peek queue (i + 3)

/-- The `CHUNK` case of `handle_received_message`. The CRC comparison is followed by
`|| true`, so its `else` branch, which answers `ChunkReceivedCode::BAD`, is never taken.
The lengths `len - 13 - queue[len - 1]` and `len - 15 - queue[len - 1]` are of type `int`
in the source; the model follows it while they are not negative, `15 + pad ≤ len`. -/
def handle_chunk (c : Primitives) (h : Host) (p : Session) (w : World) (len token : Nat) :
    Option (Bool × Session × World × List Effect) := do
  let msg_to_send := len
  let (now, w) ← callback_millis w
  let p := { p with last_chunk_millis := now }
  let p := stage_empty_ack c p msg_to_send
  let fx := [Effect.send (slice p.queue msg_to_send 18)]
  let (r, w) ← blocking_send p.queue msg_to_send 18 w
  if 0 > r then return (false, p, w, fx)
  let given_crc := be32_at p.queue 8
  let crc_data := slice p.queue 13 (len - 13 - peek p.queue (len - 1))
  let fx := fx ++ [.calculate_crc crc_data]
  let (p, fx) :=
    if h.calculate_crc crc_data = given_crc ∨ True then
      let chunk := slice p.queue 15 (len - 15 - peek p.queue (len - 1))
      let next_chunk_index := h.save_firmware_chunk chunk % 2 ^ 16
      let fx := fx ++ [.save_firmware_chunk chunk]
      let p1 :=
        if next_chunk_index > p.chunk_index then
          chunk_received c p (msg_to_send + 2) token h.ChunkReceivedCode_OK
        else chunk_missed c p (msg_to_send + 2) next_chunk_index
      ({ p1 with chunk_index := next_chunk_index }, fx)
    else (chunk_received c p (msg_to_send + 2) token h.ChunkReceivedCode_BAD, fx)
  let fx := fx ++ [.send (slice p.queue msg_to_send 18)]
  let (r, w) ← blocking_send p.queue msg_to_send 18 w
  if 0 > r then return (false, p, w, fx)
  return (true, p, w, fx)

/-- The `SAVE_BEGIN` and `UPDATE_BEGIN` cases of `handle_received_message`. -/
def handle_update_begin (c : Primitives) (p : Session) (w : World) (len token : Nat)
    (message_type : CoAPMessageType) : Option (Bool × Session × World × List Effect) := do
  let msg_to_send := len
  let p := stage_empty_ack c p msg_to_send
  let fx := [Effect.send (slice p.queue msg_to_send 18)]
  let (r, w) ← blocking_send p.queue msg_to_send 18 w
  if 0 > r then return (false, p, w, fx)
  let fx := fx ++
    (if message_type = .SAVE_BEGIN then
      [Effect.prepare_to_save_file (be32_at p.queue 8) (be32_at p.queue 12)]
    else [Effect.prepare_for_firmware_update])
  let (now, w) ← callback_millis w
  let p := { p with last_chunk_millis := now, chunk_index := 0, updating := true }
  let p := update_ready c p (msg_to_send + 2) token
  let fx := fx ++ [.send (slice p.queue msg_to_send 18)]
  let (r, w) ← blocking_send p.queue msg_to_send 18 w
  if 0 > r then return (false, p, w, fx)
  return (true, p, w, fx)

/-- The `UPDATE_DONE` case of `handle_received_message`. -/
def handle_update_done (c : Primitives) (h : Host) (p : Session) (w : World)
    (len token : Nat) : Option (Bool × Session × World × List Effect) := do
  let msg_to_send := len
  let q := poke p.queue msg_to_send 0
  let q := poke q (msg_to_send + 1) 16
  let p := coded_ack c { p with queue := q } (msg_to_send + 2) token h.ChunkReceivedCode_OK
    (peek q 2) (peek q 3)
  let fx := [Effect.send (slice p.queue msg_to_send 18)]
  let (r, w) ← blocking_send p.queue msg_to_send 18 w
  if 0 > r then return (false, p, w, fx)
  return (true, { p with updating := false }, w, fx ++ [.finish_firmware_update true])

/-- The `while` loop of the `EVENT` case that joins the further Uri-Path options onto
the event name: `msg_end` is `end`, and the result is the buffer, `next_src` and
`next_dst`. Every turn either moves `next_src` forward or moves `next_dst` up to a
`next_src` that stays, so `fuel` turns with `fuel` beyond twice the buffer size are
never used up. -/
def event_name_loop (msg_end : Nat) : Nat → List Nat → Nat → Nat → Option (List Nat × Nat × Nat)
  | 0, _, _, _ => none
  | fuel + 1, buf, next_src, next_dst =>
    if next_src < msg_end ∧ 0x00 = (peek buf next_src &&& 0xf0) then
      let (option_len, next_src) := CoAP.option_decode buf next_src
      let buf := poke buf next_dst '/'.toNat
      let next_dst := next_dst + 1
      let buf :=
        if next_dst ≠ next_src then memcpy buf next_dst (slice buf next_src option_len)
        else buf
      event_name_loop msg_end fuel buf (next_src + option_len) (next_dst + option_len)
    else some (buf, next_src, next_dst)

/-- The `for` loop of the `EVENT` case over the handler table, from index `i` for `n`
more turns: it stops at the first slot without a handler and calls the first handler
whose filter is a leading part of the event name. A turn whose index lies past the table
reads outside it. -/
def dispatch_event (event_handlers : List FilteringEventHandler) (buf : List Nat)
    (event_name event_name_length : Nat) (data : Option Nat) : Nat → Nat → List Effect
  | 0, _ => []
  | n + 1, i =>
    match event_handlers.get? i with
    | none => [.event_handlers_overrun i]
    | some e =>
      if e.handler = 0 then []
      else
        let filter_length := strlen e.filter 0
        if event_name_length < filter_length then
          dispatch_event event_handlers buf event_name event_name_length data n (i + 1)
        else if slice e.filter 0 filter_length = slice buf event_name filter_length then
          [.event_handler e.handler (cstr buf event_name) (data.map (cstr buf))]
        else dispatch_event event_handlers buf event_name event_name_length data n (i + 1)

/-- The decoding part of the `EVENT` case: the buffer after the in-place decode, the
start and length of the event name and the start of the data, or `none` where the case
leaves with `break` (bad padding, malformed first option). -/
def decode_event (queue : List Nat) (len : Nat) : Option (Option (List Nat × Nat × Nat × Option Nat)) :=
  let pad := peek queue (len - 1)
  if 0 = pad ∨ 16 < pad then some none
  else
    let msg_end := len - pad
    let (event_name_length, event_name) := CoAP.option_decode queue 6
    if 0 = event_name_length then some none
    else
      match event_name_loop msg_end (2 * QUEUE_SIZE + 2) queue (event_name + event_name_length)
          (event_name + event_name_length) with
      | none => none
      | some (buf, next_src, next_dst) =>
        let event_name_length := next_dst - event_name
        let next_src :=
          if next_src < msg_end ∧ 0x30 = (peek buf next_src &&& 0xf0) then
            (CoAP.option_decode buf next_src).2 + (CoAP.option_decode buf next_src).1
          else next_src
        let (data, buf) :=
          if next_src < msg_end ∧ 0xff = peek buf next_src then
            (some (next_src + 1), poke buf msg_end 0)
          else (none, buf)
        let buf := poke buf (event_name + event_name_length) 0
        some (some (buf, event_name, event_name_length, data))

/-- The `EVENT` case of `handle_received_message`. The loop bound is
`sizeof(event_handlers) / sizeof(EventHandler)`. -/
def handle_event (h : Host) (p : Session) (w : World) (len : Nat) :
    Option (Bool × Session × World × List Effect) :=
  match decode_event p.queue len with
  | none => none
  | some none => some (true, p, w, [])
  | some (some (buf, event_name, event_name_length, data)) =>
    let NUM_HANDLERS :=
      p.event_handlers.length * h.sizeof_FilteringEventHandler / h.sizeof_EventHandler
    some (true, { p with queue := buf }, w,
      dispatch_event p.event_handlers buf event_name event_name_length data NUM_HANDLERS 0)

/-- The `SIGNAL_START` and `SIGNAL_STOP` cases of `handle_received_message`. -/
def handle_signal (c : Primitives) (h : Host) (p : Session) (w : World) (token : Nat)
    (active : Bool) : Option (Bool × Session × World × List Effect) := do
  let q := poke p.queue 0 0
  let q := poke q 1 16
  let p := coded_ack c { p with queue := q } 2 token h.ChunkReceivedCode_OK (peek q 2)
    (peek q 3)
  let (r, w) ← blocking_send p.queue 0 18 w
  if 0 > r then return (false, p, w, [.send (slice p.queue 0 18)])
  return (true, p, w, [.send (slice p.queue 0 18), .signal active])

/-- The `PING` case of `handle_received_message`. -/
def handle_ping (c : Primitives) (p : Session) (w : World) (len : Nat) :
    Option (Bool × Session × World × List Effect) := do
  let p := stage_empty_ack c p len
  let (r, w) ← blocking_send p.queue len 18 w
  if 0 > r then return (false, p, w, [.send (slice p.queue len 18)])
  return (true, p, w, [.send (slice p.queue len 18)])

/-- `SparkProtocol::handle_received_message()`: the two bytes of the length prefix are
in `queue[0..1]`. Returns `false` when there was an error, with the effects of the case
that was run. -/
def handle_received_message (c : Primitives) (h : Host) (p : Session) (w : World) :
    Option (Bool × Session × World × List Effect) := do
  let (now, w) ← callback_millis w
  let p := { p with last_message_millis := now, expecting_ping_ack := false }
  let len := (peek p.queue 0 <<< 8) ||| peek p.queue 1
  if len > QUEUE_SIZE then return (false, p, w, [])
  let (r, q, w) ← blocking_receive p.queue 0 len w
  let p := { p with queue := q }
  if 0 > r then return (false, p, w, [])
  let (message_type, p) := received_message c p 0 len
  let token := peek p.queue 4
  match message_type with
  | .DESCRIBE => handle_describe c h p w token
  | .FUNCTION_CALL => handle_function_call c h p w len token
  | .VARIABLE_REQUEST => handle_variable_request c h p w token
  | .CHUNK => handle_chunk c h p w len token
  | .SAVE_BEGIN => handle_update_begin c p w len token .SAVE_BEGIN
  | .UPDATE_BEGIN => handle_update_begin c p w len token .UPDATE_BEGIN
  | .UPDATE_DONE => handle_update_done c h p w len token
  | .EVENT => handle_event h p w len
  | .KEY_CHANGE => return (true, p, w, [])
  | .SIGNAL_START => handle_signal c h p w token true
  | .SIGNAL_STOP => handle_signal c h p w token false
  | .HELLO => return (true, p, w, [.ota_upgrade_status_sent])
  | .TIME => return (true, p, w, [.set_time (be32_at p.queue 6)])
  | .PING => handle_ping c p w len
  | .EMPTY_ACK => return (true, p, w, [])
  | .ERROR => return (true, p, w, [])

/-- `handle_received_message` as `event_loop` calls it: without the list of effects. -/
def handle_received (c : Primitives) (h : Host) (p : Session) (w : World) :
    Option (Bool × Session × World) :=
  (handle_received_message c h p w).map fun r => (r.1, r.2.1, r.2.2.1)

/-- `SparkProtocol::reset_updating()`. -/
def reset_updating (p : Session) : Session := { p with updating := false }

/-! ## Publishing events -/

/-- The function-local `static` variables of `send_event`: the system event counter and
the ring of the five most recent event times. -/
structure EventLimiter where
  lastMinute : Nat
  eventsThisMinute : Nat
  recent_event_ticks : List Nat
  evt_tick_idx : Nat
  deriving DecidableEq, Repr

/-- The initial values of the statics: no system event counted, and five times of
`(system_tick_t) -1000`. -/
def EventLimiter.initial : EventLimiter :=
  ⟨0, 0, List.replicate 5 (2 ^ 32 - 1000), 0⟩

/-- The C library `tolower` on a byte, in the C locale. -/
def tolower (b : Nat) : Nat := if 'A'.toNat ≤ b ∧ b ≤ 'Z'.toNat then b + 32 else b

/-- The helper `is_system(event_name)`: the name has at least five characters and the
first five are `spark` in any case. -/
def is_system (event_name : List Nat) : Bool :=
  if event_name.length = 0 ∨ event_name.length < 5 then false
  else (event_name.take 5).map tolower = "spark".toList.map Char.toNat

/-- The rate limiting block of `send_event`, after `callback_millis()` has returned
`now`: whether the call leaves with `return false`, and the statics afterwards. -/
def rate_limit (lim : EventLimiter) (is_system_event : Bool) (now : Nat) :
    Bool × EventLimiter :=
  if is_system_event then
    let currentMinute := (now >>> 16) % 2 ^ 16
    if currentMinute = lim.lastMinute ∧ lim.eventsThisMinute = 255 then (true, lim)
    else
      let lim :=
        if currentMinute = lim.lastMinute then lim
        else { lim with lastMinute := currentMinute, eventsThisMinute := 0 }
      (false, { lim with eventsThisMinute := (lim.eventsThisMinute + 1) % 256 })
  else
    let ticks := lim.recent_event_ticks.set lim.evt_tick_idx now
    let idx := (lim.evt_tick_idx + 1) % 5
    (decide (tick_sub now (ticks.getD idx 0) < 1000),
      { lim with recent_event_ticks := ticks, evt_tick_idx := idx })

/-- The lines of `send_event` between the rate limiting block and `blocking_send`: the
next message id, the message built by `event` at `queue + 2`, and `wrap`. The message
builder `event` of `events.cpp` is not among the sources and is passed in: from the
queue, the offset of `buf`, the message id and the arguments it gives the queue with the
message written and the message length. -/
def stage_event (c : Primitives)
    (event : List Nat → Nat → Nat → List Nat → Option (List Nat) → Int → Nat → List Nat × Nat)
    (p : Session) (event_name : List Nat) (data : Option (List Nat)) (ttl : Int)
    (event_type : Nat) : Session × Nat :=
  let (msg_id, p) := next_message_id p
  let (q, msglen) := event p.queue 2 msg_id event_name data ttl event_type
  wrap c { p with queue := q } 0 msglen

/-- `SparkProtocol::send_event(event_name, data, ttl, event_type)`; both branches of the
rate limiting block start with the `callback_millis()` call. -/
def send_event (c : Primitives)
    (event : List Nat → Nat → Nat → List Nat → Option (List Nat) → Int → Nat → List Nat × Nat)
    (p : Session) (lim : EventLimiter) (w : World) (event_name : List Nat)
    (data : Option (List Nat)) (ttl : Int) (event_type : Nat) :
    Option (Bool × Session × EventLimiter × World) := do
  if p.updating then return (false, p, lim, w)
  let is_system_event := is_system event_name
  let (now, w) ← callback_millis w
  let (denied, lim) := rate_limit lim is_system_event now
  if denied then return (false, p, lim, w)
  let (p, wrapped_len) := stage_event c event p event_name data ttl event_type
  let (r, w) ← blocking_send p.queue 0 wrapped_len w
  return (decide (0 ≤ r), p, lim, w)

/-! ## A concrete host -/

/-- A host with the functions `led` and `brew`, the INT variable `temp` of value 42,
`call_function(led, on) = 1`, a function argument buffer of 64 bytes, the
enumerator values of the headers and a 32-bit layout of the handler table. -/
def reference_host : Host where
  descriptor :=
    { num_functions := 2
      copy_function_key := fun i =>
        if i = 0 then ['l'.toNat, 'e'.toNat, 'd'.toNat, 0]
        else ['b'.toNat, 'r'.toNat, 'e'.toNat, 'w'.toNat, 0]
      call_function := fun key arg =>
        if key = ['l'.toNat, 'e'.toNat, 'd'.toNat] ∧ arg = ['o'.toNat, 'n'.toNat] then 1
        else -1
      num_variables := 1
      copy_variable_key := fun _ => ['t'.toNat, 'e'.toNat, 'm'.toNat, 'p'.toNat, 0]
      variable_type := fun _ => .INT
      get_variable := fun _ => ⟨true, 42, ['4'.toNat, '2'.toNat], [0, 0, 0, 0, 0, 0, 0x45, 0x40]⟩
      was_ota_upgrade_successful := false }
  calculate_crc := fun _ => 0
  save_firmware_chunk := fun _ => 1
  MAX_FUNCTION_ARG_LENGTH := 64
  return_type_value := fun t =>
    match t with
    | .BOOLEAN => 1
    | .INT => 2
    | .STRING => 4
    | .DOUBLE => 9
  ChunkReceivedCode_OK := 0x44
  ChunkReceivedCode_BAD := 0x80
  sizeof_FilteringEventHandler := 88
  sizeof_EventHandler := 4

/-- The session `fresh` with `bytes` at the start of the staging buffer. -/
def fresh_with (bytes : List Nat) : Session := { fresh with queue := memcpy fresh.queue 0 bytes }

/-- The decrypted `FUNCTION_CALL` request for `led("on")`: confirmable POST with message
id 0x1234 and token 7, Uri-Path `f`, Uri-Path `led`, Uri-Query `on`, two pad bytes. -/
def function_call_request : List Nat :=
  [0x41, 0x02, 0x12, 0x34, 7, 0xb1, 'f'.toNat, 0x03, 'l'.toNat, 'e'.toNat, 'd'.toNat,
    0x42, 'o'.toNat, 'n'.toNat, 2, 2]


/-- The bytes a peer sends for `plaintext` (a multiple of 16 bytes): its AES-128-CBC
ciphertext under `key` and `iv`. -/
def cbc_frame (key iv plaintext : List Nat) : List Nat :=
  (aes_crypt_cbc_encrypt (AES.encryptBlock key) (plaintext.length / 16) iv plaintext 0).2

/-- A well-formed `FUNCTION_CALL` request for `led` whose argument is 64 bytes long:
Uri-Query option header `0x4d` with the extension byte 51 (`13 + 51 = 64`), the argument
`a` 64 times, three pad bytes. -/
def oversize_function_call_request : List Nat :=
  [0x41, 0x02, 0x12, 0x34, 7, 0xb1, 'f'.toNat, 0x03, 'l'.toNat, 'e'.toNat, 'd'.toNat,
    0x4d, 51] ++ List.replicate 64 'a'.toNat ++ [3, 3, 3]

/-- The primitives of `reference` with the identity as the block cipher: a frame of one
block under a zero IV is its own ciphertext. -/
def cleartext : Primitives :=
  { reference with aes_encrypt_block := fun _ b => b, aes_decrypt_block := fun _ b => b }

/-- A well-formed `FUNCTION_CALL` request for a function whose name has 14 bytes,
`abcdefghijklpq`: the Uri-Path option header `0x0d` with the extension byte 1
(`13 + 1 = 14`), the name, the Uri-Query `on` and six pad bytes. -/
def long_name_function_call_request : List Nat :=
  [0x41, 0x02, 0x12, 0x34, 7, 0xb1, 'f'.toNat, 0x0d, 1] ++
    "abcdefghijklpq".toList.map Char.toNat ++ [0x42, 'o'.toNat, 'n'.toNat, 6, 6, 6, 6, 6, 6]

/-- A `FUNCTION_CALL` request whose Uri-Path option header is `0x0f`, followed by
`abcdefghijklmno`, the Uri-Query `on` and six pad bytes. -/
def long_key_function_call_request : List Nat :=
  [0x41, 0x02, 0x12, 0x34, 7, 0xb1, 'f'.toNat, 0x0f] ++ "abcdefghijklmno".toList.map Char.toNat
    ++ [0x42, 'o'.toNat, 'n'.toNat, 6, 6, 6, 6, 6, 6]

/-- The decrypted `VARIABLE_REQUEST` for `temp`: confirmable GET with message id 0x1234
and token 7, Uri-Path `v`, Uri-Path `temp`, four pad bytes. -/
def variable_request : List Nat :=
  [0x41, 0x01, 0x12, 0x34, 7, 0xb1, 'v'.toNat, 0x04, 't'.toNat, 'e'.toNat, 'm'.toNat,
    'p'.toNat, 4, 4, 4, 4]

/-- The decrypted `CHUNK` request with message id 0x1235 and token 7: Uri-Path `c`, the
option `0xc4` carrying `crc`, the payload marker, 16 payload bytes and three pad bytes. -/
def chunk_request (crc : List Nat) : List Nat :=
  [0x41, 0x02, 0x12, 0x35, 7, 0xb1, 'c'.toNat, 0xc4] ++ crc ++ [0xff] ++
    List.range 16 ++ [3, 3, 3]

/-! ## Lifecycle -/

/-- `SparkProtocol::init(id, keys, callbacks, descriptor)`: the keys and the 12 bytes of
the device id are copied and the event handler table is zeroed. The callbacks and the
descriptor it stores are the `World` and the `Host` of this embedding, and `queue_init()`
resets the ring buffer, which is kept apart from `Session`. -/
def init (p : Session) (id server_public core_private : List Nat) : Session :=
  { p with
    server_public_key := server_public
    core_private_key := core_private
    device_id := memcpy p.device_id 0 (slice id 0 12)
    event_handlers := p.event_handlers.map fun _ =>
      ⟨List.replicate 64 0, 0, .MY_DEVICES, List.replicate 13 0⟩ }

/-- Whether the effect is one of the callbacks that open an update:
`callback_prepare_to_save_file` (SAVE_BEGIN) or `callback_prepare_for_firmware_update`
(UPDATE_BEGIN). -/
def Effect.opens_update : Effect → Bool
  | .prepare_to_save_file _ _ => true
  | .prepare_for_firmware_update => true
  | _ => false

/-- Whether the effect is `callback_finish_firmware_update`, which UPDATE_DONE calls. -/
def Effect.closes_update : Effect → Bool
  | .finish_firmware_update _ => true
  | _ => false

/-- Whether an update is open after the effects `fx`, it being open or not (`g`) before
them: opened by a SAVE_BEGIN or UPDATE_BEGIN that was handled, closed by an UPDATE_DONE
that was handled. -/
def update_open_after (g : Bool) (fx : List Effect) : Bool :=
  if fx.any Effect.opens_update then true
  else if fx.any Effect.closes_update then false
  else g

/-- The effects of one `event_loop` call: those of `handle_received_message` when a
length prefix has arrived and the loop hands over to it, none otherwise. -/
def event_loop_effects (c : Primitives) (h : Host) (p : Session) (w : World) : List Effect :=
  match callback_receive w p.queue 0 with
  | none => []
  | some (bytes_received, q, w) =>
    if 2 ≤ bytes_received then
      match handle_received_message c h { p with queue := q } w with
      | none => []
      | some r => r.2.2.2
    else []

/-- The sessions reachable from a constructed one (`updating` false) through `init`,
`handshake`, `event_loop`, `reset_updating` and `send_event`, each with the flag that
tells whether an update is open: opened and closed by the effects of `event_loop`,
closed by `reset_updating`, left alone by everything else. -/
inductive Reachable (c : Primitives) (h : Host)
    (event : List Nat → Nat → Nat → List Nat → Option (List Nat) → Int → Nat → List Nat × Nat) :
    Session → Bool → Prop where
  | constructed (p : Session) : p.updating = false → Reachable c h event p false
  | init (p : Session) (g : Bool) (id server_public core_private : List Nat) :
    Reachable c h event p g → Reachable c h event (init p id server_public core_private) g
  | handshake (p : Session) (g : Bool) (b : Bool) (w : World) (r : Int × Session × World) :
    Reachable c h event p g → handshake c b p w = some r → Reachable c h event r.2.1 g
  | event_loop (p : Session) (g : Bool) (w : World) (r : Bool × Session × World) :
    Reachable c h event p g → event_loop c (handle_received c h) p w = some r →
    Reachable c h event r.2.1 (update_open_after g (event_loop_effects c h p w))
  | reset_updating (p : Session) (g : Bool) :
    Reachable c h event p g → Reachable c h event (reset_updating p) false
  | send_event (p : Session) (g : Bool) (lim : EventLimiter) (w : World)
    (event_name : List Nat) (data : Option (List Nat)) (ttl : Int) (event_type : Nat)
    (r : Bool × Session × EventLimiter × World) :
    Reachable c h event p g →
    send_event c event p lim w event_name data ttl event_type = some r →
    Reachable c h event r.2.1 g

/-- The decrypted `UPDATE_BEGIN` request with message id 0x1236 and token 7: confirmable
POST, Uri-Path `u`, nine pad bytes. -/
def update_begin_request : List Nat :=
  [0x41, 0x02, 0x12, 0x36, 7, 0xb1, 'u'.toNat, 9, 9, 9, 9, 9, 9, 9, 9, 9]

/-- A host script on which `event_loop` receives `frame` (16 bytes) and every send goes
out at once. -/
def frame_arrives (frame : List Nat) : World :=
  ⟨[0, 0, 0, 0, 0], [(2, [0, 16]), (16, frame)], [18, 18], []⟩

/-- A host script of a handshake that succeeds: the nonce and the 384 bytes of signed
credentials arrive, both sends go out at once. -/
def handshake_succeeds : World :=
  ⟨[0, 0, 0, 0], [(40, List.replicate 40 0), (384, List.replicate 384 0)], [256, 18], []⟩

/-- A host script on which `event_loop` receives nothing, 15001 ms after the last
message, and the ping goes out at once. -/
def idle_keep_alive : World := ⟨[15001, 15001, 15001], [(0, [])], [18], []⟩

/-- A handler result keeps `updating` in step with the effects it reports. -/
def TracksUpdate (g : Bool) (x : Option (Bool × Session × World × List Effect)) : Prop :=
  ∀ r, x = some r → r.2.1.updating = update_open_after g r.2.2.2

/-- Every result of the computation `x` satisfies `Q`. -/
def Ensures {α : Type} (Q : α → Prop) (x : Option α) : Prop := ∀ r, x = some r → Q r

/-! ## The description text in the words of the specification -/

/-- The entries of a JSON list or object, comma-separated. -/
def comma_separated : List (List Nat) → List Nat
  | [] => []
  | [x] => x
  | x :: y :: rest => x ++ ','.toNat :: comma_separated (y :: rest)

/-- The function keys of the descriptor: the C strings `copy_function_key` stores. -/
def function_keys (d : SparkDescriptor) : List (List Nat) :=
  (List.range d.num_functions).map fun i => cstr (d.copy_function_key i) 0

/-- The variable keys of the descriptor: the C strings `copy_variable_key` stores. -/
def variable_keys (d : SparkDescriptor) : List (List Nat) :=
  (List.range d.num_variables).map fun i => cstr (d.copy_variable_key i) 0

/-- The entry of a function in the description: the key cut to 12 bytes, in quotes. -/
def function_entry (key : List Nat) : List Nat := 0x22 :: key.take 12 ++ [0x22]

/-- The entry of a variable in the description: the key cut to 12 bytes, in quotes, a
colon and the digit `'0' + type`. -/
def variable_entry (h : Host) (key : List Nat) : List Nat :=
  0x22 :: key.take 12 ++
    [0x22, ':'.toNat, '0'.toNat + h.return_type_value (h.descriptor.variable_type key)]

/-- The text that the specification gives for the description: the function keys in a
list `f`, the variables with their types in an object `v`. -/
def description_text (h : Host) : List Nat :=
  [0x7b, 0x22, 'f'.toNat, 0x22, ':'.toNat, '['.toNat]
    ++ comma_separated ((function_keys h.descriptor).map function_entry)
    ++ [']'.toNat, ','.toNat, 0x22, 'v'.toNat, 0x22, ':'.toNat, 0x7b]
    ++ comma_separated ((variable_keys h.descriptor).map (variable_entry h))
    ++ [0x7d, 0x7d]

/-- What the loops of `description` write for the entries `i, i + 1, ...` (`n` of
them): a comma before every entry but the one of index 0. -/
def entries_from (entry : Nat → List Nat) : Nat → Nat → List Nat
  | 0, _ => []
  | n + 1, i => (if i ≠ 0 then [','.toNat] else []) ++ entry i ++ entries_from entry n (i + 1)

/-- The decrypted `DESCRIBE` request with message id 0x1237 and token 7: confirmable GET,
Uri-Path `d`, nine pad bytes. -/
def describe_request : List Nat :=
  [0x41, 0x01, 0x12, 0x37, 7, 0xb1, 'd'.toNat, 9, 9, 9, 9, 9, 9, 9, 9, 9]

/-! ## Event names in the words of the specification -/

/-- The header `hdr` of a CoAP option of delta 0 announces the length `n`: in the nibble,
or in the extended form 13 with one more byte, or in the extended form 14 with two. -/
def OptionHeader (hdr : List Nat) (n : Nat) : Prop :=
  (hdr = [n] ∧ n < 13) ∨
  (∃ e, hdr = [13, e] ∧ e < 256 ∧ n = 13 + e) ∨
  (∃ e1 e0, hdr = [14, e1, e0] ∧ e1 < 256 ∧ e0 < 256 ∧ n = 269 + (e1 * 256 + e0))

/-- The bytes of a run of options, each a header and its value. -/
def encoded_options (segs : List (List Nat × List Nat)) : List Nat :=
  (segs.map fun x => x.1 ++ x.2).flatten

/-- The further path segments as they follow the first one in the event name: each after
a slash. -/
def slash_joined (segs : List (List Nat × List Nat)) : List Nat :=
  (segs.map fun x => '/'.toNat :: x.2).flatten

/-- The decrypted `EVENT` message with message id 0x1238 whose name is sent as the three
Uri-Path options `a`, `b`, `c`, with the payload `x` and two pad bytes. -/
def event_request_abc : List Nat :=
  [0x50, 0x02, 0x12, 0x38, 0xb1, 'e'.toNat, 0x01, 'a'.toNat, 0x01, 'b'.toNat, 0x01, 'c'.toNat,
    0xff, 'x'.toNat, 2, 2]

/-- The decrypted `EVENT` message whose name is sent as the options `a` (length in the
nibble), thirteen times `b` (extended form 13) and `c`, with the payload `x` and five pad
bytes. -/
def event_request_mixed : List Nat :=
  [0x50, 0x02, 0x12, 0x38, 0xb1, 'e'.toNat, 0x01, 'a'.toNat, 0x0d, 0x00] ++
    List.replicate 13 'b'.toNat ++ [0x01, 'c'.toNat, 0xff, 'x'.toNat, 5, 5, 5, 5, 5]

/-- The decrypted `EVENT` message with message id 0x1238 and the one-byte token 0x99
(token length 1 in the first byte) whose name is sent as the Uri-Path option `a`, with
the payload `x` and five pad bytes. -/
def event_request_with_token : List Nat :=
  [0x51, 0x02, 0x12, 0x38, 0x99, 0xb1, 'e'.toNat, 0x01, 'a'.toNat, 0xff, 'x'.toNat,
    5, 5, 5, 5, 5]

/-- The session `p` with the handler 1 registered in the first slot for the names that
start with `filter`. -/
def listening (filter : List Nat) (p : Session) : Session :=
  let entry : FilteringEventHandler :=
    ⟨memcpy (List.replicate 64 0) 0 filter, 1, .MY_DEVICES, List.replicate 13 0⟩
  { p with event_handlers := p.event_handlers.set 0 entry }

/-! ## The event handler table -/

/-- The call `strnlen(s, maxlen)` on the C string at `s`. -/
def strnlen (s : List Nat) (maxlen : Nat) : Nat := min (strlen s 0) maxlen

/-- Whether `strncmp(a, b, n)` is 0: the two C strings agree on their first `n`
characters, or are equal when they are shorter. -/
def strncmp_eq (a b : List Nat) (n : Nat) : Bool := (cstr a 0).take n = (cstr b 0).take n

/-- Whether `strcmp(a, b)` is 0. An array without a null byte counts up to its end, where
`strcmp` reads on: the model follows the source for arrays that hold their null byte. -/
def strcmp_eq (a b : List Nat) : Bool := cstr a 0 = cstr b 0

/-- The slot after `memset(&event_handlers[i], 0, sizeof(event_handlers[i]))`; the first
enumerator of `SubscriptionScope::Enum` is `MY_DEVICES`. -/
def FilteringEventHandler.zeroed (e : FilteringEventHandler) : FilteringEventHandler :=
  ⟨List.replicate e.filter.length 0, 0, .MY_DEVICES, List.replicate e.device_id.length 0⟩

/-- The `for` loop of `SparkProtocol::remove_event_handlers` for a name that is not
`NULL`, from index `i` for `n` more turns. The test `NULL != event_handlers[i].filter`
of an array always holds and is left out; `memcpy` and `memset` of a whole slot are the
replacement of the list entry. -/
def remove_event_handlers_loop (event_name : List Nat) :
    Nat → Nat → Nat → List FilteringEventHandler → List FilteringEventHandler
  | 0, _, _, event_handlers => event_handlers
  | n + 1, i, dest, event_handlers =>
    match event_handlers.get? i with
    | none => event_handlers
    | some e =>
      if strcmp_eq event_name e.filter then
        remove_event_handlers_loop event_name n (i + 1) dest (event_handlers.set i e.zeroed)
      else
        let event_handlers :=
          if dest ≠ i then (event_handlers.set dest e).set i e.zeroed else event_handlers
        remove_event_handlers_loop event_name n (i + 1) (dest + 1) event_handlers

/-- `SparkProtocol::remove_event_handlers(event_name)`; `none` is the `NULL` name. -/
def remove_event_handlers (p : Session) (event_name : Option (List Nat)) : Session :=
  match event_name with
  | none => { p with event_handlers := p.event_handlers.map FilteringEventHandler.zeroed }
  | some event_name =>
    { p with event_handlers :=
        remove_event_handlers_loop event_name p.event_handlers.length 0 0 p.event_handlers }

/-- `SparkProtocol::event_handler_exists(event_name, handler, scope, id)`, as a scan of
the slots in order; `none` is the `NULL` id. -/
def event_handler_exists (event_name : List Nat) (handler : Nat) (scope : SubscriptionScope)
    (id : Option (List Nat)) : List FilteringEventHandler → Bool
  | [] => false
  | e :: rest =>
    let MAX_FILTER_LEN := e.filter.length
    let FILTER_LEN := strnlen event_name MAX_FILTER_LEN
    if e.handler = handler ∧ e.scope = scope then
      if strncmp_eq e.filter event_name FILTER_LEN then
        let MAX_ID_LEN := e.device_id.length - 1
        let id_len := match id with
          | some s => strnlen s MAX_ID_LEN
          | none => 0
        if id_len ≠ 0 then strncmp_eq e.device_id (id.getD []) id_len
        else peek e.device_id 0 = 0
      else event_handler_exists event_name handler scope id rest
    else event_handler_exists event_name handler scope id rest

/-- What the loop of `SparkProtocol::add_event_handler` stores into the empty slot `e`. -/
def stored_event_handler (e : FilteringEventHandler) (event_name : List Nat) (handler : Nat)
    (scope : SubscriptionScope) (id : Option (List Nat)) : FilteringEventHandler :=
  let MAX_FILTER_LEN := e.filter.length
  let FILTER_LEN := strnlen event_name MAX_FILTER_LEN
  let filter := memcpy e.filter 0 (slice event_name 0 FILTER_LEN)
  let filter := memset filter FILTER_LEN 0 (MAX_FILTER_LEN - FILTER_LEN)
  let device_id := poke e.device_id 0 0
  let MAX_ID_LEN := e.device_id.length - 1
  let id_len := match id with
    | some s => strnlen s MAX_ID_LEN
    | none => 0
  let device_id := memcpy device_id 0 (slice (id.getD []) 0 id_len)
  let device_id := poke device_id id_len 0
  ⟨filter, handler, scope, device_id⟩

/-- The `for` loop of `SparkProtocol::add_event_handler`: the table with the entry
stored in the first slot without a handler, or `none` when the loop runs to its end. -/
def add_event_handler_loop (event_name : List Nat) (handler : Nat) (scope : SubscriptionScope)
    (id : Option (List Nat)) : List FilteringEventHandler → Option (List FilteringEventHandler)
  | [] => none
  | e :: rest =>
    if e.handler = 0 then some (stored_event_handler e event_name handler scope id :: rest)
    else (add_event_handler_loop event_name handler scope id rest).map (fun t => e :: t)

/-- `SparkProtocol::add_event_handler(event_name, handler, scope, id)`. -/
def add_event_handler (p : Session) (event_name : List Nat) (handler : Nat)
    (scope : SubscriptionScope) (id : Option (List Nat)) : Bool × Session :=
  if event_handler_exists event_name handler scope id p.event_handlers then (true, p)
  else
    match add_event_handler_loop event_name handler scope id p.event_handlers with
    | some event_handlers => (true, { p with event_handlers := event_handlers })
    | none => (false, p)

/-- Whether the filter of the entry, over its first `min(strlen(filter), 64)` bytes, is a
leading part of `name`, byte for byte. -/
def filter_matches (name : List Nat) (e : FilteringEventHandler) : Bool :=
  decide ((cstr e.filter 0).take 64 <+: name)

/-- The entry whose handler an event named `name` is to invoke: the first one, among the
slots before the first empty slot, whose filter matches. -/
def first_match (event_handlers : List FilteringEventHandler) (name : List Nat) :
    Option FilteringEventHandler :=
  (event_handlers.takeWhile fun e => e.handler ≠ 0).find? (filter_matches name)

/-- A C string as the bytes in memory: the characters and the null byte. -/
def c_string (s : String) : List Nat := s.toList.map Char.toNat ++ [0]

/-- The decrypted `EVENT` message with message id 0x1238 named `foobar`, with the payload
`x` and one pad byte. -/
def event_request_foobar : List Nat :=
  [0x50, 0x02, 0x12, 0x38, 0xb1, 'e'.toNat, 0x06] ++ "foobar".toList.map Char.toNat ++
    [0xff, 'x'.toNat, 1]

/-- Successive `send_event` calls, one for each entry of `calls` (name, data, ttl and
type), on one host: the results in order, and the state after the last call. -/
def send_events (c : Primitives)
    (event : List Nat → Nat → Nat → List Nat → Option (List Nat) → Int → Nat → List Nat × Nat) :
    Session → EventLimiter → World → List (List Nat × Option (List Nat) × Int × Nat) →
      Option (List Bool × Session × EventLimiter × World)
  | p, lim, w, [] => some ([], p, lim, w)
  | p, lim, w, call :: calls =>
    match send_event c event p lim w call.1 call.2.1 call.2.2.1 call.2.2.2 with
    | none => none
    | some r =>
      match send_events c event r.2.1 r.2.2.1 r.2.2.2 calls with
      | none => none
      | some rs => some (r.1 :: rs.1, rs.2)

/-- Whether the rate limiting block lets the successive calls made at the times `ts`
pass, all for system events or all for other events, from the statics `lim` on. -/
def admitted (is_system_event : Bool) : EventLimiter → List Nat → List Bool
  | _, [] => []
  | lim, now :: ts =>
    (!(rate_limit lim is_system_event now).1) ::
      admitted is_system_event (rate_limit lim is_system_event now).2 ts

/-- Modelled from the spec: the message builder `event` of `events.cpp`, which is not
among the sources: a non-confirmable POST with the message id and the Uri-Path `E`, then
the payload marker and the data. The options for the event name, the ttl and the type,
whose encoding the specification does not give, are left out. -/
def event_post (queue : List Nat) (off message_id : Nat) (_event_name : List Nat)
    (data : Option (List Nat)) (_ttl : Int) (_event_type : Nat) : List Nat × Nat :=
  let payload := match data with
    | some d => 0xff :: d
    | none => []
  let msg := [0x50, 0x02, message_id >>> 8, message_id &&& 0xff, 0xb1, 'E'.toNat] ++ payload
  (memcpy queue off msg, msg.length)

/-- A host script for six `send_event` calls at 0, 200, 400, 600, 800 and 1001 ms on which
every send of an 18-byte frame goes out at once. -/
def burst_of_six : World :=
  ⟨[0, 0, 200, 200, 400, 400, 600, 600, 800, 1001, 1001], [], [18, 18, 18, 18, 18], []⟩

/-- Whether the first five characters of `name` are `spark` in upper or lower case, as
the specification words the system event names. -/
def starts_with_spark (name : List Nat) : Prop :=
  5 ≤ name.length ∧
    ∀ i, i < 5 → name.getD i 0 = ("spark".toList.map Char.toNat).getD i 0 ∨
      name.getD i 0 = ("SPARK".toList.map Char.toNat).getD i 0

/-- The five times in the ring of `send_event`, the most recent attempt first: the slot
written last is the one before `evt_tick_idx`. -/
def EventLimiter.recent (lim : EventLimiter) : List Nat :=
  (List.range 5).map fun j => lim.recent_event_ticks.getD ((lim.evt_tick_idx + 4 - j) % 5) 0

/-- The table of `fresh` after `add_event_handler("foo", H1, MY_DEVICES, "aaaaaaaaaaaa")`,
with 1 for `H1`. -/
def foo_for_one_device : Session :=
  (add_event_handler fresh (c_string "foo") 1 .MY_DEVICES (some (c_string "aaaaaaaaaaaa"))).2

/-- The table of `fresh` after `add_event_handler("foobar", H1, MY_DEVICES, NULL)`, with
1 for `H1`. -/
def foobar_only : Session :=
  (add_event_handler fresh (c_string "foobar") 1 .MY_DEVICES none).2

/-- The entries of the table with a handler, each as its filter string, handler, scope
and device id string. -/
def registered (p : Session) : List (List Nat × Nat × SubscriptionScope × List Nat) :=
  (p.event_handlers.filter fun e => e.handler ≠ 0).map fun e =>
    (cstr e.filter 0, e.handler, e.scope, cstr e.device_id 0)

/-- Every entry with a handler precedes every empty slot. -/
def Compact (event_handlers : List FilteringEventHandler) : Prop :=
  event_handlers.Pairwise fun a b => a.handler = 0 → b.handler = 0

/-- The sessions reached from `init` by calls of `add_event_handler` with a handler that
is not `NULL` and calls of `remove_event_handlers`. -/
inductive Subscribed : Session → Prop where
  | init (p : Session) (id server_public core_private : List Nat) :
    Subscribed (init p id server_public core_private)
  | add (p : Session) (event_name : List Nat) (handler : Nat) (scope : SubscriptionScope)
    (id : Option (List Nat)) :
    Subscribed p → handler ≠ 0 → Subscribed (add_event_handler p event_name handler scope id).2
  | remove (p : Session) (event_name : Option (List Nat)) :
    Subscribed p → Subscribed (remove_event_handlers p event_name)

/-- The session `p` after `add_event_handler` for `foo` with handler 1, for `bar` with
handler 2 and for `foo` with handler 3, all for `MY_DEVICES` and without a device id. -/
def foo_bar_foo_handlers (p : Session) : Session :=
  (add_event_handler
    (add_event_handler (add_event_handler p (c_string "foo") 1 .MY_DEVICES none).2
      (c_string "bar") 2 .MY_DEVICES none).2
    (c_string "foo") 3 .MY_DEVICES none).2

/-- The host `reference_host` with `temp` as a STRING variable holding `n` times the
letter `a`. -/
def string_host (n : Nat) : Host :=
  { reference_host with
    descriptor :=
      { reference_host.descriptor with
        variable_type := fun _ => .STRING
        get_variable := fun _ => ⟨true, 0, List.replicate n 'a'.toNat, List.replicate 8 0⟩ } }

/-- A well-formed `FUNCTION_CALL` request for `led` that fills a frame of 640 bytes:
Uri-Query option header `0x4e` with the extension bytes 1 and 85 (`269 + 341 = 610`), the
argument `a` 610 times, 16 pad bytes. -/
def full_frame_function_call_request : List Nat :=
  [0x41, 0x02, 0x12, 0x34, 7, 0xb1, 'f'.toNat, 0x03, 'l'.toNat, 'e'.toNat, 'd'.toNat,
    0x4e, 1, 85] ++ List.replicate 610 'a'.toNat ++ List.replicate 16 16

/-- The session `p` after `add_event_handler` for `a`, `b`, `c` and `d` with the handlers
1 to 4, all for `MY_DEVICES` and without a device id: in `fresh` no slot is left. -/
def four_handlers (p : Session) : Session :=
  (add_event_handler
    (add_event_handler
      (add_event_handler (add_event_handler p (c_string "a") 1 .MY_DEVICES none).2
        (c_string "b") 2 .MY_DEVICES none).2
      (c_string "c") 3 .MY_DEVICES none).2
    (c_string "d") 4 .MY_DEVICES none).2

/-! ## The ring buffer -/

/-- The ring buffer members of `class SparkProtocol`: the region and the pointers
`queue_front`, `queue_back` and `queue_mem_boundary` as offsets from `queue`. -/
structure RingBuffer where
  queue : List Nat
  queue_front : Int
  queue_back : Int
  queue_mem_boundary : Int
  deriving DecidableEq, Repr

/-- Modelled from the spec: `queue_init()`, defined in a header that is not among the
sources: the region is empty, both indices are at its start and the boundary is
`QUEUE_SIZE` bytes on. -/
def queue_init (queue : List Nat) : RingBuffer := ⟨queue, 0, 0, QUEUE_SIZE⟩

/-- An `int` count as the `size_t` argument of `memcpy`; `size_t` is 32 bits. -/
def size_t (n : Int) : Nat := (n % 2 ^ 32).toNat

/-- The `n` bytes read at `buf + off`; a read that starts before `buf` gives nothing,
and the bytes past the end of `buf` are left out. -/
def fetch (buf : List Nat) (off : Int) (n : Nat) : List Nat :=
  if off < 0 then [] else slice buf off.toNat n

/-- The call `memcpy(buf + off, src, src.length)` at an `int` offset; a store that starts
before `buf` is dropped, as are the bytes past the end of `buf`. -/
def store (buf : List Nat) (off : Int) (src : List Nat) : List Nat :=
  if off < 0 then buf else memcpy buf off.toNat src

/-- `SparkProtocol::queue_bytes_available()`. -/
def queue_bytes_available (b : RingBuffer) : Int :=
  let unoccupied := b.queue_front - b.queue_back - 1
  if unoccupied < 0 then unoccupied + QUEUE_SIZE else unoccupied

/-- `SparkProtocol::queue_push(src, length)`: the value returned and the buffer. -/
def queue_push (b : RingBuffer) (src : List Nat) (length : Int) : Int × RingBuffer :=
  let available := queue_bytes_available b
  if b.queue_back ≥ b.queue_front then
    let tail_available := b.queue_mem_boundary - b.queue_back
    if length ≤ available then
      if length ≤ tail_available then
        let q := store b.queue b.queue_back (fetch src 0 (size_t length))
        (length, { b with queue := q, queue_back := b.queue_back + length })
      else
        let head_needed := length - tail_available
        let q := store b.queue b.queue_back (fetch src 0 (size_t tail_available))
        let q := store q 0 (fetch src tail_available (size_t head_needed))
        (length, { b with queue := q, queue_back := 0 + head_needed })
    else
      if available < tail_available then
        let q := store b.queue b.queue_back (fetch src 0 (size_t available))
        (available, { b with queue := q, queue_back := b.queue_back + available })
      else
        let head_available := available - tail_available
        let q := store b.queue b.queue_back (fetch src 0 (size_t tail_available))
        let q := store q 0 (fetch src tail_available (size_t head_available))
        (available, { b with queue := q, queue_back := 0 + head_available })
  else
    let count := if length < available then length else available
    let q := store b.queue b.queue_back (fetch src 0 (size_t count))
    (count, { b with queue := q, queue_back := b.queue_back + count })

/-- `SparkProtocol::queue_pop(dst, length)`: the value returned, the buffer, and the
memory at `dst` afterwards. -/
def queue_pop (b : RingBuffer) (dst : List Nat) (length : Int) :
    Int × RingBuffer × List Nat :=
  if b.queue_back ≥ b.queue_front then
    let filled := b.queue_back - b.queue_front
    let count := if length ≤ filled then length else filled
    let dst := store dst 0 (fetch b.queue b.queue_front (size_t count))
    (count, { b with queue_front := b.queue_front + count }, dst)
  else
    let tail_filled := b.queue_mem_boundary - b.queue_front
    let head_requested := length - tail_filled
    let head_filled := b.queue_back - 0
    let head_count := if head_requested < head_filled then head_requested else head_filled
    let dst := store dst 0 (fetch b.queue b.queue_front (size_t tail_filled))
    let dst := store dst tail_filled (fetch b.queue 0 (size_t head_count))
    (tail_filled + head_count, { b with queue_front := 0 + head_count }, dst)

/-- The buffer after `queue_init`, a push of 635 bytes of value 1, a pop of 630 bytes and
a push of the ten bytes 2 to 11: the read index is at 630, the write index has wrapped
to 5, and 15 bytes are stored. -/
def wrapped_ring : RingBuffer :=
  let b := (queue_push (queue_init (List.replicate 640 0)) (List.replicate 635 1) 635).2
  let b := (queue_pop b (List.replicate 630 0) 630).2.1
  (queue_push b [2, 3, 4, 5, 6, 7, 8, 9, 10, 11] 10).2
set_option maxRecDepth 100000

/-! ## The reference cipher against the FIPS-197 example vectors -/

theorem AES.encryptBlock_fips197 :
    AES.encryptBlock [0, 1, 2, 3, 4, 5, 6, 7, 8, 9, 10, 11, 12, 13, 14, 15]
        [0x00, 0x11, 0x22, 0x33, 0x44, 0x55, 0x66, 0x77, 0x88, 0x99, 0xaa, 0xbb, 0xcc, 0xdd,
          0xee, 0xff]
      = [0x69, 0xc4, 0xe0, 0xd8, 0x6a, 0x7b, 0x04, 0x30, 0xd8, 0xcd, 0xb7, 0x80, 0x70, 0xb4,
          0xc5, 0x5a] ∧
    AES.decryptBlock [0, 1, 2, 3, 4, 5, 6, 7, 8, 9, 10, 11, 12, 13, 14, 15]
        [0x69, 0xc4, 0xe0, 0xd8, 0x6a, 0x7b, 0x04, 0x30, 0xd8, 0xcd, 0xb7, 0x80, 0x70, 0xb4,
          0xc5, 0x5a]
      = [0x00, 0x11, 0x22, 0x33, 0x44, 0x55, 0x66, 0x77, 0x88, 0x99, 0xaa, 0xbb, 0xcc, 0xdd,
          0xee, 0xff] := by
  decide

/-! ## Memory lemmas -/

theorem land_mask_eq (m : Nat) (h : m < 2 ^ 32) : m &&& 0xFFFFFFF0 = m / 16 * 16 := by
  have e1 : (0xFFFFFFF0 : Nat) = (2 ^ 32 - 1) ^^^ (2 ^ 4 - 1) := by decide
  have e2 : m / 16 * 16 = (m >>> 4) <<< 4 := by
    rw [Nat.shiftRight_eq_div_pow, Nat.shiftLeft_eq]
  rw [e1, e2]
  apply Nat.eq_of_testBit_eq
  intro i
  rw [Nat.testBit_land, Nat.testBit_xor, Nat.testBit_two_pow_sub_one,
    Nat.testBit_two_pow_sub_one, Nat.testBit_shiftLeft, Nat.testBit_shiftRight]
  by_cases h4 : i < 4
  · have h32 : i < 32 := by omega
    have h4n : ¬ 4 ≤ i := by omega
    simp [h4, h32, h4n]
  · have e : 4 + (i - 4) = i := by omega
    have h4n : 4 ≤ i := by omega
    by_cases h32 : i < 32
    · simp [h4, h32, e, h4n]
    · have hm : m.testBit i = false := by
        apply Nat.testBit_lt_two_pow
        calc m < 2 ^ 32 := h
          _ ≤ 2 ^ i := Nat.pow_le_pow_right (by decide) (by omega)
      simp [hm, e]

theorem length_memcpy (src : List Nat) : ∀ (buf : List Nat) (off : Nat),
    (memcpy buf off src).length = buf.length := by
  induction src with
  | nil => intro buf off; rfl
  | cons b bs ih => intro buf off; simp [memcpy, ih]

theorem getElem?_memcpy (src : List Nat) : ∀ (buf : List Nat) (off i : Nat),
    (memcpy buf off src)[i]? =
      if off ≤ i ∧ i < off + src.length ∧ i < buf.length then src[i - off]? else buf[i]? := by
  induction src with
  | nil =>
    intro buf off i
    have : ¬ (off ≤ i ∧ i < off + ([] : List Nat).length ∧ i < buf.length) := by
      simp only [List.length_nil]; omega
    rw [memcpy, if_neg this]
  | cons b bs ih =>
    intro buf off i
    rw [memcpy, ih, List.getElem?_set]
    simp only [List.length_set, List.length_cons]
    by_cases h1 : off = i
    · subst h1
      by_cases h2 : off < buf.length
      · simp [h2]
      · simp [h2]
        omega
    · by_cases h2 : off + 1 ≤ i
      · have e : i - off = (i - (off + 1)) + 1 := by omega
        have h3 : off ≤ i := by omega
        by_cases h4 : i < off + 1 + bs.length
        · have h5 : i < off + (bs.length + 1) := by omega
          by_cases h6 : i < buf.length
          · simp [h1, h2, h3, h4, h5, h6, e]
          · simp [h1, h6]
        · have h5 : ¬ i < off + (bs.length + 1) := by omega
          simp [h1, h4, h5]
      · have h3 : ¬ off ≤ i := by omega
        simp [h1, h2, h3]

theorem slice_memcpy_same (buf src : List Nat) (off : Nat)
    (h : off + src.length ≤ buf.length) : slice (memcpy buf off src) off src.length = src := by
  apply List.ext_getElem?
  intro i
  simp only [slice, List.getElem?_take, List.getElem?_drop, getElem?_memcpy]
  by_cases hi : i < src.length
  · have : off + i - off = i := by omega
    have h2 : off + i < buf.length := by omega
    simp [hi, this, h2]
  · simp [hi]
    omega

theorem slice_memcpy_disjoint (buf src : List Nat) (off o n : Nat)
    (h : o + n ≤ off ∨ off + src.length ≤ o) :
    slice (memcpy buf off src) o n = slice buf o n := by
  apply List.ext_getElem?
  intro i
  simp only [slice, List.getElem?_take, List.getElem?_drop, getElem?_memcpy]
  by_cases hi : i < n
  · have : ¬ (off ≤ o + i ∧ o + i < off + src.length ∧ o + i < buf.length) := by omega
    simp [hi, this]
  · simp [hi]


theorem slice_memcpy_tail (buf src : List Nat) (o k : Nat)
    (h : o + k + src.length ≤ buf.length) :
    slice (memcpy buf (o + k) src) o (k + src.length) = slice buf o k ++ src := by
  apply List.ext_getElem?
  intro i
  simp only [slice, List.getElem?_take, List.getElem?_drop, getElem?_memcpy,
    List.getElem?_append, List.length_take, List.length_drop]
  have hk : min k (buf.length - o) = k := by omega
  rw [hk]
  by_cases h1 : i < k
  · have h2 : i < k + src.length := by omega
    have h3 : ¬ (o + k ≤ o + i ∧ o + i < o + k + src.length ∧ o + i < buf.length) := by omega
    simp [h1, h2, h3]
  · by_cases h2 : i < k + src.length
    · have h3 : o + k ≤ o + i ∧ o + i < o + k + src.length ∧ o + i < buf.length := by omega
      have e : o + i - (o + k) = i - k := by omega
      simp [h1, h2, h3, e]
    · simp [h1, h2]
      omega

theorem length_poke (buf : List Nat) (i v : Nat) : (poke buf i v).length = buf.length := by
  simp [poke]

theorem peek_poke_same (buf : List Nat) (i v : Nat) (h : i < buf.length) :
    peek (poke buf i v) i = v % 256 := by
  simp [peek, poke, List.getD_eq_getElem?_getD, List.getElem?_set, h]

theorem peek_poke_other (buf : List Nat) (i j v : Nat) (h : i ≠ j) :
    peek (poke buf i v) j = peek buf j := by
  simp [peek, poke, List.getD_eq_getElem?_getD, List.getElem?_set, h]

theorem poke_congr (buf : List Nat) (i a b : Nat) (h : a % 256 = b % 256) :
    poke buf i a = poke buf i b := by
  simp only [poke, h]

theorem length_aes_crypt_cbc_encrypt (E : List Nat → List Nat) (n : Nat) :
    ∀ (iv buf : List Nat) (off : Nat),
      (aes_crypt_cbc_encrypt E n iv buf off).2.length = buf.length := by
  induction n with
  | zero => intro iv buf off; rfl
  | succ n ih => intro iv buf off; simp [aes_crypt_cbc_encrypt, ih, length_memcpy]

theorem length_encrypt (c : Primitives) (p : Session) (off length : Nat) :
    (encrypt c p off length).queue.length = p.queue.length := by
  unfold encrypt
  by_cases h : length % 16 = 0
  · simp [h, length_aes_crypt_cbc_encrypt]
  · simp [h]

/-- C1: for a message length whose padded frame fits the 640-byte buffer, `wrap` computes
`padded = (msglen & ~15) + 16`, a multiple of 16 with `msglen < padded ≤ msglen + 16`
(16 pad bytes when `msglen` is a multiple of 16); the `padded` bytes handed to `encrypt`
are the message followed by `padded - msglen` bytes of value `padded - msglen`; `padded`
is written big-endian at `buf[0..1]` and `padded + 2` is returned. -/
theorem wrap_spec (c : Primitives) (p : Session) (off msglen : Nat)
    (hq : p.queue.length = QUEUE_SIZE) (hlen : msglen < 2 ^ 32)
    (hfit : off + 2 + ((msglen &&& 0xFFFFFFF0) + 16) ≤ QUEUE_SIZE) :
    let padded := (msglen &&& 0xFFFFFFF0) + 16
    let pad := padded - msglen
    let staged : Session := { p with queue := memset p.queue (off + 2 + msglen) pad pad }
    let enc := encrypt c staged (off + 2) padded
    padded = msglen / 16 * 16 + 16 ∧ padded % 16 = 0 ∧ msglen < padded ∧
    padded ≤ msglen + 16 ∧ (msglen % 16 = 0 → pad = 16) ∧
    slice staged.queue (off + 2) padded
      = slice p.queue (off + 2) msglen ++ List.replicate pad pad ∧
    wrap c p off msglen
      = ({ enc with
            queue := poke (poke enc.queue off (padded / 256)) (off + 1) (padded % 256) },
          padded + 2) ∧
    peek (wrap c p off msglen).1.queue off = padded / 256 ∧
    peek (wrap c p off msglen).1.queue (off + 1) = padded % 256 := by
  intro padded pad staged enc
  have hm : msglen &&& 0xFFFFFFF0 = msglen / 16 * 16 := land_mask_eq msglen hlen
  have hp : padded = msglen / 16 * 16 + 16 := by simp only [padded, hm]
  have hQ : QUEUE_SIZE = 640 := rfl
  have hfit2 : off + 2 + padded ≤ 640 := by simpa only [hQ] using hfit
  have hb1 : msglen < padded := by omega
  have hb2 : padded ≤ msglen + 16 := by omega
  have e1 : ((msglen &&& 0xFFFFFFF0) + 16) % 2 ^ 32 = padded := by
    show padded % 2 ^ 32 = padded
    apply Nat.mod_eq_of_lt; omega
  have e2 : (padded + 2 ^ 32 - msglen % 2 ^ 32) % 256 = pad := by
    show _ = padded - msglen
    rw [Nat.mod_eq_of_lt hlen]
    omega
  have e3 : ((padded >>> 8) &&& 0xff) % 256 = padded / 256 := by
    rw [Nat.shiftRight_eq_div_pow]
    have : (0xff : Nat) = 2 ^ 8 - 1 := by decide
    rw [this, Nat.and_pow_two_sub_one_eq_mod]
    omega
  have e4 : (padded &&& 0xff) % 256 = padded % 256 := by
    have : (0xff : Nat) = 2 ^ 8 - 1 := by decide
    rw [this, Nat.and_pow_two_sub_one_eq_mod]
    omega
  have e5 : (padded + 2) % 2 ^ 32 = padded + 2 := by
    apply Nat.mod_eq_of_lt; omega
  have hw : wrap c p off msglen
      = ({ enc with
            queue := poke (poke enc.queue off (padded / 256)) (off + 1) (padded % 256) },
          padded + 2) := by
    have e3p : ∀ q i, poke q i ((padded >>> 8) &&& 0xff) = poke q i (padded / 256) :=
      fun q i => poke_congr q i _ _ (by rw [e3]; omega)
    have e4p : ∀ q i, poke q i (padded &&& 0xff) = poke q i (padded % 256) :=
      fun q i => poke_congr q i _ _ (by rw [e4]; omega)
    simp only [wrap, e1, e2, e5, e3p, e4p]
  have hlenq : enc.queue.length = 640 := by
    simp only [enc, length_encrypt, staged, memset, length_memcpy, hq, hQ]
  refine ⟨hp, by omega, hb1, hb2, by intro h; omega, ?_, hw, ?_, ?_⟩
  · have hpad : pad % 256 = pad := by apply Nat.mod_eq_of_lt; omega
    have hsum : padded = msglen + (List.replicate pad (pad % 256)).length := by
      simp only [List.length_replicate]; omega
    show slice (memset p.queue (off + 2 + msglen) pad pad) (off + 2) padded = _
    rw [memset, hsum, slice_memcpy_tail, hpad]
    simp only [List.length_replicate]
    omega
  · rw [hw]
    show peek (poke (poke enc.queue off (padded / 256)) (off + 1) (padded % 256)) off = _
    rw [peek_poke_other _ _ _ _ (by omega), peek_poke_same _ _ _ (by omega)]
    omega
  · rw [hw]
    show peek (poke (poke enc.queue off (padded / 256)) (off + 1) (padded % 256)) (off + 1) = _
    rw [peek_poke_same _ _ _ (by rw [length_poke]; omega)]
    omega

theorem wrap_spec_witness :
    fresh.queue.length = QUEUE_SIZE ∧ 16 < 2 ^ 32 ∧
    0 + 2 + ((16 &&& 0xFFFFFFF0) + 16) ≤ QUEUE_SIZE ∧
    peek (wrap reference fresh 0 16).1.queue 0 = 0 ∧
    peek (wrap reference fresh 0 16).1.queue 1 = 32 :=
  have h := wrap_spec reference fresh 0 16 (by decide) (by decide) (by decide)
  ⟨by decide, by decide, by decide, h.2.2.2.2.2.2.2.1, h.2.2.2.2.2.2.2.2⟩

/-! ## C2: the send IV after `encrypt` -/

theorem slice_aes_crypt_cbc_encrypt_before (E : List Nat → List Nat) (n : Nat) :
    ∀ (iv buf : List Nat) (off o k : Nat), o + k ≤ off →
      slice (aes_crypt_cbc_encrypt E n iv buf off).2 o k = slice buf o k := by
  induction n with
  | zero => intro iv buf off o k _; rfl
  | succ n ih =>
    intro iv buf off o k h
    rw [aes_crypt_cbc_encrypt]
    rw [ih _ _ _ _ _ (by omega), slice_memcpy_disjoint _ _ _ _ _ (Or.inl h)]

theorem slice_aes_crypt_cbc_encrypt_first (E : List Nat → List Nat) (n : Nat)
    (iv buf : List Nat) (off : Nat) (hfit : off + 16 ≤ buf.length)
    (hE : (E (xorBlock (slice buf off 16) iv)).length = 16) :
    slice (aes_crypt_cbc_encrypt E (n + 1) iv buf off).2 off 16
      = E (xorBlock (slice buf off 16) iv) := by
  rw [aes_crypt_cbc_encrypt]
  rw [slice_aes_crypt_cbc_encrypt_before _ _ _ _ _ _ _ (le_refl _)]
  have := slice_memcpy_same buf (E (xorBlock (slice buf off 16) iv)) off (by omega)
  rw [hE] at this
  exact this

/-- C2 (counterexample): under AES-128 with the all-zero key and IV, after `encrypt` of a
32-byte all-zero plaintext `iv_send` differs from the last 16 bytes of the ciphertext. -/
theorem encrypt_iv_send_not_last_block :
    (encrypt reference fresh 0 32).iv_send
      ≠ slice (encrypt reference fresh 0 32).queue (0 + 32 - 16) 16 := by
  decide

/-- C2 (amended): after `encrypt` of `N = 16 (n + 1)` bytes, `iv_send` is the first 16
bytes of the ciphertext just produced, namely the encipherment of the first plaintext
block xored with the previous `iv_send`; it is the last 16 bytes when `N = 16`; and after
a second `encrypt` it is the first 16 ciphertext bytes of the second message. -/
theorem encrypt_iv_send_first_block (c : Primitives) (p : Session) (off n : Nat)
    (hfit : off + 16 * (n + 1) ≤ p.queue.length)
    (hE : (c.aes_encrypt_block p.key (xorBlock (slice p.queue off 16) p.iv_send)).length
      = 16) :
    (encrypt c p off (16 * (n + 1))).iv_send
        = slice (encrypt c p off (16 * (n + 1))).queue off 16 ∧
    (encrypt c p off (16 * (n + 1))).iv_send
        = c.aes_encrypt_block p.key (xorBlock (slice p.queue off 16) p.iv_send) ∧
    (n = 0 → (encrypt c p off (16 * (n + 1))).iv_send
        = slice (encrypt c p off (16 * (n + 1))).queue (off + 16 * (n + 1) - 16) 16) ∧
    ∀ offB lenB : Nat,
      (encrypt c (encrypt c p off (16 * (n + 1))) offB lenB).iv_send
        = slice (encrypt c (encrypt c p off (16 * (n + 1))) offB lenB).queue offB 16 := by
  have h1 : (16 * (n + 1)) % 16 = 0 := by omega
  have h2 : (16 * (n + 1)) / 16 = n + 1 := by omega
  refine ⟨rfl, ?_, ?_, fun _ _ => rfl⟩
  · show slice _ off 16 = _
    simp only [h1, h2, if_true]
    exact slice_aes_crypt_cbc_encrypt_first _ n _ _ off (by omega) hE
  · intro hn
    subst hn
    show slice _ off 16 = _
    have : off + 16 * (0 + 1) - 16 = off := by omega
    rw [this]
    rfl

theorem encrypt_iv_send_first_block_witness :
    0 + 16 * (1 + 1) ≤ fresh.queue.length ∧
    (encrypt reference fresh 0 32).iv_send
      = [102, 233, 75, 212, 239, 138, 44, 59, 136, 76, 250, 89, 202, 52, 43, 46] ∧
    (encrypt reference fresh 0 32).iv_send = slice (encrypt reference fresh 0 32).queue 0 16 :=
  have h := encrypt_iv_send_first_block reference fresh 0 1 (by decide) (by decide)
  ⟨by decide, by decide, h.1⟩

/-! ## C3: the message classifier -/

/-- C3: `received_message` returns the type fixed by the CoAP code, the CoAP type and the
path byte at index `5 + (byte0 & 0x0F)` of the decrypted buffer (byte 8 for PUT `s`), and
`ERROR` for every other combination. -/
theorem received_message_classifies (c : Primitives) (p : Session) (off length : Nat) :
    let r := received_message c p off length
    let buf := r.2.queue
    let code := CoAP.code buf off
    let type := CoAP.type buf off
    let path := peek buf (off + 5 + (peek buf off &&& 0x0F))
    (code = .GET → path = 'v'.toNat → r.1 = .VARIABLE_REQUEST) ∧
    (code = .GET → path = 'd'.toNat → r.1 = .DESCRIBE) ∧
    (code = .POST → path = 'e'.toNat ∨ path = 'E'.toNat → r.1 = .EVENT) ∧
    (code = .POST → path = 'h'.toNat → r.1 = .HELLO) ∧
    (code = .POST → path = 'f'.toNat → r.1 = .FUNCTION_CALL) ∧
    (code = .POST → path = 's'.toNat → r.1 = .SAVE_BEGIN) ∧
    (code = .POST → path = 'u'.toNat → r.1 = .UPDATE_BEGIN) ∧
    (code = .POST → path = 'c'.toNat → r.1 = .CHUNK) ∧
    (code = .PUT → path = 'k'.toNat → r.1 = .KEY_CHANGE) ∧
    (code = .PUT → path = 'u'.toNat → r.1 = .UPDATE_DONE) ∧
    (code = .PUT → path = 's'.toNat → peek buf (off + 8) ≠ 0 → r.1 = .SIGNAL_START) ∧
    (code = .PUT → path = 's'.toNat → peek buf (off + 8) = 0 → r.1 = .SIGNAL_STOP) ∧
    (code = .EMPTY → type = .CON → r.1 = .PING) ∧
    (code = .EMPTY → type ≠ .CON → r.1 = .EMPTY_ACK) ∧
    (code = .CONTENT → r.1 = .TIME) ∧
    (code = .GET → path ≠ 'v'.toNat → path ≠ 'd'.toNat → r.1 = .ERROR) ∧
    (code = .POST → path ≠ 'e'.toNat → path ≠ 'E'.toNat → path ≠ 'h'.toNat →
      path ≠ 'f'.toNat → path ≠ 's'.toNat → path ≠ 'u'.toNat → path ≠ 'c'.toNat →
      r.1 = .ERROR) ∧
    (code = .PUT → path ≠ 'k'.toNat → path ≠ 'u'.toNat → path ≠ 's'.toNat →
      r.1 = .ERROR) ∧
    (code = .ERROR → r.1 = .ERROR) := by
  intro r buf code type path
  have hr : r.1 = received_message_type buf off := rfl
  have hd : received_message_type buf off =
      (match code with
      | .GET =>
        if path = 'v'.toNat then CoAPMessageType.VARIABLE_REQUEST
        else if path = 'd'.toNat then .DESCRIBE
        else .ERROR
      | .POST =>
        if path = 'E'.toNat then .EVENT
        else if path = 'e'.toNat then .EVENT
        else if path = 'h'.toNat then .HELLO
        else if path = 'f'.toNat then .FUNCTION_CALL
        else if path = 's'.toNat then .SAVE_BEGIN
        else if path = 'u'.toNat then .UPDATE_BEGIN
        else if path = 'c'.toNat then .CHUNK
        else .ERROR
      | .PUT =>
        if path = 'k'.toNat then .KEY_CHANGE
        else if path = 'u'.toNat then .UPDATE_DONE
        else if path = 's'.toNat then
          if peek buf (off + 8) ≠ 0 then .SIGNAL_START else .SIGNAL_STOP
        else .ERROR
      | .EMPTY =>
        match type with
        | .CON => .PING
        | _ => .EMPTY_ACK
      | .CONTENT => .TIME
      | _ => .ERROR) := rfl
  rw [hr, hd]
  clear_value path code type
  clear hr hd
  refine ⟨?_, ?_, ?_, ?_, ?_, ?_, ?_, ?_, ?_, ?_, ?_, ?_, ?_, ?_, ?_, ?_, ?_, ?_, ?_⟩
  · intro hk hx; simp [hk, hx]
  · intro hk hx; simp [hk, hx]
  · intro hk hx; rcases hx with hx | hx <;> simp [hk, hx]
  · intro hk hx; simp [hk, hx]
  · intro hk hx; simp [hk, hx]
  · intro hk hx; simp [hk, hx]
  · intro hk hx; simp [hk, hx]
  · intro hk hx; simp [hk, hx]
  · intro hk hx; simp [hk, hx]
  · intro hk hx; simp [hk, hx]
  · intro hk hx hb; simp [hk, hx, hb]
  · intro hk hx hb; simp [hk, hx, hb]
  · intro hk ht; simp [hk, ht]
  · intro hk ht; cases type <;> simp_all
  · intro hk; simp [hk]
  · intro hk h1 h2; subst hk; simp at h1 h2; simp [h1, h2]
  · intro hk h1 h2 h3 h4 h5 h6 h7; subst hk; simp at h1 h2 h3 h4 h5 h6 h7
    simp [h1, h2, h3, h4, h5, h6, h7]
  · intro hk h1 h2 h3; subst hk; simp at h1 h2 h3; simp [h1, h2, h3]
  · intro hk; simp [hk]

/-! ## C4: installing the session key -/

/-- C4: `set_key` returns 1 and leaves the session alone when decrypting the credentials
fails, otherwise 2 and leaves the session alone when the signature does not verify, and
otherwise 0 after installing key, both IVs, salt, `message_id = (c[32] << 8) | c[33]`,
`token = c[34]` and the seed bytes `c[35..38]`; every other field is kept. With the
credentials `0x00..0x27` the counters become `0x2021` and `0x22`. -/
theorem set_key_spec (c : Primitives) (p : Session) (creds : List Nat) :
    let r := c.decipher_aes_credentials p.core_private_key (slice creds 0 128)
    let cr := r.2
    let v := c.verify_signature (slice creds 128 256) p.server_public_key
      (c.calculate_ciphertext_hmac (slice creds 0 128) cr)
    (r.1 ≠ 0 → set_key c p creds = (1, p)) ∧
    (r.1 = 0 → v ≠ 0 → set_key c p creds = (2, p)) ∧
    (r.1 = 0 → v = 0 →
      set_key c p creds = (0, { p with
        key := slice cr 0 16
        iv_send := slice cr 16 16
        iv_receive := slice cr 16 16
        salt := slice cr 32 8
        _message_id := ((peek cr 32 <<< 8) ||| peek cr 33) % 2 ^ 16
        _token := peek cr 34 % 2 ^ 8
        random_seed := slice cr 35 4 })) ∧
    (r.1 = 0 → v = 0 → peek cr 32 < 256 → peek cr 33 < 256 → peek cr 34 < 256 →
      (set_key c p creds).2._message_id = (peek cr 32 <<< 8) ||| peek cr 33 ∧
      (set_key c p creds).2._token = peek cr 34) ∧
    (r.1 = 0 → v = 0 → cr = List.range 40 →
      (set_key c p creds).2._message_id = 0x2021 ∧ (set_key c p creds).2._token = 0x22 ∧
      (set_key c p creds).2.key = List.range 16 ∧
      (set_key c p creds).2.iv_send = [16, 17, 18, 19, 20, 21, 22, 23, 24, 25, 26, 27, 28,
        29, 30, 31] ∧
      (set_key c p creds).2.iv_receive = (set_key c p creds).2.iv_send) := by
  intro r cr v
  have hor : ∀ a b : Nat, a < 256 → b < 256 → ((a <<< 8) ||| b) % 2 ^ 16 = (a <<< 8) ||| b := by
    intro a b ha hb
    apply Nat.mod_eq_of_lt
    rw [Nat.shiftLeft_eq, Nat.mul_comm, ← Nat.mul_add_lt_is_or (by simpa using hb)]
    omega
  refine ⟨?_, ?_, ?_, ?_, ?_⟩
  · intro h
    have h' : (0 : Int) ≠ r.1 := fun e => h e.symm
    simp only [set_key]
    rw [if_pos h']
  · intro h hv
    have h' : ¬ ((0 : Int) ≠ r.1) := fun e => e h.symm
    have hv' : ¬ ((0 : Int) = v) := fun e => hv e.symm
    simp only [set_key]
    rw [if_neg h', if_neg hv']
  · intro h hv
    have h' : ¬ ((0 : Int) ≠ r.1) := fun e => e h.symm
    simp only [set_key]
    rw [if_neg h', if_pos hv.symm]
  · intro h hv h32 h33 h34
    have h' : ¬ ((0 : Int) ≠ r.1) := fun e => e h.symm
    simp only [set_key]
    rw [if_neg h', if_pos hv.symm]
    exact ⟨hor _ _ h32 h33, Nat.mod_eq_of_lt h34⟩
  · intro h hv hcr
    have h' : ¬ ((0 : Int) ≠ r.1) := fun e => e h.symm
    simp only [set_key]
    rw [if_neg h', if_pos hv.symm]
    show ((peek cr 32 <<< 8) ||| peek cr 33) % 2 ^ 16 = _ ∧ peek cr 34 % 2 ^ 8 = _ ∧
      slice cr 0 16 = _ ∧ slice cr 16 16 = _ ∧ slice cr 16 16 = slice cr 16 16
    rw [hcr]
    decide

/-! ## C5: the counters -/

theorem nth_message_id_succ (k : Nat) : ∀ p : Session,
    nth_message_id (k + 1) p = (p._message_id + (k + 1)) % 2 ^ 16 := by
  induction k with
  | zero => intro p; rfl
  | succ k ih =>
    intro p
    rw [nth_message_id, ih]
    simp only [next_message_id]
    omega

theorem nth_token_succ (k : Nat) : ∀ p : Session,
    nth_token (k + 1) p = (p._token + (k + 1)) % 2 ^ 8 := by
  induction k with
  | zero => intro p; rfl
  | succ k ih =>
    intro p
    rw [nth_token, ih]
    simp only [next_token]
    omega

/-- C5: the `k`-th call (`k ≥ 1`) of `next_message_id` in a session whose counter was
seeded with `s` returns `(s + k) mod 2^16`, also right after `set_key` installed the
seed; `next_token` likewise returns `(t + k) mod 2^8`; each call returns the counter
it leaves behind (pre-increment). -/
theorem next_message_id_sequence (p : Session) (k : Nat) :
    nth_message_id (k + 1) p = (p._message_id + (k + 1)) % 2 ^ 16 ∧
    nth_token (k + 1) p = (p._token + (k + 1)) % 2 ^ 8 ∧
    (next_message_id p).1 = (p._message_id + 1) % 2 ^ 16 ∧
    (next_message_id p).2._message_id = (next_message_id p).1 ∧
    (next_token p).1 = (p._token + 1) % 2 ^ 8 ∧
    (next_token p).2._token = (next_token p).1 ∧
    ∀ (c : Primitives) (creds : List Nat), (set_key c p creds).1 = 0 →
      nth_message_id (k + 1) (set_key c p creds).2
        = (((peek (c.decipher_aes_credentials p.core_private_key (slice creds 0 128)).2 32
              <<< 8)
            ||| peek (c.decipher_aes_credentials p.core_private_key (slice creds 0 128)).2 33)
            + (k + 1)) % 2 ^ 16 := by
  refine ⟨nth_message_id_succ k p, nth_token_succ k p, rfl, rfl, rfl, rfl, ?_⟩
  intro c creds h0
  rw [nth_message_id_succ]
  have hs : (set_key c p creds).2._message_id
      = ((peek (c.decipher_aes_credentials p.core_private_key (slice creds 0 128)).2 32
              <<< 8)
            ||| peek (c.decipher_aes_credentials p.core_private_key (slice creds 0 128)).2 33)
          % 2 ^ 16 := by
    revert h0
    simp only [set_key]
    split
    · intro h; simp at h
    · split
      · intro _; rfl
      · intro h; simp at h
  rw [hs]
  omega

/-! ## C6: the fixed-size builders -/

theorem shiftRight8_mod (m : Nat) : (m >>> 8) % 256 = m / 256 % 256 := by
  rw [Nat.shiftRight_eq_div_pow]

theorem land_ff_mod (m : Nat) : (m &&& 0xff) % 256 = m % 256 := by
  have : (0xff : Nat) = 2 ^ 8 - 1 := by decide
  rw [this, Nat.and_pow_two_sub_one_eq_mod]
  omega

theorem slice_memcpy_16 (buf src : List Nat) (off : Nat) (hs : src.length = 16)
    (h : off + 16 ≤ buf.length) : slice (memcpy buf off src) off 16 = src := by
  have := slice_memcpy_same buf src off (by omega)
  rw [hs] at this
  exact this

/-- C6: each fixed-size builder stages 16 plaintext bytes at `buf` and hands exactly those
to `encrypt`: the listed header bytes followed by PKCS#7 padding whose value is its count.
`hello`, `ping` and `chunk_missed` carry a fresh `next_message_id`; the two ACKs carry the
caller's id bytes and leave the message-id counter unchanged. -/
theorem fixed_builders_plaintext (c : Primitives) (p : Session) (off : Nat)
    (newly_upgraded : Bool) (chunk_index token code message_id_msb message_id_lsb : Nat)
    (hfit : off + 16 ≤ p.queue.length) :
    let mid := (p._message_id + 1) % 2 ^ 16
    let helloBytes := [0x50, 0x02, mid / 256, mid % 256, 0xb1, 'h'.toNat, 0xff,
      p.product_id / 256 % 256, p.product_id % 256,
      p.product_firmware_version / 256 % 256, p.product_firmware_version % 256,
      0x00, if newly_upgraded then 1 else 0, 3, 3, 3]
    let pingBytes := [0x40, 0x00, mid / 256, mid % 256,
      12, 12, 12, 12, 12, 12, 12, 12, 12, 12, 12, 12]
    let emptyAckBytes := [0x60, 0x00, message_id_msb % 256, message_id_lsb % 256,
      12, 12, 12, 12, 12, 12, 12, 12, 12, 12, 12, 12]
    let codedAckBytes := [0x61, code % 256, message_id_msb % 256, message_id_lsb % 256,
      token % 256, 11, 11, 11, 11, 11, 11, 11, 11, 11, 11, 11]
    let chunkMissedBytes := [0x40, 0x01, mid / 256, mid % 256, 0xb1, 'c'.toNat, 0xff,
      chunk_index / 256 % 256, chunk_index % 256, 7, 7, 7, 7, 7, 7, 7]
    (hello c p off newly_upgraded
        = encrypt c { p with _message_id := mid, queue := memcpy p.queue off helloBytes }
            off 16 ∧
      slice (memcpy p.queue off helloBytes) off 16 = helloBytes) ∧
    (ping c p off
        = encrypt c { p with _message_id := mid, queue := memcpy p.queue off pingBytes }
            off 16 ∧
      slice (memcpy p.queue off pingBytes) off 16 = pingBytes) ∧
    (empty_ack c p off message_id_msb message_id_lsb
        = encrypt c { p with queue := memcpy p.queue off emptyAckBytes } off 16 ∧
      slice (memcpy p.queue off emptyAckBytes) off 16 = emptyAckBytes ∧
      (empty_ack c p off message_id_msb message_id_lsb)._message_id = p._message_id) ∧
    (coded_ack c p off token code message_id_msb message_id_lsb
        = encrypt c { p with queue := memcpy p.queue off codedAckBytes } off 16 ∧
      slice (memcpy p.queue off codedAckBytes) off 16 = codedAckBytes ∧
      (coded_ack c p off token code message_id_msb message_id_lsb)._message_id
        = p._message_id) ∧
    (chunk_missed c p off chunk_index
        = encrypt c { p with
            _message_id := mid, queue := memcpy p.queue off chunkMissedBytes } off 16 ∧
      slice (memcpy p.queue off chunkMissedBytes) off 16 = chunkMissedBytes) ∧
    mid = (next_message_id p).1 := by
  intro mid helloBytes pingBytes emptyAckBytes codedAckBytes chunkMissedBytes
  have hm : (p._message_id + 1) % 2 ^ 16 / 256 % 256 = (p._message_id + 1) % 2 ^ 16 / 256 := by
    omega
  have hu : (if newly_upgraded = true then 1 else 0) % 256
      = if newly_upgraded = true then 1 else 0 := by
    cases newly_upgraded <;> rfl
  have hh : 'h'.toNat % 256 = 'h'.toNat := by decide
  have hc : 'c'.toNat % 256 = 'c'.toNat := by decide
  refine ⟨⟨?_, slice_memcpy_16 _ _ _ rfl hfit⟩, ⟨?_, slice_memcpy_16 _ _ _ rfl hfit⟩,
    ⟨?_, slice_memcpy_16 _ _ _ rfl hfit, rfl⟩, ⟨?_, slice_memcpy_16 _ _ _ rfl hfit, rfl⟩,
    ⟨?_, slice_memcpy_16 _ _ _ rfl hfit⟩, rfl⟩
  · simp only [hello, next_message_id, poke, memset, memcpy, List.replicate, shiftRight8_mod,
      land_ff_mod, Nat.add_assoc, hm, hu, hh, mid, helloBytes]
  · simp only [ping, next_message_id, poke, memset, memcpy, List.replicate, shiftRight8_mod,
      land_ff_mod, Nat.add_assoc, hm, mid, pingBytes]
  · simp only [empty_ack, poke, memset, memcpy, List.replicate, Nat.add_assoc, emptyAckBytes]
  · simp only [coded_ack, poke, memset, memcpy, List.replicate, Nat.add_assoc, codedAckBytes]
  · simp only [chunk_missed, next_message_id, poke, memset, memcpy, List.replicate,
      shiftRight8_mod, land_ff_mod, Nat.add_assoc, hm, hc, mid, chunkMissedBytes]

theorem fixed_builders_plaintext_witness :
    2 + 16 ≤ fresh.queue.length ∧
    slice (memcpy fresh.queue 2 [0x40, 0x00, 0, 1, 12, 12, 12, 12, 12, 12, 12, 12, 12, 12, 12,
      12]) 2 16 = [0x40, 0x00, 0, 1, 12, 12, 12, 12, 12, 12, 12, 12, 12, 12, 12, 12] ∧
    (empty_ack reference fresh 2 0x12 0x34)._message_id = 0 :=
  have h := fixed_builders_plaintext reference fresh 2 true 0 0 0 0x12 0x34 (by decide)
  ⟨by decide, h.2.1.2, h.2.2.1.2.2⟩

/-! ## C7: transport failures -/

/-- C7 (the code at the failing input): with the keep-alive timer expired and a
`callback_send` that reports the error -1, `event_loop` still returns `true` (and expects
a ping ack) although nothing went out; with both sends of the handshake failing with -1,
`handshake` still returns 0 although nothing went out. -/
theorem send_failure_not_surfaced :
    (event_loop reference (fun _ _ => none) fresh
        ⟨[15001, 15001, 15001], [(0, [])], [-1], []⟩).map
      (fun r => (r.1, r.2.1.expecting_ping_ack, r.2.2.sent)) = some (true, true, []) ∧
    (handshake reference false fresh
        ⟨[0, 0, 0, 0], [(40, List.replicate 40 0), (384, List.replicate 384 0)], [-1, -1],
          []⟩).map (fun r => (r.1, r.2.2.sent)) = some (0, []) := by
  decide

/-! ## C8: the timer rules -/

theorem event_loop_no_bytes (c : Primitives)
    (handle : Session → World → Option (Bool × Session × World)) (p : Session)
    (t : Nat) (ms data : List Nat) (rs : List (Int × List Nat)) (ss : List Int)
    (sent : List Nat) :
    event_loop c handle p ⟨t :: ms, (0, data) :: rs, ss, sent⟩ =
      if p.updating = true then
        if 3000 < tick_sub (tick t) p.last_chunk_millis then
          (blocking_send
            (chunk_missed c { p with queue := poke (poke p.queue 0 0) 1 16 } 2
              p.chunk_index).queue 0 18 ⟨ms, rs, ss, sent⟩).bind fun r =>
            if 0 > r.1 then
              some (false,
                chunk_missed c { p with queue := poke (poke p.queue 0 0) 1 16 } 2 p.chunk_index,
                r.2)
            else (callback_millis r.2).bind fun m =>
              some (true,
                { chunk_missed c { p with queue := poke (poke p.queue 0 0) 1 16 } 2
                    p.chunk_index with last_chunk_millis := m.1 }, m.2)
        else some (true, p, ⟨ms, rs, ss, sent⟩)
      else if p.expecting_ping_ack = true then
        if 10000 < tick_sub (tick t) p.last_message_millis then
          (callback_millis ⟨ms, rs, ss, sent⟩).bind fun m =>
            some (false, { p with expecting_ping_ack := false, last_message_millis := m.1 },
              m.2)
        else some (true, p, ⟨ms, rs, ss, sent⟩)
      else
        if 15000 < tick_sub (tick t) p.last_message_millis then
          (blocking_send (ping c { p with queue := poke (poke p.queue 0 0) 1 16 } 2).queue 0 18
            ⟨ms, rs, ss, sent⟩).bind fun r =>
            (callback_millis r.2).bind fun m =>
              some (true,
                { ping c { p with queue := poke (poke p.queue 0 0) 1 16 } 2 with
                  expecting_ping_ack := true, last_message_millis := m.1 }, m.2)
        else some (true, p, ⟨ms, rs, ss, sent⟩) := by
  by_cases hu : p.updating = true
  · by_cases h3 : 3000 < tick_sub (tick t) p.last_chunk_millis
    · rw [if_pos hu, if_pos h3]
      simp [event_loop, callback_receive, callback_millis, hu, h3]
    · rw [if_pos hu, if_neg h3]
      simp [event_loop, callback_receive, callback_millis, hu, h3]
      cases p; simp_all
  · rw [if_neg hu]
    have hu' : p.updating = false := by simpa using hu
    by_cases ha : p.expecting_ping_ack = true
    · by_cases h10 : 10000 < tick_sub (tick t) p.last_message_millis
      · rw [if_pos ha, if_pos h10]
        simp [event_loop, callback_receive, callback_millis, hu', ha, h10]
      · rw [if_pos ha, if_neg h10]
        simp [event_loop, callback_receive, callback_millis, hu', ha, h10]
        cases p; simp_all
    · rw [if_neg ha]
      have ha' : p.expecting_ping_ack = false := by simpa using ha
      by_cases h15 : 15000 < tick_sub (tick t) p.last_message_millis
      · rw [if_pos h15]
        simp [event_loop, callback_receive, callback_millis, hu', ha', h15]
      · rw [if_neg h15]
        simp [event_loop, callback_receive, callback_millis, hu', ha', h15]
        cases p; simp_all

/-- C8 (counterexample): while updating with the chunk timer not expired (1 ms since the
last chunk), an ack expected and 20001 ms since the last message, the else-if chain of the
specification disconnects, but `event_loop` returns `true` and changes nothing. -/
theorem event_loop_not_one_chain :
    timer_chain_spec
        { fresh with updating := true, expecting_ping_ack := true, last_chunk_millis := 20000 }
        20001 = .disconnect ∧
    event_loop reference (fun _ _ => none)
        { fresh with updating := true, expecting_ping_ack := true, last_chunk_millis := 20000 }
        ⟨[20001], [(0, [])], [], []⟩
      = some (true,
          { fresh with updating := true, expecting_ping_ack := true, last_chunk_millis := 20000 },
          ⟨[], [], [], []⟩) := by
  decide

/-- C8 (amended): with no inbound bytes the timer rules are nested, not one chain. While
`updating` only the chunk rule applies: past 3000 ms since the last chunk `chunk_missed
(chunk_index)` is staged and sent and the chunk timer reset (a failed send disconnects),
otherwise nothing happens. Only when `updating` is false do the ping rules apply: past
10000 ms with an ack expected the loop disconnects; past 15000 ms with none expected it
stages and sends a PING, sets `expecting_ping_ack` and resets the message timer. -/
theorem event_loop_timer_rules (c : Primitives)
    (handle : Session → World → Option (Bool × Session × World)) (p : Session)
    (t : Nat) (ms data : List Nat) (rs : List (Int × List Nat)) (ss : List Int)
    (sent : List Nat) :
    let w : World := ⟨t :: ms, (0, data) :: rs, ss, sent⟩
    let w1 : World := ⟨ms, rs, ss, sent⟩
    let since_chunk := tick_sub (tick t) p.last_chunk_millis
    let since_message := tick_sub (tick t) p.last_message_millis
    let missed := chunk_missed c { p with queue := poke (poke p.queue 0 0) 1 16 } 2 p.chunk_index
    let pinged := ping c { p with queue := poke (poke p.queue 0 0) 1 16 } 2
    (p.updating = true → 3000 < since_chunk →
      event_loop c handle p w = (blocking_send missed.queue 0 18 w1).bind fun r =>
        if 0 > r.1 then some (false, missed, r.2)
        else (callback_millis r.2).bind fun m =>
          some (true, { missed with last_chunk_millis := m.1 }, m.2)) ∧
    (p.updating = true → ¬ 3000 < since_chunk → event_loop c handle p w = some (true, p, w1)) ∧
    (p.updating = false → p.expecting_ping_ack = true → 10000 < since_message →
      event_loop c handle p w = (callback_millis w1).bind fun m =>
        some (false, { p with expecting_ping_ack := false, last_message_millis := m.1 }, m.2)) ∧
    (p.updating = false → p.expecting_ping_ack = true → ¬ 10000 < since_message →
      event_loop c handle p w = some (true, p, w1)) ∧
    (p.updating = false → p.expecting_ping_ack = false → 15000 < since_message →
      event_loop c handle p w = (blocking_send pinged.queue 0 18 w1).bind fun r =>
        (callback_millis r.2).bind fun m =>
          some (true,
            { pinged with expecting_ping_ack := true, last_message_millis := m.1 }, m.2)) ∧
    (p.updating = false → p.expecting_ping_ack = false → ¬ 15000 < since_message →
      event_loop c handle p w = some (true, p, w1)) := by
  intro w w1 since_chunk since_message missed pinged
  have h := event_loop_no_bytes c handle p t ms data rs ss sent
  refine ⟨?_, ?_, ?_, ?_, ?_, ?_⟩
  · intro hu h3
    rw [h, if_pos hu, if_pos h3]
  · intro hu h3
    rw [h, if_pos hu, if_neg h3]
  · intro hu ha h10
    have hu' : ¬ p.updating = true := by simp [hu]
    rw [h, if_neg hu', if_pos ha, if_pos h10]
  · intro hu ha h10
    have hu' : ¬ p.updating = true := by simp [hu]
    rw [h, if_neg hu', if_pos ha, if_neg h10]
  · intro hu ha h15
    have hu' : ¬ p.updating = true := by simp [hu]
    have ha' : ¬ p.expecting_ping_ack = true := by simp [ha]
    rw [h, if_neg hu', if_neg ha', if_pos h15]
  · intro hu ha h15
    have hu' : ¬ p.updating = true := by simp [hu]
    have ha' : ¬ p.expecting_ping_ack = true := by simp [ha]
    rw [h, if_neg hu', if_neg ha', if_neg h15]

/-! ## The blocking loops, step by step -/

theorem blocking_send_loop_done (buf : List Nat) (off : Nat) (length : Int) (m : Nat)
    (rs : List (Int × List Nat)) (ss : List Int) (ms sent : List Nat) (bc : Int)
    (h : ¬ length > bc) :
    blocking_send_loop buf off length m rs ss ms sent bc = some (bc, ⟨ms, rs, ss, sent⟩) := by
  cases ss <;> simp [blocking_send_loop, h]

theorem blocking_send_loop_error (buf : List Nat) (off : Nat) (length : Int) (m : Nat)
    (rs : List (Int × List Nat)) (r : Int) (ss : List Int) (ms sent : List Nat) (bc : Int)
    (h : length > bc) (hr : 0 > r) :
    blocking_send_loop buf off length m rs (r :: ss) ms sent bc
      = some (r, ⟨ms, rs, ss, sent⟩) := by
  simp [blocking_send_loop, h, hr]

theorem blocking_send_loop_progress (buf : List Nat) (off : Nat) (length : Int) (m : Nat)
    (rs : List (Int × List Nat)) (r : Int) (ss : List Int) (ms sent : List Nat) (bc : Int)
    (h : length > bc) (hr : 0 < r) :
    blocking_send_loop buf off length m rs (r :: ss) ms sent bc
      = blocking_send_loop buf off length m rs ss ms
          (sent ++ slice buf (off + bc.toNat) r.toNat) (bc + r) := by
  have hn : ¬ 0 > r := by omega
  simp [blocking_send_loop, h, hn, hr]

theorem blocking_send_loop_idle (buf : List Nat) (off : Nat) (length : Int) (m : Nat)
    (rs : List (Int × List Nat)) (ss : List Int) (t : Nat) (ms sent : List Nat) (bc : Int)
    (h : length > bc) :
    blocking_send_loop buf off length m rs (0 :: ss) (t :: ms) sent bc
      = if 20000 < tick_sub t m then some (-1, ⟨ms, rs, ss, sent⟩)
        else blocking_send_loop buf off length m rs ss ms sent bc := by
  simp [blocking_send_loop, h]

theorem blocking_receive_loop_done (off : Nat) (length : Int) (m : Nat)
    (ss : List Int) (sent : List Nat) (rs : List (Int × List Nat)) (ms buf : List Nat)
    (bc : Int) (h : ¬ length > bc) :
    blocking_receive_loop off length m ss sent rs ms buf bc
      = some (bc, buf, ⟨ms, rs, ss, sent⟩) := by
  cases rs <;> simp [blocking_receive_loop, h]

theorem blocking_receive_loop_error (off : Nat) (length : Int) (m : Nat)
    (ss : List Int) (sent : List Nat) (r : Int) (data : List Nat)
    (rs : List (Int × List Nat)) (ms buf : List Nat) (bc : Int)
    (h : length > bc) (hr : 0 > r) :
    blocking_receive_loop off length m ss sent ((r, data) :: rs) ms buf bc
      = some (r, buf, ⟨ms, rs, ss, sent⟩) := by
  simp [blocking_receive_loop, h, hr]

theorem blocking_receive_loop_progress (off : Nat) (length : Int) (m : Nat)
    (ss : List Int) (sent : List Nat) (r : Int) (data : List Nat)
    (rs : List (Int × List Nat)) (ms buf : List Nat) (bc : Int)
    (h : length > bc) (hr : 0 < r) :
    blocking_receive_loop off length m ss sent ((r, data) :: rs) ms buf bc
      = blocking_receive_loop off length m ss sent rs ms
          (memcpy buf (off + bc.toNat) (data.take r.toNat)) (bc + r) := by
  have hn : ¬ 0 > r := by omega
  simp [blocking_receive_loop, h, hn, hr]

theorem blocking_receive_loop_idle (off : Nat) (length : Int) (m : Nat)
    (ss : List Int) (sent data : List Nat) (rs : List (Int × List Nat)) (t : Nat)
    (ms buf : List Nat) (bc : Int) (h : length > bc) :
    blocking_receive_loop off length m ss sent ((0, data) :: rs) (t :: ms) buf bc
      = if 20000 < tick_sub t m then some (-1, buf, ⟨ms, rs, ss, sent⟩)
        else blocking_receive_loop off length m ss sent rs ms buf bc := by
  simp [blocking_receive_loop, h]

/-! ## Slices -/

theorem slice_add (l : List Nat) (o a b : Nat) :
    slice l o (a + b) = slice l o a ++ slice l (o + a) b := by
  simp only [slice, List.take_add, List.drop_drop]

theorem length_slice (l : List Nat) (o n : Nat) (h : o + n ≤ l.length) :
    (slice l o n).length = n := by
  simp only [slice, List.length_take, List.length_drop]
  omega

theorem slice_two (l : List Nat) (h : 2 ≤ l.length) : slice l 0 2 = [peek l 0, peek l 1] := by
  match l, h with
  | a :: b :: rest, _ => rfl

theorem blocking_send_all_at_once (buf : List Nat) (off n : Nat) (hn : 0 < n) (t : Nat)
    (ms : List Nat) (rs : List (Int × List Nat)) (ss : List Int) (sent : List Nat) :
    blocking_send buf off n ⟨t :: ms, rs, (n : Int) :: ss, sent⟩
      = some ((n : Int), ⟨ms, rs, ss, sent ++ slice buf off n⟩) := by
  have h1 : (n : Int) > 0 := by omega
  rw [blocking_send, callback_millis]
  simp only []
  rw [blocking_send_loop_progress _ _ _ _ _ _ _ _ _ _ h1 h1,
    blocking_send_loop_done _ _ _ _ _ _ _ _ _ (by omega)]
  simp

/-! ## The blocking loops over a run of polls that make progress -/

theorem sum_nonneg_of_pos (l : List Int) (h : ∀ r ∈ l, 0 < r) : 0 ≤ l.sum := by
  induction l with
  | nil => simp
  | cons r l ih =>
    have h1 : 0 < r := h r (List.mem_cons_self _ _)
    have h2 := ih (fun x hx => h x (List.mem_cons_of_mem _ hx))
    simp only [List.sum_cons]
    omega

theorem blocking_send_loop_run (buf : List Nat) (off : Nat) (length : Int) (m : Nat)
    (rs : List (Int × List Nat)) (ss : List Int) (ms : List Nat) (l : List Int)
    (hpos : ∀ r ∈ l, 0 < r) :
    ∀ (sent : List Nat) (bc : Int), 0 ≤ bc → bc + l.sum ≤ length →
      blocking_send_loop buf off length m rs (l ++ ss) ms sent bc
        = blocking_send_loop buf off length m rs ss ms
            (sent ++ slice buf (off + bc.toNat) l.sum.toNat) (bc + l.sum) := by
  induction l with
  | nil =>
    intro sent bc _ _
    simp [slice]
  | cons r l ih =>
    intro sent bc hbc hle
    have h1 : 0 < r := hpos r (List.mem_cons_self _ _)
    have hl : ∀ x ∈ l, 0 < x := fun x hx => hpos x (List.mem_cons_of_mem _ hx)
    have h2 := sum_nonneg_of_pos l hl
    simp only [List.sum_cons] at hle ⊢
    rw [List.cons_append, blocking_send_loop_progress _ _ _ _ _ _ _ _ _ _ (by omega) h1,
      ih hl _ _ (by omega) (by omega)]
    have e1 : (bc + r).toNat = bc.toNat + r.toNat := by omega
    have e2 : (r + l.sum).toNat = r.toNat + l.sum.toNat := by omega
    rw [e1, e2, slice_add, List.append_assoc, Int.add_assoc, Nat.add_assoc]

theorem blocking_send_loop_timeout_only (buf : List Nat) (off : Nat) (length : Int) (m : Nat)
    (rs : List (Int × List Nat)) (ss : List Int) :
    ∀ (ms sent : List Nat) (bc : Int) (w : World), 0 ≤ bc →
      blocking_send_loop buf off length m rs ss ms sent bc = some (-1, w) →
      -1 ∈ ss ∨ ∃ t ∈ ms, 20000 < tick_sub t m := by
  induction ss with
  | nil =>
    intro ms sent bc w hbc h
    by_cases hl : length > bc
    · simp [blocking_send_loop, hl] at h
    · rw [blocking_send_loop_done _ _ _ _ _ _ _ _ _ hl] at h
      simp only [Option.some.injEq, Prod.mk.injEq] at h
      omega
  | cons r ss ih =>
    intro ms sent bc w hbc h
    by_cases hl : length > bc
    · by_cases hr : 0 > r
      · rw [blocking_send_loop_error _ _ _ _ _ _ _ _ _ _ hl hr] at h
        simp only [Option.some.injEq, Prod.mk.injEq] at h
        exact Or.inl (by rw [h.1]; exact List.mem_cons_self _ _)
      · by_cases hp : 0 < r
        · rw [blocking_send_loop_progress _ _ _ _ _ _ _ _ _ _ hl hp] at h
          rcases ih _ _ _ _ (by omega) h with h' | h'
          · exact Or.inl (List.mem_cons_of_mem _ h')
          · exact Or.inr h'
        · have hr0 : r = 0 := by omega
          subst hr0
          cases ms with
          | nil => simp [blocking_send_loop, hl] at h
          | cons t ms =>
            rw [blocking_send_loop_idle _ _ _ _ _ _ _ _ _ _ hl] at h
            by_cases ht : 20000 < tick_sub t m
            · exact Or.inr ⟨t, List.mem_cons_self _ _, ht⟩
            · rw [if_neg ht] at h
              rcases ih _ _ _ _ hbc h with h' | h'
              · exact Or.inl (List.mem_cons_of_mem _ h')
              · obtain ⟨t', ht', hlt⟩ := h'
                exact Or.inr ⟨t', List.mem_cons_of_mem _ ht', hlt⟩
    · rw [blocking_send_loop_done _ _ _ _ _ _ _ _ _ hl] at h
      simp only [Option.some.injEq, Prod.mk.injEq] at h
      omega

theorem blocking_receive_loop_run (off : Nat) (length : Int) (m : Nat)
    (ss : List Int) (sent : List Nat) (rs : List (Int × List Nat)) (ms : List Nat)
    (l : List (Int × List Nat)) (hpos : ∀ r ∈ l, 0 < r.1) :
    ∀ (buf : List Nat) (bc : Int), 0 ≤ bc → bc + (l.map Prod.fst).sum ≤ length →
      ∃ buf', buf'.length = buf.length ∧
        blocking_receive_loop off length m ss sent (l ++ rs) ms buf bc
          = blocking_receive_loop off length m ss sent rs ms buf'
              (bc + (l.map Prod.fst).sum) := by
  induction l with
  | nil =>
    intro buf bc _ _
    exact ⟨buf, rfl, by simp⟩
  | cons r l ih =>
    intro buf bc hbc hle
    obtain ⟨r, data⟩ := r
    have h1 : 0 < r := hpos (r, data) (List.mem_cons_self _ _)
    have hl : ∀ x ∈ l, 0 < x.1 := fun x hx => hpos x (List.mem_cons_of_mem _ hx)
    have h2 := sum_nonneg_of_pos (l.map Prod.fst) (by
      intro x hx
      obtain ⟨y, hy, rfl⟩ := List.mem_map.mp hx
      exact hl y hy)
    simp only [List.map_cons, List.sum_cons] at hle ⊢
    obtain ⟨buf', hlen, h⟩ := ih hl (memcpy buf (off + bc.toNat) (data.take r.toNat)) (bc + r)
      (by omega) (by omega)
    refine ⟨buf', by rw [hlen, length_memcpy], ?_⟩
    rw [List.cons_append, blocking_receive_loop_progress _ _ _ _ _ _ _ _ _ _ _ (by omega) h1,
      h, Int.add_assoc]

theorem blocking_receive_loop_timeout_only (off : Nat) (length : Int) (m : Nat)
    (ss : List Int) (sent : List Nat) (rs : List (Int × List Nat)) :
    ∀ (ms buf : List Nat) (bc : Int) (b : List Nat) (w : World), 0 ≤ bc →
      blocking_receive_loop off length m ss sent rs ms buf bc = some (-1, b, w) →
      -1 ∈ rs.map Prod.fst ∨ ∃ t ∈ ms, 20000 < tick_sub t m := by
  induction rs with
  | nil =>
    intro ms buf bc b w hbc h
    by_cases hl : length > bc
    · simp [blocking_receive_loop, hl] at h
    · rw [blocking_receive_loop_done _ _ _ _ _ _ _ _ _ hl] at h
      simp only [Option.some.injEq, Prod.mk.injEq] at h
      omega
  | cons r rs ih =>
    intro ms buf bc b w hbc h
    obtain ⟨r, data⟩ := r
    by_cases hl : length > bc
    · by_cases hr : 0 > r
      · rw [blocking_receive_loop_error _ _ _ _ _ _ _ _ _ _ _ hl hr] at h
        simp only [Option.some.injEq, Prod.mk.injEq] at h
        exact Or.inl (by rw [h.1]; simp)
      · by_cases hp : 0 < r
        · rw [blocking_receive_loop_progress _ _ _ _ _ _ _ _ _ _ _ hl hp] at h
          rcases ih _ _ _ _ _ (by omega) h with h' | h'
          · exact Or.inl (by simp only [List.map_cons]; exact List.mem_cons_of_mem _ h')
          · exact Or.inr h'
        · have hr0 : r = 0 := by omega
          subst hr0
          cases ms with
          | nil => simp [blocking_receive_loop, hl] at h
          | cons t ms =>
            rw [blocking_receive_loop_idle _ _ _ _ _ _ _ _ _ _ _ hl] at h
            by_cases ht : 20000 < tick_sub t m
            · exact Or.inr ⟨t, List.mem_cons_self _ _, ht⟩
            · rw [if_neg ht] at h
              rcases ih _ _ _ _ _ hbc h with h' | h'
              · exact Or.inl (by simp only [List.map_cons]; exact List.mem_cons_of_mem _ h')
              · obtain ⟨t', ht', hlt⟩ := h'
                exact Or.inr ⟨t', List.mem_cons_of_mem _ ht', hlt⟩
    · rw [blocking_receive_loop_done _ _ _ _ _ _ _ _ _ hl] at h
      simp only [Option.some.injEq, Prod.mk.injEq] at h
      omega

theorem blocking_send_complete (buf : List Nat) (off : Nat) (length : Int) (t : Nat)
    (ms : List Nat) (rs : List (Int × List Nat)) (ss : List Int) (sent : List Nat)
    (l : List Int) (hl : ∀ r ∈ l, 0 < r) (h : l.sum = length) :
    blocking_send buf off length ⟨t :: ms, rs, l ++ ss, sent⟩
      = some (length, ⟨ms, rs, ss, sent ++ slice buf off length.toNat⟩) := by
  have hs := sum_nonneg_of_pos l hl
  show blocking_send_loop buf off length (tick t) rs (l ++ ss) ms sent 0 = _
  rw [blocking_send_loop_run _ _ _ _ _ _ _ l hl _ 0 (le_refl _) (by omega),
    blocking_send_loop_done _ _ _ _ _ _ _ _ _ (by omega)]
  simp [h]

/-! ## C9: the keep-alive ping -/

theorem ping_eq (c : Primitives) (p : Session) (off : Nat) :
    ping c p off = encrypt c { p with
        _message_id := (p._message_id + 1) % 2 ^ 16
        queue := memcpy p.queue off [0x40, 0x00, (p._message_id + 1) % 2 ^ 16 / 256,
          (p._message_id + 1) % 2 ^ 16 % 256, 12, 12, 12, 12, 12, 12, 12, 12, 12, 12, 12, 12] }
      off 16 := by
  have hm : (p._message_id + 1) % 2 ^ 16 / 256 % 256 = (p._message_id + 1) % 2 ^ 16 / 256 := by
    omega
  simp only [ping, next_message_id, poke, memset, memcpy, List.replicate, shiftRight8_mod,
    land_ff_mod, Nat.add_assoc, hm]

theorem slice_encrypt_before (c : Primitives) (p : Session) (off length o k : Nat)
    (h : o + k ≤ off) : slice (encrypt c p off length).queue o k = slice p.queue o k := by
  unfold encrypt
  by_cases hl : length % 16 = 0
  · simp only [hl, if_true]
    exact slice_aes_crypt_cbc_encrypt_before _ _ _ _ _ _ _ h
  · simp only [hl, if_false]

theorem slice_staged_header (c : Primitives) (p : Session) (q src : List Nat)
    (hq : 2 ≤ q.length) (hp : p.queue = memcpy (poke (poke q 0 0) 1 16) 2 src) :
    slice (encrypt c p 2 16).queue 0 2 = [0, 16] := by
  rw [slice_encrypt_before c p 2 16 0 2 (by decide), hp,
    slice_memcpy_disjoint _ _ 2 0 2 (Or.inl (by decide)),
    slice_two _ (by simp only [length_poke]; omega),
    peek_poke_other _ _ _ _ (by decide), peek_poke_same _ _ _ (by omega),
    peek_poke_same _ _ _ (by simp only [length_poke]; omega)]

theorem ping_frame (c : Primitives) (p : Session) (hq : 18 ≤ p.queue.length) :
    slice (ping c { p with queue := poke (poke p.queue 0 0) 1 16 } 2).queue 0 18
      = 0 :: 16 :: slice (ping c { p with queue := poke (poke p.queue 0 0) 1 16 } 2).queue 2 16 ∧
    (slice (ping c { p with queue := poke (poke p.queue 0 0) 1 16 } 2).queue 2 16).length
      = 16 := by
  have hlen : (ping c { p with queue := poke (poke p.queue 0 0) 1 16 } 2).queue.length
      = p.queue.length := by
    rw [ping_eq, length_encrypt]
    simp only [length_memcpy, length_poke]
  have h02 : slice (ping c { p with queue := poke (poke p.queue 0 0) 1 16 } 2).queue 0 2
      = [0, 16] := by
    rw [ping_eq]
    exact slice_staged_header c _ p.queue _ (by omega) rfl
  generalize (ping c { p with queue := poke (poke p.queue 0 0) 1 16 } 2).queue = Q at hlen h02
  refine ⟨?_, length_slice _ _ _ (by omega)⟩
  rw [show (18 : Nat) = 2 + 16 from rfl, slice_add, h02]
  simp only [List.cons_append, List.nil_append, Nat.zero_add]

theorem ping_timeout_scenario :
    ((event_loop reference (fun _ _ => none) fresh
        ⟨[0, 15001, 15001, 15001, 25002, 25002], [(0, []), (0, []), (0, [])], [18], []⟩).bind
      fun r1 => (event_loop reference (fun _ _ => none) r1.2.1 r1.2.2).bind
      fun r2 => (event_loop reference (fun _ _ => none) r2.2.1 r2.2.2).map
      fun r3 => ([r1.1, r2.1, r2.2.1.expecting_ping_ack, r3.1],
        [r1.2.2.sent, slice r2.2.2.sent 0 2, [r2.2.2.sent.length], [r3.2.2.sent.length]]))
      = some ([true, true, true, false], [[], [0, 16], [18], [18]]) := by
  decide

/-- C9: with `updating` false and no inbound bytes, `event_loop` sends one PING frame
(`00 10` and the 16 cipher bytes of the ping plaintext) and sets `expecting_ping_ack`
when no ack is expected and more than 15000 ms have passed since the last message; it
returns `false` exactly when an ack is expected and more than 10000 ms have passed; in
every other case it sends nothing, changes nothing and returns `true`. With the clock at
0, 15001 and 25002 on three ticks the second tick sends one PING and the third returns
`false`. -/
theorem event_loop_ping_rules (c : Primitives)
    (handle : Session → World → Option (Bool × Session × World)) (p : Session)
    (t : Nat) (ms data : List Nat) (rs : List (Int × List Nat)) (ss : List Int)
    (sent : List Nat) (hupd : p.updating = false) (hq : 18 ≤ p.queue.length) :
    let w : World := ⟨t :: ms, (0, data) :: rs, ss, sent⟩
    let since := tick_sub (tick t) p.last_message_millis
    let pinged := ping c { p with queue := poke (poke p.queue 0 0) 1 16 } 2
    (p.expecting_ping_ack = false → 15000 < since →
      ∀ (t2 t3 : Nat) (ms' : List Nat) (l ss' : List Int),
        ms = t2 :: t3 :: ms' → (∀ r ∈ l, 0 < r) → l.sum = 18 → ss = l ++ ss' →
        event_loop c handle p w
          = some (true,
              { pinged with expecting_ping_ack := true, last_message_millis := tick t3 },
              ⟨ms', rs, ss', sent ++ 0 :: 16 :: slice pinged.queue 2 16⟩) ∧
        (slice pinged.queue 2 16).length = 16 ∧
        pinged = encrypt c { p with
            _message_id := (p._message_id + 1) % 2 ^ 16
            queue := memcpy (poke (poke p.queue 0 0) 1 16) 2
              [0x40, 0x00, (p._message_id + 1) % 2 ^ 16 / 256,
                (p._message_id + 1) % 2 ^ 16 % 256,
                12, 12, 12, 12, 12, 12, 12, 12, 12, 12, 12, 12] } 2 16) ∧
    (p.expecting_ping_ack = true → 10000 < since →
      ∀ (t2 : Nat) (ms' : List Nat), ms = t2 :: ms' →
        event_loop c handle p w
          = some (false,
              { p with expecting_ping_ack := false, last_message_millis := tick t2 },
              ⟨ms', rs, ss, sent⟩)) ∧
    (¬ (p.expecting_ping_ack = false ∧ 15000 < since) →
      ¬ (p.expecting_ping_ack = true ∧ 10000 < since) →
      event_loop c handle p w = some (true, p, ⟨ms, rs, ss, sent⟩)) ∧
    (∀ r, event_loop c handle p w = some r →
      (r.1 = false ↔ (p.expecting_ping_ack = true ∧ 10000 < since))) ∧
    (∀ r, event_loop c handle p w = some r → r.2.2.sent ≠ sent →
      p.expecting_ping_ack = false ∧ 15000 < since) ∧
    (∀ r, event_loop c handle p w = some r → p.expecting_ping_ack = false →
      (r.2.1.expecting_ping_ack = true ↔ 15000 < since)) ∧
    ((event_loop reference (fun _ _ => none) fresh
        ⟨[0, 15001, 15001, 15001, 25002, 25002], [(0, []), (0, []), (0, [])], [18], []⟩).bind
      fun r1 => (event_loop reference (fun _ _ => none) r1.2.1 r1.2.2).bind
      fun r2 => (event_loop reference (fun _ _ => none) r2.2.1 r2.2.2).map
      fun r3 => ([r1.1, r2.1, r2.2.1.expecting_ping_ack, r3.1],
        [r1.2.2.sent, slice r2.2.2.sent 0 2, [r2.2.2.sent.length], [r3.2.2.sent.length]]))
      = some ([true, true, true, false], [[], [0, 16], [18], [18]]) := by
  intro w since pinged
  have h := event_loop_no_bytes c handle p t ms data rs ss sent
  have hu' : ¬ p.updating = true := by simp [hupd]
  rw [if_neg hu'] at h
  refine ⟨?_, ?_, ?_, ?_, ?_, ?_, ping_timeout_scenario⟩
  · intro ha h15 t2 t3 ms' l ss' hms hl hsum hss
    have ha' : ¬ p.expecting_ping_ack = true := by simp [ha]
    refine ⟨?_, (ping_frame c p hq).2, ping_eq c _ 2⟩
    rw [h, if_neg ha', if_pos h15, hms, hss,
      blocking_send_complete pinged.queue 0 18 t2 (t3 :: ms') rs ss' sent l hl hsum]
    have hf : slice pinged.queue 0 (18 : Int).toNat
        = 0 :: 16 :: slice pinged.queue 2 16 := (ping_frame c p hq).1
    rw [hf]
    rfl
  · intro ha h10 t2 ms' hms
    rw [h, if_pos ha, if_pos h10, hms]
    rfl
  · intro h1 h2
    rw [h]
    by_cases ha : p.expecting_ping_ack = true
    · have h10 : ¬ 10000 < since := fun x => h2 ⟨ha, x⟩
      rw [if_pos ha, if_neg h10]
    · have ha' : p.expecting_ping_ack = false := by simpa using ha
      have h15 : ¬ 15000 < since := fun x => h1 ⟨ha', x⟩
      rw [if_neg ha, if_neg h15]
  · intro r hr
    rw [h] at hr
    by_cases ha : p.expecting_ping_ack = true
    · by_cases h10 : 10000 < since
      · rw [if_pos ha, if_pos h10] at hr
        obtain ⟨m, _, hm⟩ := Option.bind_eq_some.mp hr
        have hr1 : r.1 = false := by rw [← Option.some.inj hm]
        exact ⟨fun _ => ⟨ha, h10⟩, fun _ => hr1⟩
      · rw [if_pos ha, if_neg h10] at hr
        have hr1 : r.1 = true := by rw [← Option.some.inj hr]
        exact ⟨fun x => (by rw [hr1] at x; cases x), fun x => absurd x.2 h10⟩
    · rw [if_neg ha] at hr
      have hr1 : r.1 = true := by
        by_cases h15 : 15000 < since
        · rw [if_pos h15] at hr
          obtain ⟨a, _, ha2⟩ := Option.bind_eq_some.mp hr
          obtain ⟨m, _, hm⟩ := Option.bind_eq_some.mp ha2
          rw [← Option.some.inj hm]
        · rw [if_neg h15] at hr
          rw [← Option.some.inj hr]
      exact ⟨fun x => (by rw [hr1] at x; cases x), fun x => absurd x.1 ha⟩
  · intro r hr hsent
    rw [h] at hr
    by_cases ha : p.expecting_ping_ack = true
    · exfalso
      apply hsent
      by_cases h10 : 10000 < since
      · rw [if_pos ha, if_pos h10] at hr
        obtain ⟨m, hm1, hm⟩ := Option.bind_eq_some.mp hr
        rw [← Option.some.inj hm]
        cases ms with
        | nil => simp [callback_millis] at hm1
        | cons t2 ms' =>
          simp only [callback_millis, Option.some.injEq] at hm1
          rw [← hm1]
      · rw [if_pos ha, if_neg h10] at hr
        rw [← Option.some.inj hr]
    · rw [if_neg ha] at hr
      have ha' : p.expecting_ping_ack = false := by simpa using ha
      by_cases h15 : 15000 < since
      · exact ⟨ha', h15⟩
      · exfalso
        apply hsent
        rw [if_neg h15] at hr
        rw [← Option.some.inj hr]
  · intro r hr ha
    have ha' : ¬ p.expecting_ping_ack = true := by simp [ha]
    rw [h, if_neg ha'] at hr
    by_cases h15 : 15000 < since
    · rw [if_pos h15] at hr
      obtain ⟨a, _, ha2⟩ := Option.bind_eq_some.mp hr
      obtain ⟨m, _, hm⟩ := Option.bind_eq_some.mp ha2
      have : r.2.1.expecting_ping_ack = true := by rw [← Option.some.inj hm]
      exact ⟨fun _ => h15, fun _ => this⟩
    · rw [if_neg h15] at hr
      have : r.2.1.expecting_ping_ack = false := by rw [← Option.some.inj hr]; exact ha
      exact ⟨fun x => (by rw [this] at x; cases x), fun x => absurd x h15⟩

theorem event_loop_ping_rules_witness :
    fresh.updating = false ∧ 18 ≤ fresh.queue.length ∧
    (event_loop reference (fun _ _ => none) fresh
        ⟨[15001, 15001, 15001], [(0, [])], [18], []⟩).map (fun r => r.1) = some true ∧
    (event_loop reference (fun _ _ => none) { fresh with expecting_ping_ack := true }
        ⟨[10001, 10001], [(0, [])], [], []⟩).map (fun r => r.1) = some false :=
  ⟨rfl, by decide,
    by rw [((event_loop_ping_rules reference (fun _ _ => none) fresh 15001 [15001, 15001] []
        [] [18] [] rfl (by decide)).1 rfl (by decide) 15001 15001 [] [18] [] rfl (by decide) rfl rfl).1]; rfl,
    by rw [(event_loop_ping_rules reference (fun _ _ => none)
        { fresh with expecting_ping_ack := true } 10001 [10001] [] [] [] [] rfl
        (by decide)).2.1 rfl (by decide) 10001 [] rfl]; rfl⟩

theorem blocking_send_start (buf : List Nat) (off : Nat) (length : Int) (t : Nat)
    (ms : List Nat) (rs : List (Int × List Nat)) (ss : List Int) (sent : List Nat) :
    blocking_send buf off length ⟨t :: ms, rs, ss, sent⟩
      = blocking_send_loop buf off length (tick t) rs ss ms sent 0 := rfl

theorem blocking_receive_start (buf : List Nat) (off : Nat) (length : Int) (t : Nat)
    (ms : List Nat) (rs : List (Int × List Nat)) (ss : List Int) (sent : List Nat) :
    blocking_receive buf off length ⟨t :: ms, rs, ss, sent⟩
      = blocking_receive_loop off length (tick t) ss sent rs ms buf 0 := rfl

/-- C10 (counterexample): a 2-byte transfer starts at clock 0; an idle poll reads the clock
at 19999, the next poll transfers one byte, and the following idle poll reads 20001: both
`blocking_send` and `blocking_receive` return -1, although at most 2 ms have passed since
the byte was transferred. -/
theorem blocking_timeout_despite_progress :
    blocking_send [7, 9] 0 2 ⟨[0, 19999, 20001], [], [0, 1, 0], []⟩
      = some (-1, ⟨[], [], [], [7]⟩) ∧
    blocking_receive [0, 0] 0 2 ⟨[0, 19999, 20001], [(0, []), (1, [7]), (0, [])], [], []⟩
      = some (-1, [7, 0], ⟨[], [], [], []⟩) ∧
    tick_sub 20001 19999 = 2 := by
  decide

/-- C10 (amended): `blocking_send` and `blocking_receive` return the requested length once
the callback has transferred that many bytes, return the callback's negative value as soon
as it reports an error, and return -1 when a poll transfers nothing and the clock then
reads more than 20000 ms past the start of the call, whether or not bytes were transferred
in between; -1 is returned only for such a clock reading or when the callback itself
reports -1. A transfer whose every poll makes progress is never timed out. -/
theorem blocking_transfer_rules (buf : List Nat) (off : Nat) (length : Int) (t : Nat)
    (ms : List Nat) (rs : List (Int × List Nat)) (ss : List Int) (sent : List Nat)
    (l : List Int) (lr : List (Int × List Nat))
    (hl : ∀ r ∈ l, 0 < r) (hlr : ∀ r ∈ lr, 0 < r.1) :
    (l.sum = length →
      blocking_send buf off length ⟨t :: ms, rs, l ++ ss, sent⟩
        = some (length, ⟨ms, rs, ss, sent ++ slice buf off length.toNat⟩)) ∧
    (l.sum < length → ∀ e : Int, e < 0 →
      blocking_send buf off length ⟨t :: ms, rs, l ++ e :: ss, sent⟩
        = some (e, ⟨ms, rs, ss, sent ++ slice buf off l.sum.toNat⟩)) ∧
    (l.sum < length → ∀ t2 : Nat,
      blocking_send buf off length ⟨t :: t2 :: ms, rs, l ++ 0 :: ss, sent⟩
        = if 20000 < tick_sub t2 (tick t) then
            some (-1, ⟨ms, rs, ss, sent ++ slice buf off l.sum.toNat⟩)
          else blocking_send_loop buf off length (tick t) rs ss ms
            (sent ++ slice buf off l.sum.toNat) l.sum) ∧
    (∀ w', blocking_send buf off length ⟨t :: ms, rs, ss, sent⟩ = some (-1, w') →
      -1 ∈ ss ∨ ∃ t2 ∈ ms, 20000 < tick_sub t2 (tick t)) ∧
    ((lr.map Prod.fst).sum = length →
      ∃ buf', blocking_receive buf off length ⟨t :: ms, lr ++ rs, ss, sent⟩
        = some (length, buf', ⟨ms, rs, ss, sent⟩)) ∧
    ((lr.map Prod.fst).sum < length → ∀ (e : Int) (data : List Nat), e < 0 →
      ∃ buf', blocking_receive buf off length ⟨t :: ms, lr ++ (e, data) :: rs, ss, sent⟩
        = some (e, buf', ⟨ms, rs, ss, sent⟩)) ∧
    ((lr.map Prod.fst).sum < length → ∀ (t2 : Nat) (data : List Nat),
      20000 < tick_sub t2 (tick t) →
      ∃ buf', blocking_receive buf off length ⟨t :: t2 :: ms, lr ++ (0, data) :: rs, ss, sent⟩
        = some (-1, buf', ⟨ms, rs, ss, sent⟩)) ∧
    (∀ b w', blocking_receive buf off length ⟨t :: ms, rs, ss, sent⟩ = some (-1, b, w') →
      -1 ∈ rs.map Prod.fst ∨ ∃ t2 ∈ ms, 20000 < tick_sub t2 (tick t)) := by
  have hs := sum_nonneg_of_pos l hl
  have hsr := sum_nonneg_of_pos (lr.map Prod.fst) (by
    intro x hx
    obtain ⟨y, hy, rfl⟩ := List.mem_map.mp hx
    exact hlr y hy)
  refine ⟨?_, ?_, ?_, ?_, ?_, ?_, ?_, ?_⟩
  · intro h
    rw [blocking_send_start, blocking_send_loop_run _ _ _ _ _ _ _ l hl _ 0 (le_refl _)
      (by omega), blocking_send_loop_done _ _ _ _ _ _ _ _ _ (by omega)]
    simp [h]
  · intro h e he
    rw [blocking_send_start, blocking_send_loop_run _ _ _ _ _ _ _ l hl _ 0 (le_refl _)
      (by omega), blocking_send_loop_error _ _ _ _ _ _ _ _ _ _ (by omega) (by omega)]
    simp
  · intro h t2
    rw [blocking_send_start, blocking_send_loop_run _ _ _ _ _ _ _ l hl _ 0 (le_refl _)
      (by omega), blocking_send_loop_idle _ _ _ _ _ _ _ _ _ _ (by omega)]
    simp
  · intro w' h
    rw [blocking_send_start] at h
    exact blocking_send_loop_timeout_only _ _ _ _ _ _ _ _ _ _ (le_refl _) h
  · intro h
    obtain ⟨buf', _, hb⟩ := blocking_receive_loop_run off length (tick t) ss sent rs ms lr hlr
      buf 0 (le_refl _) (by omega)
    refine ⟨buf', ?_⟩
    rw [blocking_receive_start, hb, blocking_receive_loop_done _ _ _ _ _ _ _ _ _ (by omega)]
    simp [h]
  · intro h e data he
    obtain ⟨buf', _, hb⟩ := blocking_receive_loop_run off length (tick t) ss sent
      ((e, data) :: rs) ms lr hlr buf 0 (le_refl _) (by omega)
    refine ⟨buf', ?_⟩
    rw [blocking_receive_start, hb,
      blocking_receive_loop_error _ _ _ _ _ _ _ _ _ _ _ (by omega) (by omega)]
  · intro h t2 data ht
    obtain ⟨buf', _, hb⟩ := blocking_receive_loop_run off length (tick t) ss sent
      ((0, data) :: rs) (t2 :: ms) lr hlr buf 0 (le_refl _) (by omega)
    refine ⟨buf', ?_⟩
    rw [blocking_receive_start, hb,
      blocking_receive_loop_idle _ _ _ _ _ _ _ _ _ _ _ (by omega), if_pos ht]
  · intro b w' h
    rw [blocking_receive_start] at h
    exact blocking_receive_loop_timeout_only _ _ _ _ _ _ _ _ _ _ _ (le_refl _) h

theorem blocking_transfer_rules_witness :
    (∀ r ∈ [1, (1 : Int)], 0 < r) ∧
    (∀ r ∈ [((2 : Int), [7, 9])], 0 < r.1) ∧
    blocking_send [7, 9] 0 2 ⟨[0], [], [1, 1], []⟩ = some (2, ⟨[], [], [], [7, 9]⟩) :=
  ⟨by decide, by decide,
    (blocking_transfer_rules [7, 9] 0 2 0 [] [] [] [] [1, 1] [((2 : Int), [7, 9])]
      (by decide) (by decide)).1 rfl⟩

/-! ## Response builders as staged plaintext -/

theorem int_byte_lt (v : Int) (s : Nat) : int_byte v s < 256 := by
  unfold int_byte
  omega

theorem int_byte_mod (v : Int) (s : Nat) : int_byte v s % 256 = int_byte v s :=
  Nat.mod_eq_of_lt (int_byte_lt v s)

theorem int_byte_big_endian (v : Int) :
    ((2 ^ 24 * int_byte v 24 + 2 ^ 16 * int_byte v 16 + 2 ^ 8 * int_byte v 8
      + int_byte v 0 : Nat) : Int) = v % 2 ^ 32 := by
  unfold int_byte
  simp only [Int.shiftRight_eq_div_pow]
  omega

theorem empty_ack_eq (c : Primitives) (p : Session) (off msb lsb : Nat) :
    empty_ack c p off msb lsb = encrypt c { p with
        queue := memcpy p.queue off [0x60, 0x00, msb % 256, lsb % 256,
          12, 12, 12, 12, 12, 12, 12, 12, 12, 12, 12, 12] } off 16 := by
  simp only [empty_ack, poke, memset, memcpy, List.replicate, Nat.add_assoc]

theorem function_return_eq (c : Primitives) (p : Session) (off token : Nat) (v : Int) :
    function_return c p off token v = encrypt c { p with
        _message_id := (p._message_id + 1) % 2 ^ 16
        queue := memcpy p.queue off [0x51, 0x44, (p._message_id + 1) % 2 ^ 16 / 256,
          (p._message_id + 1) % 2 ^ 16 % 256, token % 256, 0xff,
          int_byte v 24, int_byte v 16, int_byte v 8, int_byte v 0, 6, 6, 6, 6, 6, 6] }
      off 16 := by
  have hm : (p._message_id + 1) % 2 ^ 16 / 256 % 256 = (p._message_id + 1) % 2 ^ 16 / 256 := by
    omega
  simp only [function_return, next_message_id, poke, memset, memcpy, List.replicate,
    shiftRight8_mod, land_ff_mod, Nat.add_assoc, hm, int_byte_mod]

theorem poke_eq_memcpy (q : List Nat) (i v : Nat) : poke q i v = memcpy q i [v % 256] := rfl

theorem slice_poke_disjoint (q : List Nat) (i v o k : Nat) (h : o + k ≤ i ∨ i + 1 ≤ o) :
    slice (poke q i v) o k = slice q o k := by
  rw [poke_eq_memcpy]
  exact slice_memcpy_disjoint _ _ _ _ _ h

theorem peek_eq_slice (q : List Nat) (i : Nat) : peek q i = (slice q i 1).headD 0 := by
  simp only [peek, slice, List.getD_eq_getElem?_getD, List.take_one, List.head?_drop]
  cases q[i]? <;> rfl

theorem peek_eq_of_slice_eq (q1 q2 : List Nat) (o k i : Nat)
    (h : slice q1 o k = slice q2 o k) (hi : o ≤ i ∧ i < o + k) : peek q1 i = peek q2 i := by
  have h1 := congrArg (fun l => l[i - o]?) h
  simp only [slice, List.getElem?_take, List.getElem?_drop] at h1
  have e : o + (i - o) = i := by omega
  have e2 : i - o < k := by omega
  simp only [e, e2, if_true] at h1
  simp only [peek, List.getD_eq_getElem?_getD, h1]

theorem slice_stage_empty_ack_below (c : Primitives) (p : Session) (len o k : Nat)
    (h : o + k ≤ len) :
    slice (stage_empty_ack c p len).queue o k = slice p.queue o k := by
  unfold stage_empty_ack
  rw [empty_ack_eq, slice_encrypt_before c _ (len + 2) 16 o k (by omega)]
  dsimp only
  rw [slice_memcpy_disjoint _ _ _ _ _ (Or.inl (by omega)),
    slice_poke_disjoint _ _ _ _ _ (Or.inl (by omega)),
    slice_poke_disjoint _ _ _ _ _ (Or.inl (by omega))]

theorem peek_eq_below (q1 q2 : List Nat) (n i : Nat)
    (hs : ∀ o k, o + k ≤ n → slice q1 o k = slice q2 o k) (hi : i < n) :
    peek q1 i = peek q2 i :=
  peek_eq_of_slice_eq q1 q2 i 1 i (hs i 1 (by omega)) (by omega)

theorem function_query_fst_ge (q : List Nat) :
    8 + function_key_length q ≤ (function_query q).1 := by
  unfold function_query
  simp only []
  split
  · simp only []; omega
  · split
    · simp only []; omega
    · simp only []; omega

theorem function_query_fst_le (q : List Nat) :
    (function_query q).1 ≤ 8 + function_key_length q + 2 := by
  unfold function_query
  simp only []
  split
  · simp only []; omega
  · split
    · simp only []; omega
    · simp only []; omega

theorem function_key_length_eq_below (q1 q2 : List Nat) (n : Nat)
    (hs : ∀ o k, o + k ≤ n → slice q1 o k = slice q2 o k) (hn : 8 ≤ n) :
    function_key_length q1 = function_key_length q2 := by
  unfold function_key_length
  rw [peek_eq_below q1 q2 n 7 hs (by omega)]

theorem function_query_eq_below (q1 q2 : List Nat) (n : Nat)
    (hs : ∀ o k, o + k ≤ n → slice q1 o k = slice q2 o k)
    (hn : (function_query q2).1 < n) :
    function_query q1 = function_query q2 := by
  have h8 := function_query_fst_ge q2
  have hk := function_key_length_eq_below q1 q2 n hs (by omega)
  have h0 : 8 + function_key_length q2 < n := by
    revert hn
    unfold function_query
    simp only []
    split
    · simp only []; omega
    · split
      · simp only []; omega
      · simp only []; omega
  have e0 := peek_eq_below q1 q2 n _ hs h0
  by_cases c13 : 13 = peek q2 (8 + function_key_length q2) &&& 0x0F
  · have h1 : 8 + function_key_length q2 + 1 < n := by
      revert hn
      unfold function_query
      simp only [← c13, if_true]
      omega
    have e1 := peek_eq_below q1 q2 n _ hs h1
    unfold function_query
    simp only [hk, e0, ← c13, if_true, e1]
  · by_cases c14 : 14 = peek q2 (8 + function_key_length q2) &&& 0x0F
    · have h2 : 8 + function_key_length q2 + 1 + 1 < n := by
        revert hn
        unfold function_query
        simp only [← c14, if_true]
        simp only [show ¬ (13 = 14) by decide, if_false]
        omega
      have e1 := peek_eq_below q1 q2 n _ hs (show 8 + function_key_length q2 + 1 < n by omega)
      have e2 := peek_eq_below q1 q2 n _ hs h2
      unfold function_query
      simp only [hk, e0, ← c14, if_true, e1, e2]
    · unfold function_query
      simp only [hk, e0, c13, c14, if_false]

theorem function_key_eq_below (q1 q2 : List Nat) (n : Nat)
    (hs : ∀ o k, o + k ≤ n → slice q1 o k = slice q2 o k)
    (hn : 8 + function_key_length q2 ≤ n) :
    function_key q1 = function_key q2 := by
  have hk := function_key_length_eq_below q1 q2 n hs (by omega)
  unfold function_key
  rw [hk, hs 8 _ hn]

theorem function_arg_eq_below (q1 q2 : List Nat) (n : Nat)
    (hs : ∀ o k, o + k ≤ n → slice q1 o k = slice q2 o k)
    (hn : (function_query q2).1 + 1 + (function_query q2).2 ≤ n) :
    function_arg q1 = function_arg q2 := by
  have hq := function_query_eq_below q1 q2 n hs (by omega)
  unfold function_arg
  rw [hq, hs _ _ hn]

/-! ## The FUNCTION_CALL case -/

theorem handle_function_call_eq (c : Primitives) (h : Host) (p : Session) (w : World)
    (len token : Nat) :
    handle_function_call c h p w len token =
      (blocking_send (stage_empty_ack c p len).queue len 18 w).bind fun r1 =>
        if 0 > r1.1 then
          some (false, stage_empty_ack c p len, r1.2,
            [.send (slice (stage_empty_ack c p len).queue len 18)])
        else if h.MAX_FUNCTION_ARG_LENGTH ≤ (function_query (stage_empty_ack c p len).queue).2
        then
          some (false, stage_empty_ack c p len, r1.2,
            [.send (slice (stage_empty_ack c p len).queue len 18)])
        else
          (blocking_send
            (function_return c
              { stage_empty_ack c p len with
                queue := poke (poke (stage_empty_ack c p len).queue len 0) (len + 1) 16 }
              (len + 2) token
              (h.descriptor.call_function
                (cstr (function_key (stage_empty_ack c p len).queue) 0)
                (cstr (function_arg (stage_empty_ack c p len).queue) 0))).queue len 18
            r1.2).bind fun r2 =>
            some (decide (0 ≤ r2.1),
              function_return c
                { stage_empty_ack c p len with
                  queue := poke (poke (stage_empty_ack c p len).queue len 0) (len + 1) 16 }
                (len + 2) token
                (h.descriptor.call_function
                  (cstr (function_key (stage_empty_ack c p len).queue) 0)
                  (cstr (function_arg (stage_empty_ack c p len).queue) 0)),
              r2.2,
              [.send (slice (stage_empty_ack c p len).queue len 18),
                .call_function (cstr (function_key (stage_empty_ack c p len).queue) 0)
                  (cstr (function_arg (stage_empty_ack c p len).queue) 0),
                .send (slice (function_return c
                  { stage_empty_ack c p len with
                    queue := poke (poke (stage_empty_ack c p len).queue len 0) (len + 1) 16 }
                  (len + 2) token
                  (h.descriptor.call_function
                    (cstr (function_key (stage_empty_ack c p len).queue) 0)
                    (cstr (function_arg (stage_empty_ack c p len).queue) 0))).queue len 18)]) := by
  simp only [handle_function_call]
  generalize stage_empty_ack c p len = acked
  cases hb : blocking_send acked.queue len 18 w with
  | none => simp [hb]
  | some r1 =>
    obtain ⟨r1, w1⟩ := r1
    by_cases hr : 0 > r1
    · simp [hb, hr]
    · by_cases hm : h.MAX_FUNCTION_ARG_LENGTH ≤ (function_query acked.queue).2
      · simp [hb, hr, hm]
      · simp only [hb, hr, hm]
        generalize function_return c _ (len + 2) token _ = staged
        cases hb2 : blocking_send staged.queue len 18 w1 with
        | none => simp [hb2]
        | some r2 =>
          obtain ⟨r2, w2⟩ := r2
          have hr' : ¬ r1 < 0 := by omega
          by_cases hr2 : r2 < 0
          · have hd : ¬ 0 ≤ r2 := by omega
            simp [hb2, hr2, hr', hd]
          · have hd : 0 ≤ r2 := by omega
            simp [hb2, hr2, hr', hd]

theorem stage_empty_ack_eq (c : Primitives) (p : Session) (len : Nat) (h4 : 4 ≤ len) :
    stage_empty_ack c p len = encrypt c { p with
      queue := memcpy (poke (poke p.queue len 0) (len + 1) 16) (len + 2)
        [0x60, 0x00, peek p.queue 2 % 256, peek p.queue 3 % 256,
          12, 12, 12, 12, 12, 12, 12, 12, 12, 12, 12, 12] } (len + 2) 16 := by
  unfold stage_empty_ack
  rw [empty_ack_eq]
  dsimp only
  rw [peek_poke_other _ _ _ _ (by omega), peek_poke_other _ _ _ _ (by omega),
    peek_poke_other _ _ _ _ (by omega), peek_poke_other _ _ _ _ (by omega)]

theorem cstr_terminated (l rest : List Nat) (hl : ∀ b ∈ l, b ≠ 0) :
    cstr (l ++ 0 :: rest) 0 = l := by
  unfold cstr
  rw [List.drop_zero]
  induction l with
  | nil => simp
  | cons b bs ih =>
    have hb : b ≠ 0 := hl b (List.mem_cons_self _ _)
    have := ih (fun x hx => hl x (List.mem_cons_of_mem _ hx))
    have hd : decide (b ≠ 0) = true := by simp [hb]
    rw [List.cons_append, List.takeWhile_cons]
    simp only [hd, if_true, this]

theorem shl8_or (a b : Nat) (hb : b < 256) : (a <<< 8) ||| b = a * 256 + b := by
  rw [Nat.shiftLeft_eq, Nat.mul_comm, ← Nat.mul_add_lt_is_or (by simpa using hb)]

theorem event_loop_received (c : Primitives)
    (hrm : Session → World → Option (Bool × Session × World)) (p : Session) (w : World)
    (n : Int) (q : List Nat) (w0 : World)
    (hrecv : callback_receive w p.queue 0 = some (n, q, w0)) (h2 : 2 ≤ n) :
    event_loop c hrm p w = hrm { p with queue := q } w0 := by
  unfold event_loop
  simp only [hrecv, Option.bind_eq_bind, Option.some_bind, h2, if_true]
  cases hrm { p with queue := q } w0 with
  | none => rfl
  | some r =>
    obtain ⟨s, p2, w2⟩ := r
    cases s <;> rfl

theorem handle_received_message_function_call (c : Primitives) (h : Host) (p : Session)
    (w : World) (now : Nat) (w1 : World) (r : Int) (q1 : List Nat) (w2 : World)
    (hm : callback_millis w = some (now, w1))
    (hlen : (peek p.queue 0 <<< 8) ||| peek p.queue 1 ≤ QUEUE_SIZE)
    (hbr : blocking_receive p.queue 0 (((peek p.queue 0 <<< 8) ||| peek p.queue 1 : Nat) : Int) w1
      = some (r, q1, w2))
    (hr : 0 ≤ r)
    (hty : (received_message c
      { p with queue := q1, last_message_millis := now, expecting_ping_ack := false } 0
      ((peek p.queue 0 <<< 8) ||| peek p.queue 1)).1 = .FUNCTION_CALL) :
    handle_received_message c h p w
      = handle_function_call c h (received_message c
          { p with queue := q1, last_message_millis := now, expecting_ping_ack := false } 0
          ((peek p.queue 0 <<< 8) ||| peek p.queue 1)).2 w2
          ((peek p.queue 0 <<< 8) ||| peek p.queue 1)
          (peek (received_message c
          { p with queue := q1, last_message_millis := now, expecting_ping_ack := false } 0
          ((peek p.queue 0 <<< 8) ||| peek p.queue 1)).2.queue 4) := by
  have hlen' : ¬ (peek p.queue 0 <<< 8) ||| peek p.queue 1 > QUEUE_SIZE := by omega
  have hr' : ¬ 0 > r := by omega
  unfold handle_received_message
  simp only [hm, Option.bind_eq_bind, Option.some_bind, hlen', if_false, hbr, hr']
  generalize received_message c _ 0 _ = rm at hty ⊢
  obtain ⟨mt, p2⟩ := rm
  simp only at hty
  subst hty
  rfl

/-- C13 (as the code has it): when a FUNCTION_CALL whose decoded argument length is at
least `MAX_FUNCTION_ARG_LENGTH` has been received and its ACK has gone out,
`call_function` is not invoked and no return value is sent, `handle_received_message`
returns `false`, and the enclosing `event_loop` call returns `false` as well. -/
theorem function_call_oversize (c : Primitives) (h : Host) (p : Session) (w : World)
    (n : Int) (q : List Nat) (w0 : World) (len now : Nat) (w1 : World) (r : Int)
    (q1 : List Nat) (w2 : World) (p2 : Session) (r1 : Int) (w3 : World)
    (hrecv : callback_receive w p.queue 0 = some (n, q, w0)) (h2 : 2 ≤ n)
    (hlen : len = (peek q 0 <<< 8) ||| peek q 1) (hfit : len ≤ QUEUE_SIZE)
    (hm : callback_millis w0 = some (now, w1))
    (hbr : blocking_receive q 0 len w1 = some (r, q1, w2)) (hr : 0 ≤ r)
    (hp2 : received_message c
      { p with queue := q1, last_message_millis := now, expecting_ping_ack := false } 0 len
        = (.FUNCTION_CALL, p2))
    (hwf : (function_query p2.queue).1 < len)
    (hbig : h.MAX_FUNCTION_ARG_LENGTH ≤ (function_query p2.queue).2)
    (hs1 : blocking_send (stage_empty_ack c p2 len).queue len 18 w2 = some (r1, w3))
    (hr1 : 0 ≤ r1) :
    handle_received_message c h { p with queue := q } w0
      = some (false, stage_empty_ack c p2 len, w3,
          [.send (slice (stage_empty_ack c p2 len).queue len 18)]) ∧
    event_loop c (handle_received c h) p w = some (false, stage_empty_ack c p2 len, w3) := by
  subst hlen
  have hcall : handle_function_call c h p2 w2 ((peek q 0 <<< 8) ||| peek q 1)
      (peek p2.queue 4) = some (false, stage_empty_ack c p2 ((peek q 0 <<< 8) ||| peek q 1),
        w3, [.send (slice (stage_empty_ack c p2 ((peek q 0 <<< 8) ||| peek q 1)).queue
          ((peek q 0 <<< 8) ||| peek q 1) 18)]) := by
    have hquery := function_query_eq_below _ _ _
      (slice_stage_empty_ack_below c p2 ((peek q 0 <<< 8) ||| peek q 1)) hwf
    have hr1' : ¬ 0 > r1 := by omega
    rw [handle_function_call_eq, hs1]
    simp only [Option.some_bind, hr1', if_false, hquery, hbig, if_true]
  have hmsg : handle_received_message c h { p with queue := q } w0
      = some (false, stage_empty_ack c p2 ((peek q 0 <<< 8) ||| peek q 1), w3,
          [.send (slice (stage_empty_ack c p2 ((peek q 0 <<< 8) ||| peek q 1)).queue
            ((peek q 0 <<< 8) ||| peek q 1) 18)]) := by
    rw [handle_received_message_function_call c h { p with queue := q } w0 now w1 r q1 w2
      hm hfit hbr hr (by rw [hp2]), hp2]
    exact hcall
  refine ⟨hmsg, ?_⟩
  rw [event_loop_received c _ p w n q w0 hrecv h2]
  unfold handle_received
  rw [hmsg]
  rfl

theorem function_call_oversize_witness :
    (event_loop cleartext
      (handle_received cleartext { reference_host with MAX_FUNCTION_ARG_LENGTH := 2 }) fresh
      ⟨[0, 0, 0], [(2, [0, 16]), (16, function_call_request)], [18], []⟩).map
      (fun r => r.1) = some false := by
  rw [(function_call_oversize cleartext { reference_host with MAX_FUNCTION_ARG_LENGTH := 2 }
    fresh ⟨[0, 0, 0], [(2, [0, 16]), (16, function_call_request)], [18], []⟩
    2 (memcpy fresh.queue 0 [0, 16])
    ⟨[0, 0, 0], [(16, function_call_request)], [18], []⟩
    16 0 ⟨[0, 0], [(16, function_call_request)], [18], []⟩
    16 (memcpy fresh.queue 0 function_call_request)
    ⟨[0], [], [18], []⟩
    { fresh_with function_call_request with iv_receive := function_call_request }
    18 ⟨[], [], [], slice (stage_empty_ack cleartext (fresh_with function_call_request) 16).queue 16 18⟩
    (by decide) (by decide) (by decide) (by decide) (by decide) (by decide) (by decide)
    (by decide) (by decide) (by decide) (by decide) (by decide)).2]
  rfl

/-- C13 (counterexample): a well-formed FUNCTION_CALL for `led` with an argument of 64
bytes, `MAX_FUNCTION_ARG_LENGTH` being 64, enciphered with AES-128: both
`handle_received_message` and the enclosing `event_loop` return `false`. -/
theorem function_call_oversize_disconnects :
    received_message_type oversize_function_call_request 0 = .FUNCTION_CALL ∧
    function_query oversize_function_call_request = (12, 64) ∧
    reference_host.MAX_FUNCTION_ARG_LENGTH = 64 ∧
    (handle_received_message reference reference_host (fresh_with [0, 80])
      ⟨[0, 0, 0], [(80, cbc_frame fresh.key fresh.iv_receive oversize_function_call_request)],
        [18], []⟩).map (fun r => r.1) = some false ∧
    (event_loop reference (handle_received reference reference_host) fresh
      ⟨[0, 0, 0], [(2, [0, 80]),
        (80, cbc_frame fresh.key fresh.iv_receive oversize_function_call_request)],
        [18], []⟩).map (fun r => r.1) = some false := by
  have key : (handle_received_message reference reference_host (fresh_with [0, 80])
      ⟨[0, 0, 0], [(80, cbc_frame fresh.key fresh.iv_receive oversize_function_call_request)],
        [18], []⟩).map (fun r => r.1) = some false := by decide
  refine ⟨by decide, by decide, by decide, key, ?_⟩
  rw [event_loop_received reference _ fresh
    ⟨[0, 0, 0], [(2, [0, 80]),
      (80, cbc_frame fresh.key fresh.iv_receive oversize_function_call_request)], [18], []⟩
    2 (memcpy fresh.queue 0 [0, 80])
    ⟨[0, 0, 0], [(80, cbc_frame fresh.key fresh.iv_receive oversize_function_call_request)],
      [18], []⟩ rfl (by decide)]
  unfold handle_received
  rw [Option.map_map]
  exact key

theorem length_takeWhile_le_of_zero : ∀ (l : List Nat) (i : Nat), l[i]? = some 0 →
    (l.takeWhile (fun b => b ≠ 0)).length ≤ i := by
  intro l
  induction l with
  | nil => intro i h; simp at h
  | cons b bs ih =>
    intro i h
    cases i with
    | zero =>
      simp only [List.getElem?_cons_zero, Option.some.injEq] at h
      subst h
      simp
    | succ i =>
      rw [List.getElem?_cons_succ] at h
      rw [List.takeWhile_cons]
      split
      · simp only [List.length_cons]
        have := ih i h
        omega
      · simp

theorem variable_key_spec (queue : List Nat) :
    (variable_key queue).length = 13 ∧ peek (variable_key queue) 12 = 0 ∧
    (cstr (variable_key queue) 0).length ≤ MAX_VARIABLE_KEY_LENGTH := by
  have hlen : (variable_key queue).length = 13 := by
    simp [variable_key, memset, length_memcpy]
  have h12 : (variable_key queue)[12]? = some 0 := by
    unfold variable_key
    simp only [memset, getElem?_memcpy, length_memcpy, List.length_replicate]
    split_ifs with h1 h2 h3 h4
    all_goals first
      | (simp only [List.getElem?_replicate]; split_ifs <;> first | rfl | omega)
      | omega
  refine ⟨hlen, ?_, ?_⟩
  · simp [peek, List.getD_eq_getElem?_getD, h12]
  · unfold cstr
    rw [List.drop_zero]
    exact length_takeWhile_le_of_zero _ 12 h12

/-- C14: the VARIABLE_REQUEST handler clamps its key to 12 bytes and its 13-byte buffer
always ends in a null byte, but the FUNCTION_CALL handler copies `queue[7] & 0x0F` bytes
unclamped. For the well-formed request naming a function of 14 bytes it copies 13 bytes,
so that `function_key` holds no null byte and `call_function` is handed a key longer than
`MAX_FUNCTION_KEY_LENGTH`; for the header `0x0f` it copies 15 bytes into the 13-byte
array. -/
theorem function_key_not_clamped :
    (∀ queue, (variable_key queue).length = 13 ∧ peek (variable_key queue) 12 = 0 ∧
      (cstr (variable_key queue) 0).length ≤ MAX_VARIABLE_KEY_LENGTH) ∧
    received_message_type long_name_function_call_request 0 = .FUNCTION_CALL ∧
    function_key_length long_name_function_call_request = 13 ∧
    function_key long_name_function_call_request
      = 1 :: "abcdefghijkl".toList.map Char.toNat ∧
    (∀ b ∈ function_key long_name_function_call_request, b ≠ 0) ∧
    MAX_FUNCTION_KEY_LENGTH
      < (cstr (function_key long_name_function_call_request) 0).length ∧
    variable_key long_name_function_call_request
      = 1 :: "abcdefghijk".toList.map Char.toNat ++ [0] ∧
    (handle_function_call cleartext reference_host
        (fresh_with long_name_function_call_request) ⟨[0, 0], [], [18, 18], []⟩ 32 7).map
      (fun r => r.2.2.2.get? 1)
      = some (some (.call_function (1 :: "abcdefghijkl".toList.map Char.toNat) [])) ∧
    received_message_type long_key_function_call_request 0 = .FUNCTION_CALL ∧
    function_key_length long_key_function_call_request = 15 ∧
    (slice long_key_function_call_request 8
      (function_key_length long_key_function_call_request)).length = 15 ∧
    (function_key long_key_function_call_request).length = 13 ∧
    (∀ b ∈ function_key long_key_function_call_request, b ≠ 0) := by
  refine ⟨variable_key_spec, ?_, ?_, ?_, ?_, ?_, ?_, ?_, ?_, ?_, ?_, ?_, ?_⟩ <;> decide

theorem memcpy_append (a : List Nat) : ∀ (buf : List Nat) (off : Nat) (b : List Nat),
    memcpy (memcpy buf off a) (off + a.length) b = memcpy buf off (a ++ b) := by
  induction a with
  | nil => intro buf off b; rfl
  | cons x xs ih =>
    intro buf off b
    have e : off + (x :: xs).length = off + 1 + xs.length := by
      simp only [List.length_cons]; omega
    rw [List.cons_append, memcpy, memcpy, e, ih]

theorem variable_value_bool_eq (c : Primitives) (p : Session) (off token msb lsb : Nat)
    (v : Bool) :
    variable_value_bool c p off token msb lsb v = encrypt c { p with
        queue := memcpy p.queue off [0x61, 0x45, msb % 256, lsb % 256, token % 256, 0xff,
          if v then 1 else 0, 9, 9, 9, 9, 9, 9, 9, 9, 9] } off 16 := by
  cases v <;>
    simp only [variable_value_bool, poke, memset, memcpy, List.replicate, Nat.add_assoc] <;> rfl

theorem variable_value_int_eq (c : Primitives) (p : Session) (off token msb lsb : Nat)
    (v : Int) :
    variable_value_int c p off token msb lsb v = encrypt c { p with
        queue := memcpy p.queue off [0x61, 0x45, msb % 256, lsb % 256, token % 256, 0xff,
          int_byte v 24, int_byte v 16, int_byte v 8, int_byte v 0, 6, 6, 6, 6, 6, 6] }
      off 16 := by
  simp only [variable_value_int, poke, memset, memcpy, List.replicate, Nat.add_assoc,
    int_byte_mod]

theorem variable_value_string_eq (c : Primitives) (p : Session) (off token msb lsb : Nat)
    (s : List Nat) (n : Nat) (hn : n ≤ s.length) (hlen : 6 + n + 16 < 2 ^ 32) :
    variable_value_string c p off token msb lsb s n
      = (encrypt c { p with
          queue := memcpy p.queue off ([0x61, 0x45, msb % 256, lsb % 256, token % 256, 0xff]
            ++ s.take n
            ++ List.replicate ((6 + n) / 16 * 16 + 16 - (6 + n))
                ((6 + n) / 16 * 16 + 16 - (6 + n))) } off ((6 + n) / 16 * 16 + 16),
          (6 + n) / 16 * 16 + 16) := by
  have hm : (6 + n) &&& 0xFFFFFFF0 = (6 + n) / 16 * 16 := land_mask_eq _ (by omega)
  have e1 : ((6 + n) / 16 * 16 + 16) % 2 ^ 32 = (6 + n) / 16 * 16 + 16 := by
    apply Nat.mod_eq_of_lt; omega
  have e2 : ((6 + n) / 16 * 16 + 16 + 2 ^ 32 - (6 + n) % 2 ^ 32) % 256
      = (6 + n) / 16 * 16 + 16 - (6 + n) := by
    rw [Nat.mod_eq_of_lt (by omega : 6 + n < 2 ^ 32)]
    omega
  have e3 : ((6 + n) / 16 * 16 + 16 - (6 + n)) % 256 = (6 + n) / 16 * 16 + 16 - (6 + n) := by
    omega
  have hs : slice s 0 n = s.take n := by simp [slice]
  have hl : (s.take n).length = n := by simp [hn]
  have h6 : ∀ q : List Nat, memcpy (memcpy q off
      [0x61, 0x45, msb % 256, lsb % 256, token % 256, 0xff]) (off + 6) (s.take n)
      = memcpy q off ([0x61, 0x45, msb % 256, lsb % 256, token % 256, 0xff] ++ s.take n) :=
    fun q => memcpy_append _ q off _
  have h7 : ∀ (q : List Nat) (l : List Nat), memcpy (memcpy q off
      ([0x61, 0x45, msb % 256, lsb % 256, token % 256, 0xff] ++ s.take n)) (off + (6 + n)) l
      = memcpy q off ([0x61, 0x45, msb % 256, lsb % 256, token % 256, 0xff] ++ s.take n ++ l) := by
    intro q l
    have hL : ([0x61, 0x45, msb % 256, lsb % 256, token % 256, 0xff] ++ s.take n).length
        = 6 + n := by
      simp only [List.length_append, List.length_cons, List.length_nil, hl]
    have := memcpy_append ([0x61, 0x45, msb % 256, lsb % 256, token % 256, 0xff] ++ s.take n)
      q off l
    rw [hL] at this
    exact this
  unfold variable_value_string
  simp only [hm, e1, e2, memset, e3, hs]
  have hp : poke (poke (poke (poke (poke (poke p.queue off 0x61) (off + 1) 0x45) (off + 2) msb)
      (off + 3) lsb) (off + 4) token) (off + 5) 0xff
      = memcpy p.queue off [0x61, 0x45, msb % 256, lsb % 256, token % 256, 0xff] := by
    simp only [poke, memcpy, Nat.add_assoc]
  rw [hp, h6, h7]

theorem handle_variable_request_eq (c : Primitives) (h : Host) (p : Session) (w : World)
    (token : Nat) :
    handle_variable_request c h p w token =
      (blocking_send (stage_variable_value c h p token).queue 0
        (((peek (stage_variable_value c h p token).queue 0 <<< 8)
          + peek (stage_variable_value c h p token).queue 1 + 2 : Nat) : Int) w).bind
        fun r => some (decide (0 ≤ r.1), stage_variable_value c h p token, r.2,
          [.send (slice (stage_variable_value c h p token).queue 0
            ((peek (stage_variable_value c h p token).queue 0 <<< 8)
              + peek (stage_variable_value c h p token).queue 1 + 2))]) := by
  simp only [handle_variable_request]
  generalize stage_variable_value c h p token = s
  cases hb : blocking_send s.queue 0
      (((peek s.queue 0 <<< 8) + peek s.queue 1 + 2 : Nat) : Int) w with
  | none => simp [hb]
  | some r =>
    obtain ⟨r, w1⟩ := r
    by_cases hr : r < 0
    · have hd : ¬ 0 ≤ r := by omega
      simp [hb, hr, hd]
    · have hd : 0 ≤ r := by omega
      simp [hb, hr, hd]

theorem peek_staged_header (c : Primitives) (p : Session) (q src : List Nat) (n : Nat)
    (hq : 2 ≤ q.length) (hp : p.queue = memcpy (poke (poke q 0 0) 1 16) 2 src) :
    peek (encrypt c p 2 n).queue 0 = 0 ∧ peek (encrypt c p 2 n).queue 1 = 16 := by
  have h02 : slice (encrypt c p 2 n).queue 0 2 = slice (poke (poke q 0 0) 1 16) 0 2 := by
    rw [slice_encrypt_before c p 2 n 0 2 (by decide), hp,
      slice_memcpy_disjoint _ _ 2 0 2 (Or.inl (by decide))]
  have h0 := peek_eq_of_slice_eq _ _ 0 2 0 h02 (by omega)
  have h1 := peek_eq_of_slice_eq _ _ 0 2 1 h02 (by omega)
  rw [h0, h1, peek_poke_other _ _ _ _ (by decide), peek_poke_same _ _ _ (by omega),
    peek_poke_same _ _ _ (by simp only [length_poke]; omega)]
  exact ⟨rfl, rfl⟩

theorem stage_variable_value_bool (c : Primitives) (h : Host) (p : Session) (token : Nat)
    (ht : h.descriptor.variable_type (cstr (variable_key p.queue) 0) = .BOOLEAN) :
    stage_variable_value c h p token = encrypt c { p with
      queue := memcpy (poke (poke p.queue 0 0) 1 16) 2
        ([0x61, 0x45, peek p.queue 2 % 256, peek p.queue 3 % 256, token % 256, 0xff]
          ++ [if (h.descriptor.get_variable (cstr (variable_key p.queue) 0)).as_bool
              then 1 else 0] ++ List.replicate 9 9) } 2 16 := by
  unfold stage_variable_value
  simp only [ht]
  rw [variable_value_bool_eq, peek_poke_other _ _ _ _ (by decide),
    peek_poke_other _ _ _ _ (by decide), peek_poke_other _ _ _ _ (by decide),
    peek_poke_other _ _ _ _ (by decide)]
  rfl

theorem stage_variable_value_int (c : Primitives) (h : Host) (p : Session) (token : Nat)
    (ht : h.descriptor.variable_type (cstr (variable_key p.queue) 0) = .INT) :
    stage_variable_value c h p token = encrypt c { p with
      queue := memcpy (poke (poke p.queue 0 0) 1 16) 2
        ([0x61, 0x45, peek p.queue 2 % 256, peek p.queue 3 % 256, token % 256, 0xff]
          ++ [int_byte (h.descriptor.get_variable (cstr (variable_key p.queue) 0)).as_int 24,
            int_byte (h.descriptor.get_variable (cstr (variable_key p.queue) 0)).as_int 16,
            int_byte (h.descriptor.get_variable (cstr (variable_key p.queue) 0)).as_int 8,
            int_byte (h.descriptor.get_variable (cstr (variable_key p.queue) 0)).as_int 0]
          ++ List.replicate 6 6) } 2 16 := by
  unfold stage_variable_value
  simp only [ht]
  rw [variable_value_int_eq, peek_poke_other _ _ _ _ (by decide),
    peek_poke_other _ _ _ _ (by decide), peek_poke_other _ _ _ _ (by decide),
    peek_poke_other _ _ _ _ (by decide)]
  rfl

theorem staged_length_18 (c : Primitives) (p : Session) (src : List Nat)
    (hq : 2 ≤ p.queue.length) :
    (peek (encrypt c { p with queue := memcpy (poke (poke p.queue 0 0) 1 16) 2 src }
      2 16).queue 0 <<< 8)
    + peek (encrypt c { p with queue := memcpy (poke (poke p.queue 0 0) 1 16) 2 src }
      2 16).queue 1 + 2 = 18 := by
  have hh := peek_staged_header c
    { p with queue := memcpy (poke (poke p.queue 0 0) 1 16) 2 src } p.queue src 16 hq rfl
  rw [hh.1, hh.2]
  rfl

theorem stage_variable_value_string_eq (c : Primitives) (h : Host) (p : Session)
    (token : Nat) (s : List Nat) (n padded : Nat)
    (hs : s = (h.descriptor.get_variable (cstr (variable_key p.queue) 0)).as_string)
    (hn : n = min s.length (QUEUE_SIZE - 18)) (hpad : padded = (6 + n) / 16 * 16 + 16)
    (ht : h.descriptor.variable_type (cstr (variable_key p.queue) 0) = .STRING) :
    stage_variable_value c h p token
      = { encrypt c { p with
          queue := memcpy (poke (poke p.queue 0 0) 1 16) 2
            ([0x61, 0x45, peek p.queue 2 % 256, peek p.queue 3 % 256, token % 256, 0xff]
              ++ s.take n ++ List.replicate (padded - (6 + n)) (padded - (6 + n))) }
            2 padded with
        queue := poke (poke (encrypt c { p with
          queue := memcpy (poke (poke p.queue 0 0) 1 16) 2
            ([0x61, 0x45, peek p.queue 2 % 256, peek p.queue 3 % 256, token % 256, 0xff]
              ++ s.take n ++ List.replicate (padded - (6 + n)) (padded - (6 + n))) }
            2 padded).queue 1 (padded % 256)) 0 (padded / 256) } := by
  have hQ : QUEUE_SIZE = 640 := rfl
  have hn1 : n ≤ s.length := by rw [hn]; exact Nat.min_le_left _ _
  have hn2 : n ≤ 622 := by
    have := Nat.min_le_right s.length (QUEUE_SIZE - 18)
    rw [← hn, hQ] at this
    exact this
  have hmin : (if s.length > QUEUE_SIZE - 2 - 16 then QUEUE_SIZE - 2 - 16 else s.length)
      = n := by
    rw [hn, hQ]
    split <;> omega
  have e3 : ∀ q i, poke q i ((padded >>> 8) &&& 0xff) = poke q i (padded / 256) := by
    intro q i
    apply poke_congr
    rw [Nat.shiftRight_eq_div_pow]
    have : (0xff : Nat) = 2 ^ 8 - 1 := by decide
    rw [this, Nat.and_pow_two_sub_one_eq_mod]
    omega
  have e4 : ∀ q i, poke q i (padded &&& 0xff) = poke q i (padded % 256) := by
    intro q i
    apply poke_congr
    have : (0xff : Nat) = 2 ^ 8 - 1 := by decide
    rw [this, Nat.and_pow_two_sub_one_eq_mod]
  unfold stage_variable_value
  simp only [ht]
  rw [← hs, hmin, variable_value_string_eq c _ 2 token _ _ s n hn1 (by omega), ← hpad]
  simp only [e3, e4]
  rw [peek_poke_other _ _ _ _ (by decide), peek_poke_other _ _ _ _ (by decide),
    peek_poke_other _ _ _ _ (by decide), peek_poke_other _ _ _ _ (by decide)]

theorem stage_variable_value_string_length (c : Primitives) (h : Host) (p : Session)
    (token : Nat) (s : List Nat) (n padded : Nat)
    (hs : s = (h.descriptor.get_variable (cstr (variable_key p.queue) 0)).as_string)
    (hn : n = min s.length (QUEUE_SIZE - 18)) (hpad : padded = (6 + n) / 16 * 16 + 16)
    (ht : h.descriptor.variable_type (cstr (variable_key p.queue) 0) = .STRING)
    (hfit : 2 + padded ≤ p.queue.length) :
    padded % 16 = 0 ∧ 6 + n < padded ∧ padded ≤ 6 + n + 16 ∧
    peek (stage_variable_value c h p token).queue 0 = padded / 256 ∧
    peek (stage_variable_value c h p token).queue 1 = padded % 256 ∧
    (peek (stage_variable_value c h p token).queue 0 <<< 8)
      + peek (stage_variable_value c h p token).queue 1 + 2 = padded + 2 := by
  have hQ : QUEUE_SIZE = 640 := rfl
  have hn2 : n ≤ 622 := by
    have := Nat.min_le_right s.length (QUEUE_SIZE - 18)
    rw [← hn, hQ] at this
    exact this
  have hst := stage_variable_value_string_eq c h p token s n padded hs hn hpad ht
  refine ⟨by omega, by omega, by omega, ?_⟩
  generalize hE : encrypt c { p with
          queue := memcpy (poke (poke p.queue 0 0) 1 16) 2
            ([0x61, 0x45, peek p.queue 2 % 256, peek p.queue 3 % 256, token % 256, 0xff]
              ++ s.take n ++ List.replicate (padded - (6 + n)) (padded - (6 + n))) }
            2 padded = enc at hst
  have hlen : enc.queue.length = p.queue.length := by
    rw [← hE, length_encrypt]
    simp only [length_memcpy, length_poke]
  have h0 : peek (stage_variable_value c h p token).queue 0 = padded / 256 := by
    rw [hst]
    dsimp only
    rw [peek_poke_same _ _ _ (by rw [length_poke, hlen]; omega)]
    omega
  have h1 : peek (stage_variable_value c h p token).queue 1 = padded % 256 := by
    rw [hst]
    dsimp only
    rw [peek_poke_other _ _ _ _ (by decide), peek_poke_same _ _ _ (by rw [hlen]; omega)]
    omega
  refine ⟨h0, h1, ?_⟩
  rw [h0, h1, Nat.shiftLeft_eq]
  omega

/-- C15: the reply to a VARIABLE_REQUEST is staged at `queue + 2` behind a two-byte
length prefix and handed to `blocking_send`; its plaintext is `61 45 m1 m0 t ff` followed,
for the variable named by the key of at most 12 bytes, by `01` or `00` and 9 bytes of 09
for a BOOLEAN, by the four big-endian bytes of the value and 6 bytes of 06 for an INT
(`00 00 00 2A` for 42), and for a STRING whose reply fits the buffer by the first
`min(len, QUEUE_SIZE - 18)` bytes of the string padded PKCS#7 to the next multiple of 16,
the prefix then carrying that padded length. -/
theorem variable_request_reply (c : Primitives) (h : Host) (p : Session) (w : World)
    (token : Nat) (hq : 4 ≤ p.queue.length) :
    let key := cstr (variable_key p.queue) 0
    let v := h.descriptor.get_variable key
    let hdr := [0x61, 0x45, peek p.queue 2 % 256, peek p.queue 3 % 256, token % 256, 0xff]
    let q0 := poke (poke p.queue 0 0) 1 16
    let n := min v.as_string.length (QUEUE_SIZE - 18)
    let padded := (6 + n) / 16 * 16 + 16
    let staged := stage_variable_value c h p token
    let length := (peek staged.queue 0 <<< 8) + peek staged.queue 1 + 2
    key.length ≤ MAX_VARIABLE_KEY_LENGTH ∧
    (∀ (r : Int) (w1 : World), blocking_send staged.queue 0 length w = some (r, w1) →
      handle_variable_request c h p w token
        = some (decide (0 ≤ r), staged, w1, [.send (slice staged.queue 0 length)])) ∧
    (h.descriptor.variable_type key = .BOOLEAN →
      staged = encrypt c { p with
        queue := memcpy q0 2 (hdr ++ [if v.as_bool then 1 else 0] ++ List.replicate 9 9) }
        2 16 ∧ length = 18) ∧
    (h.descriptor.variable_type key = .INT →
      staged = encrypt c { p with
        queue := memcpy q0 2 (hdr ++ [int_byte v.as_int 24, int_byte v.as_int 16,
          int_byte v.as_int 8, int_byte v.as_int 0] ++ List.replicate 6 6) } 2 16 ∧
      length = 18) ∧
    ((2 ^ 24 * int_byte v.as_int 24 + 2 ^ 16 * int_byte v.as_int 16
      + 2 ^ 8 * int_byte v.as_int 8 + int_byte v.as_int 0 : Nat) : Int)
        = v.as_int % 2 ^ 32 ∧
    (v.as_int = 42 → [int_byte v.as_int 24, int_byte v.as_int 16, int_byte v.as_int 8,
      int_byte v.as_int 0] = [0x00, 0x00, 0x00, 0x2A]) ∧
    (h.descriptor.variable_type key = .STRING → 2 + padded ≤ p.queue.length →
      staged = { encrypt c { p with
          queue := memcpy q0 2 (hdr ++ v.as_string.take n
            ++ List.replicate (padded - (6 + n)) (padded - (6 + n))) } 2 padded with
        queue := poke (poke (encrypt c { p with
          queue := memcpy q0 2 (hdr ++ v.as_string.take n
            ++ List.replicate (padded - (6 + n)) (padded - (6 + n))) } 2 padded).queue
          1 (padded % 256)) 0 (padded / 256) } ∧
      padded % 16 = 0 ∧ 6 + n < padded ∧ padded ≤ 6 + n + 16 ∧
      peek staged.queue 0 = padded / 256 ∧ peek staged.queue 1 = padded % 256 ∧
      length = padded + 2) := by
  intro key v hdr q0 n padded staged length
  have hq2 : 2 ≤ p.queue.length := by omega
  refine ⟨(variable_key_spec p.queue).2.2, ?_, ?_, ?_, int_byte_big_endian _, ?_, ?_⟩
  · intro r w1 hs
    rw [handle_variable_request_eq, hs]
    rfl
  · intro ht
    have hst := stage_variable_value_bool c h p token ht
    refine ⟨hst, ?_⟩
    show (peek (stage_variable_value c h p token).queue 0 <<< 8)
      + peek (stage_variable_value c h p token).queue 1 + 2 = 18
    rw [hst]
    exact staged_length_18 c p _ hq2
  · intro ht
    have hst := stage_variable_value_int c h p token ht
    refine ⟨hst, ?_⟩
    show (peek (stage_variable_value c h p token).queue 0 <<< 8)
      + peek (stage_variable_value c h p token).queue 1 + 2 = 18
    rw [hst]
    exact staged_length_18 c p _ hq2
  · intro h42
    rw [h42]
    decide
  · intro ht hfit
    exact ⟨stage_variable_value_string_eq c h p token _ n padded rfl rfl rfl ht,
      stage_variable_value_string_length c h p token _ n padded rfl rfl rfl ht hfit⟩

theorem variable_request_reply_witness :
    4 ≤ (fresh_with variable_request).queue.length ∧
    received_message_type variable_request 0 = .VARIABLE_REQUEST ∧
    cstr (variable_key (fresh_with variable_request).queue) 0
      = ['t'.toNat, 'e'.toNat, 'm'.toNat, 'p'.toNat] ∧
    (handle_variable_request cleartext reference_host (fresh_with variable_request)
        ⟨[0], [], [18], []⟩ 7).map (fun r => (r.1, r.2.2.1.sent))
      = some (true, [0, 16, 0x61, 0x45, 0x12, 0x34, 7, 0xff, 0x00, 0x00, 0x00, 0x2A,
          6, 6, 6, 6, 6, 6]) :=
  ⟨by decide, by decide, by decide,
    by
      rw [(variable_request_reply cleartext reference_host (fresh_with variable_request)
        ⟨[0], [], [18], []⟩ 7 (by decide)).2.1 18
        ⟨[], [], [], [0, 16, 0x61, 0x45, 0x12, 0x34, 7, 0xff, 0x00, 0x00, 0x00, 0x2A,
          6, 6, 6, 6, 6, 6]⟩ (by decide)]
      rfl⟩

theorem chunk_missed_eq (c : Primitives) (p : Session) (off chunk_index : Nat) :
    chunk_missed c p off chunk_index = encrypt c { p with
        _message_id := (p._message_id + 1) % 2 ^ 16
        queue := memcpy p.queue off [0x40, 0x01, (p._message_id + 1) % 2 ^ 16 / 256,
          (p._message_id + 1) % 2 ^ 16 % 256, 0xb1, 'c'.toNat, 0xff,
          chunk_index / 256 % 256, chunk_index % 256, 7, 7, 7, 7, 7, 7, 7] } off 16 := by
  have hm : (p._message_id + 1) % 2 ^ 16 / 256 % 256 = (p._message_id + 1) % 2 ^ 16 / 256 := by
    omega
  have hc : 'c'.toNat % 256 = 'c'.toNat := by decide
  simp only [chunk_missed, next_message_id, poke, memset, memcpy, List.replicate,
    shiftRight8_mod, land_ff_mod, Nat.add_assoc, hm, hc]

theorem chunk_received_eq (c : Primitives) (p : Session) (off token code : Nat) :
    chunk_received c p off token code = encrypt c { p with
        _message_id := (p._message_id + 1) % 2 ^ 16
        queue := memcpy p.queue off [0x51, code % 256, (p._message_id + 1) % 2 ^ 16 / 256,
          (p._message_id + 1) % 2 ^ 16 % 256, token % 256,
          11, 11, 11, 11, 11, 11, 11, 11, 11, 11, 11] } off 16 := by
  have hm : (p._message_id + 1) % 2 ^ 16 / 256 % 256 = (p._message_id + 1) % 2 ^ 16 / 256 := by
    omega
  have h11 : (2 ^ 32 + 16 - 5) % 2 ^ 32 = 11 := by decide
  simp only [chunk_received, separate_response, separate_response_with_payload,
    next_message_id, h11, poke, memset, memcpy, List.replicate,
    shiftRight8_mod, land_ff_mod, Nat.add_assoc, hm]

theorem update_ready_eq (c : Primitives) (p : Session) (off token : Nat) :
    update_ready c p off token = encrypt c { p with
        _message_id := (p._message_id + 1) % 2 ^ 16
        queue := memcpy p.queue off [0x51, 0x44, (p._message_id + 1) % 2 ^ 16 / 256,
          (p._message_id + 1) % 2 ^ 16 % 256, token % 256, 0xff, 1,
          9, 9, 9, 9, 9, 9, 9, 9, 9] } off 16 := by
  have hm : (p._message_id + 1) % 2 ^ 16 / 256 % 256 = (p._message_id + 1) % 2 ^ 16 / 256 := by
    omega
  have h9 : (2 ^ 32 + 16 - (5 + 1 + [1].length)) % 2 ^ 32 = 9 := by decide
  simp only [update_ready, separate_response_with_payload,
    next_message_id, h9, poke, memset, memcpy, List.replicate,
    shiftRight8_mod, land_ff_mod, Nat.add_assoc, hm]
  rfl

theorem handle_chunk_eq (c : Primitives) (h : Host) (p : Session) (w : World)
    (len token now : Nat) (w0 : World) (r1 : Int) (w1 : World) (acked replied : Session)
    (chunk : List Nat) (n : Nat)
    (hm : callback_millis w = some (now, w0))
    (hacked : acked = stage_empty_ack c { p with last_chunk_millis := now } len)
    (hs1 : blocking_send acked.queue len 18 w0 = some (r1, w1)) (hr1 : 0 ≤ r1)
    (hchunk : chunk = slice acked.queue 15 (len - 15 - peek acked.queue (len - 1)))
    (hn : n = h.save_firmware_chunk chunk % 2 ^ 16)
    (hreplied : replied =
      if n > acked.chunk_index
      then chunk_received c acked (len + 2) token h.ChunkReceivedCode_OK
      else chunk_missed c acked (len + 2) n) :
    handle_chunk c h p w len token =
      (blocking_send replied.queue len 18 w1).bind fun r2 =>
        some (decide (0 ≤ r2.1), { replied with chunk_index := n }, r2.2,
          [.send (slice acked.queue len 18),
            .calculate_crc (slice acked.queue 13 (len - 13 - peek acked.queue (len - 1))),
            .save_firmware_chunk chunk, .send (slice replied.queue len 18)]) := by
  have hr1' : ¬ 0 > r1 := by omega
  simp only [handle_chunk, hm, Option.bind_eq_bind, Option.some_bind, ← hacked, hs1, hr1',
    or_true, if_true, if_false, ← hchunk, ← hn, ← hreplied]
  cases hb : blocking_send replied.queue len 18 w1 with
  | none => simp [hb]
  | some r2 =>
    obtain ⟨r2, w2⟩ := r2
    by_cases hr : r2 < 0
    · have hd : ¬ 0 ≤ r2 := by omega
      simp [hb, hr, hd]
    · have hd : 0 ≤ r2 := by omega
      simp [hb, hr, hd]

theorem chunk_data_eq_below (c : Primitives) (p : Session) (len : Nat) (h16 : 16 ≤ len) :
    peek (stage_empty_ack c p len).queue (len - 1) = peek p.queue (len - 1) ∧
    slice (stage_empty_ack c p len).queue 13
        (len - 13 - peek (stage_empty_ack c p len).queue (len - 1))
      = slice p.queue 13 (len - 13 - peek p.queue (len - 1)) ∧
    slice (stage_empty_ack c p len).queue 15
        (len - 15 - peek (stage_empty_ack c p len).queue (len - 1))
      = slice p.queue 15 (len - 15 - peek p.queue (len - 1)) ∧
    be32_at (stage_empty_ack c p len).queue 8 = be32_at p.queue 8 := by
  have hsl := slice_stage_empty_ack_below c p len
  have hpk : ∀ i, i < len → peek (stage_empty_ack c p len).queue i = peek p.queue i :=
    fun i hi => peek_eq_below _ _ len i hsl hi
  refine ⟨hpk _ (by omega), ?_, ?_, ?_⟩
  · rw [hpk _ (by omega)]
    exact hsl _ _ (by omega)
  · rw [hpk _ (by omega)]
    exact hsl _ _ (by omega)
  · unfold be32_at
    rw [hpk _ (by omega), hpk _ (by omega), hpk _ (by omega), hpk _ (by omega)]

/-- C17: the CRC comparison of the CHUNK case is followed by `|| true`: what the handler
does is the same whatever `calculate_crc` returns, and for the request whose CRC field is
`DE AD BE EF` while the host computes 0 the chunk is saved, `chunk_index` advances and
the reply is `chunk_received` with the code OK (`51 44 ...`), not BAD. -/
theorem chunk_crc_not_checked :
    (∀ (c : Primitives) (h : Host) (p : Session) (w : World) (len token : Nat)
      (crc : List Nat → Nat),
      handle_chunk c { h with calculate_crc := crc } p w len token
        = handle_chunk c h p w len token) ∧
    received_message_type (chunk_request [0xDE, 0xAD, 0xBE, 0xEF]) 0 = .CHUNK ∧
    be32_at (chunk_request [0xDE, 0xAD, 0xBE, 0xEF]) 8 = 0xDEADBEEF ∧
    reference_host.calculate_crc (slice (chunk_request [0xDE, 0xAD, 0xBE, 0xEF]) 13 16) = 0 ∧
    reference_host.ChunkReceivedCode_OK = 0x44 ∧
    reference_host.ChunkReceivedCode_BAD = 0x80 ∧
    (handle_chunk cleartext reference_host
        (fresh_with (chunk_request [0xDE, 0xAD, 0xBE, 0xEF]))
        ⟨[5, 5, 5], [], [18, 18], []⟩ 32 7).map
      (fun r => (r.1, r.2.1.chunk_index, r.2.2.2.get? 2,
        xorBlock (slice r.2.1.queue 34 16)
          [0x60, 0x00, 0x12, 0x35, 12, 12, 12, 12, 12, 12, 12, 12, 12, 12, 12, 12]))
      = some (true, 1, some (.save_firmware_chunk ((List.range 16).drop 2)),
          [0x51, 0x44, 0x00, 0x01, 7, 11, 11, 11, 11, 11, 11, 11, 11, 11, 11, 11]) := by
  refine ⟨?_, by decide, by decide, by decide, by decide, by decide, by decide⟩
  intro c h p w len token crc
  simp only [handle_chunk, or_true, if_true]

/-! ## The flag `updating` -/

theorem updating_encrypt (c : Primitives) (p : Session) (off n : Nat) :
    (encrypt c p off n).updating = p.updating := rfl

theorem updating_stage_empty_ack (c : Primitives) (p : Session) (len : Nat) :
    (stage_empty_ack c p len).updating = p.updating := rfl

theorem updating_function_return (c : Primitives) (p : Session) (off token : Nat) (v : Int) :
    (function_return c p off token v).updating = p.updating := rfl

theorem updating_chunk_received (c : Primitives) (p : Session) (off token code : Nat) :
    (chunk_received c p off token code).updating = p.updating := by
  rw [chunk_received_eq]; rfl

theorem updating_chunk_missed (c : Primitives) (p : Session) (off n : Nat) :
    (chunk_missed c p off n).updating = p.updating := rfl

theorem updating_update_ready (c : Primitives) (p : Session) (off token : Nat) :
    (update_ready c p off token).updating = p.updating := by
  rw [update_ready_eq]; rfl

theorem updating_coded_ack (c : Primitives) (p : Session) (off token code msb lsb : Nat) :
    (coded_ack c p off token code msb lsb).updating = p.updating := rfl

theorem updating_hello (c : Primitives) (p : Session) (off : Nat) (b : Bool) :
    (hello c p off b).updating = p.updating := rfl

theorem updating_ping (c : Primitives) (p : Session) (off : Nat) :
    (ping c p off).updating = p.updating := rfl

theorem updating_wrap (c : Primitives) (p : Session) (off n : Nat) :
    (wrap c p off n).1.updating = p.updating := rfl

theorem updating_description (c : Primitives) (h : Host) (p : Session)
    (off token msb lsb : Nat) :
    (description c h p off token msb lsb).1.updating = p.updating := rfl

theorem updating_stage_variable_value (c : Primitives) (h : Host) (p : Session)
    (token : Nat) : (stage_variable_value c h p token).updating = p.updating := by
  unfold stage_variable_value
  dsimp only
  split <;> rfl

theorem updating_received_message (c : Primitives) (p : Session) (off n : Nat) :
    (received_message c p off n).2.updating = p.updating := rfl

theorem updating_set_key (c : Primitives) (p : Session) (s : List Nat) :
    (set_key c p s).2.updating = p.updating ∧
    (set_key c p s).2.expecting_ping_ack = p.expecting_ping_ack := by
  unfold set_key
  dsimp only
  split
  · exact ⟨rfl, rfl⟩
  · split <;> exact ⟨rfl, rfl⟩

theorem tracks_bind {α : Type} (g : Bool) (x : Option α)
    (f : α → Option (Bool × Session × World × List Effect))
    (hf : ∀ a, TracksUpdate g (f a)) : TracksUpdate g (x.bind f) := by
  intro r hr
  obtain ⟨a, _, ha⟩ := Option.bind_eq_some.mp hr
  exact hf a r ha

theorem tracks_ite (g : Bool) (cond : Prop) [Decidable cond]
    (a b : Option (Bool × Session × World × List Effect))
    (ha : TracksUpdate g a) (hb : TracksUpdate g b) :
    TracksUpdate g (if cond then a else b) := by
  split
  · exact ha
  · exact hb

theorem tracks_some (g : Bool) (r : Bool × Session × World × List Effect)
    (hr : r.2.1.updating = update_open_after g r.2.2.2) : TracksUpdate g (some r) := by
  intro r2 h2
  cases h2
  exact hr

theorem handle_function_call_tracks (c : Primitives) (h : Host) (p : Session) (w : World)
    (len token : Nat) : TracksUpdate p.updating (handle_function_call c h p w len token) := by
  simp only [handle_function_call, Option.bind_eq_bind, Option.pure_def]
  repeat first
    | exact tracks_some _ _ rfl
    | apply tracks_ite
    | (apply tracks_bind; rintro ⟨⟩)

theorem handle_chunk_tracks (c : Primitives) (h : Host) (p : Session) (w : World)
    (len token : Nat) : TracksUpdate p.updating (handle_chunk c h p w len token) := by
  simp only [handle_chunk, Option.bind_eq_bind, Option.pure_def, or_true, if_true]
  repeat first
    | exact tracks_some _ _ rfl
    | (apply tracks_some; dsimp only; split <;> rfl)
    | apply tracks_ite
    | (apply tracks_bind; rintro ⟨⟩)

theorem handle_describe_tracks (c : Primitives) (h : Host) (p : Session) (w : World)
    (token : Nat) : TracksUpdate p.updating (handle_describe c h p w token) := by
  simp only [handle_describe, Option.bind_eq_bind, Option.pure_def]
  repeat first
    | exact tracks_some _ _ rfl
    | apply tracks_ite
    | (apply tracks_bind; rintro ⟨⟩)

theorem handle_variable_request_tracks (c : Primitives) (h : Host) (p : Session) (w : World)
    (token : Nat) : TracksUpdate p.updating (handle_variable_request c h p w token) := by
  simp only [handle_variable_request, Option.bind_eq_bind, Option.pure_def]
  repeat first
    | exact tracks_some _ _ (updating_stage_variable_value c h p token)
    | apply tracks_ite
    | (apply tracks_bind; rintro ⟨⟩)

theorem handle_update_begin_tracks (c : Primitives) (p : Session) (w : World)
    (len token : Nat) (mt : CoAPMessageType) :
    TracksUpdate p.updating (handle_update_begin c p w len token mt) := by
  simp only [handle_update_begin, Option.bind_eq_bind, Option.pure_def]
  repeat first
    | exact tracks_some _ _ rfl
    | (apply tracks_some; dsimp only; split <;> rfl)
    | apply tracks_ite
    | (apply tracks_bind; rintro ⟨⟩)

theorem handle_update_done_tracks (c : Primitives) (h : Host) (p : Session) (w : World)
    (len token : Nat) : TracksUpdate p.updating (handle_update_done c h p w len token) := by
  simp only [handle_update_done, Option.bind_eq_bind, Option.pure_def]
  repeat first
    | exact tracks_some _ _ rfl
    | apply tracks_ite
    | (apply tracks_bind; rintro ⟨⟩)

theorem handle_signal_tracks (c : Primitives) (h : Host) (p : Session) (w : World)
    (token : Nat) (active : Bool) :
    TracksUpdate p.updating (handle_signal c h p w token active) := by
  simp only [handle_signal, Option.bind_eq_bind, Option.pure_def]
  repeat first
    | exact tracks_some _ _ rfl
    | apply tracks_ite
    | (apply tracks_bind; rintro ⟨⟩)

theorem handle_ping_tracks (c : Primitives) (p : Session) (w : World) (len : Nat) :
    TracksUpdate p.updating (handle_ping c p w len) := by
  simp only [handle_ping, Option.bind_eq_bind, Option.pure_def]
  repeat first
    | exact tracks_some _ _ rfl
    | apply tracks_ite
    | (apply tracks_bind; rintro ⟨⟩)

theorem dispatch_event_no_update (hs : List FilteringEventHandler) (buf : List Nat)
    (event_name event_name_length : Nat) (data : Option Nat) :
    ∀ (n i : Nat) (g : Bool),
      update_open_after g (dispatch_event hs buf event_name event_name_length data n i) = g := by
  intro n
  induction n with
  | zero => intro i g; rfl
  | succ n ih =>
    intro i g
    unfold dispatch_event
    split
    · rfl
    · dsimp only
      split
      · rfl
      · split
        · exact ih _ _
        · split
          · rfl
          · exact ih _ _

theorem handle_event_tracks (h : Host) (p : Session) (w : World) (len : Nat) :
    TracksUpdate p.updating (handle_event h p w len) := by
  unfold handle_event
  split
  · intro r hr; cases hr
  · exact tracks_some _ _ rfl
  · exact tracks_some _ _ (dispatch_event_no_update _ _ _ _ _ _ _ _).symm

theorem handle_received_message_tracks (c : Primitives) (h : Host) (p : Session)
    (w : World) : TracksUpdate p.updating (handle_received_message c h p w) := by
  simp only [handle_received_message, Option.bind_eq_bind, Option.pure_def]
  apply tracks_bind
  rintro ⟨now, w0⟩
  dsimp only
  apply tracks_ite
  · exact tracks_some _ _ rfl
  apply tracks_bind
  rintro ⟨⟩
  apply tracks_bind
  rintro ⟨r, q, w1⟩
  dsimp only
  apply tracks_ite
  · exact tracks_some _ _ rfl
  apply tracks_bind
  rintro ⟨⟩
  have hu := updating_received_message c
    { p with queue := q, last_message_millis := now, expecting_ping_ack := false } 0
    ((peek p.queue 0 <<< 8) ||| peek p.queue 1)
  generalize received_message c
    { p with queue := q, last_message_millis := now, expecting_ping_ack := false } 0
    ((peek p.queue 0 <<< 8) ||| peek p.queue 1) = rm at hu ⊢
  obtain ⟨mt, p2⟩ := rm
  have hu2 : p.updating = p2.updating := hu.symm
  rw [hu2]
  cases mt <;> dsimp only
  · exact tracks_some _ _ rfl
  · exact handle_describe_tracks c h p2 w1 _
  · exact handle_function_call_tracks c h p2 w1 _ _
  · exact handle_variable_request_tracks c h p2 w1 _
  · exact handle_update_begin_tracks c p2 w1 _ _ _
  · exact handle_update_begin_tracks c p2 w1 _ _ _
  · exact handle_update_done_tracks c h p2 w1 _ _
  · exact handle_chunk_tracks c h p2 w1 _ _
  · exact handle_event_tracks h p2 w1 _
  · exact tracks_some _ _ rfl
  · exact handle_signal_tracks c h p2 w1 _ _
  · exact handle_signal_tracks c h p2 w1 _ _
  · exact tracks_some _ _ rfl
  · exact tracks_some _ _ rfl
  · exact handle_ping_tracks c p2 w1 _
  · exact tracks_some _ _ rfl

theorem ensures_bind {α β : Type} (Q : β → Prop) (x : Option α) (f : α → Option β)
    (hf : ∀ a, Ensures Q (f a)) : Ensures Q (x.bind f) := by
  intro r hr
  obtain ⟨a, _, ha⟩ := Option.bind_eq_some.mp hr
  exact hf a r ha

theorem ensures_ite {β : Type} (Q : β → Prop) (cond : Prop) [Decidable cond]
    (a b : Option β) (ha : Ensures Q a) (hb : Ensures Q b) :
    Ensures Q (if cond then a else b) := by
  split
  · exact ha
  · exact hb

theorem ensures_some {β : Type} (Q : β → Prop) (r : β) (hr : Q r) : Ensures Q (some r) := by
  intro r2 h2
  cases h2
  exact hr

theorem event_loop_tracks (c : Primitives) (h : Host) (p : Session) (w : World)
    (r : Bool × Session × World)
    (hr : event_loop c (handle_received c h) p w = some r) :
    r.2.1.updating = update_open_after p.updating (event_loop_effects c h p w) := by
  cases hrecv : callback_receive w p.queue 0 with
  | none => simp [event_loop, hrecv] at hr
  | some a =>
    obtain ⟨n, q, w0⟩ := a
    by_cases h2 : 2 ≤ n
    · rw [event_loop_received c _ p w n q w0 hrecv h2] at hr
      simp only [event_loop_effects, hrecv, h2, if_true]
      unfold handle_received at hr
      cases hh : handle_received_message c h { p with queue := q } w0 with
      | none => rw [hh] at hr; cases hr
      | some rr =>
        rw [hh] at hr
        cases hr
        exact handle_received_message_tracks c h { p with queue := q } w0 rr hh
    · simp only [event_loop_effects, hrecv, h2, if_false]
      show r.2.1.updating = p.updating
      revert r
      show Ensures (fun r : Bool × Session × World => r.2.1.updating = p.updating) _
      simp only [event_loop, hrecv, Option.bind_eq_bind, Option.some_bind, Option.pure_def,
        h2, if_false]
      repeat first
        | exact ensures_some _ _ rfl
        | apply ensures_ite
        | (apply ensures_bind; rintro ⟨⟩)

theorem handshake_keeps_flags (c : Primitives) (b : Bool) (p : Session) (w : World) :
    Ensures (fun r : Int × Session × World =>
      r.2.1.updating = p.updating ∧ r.2.1.expecting_ping_ack = p.expecting_ping_ack)
      (handshake c b p w) := by
  simp only [handshake, Option.bind_eq_bind, Option.pure_def]
  repeat first
    | exact ensures_some _ _ ⟨rfl, rfl⟩
    | exact ensures_some _ _ (updating_set_key c _ _)
    | apply ensures_ite
    | (apply ensures_bind; rintro ⟨⟩)

theorem send_event_keeps_updating (c : Primitives)
    (event : List Nat → Nat → Nat → List Nat → Option (List Nat) → Int → Nat → List Nat × Nat)
    (p : Session) (lim : EventLimiter) (w : World) (event_name : List Nat)
    (data : Option (List Nat)) (ttl : Int) (event_type : Nat) :
    Ensures (fun r : Bool × Session × EventLimiter × World => r.2.1.updating = p.updating)
      (send_event c event p lim w event_name data ttl event_type) := by
  simp only [send_event, Option.bind_eq_bind, Option.pure_def]
  repeat first
    | exact ensures_some _ _ rfl
    | apply ensures_ite
    | (apply ensures_bind; rintro ⟨⟩)

theorem reachable_updating (c : Primitives) (h : Host)
    (event : List Nat → Nat → Nat → List Nat → Option (List Nat) → Int → Nat → List Nat × Nat)
    (p : Session) (g : Bool) (hp : Reachable c h event p g) : p.updating = g := by
  induction hp with
  | constructed p hp => exact hp
  | init p g id sp cp _ ih => exact ih
  | handshake p g b w r _ hr ih => rw [(handshake_keeps_flags c b p w r hr).1, ih]
  | event_loop p g w r _ hr ih => rw [event_loop_tracks c h p w r hr, ih]
  | reset_updating p g _ _ => rfl
  | send_event p g lim w n d t ty r _ hr ih =>
    rw [send_event_keeps_updating c event p lim w n d t ty r hr, ih]

theorem handle_update_begin_eq (c : Primitives) (p : Session) (w : World)
    (len token : Nat) (mt : CoAPMessageType) (r1 : Int) (w1 : World) (now : Nat) (w2 : World)
    (hs1 : blocking_send (stage_empty_ack c p len).queue len 18 w = some (r1, w1))
    (hr1 : 0 ≤ r1) (hm : callback_millis w1 = some (now, w2)) (r2 : Int) (w3 : World)
    (hs2 : blocking_send (update_ready c { stage_empty_ack c p len with
      last_chunk_millis := now, chunk_index := 0, updating := true } (len + 2) token).queue
      len 18 w2 = some (r2, w3)) :
    handle_update_begin c p w len token mt
      = some (decide (0 ≤ r2),
          update_ready c { stage_empty_ack c p len with
            last_chunk_millis := now, chunk_index := 0, updating := true } (len + 2) token,
          w3,
          [.send (slice (stage_empty_ack c p len).queue len 18),
            if mt = .SAVE_BEGIN then
              .prepare_to_save_file (be32_at (stage_empty_ack c p len).queue 8)
                (be32_at (stage_empty_ack c p len).queue 12)
            else .prepare_for_firmware_update,
            .send (slice (update_ready c { stage_empty_ack c p len with
              last_chunk_millis := now, chunk_index := 0, updating := true }
              (len + 2) token).queue len 18)]) := by
  have hr1' : ¬ 0 > r1 := by omega
  simp only [handle_update_begin, Option.bind_eq_bind, Option.some_bind, Option.pure_def,
    hs1, hr1', if_false, hm, hs2]
  by_cases hmt : mt = CoAPMessageType.SAVE_BEGIN
  · by_cases hr : r2 < 0
    · have hd : ¬ 0 ≤ r2 := by omega
      simp [hmt, hr, hd]
    · have hd : 0 ≤ r2 := by omega
      simp [hmt, hr, hd]
  · by_cases hr : r2 < 0
    · have hd : ¬ 0 ≤ r2 := by omega
      simp [hmt, hr, hd]
    · have hd : 0 ≤ r2 := by omega
      simp [hmt, hr, hd]

/-- C19 (as the code has it): in every state reachable through `init`, `handshake`,
`event_loop`, `reset_updating` and `send_event`, `updating` is true exactly when a
SAVE_BEGIN or UPDATE_BEGIN has been handled and since then no UPDATE_DONE has been
handled and `reset_updating` has not been called; a handshake leaves `updating` and
`expecting_ping_ack` as they are; and a SAVE_BEGIN or UPDATE_BEGIN whose ACK went out
sets `chunk_index` to 0, stores the clock value in `last_chunk_millis`, sets `updating`
and stages `51 44 mid_hi mid_lo token ff 01` + 9 bytes of 09. -/
theorem updating_tracks_update (c : Primitives) (h : Host)
    (event : List Nat → Nat → Nat → List Nat → Option (List Nat) → Int → Nat → List Nat × Nat) :
    (∀ (p : Session) (g : Bool), Reachable c h event p g → p.updating = g) ∧
    (∀ (b : Bool) (p : Session) (w : World) (r : Int × Session × World),
      handshake c b p w = some r →
      r.2.1.updating = p.updating ∧ r.2.1.expecting_ping_ack = p.expecting_ping_ack) ∧
    (∀ (p : Session) (w : World) (len token : Nat) (mt : CoAPMessageType) (r1 : Int)
      (w1 : World) (now : Nat) (w2 : World) (r2 : Int) (w3 : World),
      blocking_send (stage_empty_ack c p len).queue len 18 w = some (r1, w1) → 0 ≤ r1 →
      callback_millis w1 = some (now, w2) →
      blocking_send (update_ready c { stage_empty_ack c p len with
        last_chunk_millis := now, chunk_index := 0, updating := true }
        (len + 2) token).queue len 18 w2 = some (r2, w3) →
      ∃ ready : Session,
        (handle_update_begin c p w len token mt).map (fun r => (r.1, r.2.1, r.2.2.1))
          = some (decide (0 ≤ r2), ready, w3) ∧
        ready.chunk_index = 0 ∧ ready.last_chunk_millis = now ∧ ready.updating = true ∧
        ready = encrypt c { stage_empty_ack c p len with
          last_chunk_millis := now, chunk_index := 0, updating := true
          _message_id := (p._message_id + 1) % 2 ^ 16
          queue := memcpy (stage_empty_ack c p len).queue (len + 2)
            [0x51, 0x44, (p._message_id + 1) % 2 ^ 16 / 256,
              (p._message_id + 1) % 2 ^ 16 % 256, token % 256, 0xff, 0x01,
              9, 9, 9, 9, 9, 9, 9, 9, 9] } (len + 2) 16) := by
  refine ⟨reachable_updating c h event, fun b p w r hr => handshake_keeps_flags c b p w r hr,
    ?_⟩
  intro p w len token mt r1 w1 now w2 r2 w3 hs1 hr1 hm hs2
  refine ⟨update_ready c
    { stage_empty_ack c p len with last_chunk_millis := now, chunk_index := 0, updating := true }
    (len + 2) token, ?_, ?_, ?_, ?_, ?_⟩
  · rw [handle_update_begin_eq c p w len token mt r1 w1 now w2 hs1 hr1 hm r2 w3 hs2]
    rfl
  · rw [update_ready_eq]; rfl
  · rw [update_ready_eq]; rfl
  · rw [update_ready_eq]; rfl
  · rw [update_ready_eq]; rfl

theorem updating_tracks_update_witness :
    (event_loop cleartext (handle_received cleartext reference_host) fresh
      (frame_arrives update_begin_request)).map (fun r => (r.1, r.2.1.updating))
      = some (true, true) ∧
    update_open_after false (event_loop_effects cleartext reference_host fresh
      (frame_arrives update_begin_request)) = true := by
  have he : update_open_after false (event_loop_effects cleartext reference_host fresh
      (frame_arrives update_begin_request)) = true := by decide
  have hok : (event_loop cleartext (handle_received cleartext reference_host) fresh
      (frame_arrives update_begin_request)).map (fun r => r.1) = some true := by decide
  refine ⟨?_, he⟩
  cases hr : event_loop cleartext (handle_received cleartext reference_host) fresh
      (frame_arrives update_begin_request) with
  | none => rw [hr] at hok; cases hok
  | some r =>
    have hu := (updating_tracks_update cleartext reference_host
      (fun q _ _ _ _ _ _ => (q, 0))).1 r.2.1 _
      (Reachable.event_loop fresh false (frame_arrives update_begin_request) r
        (Reachable.constructed fresh rfl) hr)
    rw [hr] at hok
    rw [he] at hu
    simp only [Option.map_some', Option.some.injEq] at hok ⊢
    rw [hok, hu]

theorem handshake_succeeds_code (p : Session) :
    (handshake cleartext false p handshake_succeeds).map (fun r => r.1) = some 0 := rfl

theorem handshake_after (x : Option (Bool × Session × World)) (f : Session → Bool)
    (hx : x.map (fun r => f r.2.1) = some true)
    (hf : ∀ (p : Session) (r : Int × Session × World),
      handshake cleartext false p handshake_succeeds = some r → f r.2.1 = f p) :
    (x.bind fun r => handshake cleartext false r.2.1 handshake_succeeds).map
      (fun r => (r.1, f r.2.1)) = some (0, true) := by
  cases x with
  | none => cases hx
  | some r =>
    simp only [Option.map_some', Option.some.injEq] at hx
    have h0 := handshake_succeeds_code r.2.1
    simp only [Option.some_bind]
    cases hh : handshake cleartext false r.2.1 handshake_succeeds with
    | none => rw [hh] at h0; cases h0
    | some r2 =>
      rw [hh] at h0
      simp only [Option.map_some', Option.some.injEq] at h0
      simp only [Option.map_some', h0, hf r.2.1 r2 hh, hx]

/-- C19 (counterexample): after an UPDATE_BEGIN has been handled, a handshake that
succeeds leaves `updating` true, with no UPDATE_DONE and no `reset_updating` in between;
and after a keep-alive ping, a handshake that succeeds leaves `expecting_ping_ack`
true. -/
theorem handshake_does_not_reset_flags :
    received_message_type update_begin_request 0 = .UPDATE_BEGIN ∧
    event_loop_effects cleartext reference_host fresh (frame_arrives update_begin_request)
      = [.send [0, 16, 0x60, 0x00, 0x12, 0x36, 12, 12, 12, 12, 12, 12, 12, 12, 12, 12, 12, 12],
          .prepare_for_firmware_update,
          .send [0, 16, 0x31, 0x44, 0x12, 0x37, 11, 0xf3, 13, 5, 5, 5, 5, 5, 5, 5, 5, 5]] ∧
    ((event_loop cleartext (handle_received cleartext reference_host) fresh
        (frame_arrives update_begin_request)).bind
      fun r => handshake cleartext false r.2.1 handshake_succeeds).map
      (fun r => (r.1, r.2.1.updating)) = some (0, true) ∧
    ((event_loop cleartext (handle_received cleartext reference_host) fresh
        idle_keep_alive).bind
      fun r => handshake cleartext false r.2.1 handshake_succeeds).map
      (fun r => (r.1, r.2.1.expecting_ping_ack)) = some (0, true) := by
  refine ⟨by decide, by decide, ?_, ?_⟩
  · exact handshake_after _ (fun p => p.updating) (by decide)
      (fun p r hr => (handshake_keeps_flags cleartext false p handshake_succeeds r hr).1)
  · exact handshake_after _ (fun p => p.expecting_ping_ack) (by decide)
      (fun p r hr => (handshake_keeps_flags cleartext false p handshake_succeeds r hr).2)

/-! ## DESCRIBE -/

theorem take_memcpy (buf src : List Nat) (off k : Nat) (hk : k ≤ src.length)
    (hfit : off + src.length ≤ buf.length) :
    (memcpy buf off src).take (off + k) = buf.take off ++ src.take k := by
  apply List.ext_getElem?
  intro i
  simp only [List.getElem?_take, getElem?_memcpy, List.getElem?_append, List.length_take]
  have hm : min off buf.length = off := by omega
  rw [hm]
  by_cases h1 : i < off
  · have h2 : i < off + k := by omega
    have h3 : ¬ (off ≤ i ∧ i < off + src.length ∧ i < buf.length) := by omega
    simp [h1, h2, h3]
  · by_cases h2 : i < off + k
    · have h3 : off ≤ i ∧ i < off + src.length ∧ i < buf.length := by omega
      have h4 : i - off < k := by omega
      simp [h1, h2, h3, h4]
    · have h4 : ¬ i - off < k := by omega
      simp [h1, h2, h4]

theorem take_memcpy_below (buf src : List Nat) (off n : Nat) (hn : n ≤ off) :
    (memcpy buf off src).take n = buf.take n := by
  apply List.ext_getElem?
  intro i
  simp only [List.getElem?_take, getElem?_memcpy]
  by_cases h1 : i < n
  · have h3 : ¬ (off ≤ i ∧ i < off + src.length ∧ i < buf.length) := by omega
    simp [h1, h3]
  · simp [h1]

theorem take_memcpy_all (buf src : List Nat) (off : Nat)
    (hfit : off + src.length ≤ buf.length) :
    (memcpy buf off src).take (off + src.length) = buf.take off ++ src := by
  rw [take_memcpy buf src off src.length (Nat.le_refl _) hfit, List.take_length]

theorem take_poke (buf : List Nat) (i v : Nat) (hi : i < buf.length) :
    (poke buf i v).take (i + 1) = buf.take i ++ [v % 256] := by
  rw [poke_eq_memcpy]
  exact take_memcpy_all buf [v % 256] i (by simp only [List.length_singleton]; omega)

theorem drop_memcpy (buf src : List Nat) (off : Nat) (hfit : off + src.length ≤ buf.length) :
    (memcpy buf off src).drop off = src ++ buf.drop (off + src.length) := by
  apply List.ext_getElem?
  intro i
  simp only [List.getElem?_drop, getElem?_memcpy, List.getElem?_append]
  by_cases h1 : i < src.length
  · have h3 : off ≤ off + i ∧ off + i < off + src.length ∧ off + i < buf.length := by omega
    have e : off + i - off = i := by omega
    simp [h1, h3, e]
  · have h3 : ¬ (off ≤ off + i ∧ off + i < off + src.length ∧ off + i < buf.length) := by
      omega
    have e : off + src.length + (i - src.length) = off + i := by omega
    simp [h1, h3, e]

theorem takeWhile_append_of_mem (l rest : List Nat) (h0 : 0 ∈ l) :
    (l ++ rest).takeWhile (fun b => b ≠ 0) = l.takeWhile (fun b => b ≠ 0) := by
  induction l with
  | nil => simp at h0
  | cons b bs ih =>
    rw [List.cons_append, List.takeWhile_cons, List.takeWhile_cons]
    by_cases hb : b = 0
    · simp [hb]
    · have hmem : 0 ∈ bs := by
        rcases List.mem_cons.mp h0 with h | h
        · exact absurd h.symm hb
        · exact h
      have hd : decide (b ≠ 0) = true := by simp [hb]
      simp only [hd, if_true, ih hmem]

theorem cstr_memcpy (buf src : List Nat) (off : Nat) (h0 : 0 ∈ src)
    (hfit : off + src.length ≤ buf.length) :
    cstr (memcpy buf off src) off = cstr src 0 := by
  unfold cstr
  rw [drop_memcpy buf src off hfit, List.drop_zero, takeWhile_append_of_mem _ _ h0]

theorem take_eq_take_cstr (src : List Nat) (k : Nat) (hk : k ≤ (cstr src 0).length) :
    src.take k = (cstr src 0).take k := by
  unfold cstr at hk ⊢
  rw [List.drop_zero] at hk ⊢
  have h := List.takeWhile_append_dropWhile (fun b => decide (b ≠ 0)) src
  conv_lhs => rw [← h]
  rw [List.take_append_of_le_length hk]

theorem length_cstr_le (src : List Nat) : (cstr src 0).length ≤ src.length := by
  unfold cstr
  rw [List.drop_zero]
  have h := congrArg List.length
    (List.takeWhile_append_dropWhile (fun b => decide (b ≠ 0)) src)
  rw [List.length_append] at h
  omega

theorem comma_separated_cons (x : List Nat) (l : List (List Nat)) :
    comma_separated (x :: l) = x ++ (l.map fun y => ','.toNat :: y).flatten := by
  induction l generalizing x with
  | nil => simp [comma_separated]
  | cons y rest ih =>
    rw [comma_separated, ih y]
    simp

theorem entries_from_pos (entry : Nat → List Nat) : ∀ (n i : Nat), 0 < i →
    entries_from entry n i
      = ((List.range' i n).map fun j => ','.toNat :: entry j).flatten := by
  intro n
  induction n with
  | zero => intro i _; rfl
  | succ n ih =>
    intro i hi
    have hne : i ≠ 0 := by omega
    rw [entries_from, ih (i + 1) (by omega), List.range'_succ]
    simp [hne]

theorem entries_from_zero (entry : Nat → List Nat) (n : Nat) :
    entries_from entry n 0 = comma_separated ((List.range n).map entry) := by
  cases n with
  | zero => rfl
  | succ n =>
    rw [entries_from, entries_from_pos entry n 1 (by omega), List.range_eq_range',
      List.range'_succ, List.map_cons, comma_separated_cons, List.map_map]
    simp
    rfl

theorem take_min_length (l : List Nat) (n : Nat) :
    l.take (if n < l.length then n else l.length) = l.take n := by
  split
  · rfl
  · rw [List.take_length, List.take_of_length_le (by omega)]

theorem key_copy_step (buf copy pre : List Nat) (ptr : Nat) (hpre : buf.take ptr = pre)
    (h0 : 0 ∈ copy) (hfit : ptr + 1 + copy.length ≤ buf.length) :
    cstr (memcpy (poke buf ptr 0x22) (ptr + 1) copy) (ptr + 1) = cstr copy 0 ∧
    (memcpy (poke buf ptr 0x22) (ptr + 1) copy).length = buf.length ∧
    (memcpy (poke buf ptr 0x22) (ptr + 1) copy).take
        (ptr + 1 + (if 12 < (cstr copy 0).length then 12 else (cstr copy 0).length))
      = pre ++ 0x22 :: (cstr copy 0).take 12 ∧
    (if 12 < (cstr copy 0).length then 12 else (cstr copy 0).length)
      = ((cstr copy 0).take 12).length ∧
    (if 12 < (cstr copy 0).length then 12 else (cstr copy 0).length) ≤ copy.length := by
  have hl : (poke buf ptr 0x22).length = buf.length := length_poke _ _ _
  have hc := length_cstr_le copy
  have hk : (if 12 < (cstr copy 0).length then 12 else (cstr copy 0).length)
      ≤ (cstr copy 0).length := by split <;> omega
  refine ⟨cstr_memcpy _ _ _ h0 (by omega), by rw [length_memcpy, hl], ?_, ?_, by omega⟩
  · rw [take_memcpy _ _ _ _ (by omega) (by omega), take_poke _ _ _ (by omega), hpre,
      take_eq_take_cstr copy _ hk, take_min_length]
    simp
  · rw [List.length_take]
    split <;> omega

theorem description_functions_spec (d : SparkDescriptor) (M : Nat) :
    ∀ (n i : Nat) (buf : List Nat) (ptr : Nat),
      (∀ j, i ≤ j → j < i + n →
        0 ∈ d.copy_function_key j ∧ (d.copy_function_key j).length ≤ M) →
      ptr + (entries_from (fun j => function_entry (cstr (d.copy_function_key j) 0)) n i).length
        + M ≤ buf.length →
      (description_functions d n i buf ptr).2
        = ptr + (entries_from (fun j => function_entry (cstr (d.copy_function_key j) 0))
            n i).length ∧
      (description_functions d n i buf ptr).1.length = buf.length ∧
      (description_functions d n i buf ptr).1.take (description_functions d n i buf ptr).2
        = buf.take ptr
          ++ entries_from (fun j => function_entry (cstr (d.copy_function_key j) 0)) n i := by
  intro n
  induction n with
  | zero =>
    intro i buf ptr _ _
    simp [description_functions, entries_from]
  | succ n ih =>
    intro i buf ptr hkeys hfit
    obtain ⟨h0, hM⟩ := hkeys i (Nat.le_refl _) (by omega)
    have hkeys2 : ∀ j, i + 1 ≤ j → j < i + 1 + n →
        0 ∈ d.copy_function_key j ∧ (d.copy_function_key j).length ≤ M :=
      fun j h1 h2 => hkeys j (by omega) (by omega)
    rw [entries_from] at hfit ⊢
    simp only [List.length_append, function_entry, List.length_cons, List.length_nil]
      at hfit
    by_cases hi : i ≠ 0
    · simp only [hi, if_true, ne_eq, not_false_eq_true, List.length_cons, List.length_nil]
        at hfit
      have hs := key_copy_step (poke buf ptr ','.toNat) (d.copy_function_key i)
        (buf.take ptr ++ [','.toNat]) (ptr + 1)
        (by rw [take_poke _ _ _ (by omega)]; rfl) h0 (by rw [length_poke]; omega)
      obtain ⟨hs1, hs2, hs3, hs4, hs5⟩ := hs
      rw [length_poke] at hs2
      rw [description_functions]
      simp only [hi, if_true, ne_eq, not_false_eq_true, strlen, hs1, MAX_FUNCTION_KEY_LENGTH]
      have hq := take_poke _ (ptr + 1 + 1 +
        (if 12 < (cstr (d.copy_function_key i) 0).length then 12
          else (cstr (d.copy_function_key i) 0).length)) 0x22 (by rw [hs2]; omega)
      rw [hs3] at hq
      obtain ⟨i1, i2, i3⟩ := ih (i + 1)
        (poke (memcpy (poke (poke buf ptr ','.toNat) (ptr + 1) 0x22) (ptr + 1 + 1)
          (d.copy_function_key i)) (ptr + 1 + 1 +
          (if 12 < (cstr (d.copy_function_key i) 0).length then 12
            else (cstr (d.copy_function_key i) 0).length)) 0x22)
        (ptr + 1 + 1 +
          (if 12 < (cstr (d.copy_function_key i) 0).length then 12
            else (cstr (d.copy_function_key i) 0).length) + 1) hkeys2
        (by rw [length_poke, hs2]; simp only [function_entry]; omega)
      rw [length_poke, hs2] at i2
      refine ⟨?_, i2, ?_⟩
      · rw [i1]
        simp only [List.length_append, function_entry, List.length_cons, List.length_nil, hs4]
        omega
      · rw [i3, hq]
        simp [function_entry]
    · have hi0 : i = 0 := by omega
      subst hi0
      simp only [ne_eq, not_true_eq_false, if_false, List.length_nil] at hfit
      have hs := key_copy_step buf (d.copy_function_key 0) (buf.take ptr) ptr rfl h0 (by omega)
      obtain ⟨hs1, hs2, hs3, hs4, hs5⟩ := hs
      rw [description_functions]
      simp only [ne_eq, not_true_eq_false, if_false, strlen, hs1, MAX_FUNCTION_KEY_LENGTH]
      have hq := take_poke _ (ptr + 1 +
        (if 12 < (cstr (d.copy_function_key 0) 0).length then 12
          else (cstr (d.copy_function_key 0) 0).length)) 0x22 (by rw [hs2]; omega)
      rw [hs3] at hq
      obtain ⟨i1, i2, i3⟩ := ih (0 + 1)
        (poke (memcpy (poke buf ptr 0x22) (ptr + 1) (d.copy_function_key 0)) (ptr + 1 +
          (if 12 < (cstr (d.copy_function_key 0) 0).length then 12
            else (cstr (d.copy_function_key 0) 0).length)) 0x22)
        (ptr + 1 +
          (if 12 < (cstr (d.copy_function_key 0) 0).length then 12
            else (cstr (d.copy_function_key 0) 0).length) + 1) hkeys2
        (by rw [length_poke, hs2]; simp only [function_entry]; omega)
      rw [length_poke, hs2] at i2
      refine ⟨?_, i2, ?_⟩
      · rw [i1]
        simp only [List.length_append, function_entry, List.length_cons, List.length_nil, hs4]
        omega
      · rw [i3, hq]
        simp [function_entry]

theorem description_variables_spec (h : Host) (M : Nat)
    (ht : ∀ t, h.return_type_value t ≤ 9) :
    ∀ (n i : Nat) (buf : List Nat) (ptr : Nat),
      (∀ j, i ≤ j → j < i + n →
        0 ∈ h.descriptor.copy_variable_key j ∧ (h.descriptor.copy_variable_key j).length ≤ M) →
      ptr + (entries_from
          (fun j => variable_entry h (cstr (h.descriptor.copy_variable_key j) 0)) n i).length
        + M ≤ buf.length →
      (description_variables h n i buf ptr).2
        = ptr + (entries_from
            (fun j => variable_entry h (cstr (h.descriptor.copy_variable_key j) 0))
            n i).length ∧
      (description_variables h n i buf ptr).1.length = buf.length ∧
      (description_variables h n i buf ptr).1.take (description_variables h n i buf ptr).2
        = buf.take ptr
          ++ entries_from
            (fun j => variable_entry h (cstr (h.descriptor.copy_variable_key j) 0)) n i := by
  intro n
  induction n with
  | zero =>
    intro i buf ptr _ _
    simp [description_variables, entries_from]
  | succ n ih =>
    intro i buf ptr hkeys hfit
    obtain ⟨h0, hM⟩ := hkeys i (Nat.le_refl _) (by omega)
    have hkeys2 : ∀ j, i + 1 ≤ j → j < i + 1 + n →
        0 ∈ h.descriptor.copy_variable_key j ∧
          (h.descriptor.copy_variable_key j).length ≤ M :=
      fun j h1 h2 => hkeys j (by omega) (by omega)
    have hdigit : ('0'.toNat + h.return_type_value
        (h.descriptor.variable_type (cstr (h.descriptor.copy_variable_key i) 0))) % 256
        = '0'.toNat + h.return_type_value
          (h.descriptor.variable_type (cstr (h.descriptor.copy_variable_key i) 0)) := by
      have := ht (h.descriptor.variable_type (cstr (h.descriptor.copy_variable_key i) 0))
      have h48 : '0'.toNat = 48 := by decide
      omega
    rw [entries_from] at hfit ⊢
    simp only [List.length_append, variable_entry, List.length_cons, List.length_nil]
      at hfit
    by_cases hi : i ≠ 0
    · simp only [hi, if_true, ne_eq, not_false_eq_true, List.length_cons, List.length_nil]
        at hfit
      have hs := key_copy_step (poke buf ptr ','.toNat) (h.descriptor.copy_variable_key i)
        (buf.take ptr ++ [','.toNat]) (ptr + 1)
        (by rw [take_poke _ _ _ (by omega)]; rfl) h0 (by rw [length_poke]; omega)
      obtain ⟨hs1, hs2, hs3, hs4, hs5⟩ := hs
      rw [length_poke] at hs2
      rw [description_variables]
      simp only [hi, if_true, ne_eq, not_false_eq_true, strlen, hs1, MAX_VARIABLE_KEY_LENGTH]
      have hq := take_memcpy_all
        (memcpy (poke (poke buf ptr ','.toNat) (ptr + 1) 0x22) (ptr + 1 + 1)
          (h.descriptor.copy_variable_key i))
        [0x22, ':'.toNat] (ptr + 1 + 1 +
        (if 12 < (cstr (h.descriptor.copy_variable_key i) 0).length then 12
          else (cstr (h.descriptor.copy_variable_key i) 0).length))
        (by rw [hs2]; simp only [List.length_cons, List.length_nil]; omega)
      rw [hs3] at hq
      have hq2 := take_poke
        (memcpy (memcpy (poke (poke buf ptr ','.toNat) (ptr + 1) 0x22) (ptr + 1 + 1)
          (h.descriptor.copy_variable_key i)) (ptr + 1 + 1 +
            (if 12 < (cstr (h.descriptor.copy_variable_key i) 0).length then 12
              else (cstr (h.descriptor.copy_variable_key i) 0).length)) [0x22, ':'.toNat])
        (ptr + 1 + 1 +
            (if 12 < (cstr (h.descriptor.copy_variable_key i) 0).length then 12
              else (cstr (h.descriptor.copy_variable_key i) 0).length) + 2)
        ('0'.toNat + h.return_type_value
          (h.descriptor.variable_type (cstr (h.descriptor.copy_variable_key i) 0)))
        (by rw [length_memcpy, hs2]; omega)
      simp only [List.length_cons, List.length_nil] at hq
      rw [hq, hdigit] at hq2
      obtain ⟨i1, i2, i3⟩ := ih (i + 1)
        (poke (memcpy (memcpy (poke (poke buf ptr ','.toNat) (ptr + 1) 0x22) (ptr + 1 + 1)
          (h.descriptor.copy_variable_key i)) (ptr + 1 + 1 +
            (if 12 < (cstr (h.descriptor.copy_variable_key i) 0).length then 12
              else (cstr (h.descriptor.copy_variable_key i) 0).length)) [0x22, ':'.toNat])
          (ptr + 1 + 1 +
            (if 12 < (cstr (h.descriptor.copy_variable_key i) 0).length then 12
              else (cstr (h.descriptor.copy_variable_key i) 0).length) + 2)
          ('0'.toNat + h.return_type_value
            (h.descriptor.variable_type (cstr (h.descriptor.copy_variable_key i) 0))))
        (ptr + 1 + 1 +
            (if 12 < (cstr (h.descriptor.copy_variable_key i) 0).length then 12
              else (cstr (h.descriptor.copy_variable_key i) 0).length) + 2 + 1) hkeys2
        (by rw [length_poke, length_memcpy, hs2]; simp only [variable_entry]; omega)
      rw [length_poke, length_memcpy, hs2] at i2
      refine ⟨?_, i2, ?_⟩
      · rw [i1]
        simp only [List.length_append, variable_entry, List.length_cons, List.length_nil, hs4]
        omega
      · rw [i3, hq2]
        simp [variable_entry]
    · have hi0 : i = 0 := by omega
      subst hi0
      simp only [ne_eq, not_true_eq_false, if_false, List.length_nil] at hfit
      have hs := key_copy_step buf (h.descriptor.copy_variable_key 0) (buf.take ptr) ptr rfl
        h0 (by omega)
      obtain ⟨hs1, hs2, hs3, hs4, hs5⟩ := hs
      rw [description_variables]
      simp only [ne_eq, not_true_eq_false, if_false, strlen, hs1, MAX_VARIABLE_KEY_LENGTH]
      have hq := take_memcpy_all
        (memcpy (poke buf ptr 0x22) (ptr + 1) (h.descriptor.copy_variable_key 0))
        [0x22, ':'.toNat] (ptr + 1 +
        (if 12 < (cstr (h.descriptor.copy_variable_key 0) 0).length then 12
          else (cstr (h.descriptor.copy_variable_key 0) 0).length))
        (by rw [hs2]; simp only [List.length_cons, List.length_nil]; omega)
      rw [hs3] at hq
      have hq2 := take_poke
        (memcpy (memcpy (poke buf ptr 0x22) (ptr + 1) (h.descriptor.copy_variable_key 0))
          (ptr + 1 +
            (if 12 < (cstr (h.descriptor.copy_variable_key 0) 0).length then 12
              else (cstr (h.descriptor.copy_variable_key 0) 0).length)) [0x22, ':'.toNat])
        (ptr + 1 +
            (if 12 < (cstr (h.descriptor.copy_variable_key 0) 0).length then 12
              else (cstr (h.descriptor.copy_variable_key 0) 0).length) + 2)
        ('0'.toNat + h.return_type_value
          (h.descriptor.variable_type (cstr (h.descriptor.copy_variable_key 0) 0)))
        (by rw [length_memcpy, hs2]; omega)
      simp only [List.length_cons, List.length_nil] at hq
      rw [hq, hdigit] at hq2
      obtain ⟨i1, i2, i3⟩ := ih (0 + 1)
        (poke (memcpy (memcpy (poke buf ptr 0x22) (ptr + 1) (h.descriptor.copy_variable_key 0))
          (ptr + 1 +
            (if 12 < (cstr (h.descriptor.copy_variable_key 0) 0).length then 12
              else (cstr (h.descriptor.copy_variable_key 0) 0).length)) [0x22, ':'.toNat])
          (ptr + 1 +
            (if 12 < (cstr (h.descriptor.copy_variable_key 0) 0).length then 12
              else (cstr (h.descriptor.copy_variable_key 0) 0).length) + 2)
          ('0'.toNat + h.return_type_value
            (h.descriptor.variable_type (cstr (h.descriptor.copy_variable_key 0) 0))))
        (ptr + 1 +
            (if 12 < (cstr (h.descriptor.copy_variable_key 0) 0).length then 12
              else (cstr (h.descriptor.copy_variable_key 0) 0).length) + 2 + 1) hkeys2
        (by rw [length_poke, length_memcpy, hs2]; simp only [variable_entry]; omega)
      rw [length_poke, length_memcpy, hs2] at i2
      refine ⟨?_, i2, ?_⟩
      · rw [i1]
        simp only [List.length_append, variable_entry, List.length_cons, List.length_nil, hs4]
        omega
      · rw [i3, hq2]
        simp [variable_entry]

theorem slice_eq_drop_take (q : List Nat) (off n : Nat) :
    slice q off n = (q.take (off + n)).drop off := by
  unfold slice
  rw [List.drop_take]
  congr 1
  omega

theorem description_text_eq (h : Host) :
    description_text h = [0x7b, 0x22, 'f'.toNat, 0x22, ':'.toNat, '['.toNat]
      ++ entries_from (fun j => function_entry (cstr (h.descriptor.copy_function_key j) 0))
        h.descriptor.num_functions 0
      ++ [']'.toNat, ','.toNat, 0x22, 'v'.toNat, 0x22, ':'.toNat, 0x7b]
      ++ entries_from (fun j => variable_entry h (cstr (h.descriptor.copy_variable_key j) 0))
        h.descriptor.num_variables 0
      ++ [0x7d, 0x7d] := by
  rw [entries_from_zero, entries_from_zero]
  simp only [description_text, function_keys, variable_keys, List.map_map]
  rfl

theorem description_eq (c : Primitives) (h : Host) (p : Session)
    (off token msb lsb : Nat) (M : Nat)
    (hf : ∀ j, j < h.descriptor.num_functions →
      0 ∈ h.descriptor.copy_function_key j ∧ (h.descriptor.copy_function_key j).length ≤ M)
    (hv : ∀ j, j < h.descriptor.num_variables →
      0 ∈ h.descriptor.copy_variable_key j ∧ (h.descriptor.copy_variable_key j).length ≤ M)
    (ht : ∀ t, h.return_type_value t ≤ 9)
    (hq : p.queue.length = QUEUE_SIZE)
    (hfit : off + 6 + (description_text h).length + 16 + M ≤ p.queue.length) :
    ∃ q : List Nat,
      description c h p off token msb lsb
        = (encrypt c { p with queue := q } off ((6 + (description_text h).length) / 16 * 16 + 16),
          (6 + (description_text h).length) / 16 * 16 + 16) ∧
      q.length = p.queue.length ∧
      q.take (off + ((6 + (description_text h).length) / 16 * 16 + 16))
        = p.queue.take off ++ [0x61, 0x45, msb % 256, lsb % 256, token % 256, 0xff]
          ++ description_text h
          ++ List.replicate
            ((6 + (description_text h).length) / 16 * 16 + 16 - (6 + (description_text h).length))
            ((6 + (description_text h).length) / 16 * 16 + 16
              - (6 + (description_text h).length)) := by
  have hQ : QUEUE_SIZE = 640 := rfl
  have hL0 : (description_text h).length
      = 6 + (entries_from
          (fun j => function_entry (cstr (h.descriptor.copy_function_key j) 0))
          h.descriptor.num_functions 0).length + 7
        + (entries_from
          (fun j => variable_entry h (cstr (h.descriptor.copy_variable_key j) 0))
          h.descriptor.num_variables 0).length + 2 := by
    rw [description_text_eq]
    simp only [List.length_append, List.length_cons, List.length_nil]
  generalize hLdef : (description_text h).length = L at hfit hL0 ⊢
  rw [description_text_eq]
  generalize hFE : entries_from
    (fun j => function_entry (cstr (h.descriptor.copy_function_key j) 0))
    h.descriptor.num_functions 0 = FE at hL0 ⊢
  generalize hVE : entries_from
    (fun j => variable_entry h (cstr (h.descriptor.copy_variable_key j) 0))
    h.descriptor.num_variables 0 = VE at hL0 ⊢
  -- the header and the opening text
  have hhdr : poke (poke (poke (poke (poke (poke p.queue off 0x61) (off + 1) 0x45) (off + 2)
      msb) (off + 3) lsb) (off + 4) token) (off + 5) 0xff
      = memcpy p.queue off [0x61, 0x45, msb % 256, lsb % 256, token % 256, 0xff] := by
    simp only [poke, memcpy, Nat.add_assoc]
  have h12 : (memcpy (memcpy p.queue off [0x61, 0x45, msb % 256, lsb % 256, token % 256, 0xff])
      (off + 6) [0x7b, 0x22, 'f'.toNat, 0x22, ':'.toNat, '['.toNat]).take (off + 12)
      = p.queue.take off ++ [0x61, 0x45, msb % 256, lsb % 256, token % 256, 0xff]
        ++ [0x7b, 0x22, 'f'.toNat, 0x22, ':'.toNat, '['.toNat] := by
    have h1 := take_memcpy_all p.queue
      [0x61, 0x45, msb % 256, lsb % 256, token % 256, 0xff] off
      (by simp only [List.length_cons, List.length_nil]; omega)
    have h2 := take_memcpy_all
      (memcpy p.queue off [0x61, 0x45, msb % 256, lsb % 256, token % 256, 0xff])
      [0x7b, 0x22, 'f'.toNat, 0x22, ':'.toNat, '['.toNat] (off + 6)
      (by simp only [length_memcpy, List.length_cons, List.length_nil]; omega)
    simp only [List.length_cons, List.length_nil] at h1 h2
    rw [h1] at h2
    exact h2
  -- the function loop
  obtain ⟨f1, f2, f3⟩ := description_functions_spec h.descriptor M h.descriptor.num_functions 0
    (memcpy (memcpy p.queue off [0x61, 0x45, msb % 256, lsb % 256, token % 256, 0xff])
      (off + 6) [0x7b, 0x22, 'f'.toNat, 0x22, ':'.toNat, '['.toNat]) (off + 12)
    (fun j _ hj => hf j (by omega))
    (by rw [hFE]; simp only [length_memcpy]; omega)
  rw [hFE] at f1 f3
  rw [h12] at f3
  simp only [length_memcpy] at f2
  generalize hrf : description_functions h.descriptor h.descriptor.num_functions 0
    (memcpy (memcpy p.queue off [0x61, 0x45, msb % 256, lsb % 256, token % 256, 0xff])
      (off + 6) [0x7b, 0x22, 'f'.toNat, 0x22, ':'.toNat, '['.toNat]) (off + 12) = rf
    at f1 f2 f3
  obtain ⟨q3, ptr3⟩ := rf
  simp only at f1 f2 f3
  -- the text between the loops
  have h4 := take_memcpy_all q3
    [']'.toNat, ','.toNat, 0x22, 'v'.toNat, 0x22, ':'.toNat, 0x7b] ptr3
    (by simp only [List.length_cons, List.length_nil]; omega)
  simp only [List.length_cons, List.length_nil] at h4
  rw [f3] at h4
  -- the variable loop
  obtain ⟨v1, v2, v3⟩ := description_variables_spec h M ht h.descriptor.num_variables 0
    (memcpy q3 ptr3 [']'.toNat, ','.toNat, 0x22, 'v'.toNat, 0x22, ':'.toNat, 0x7b])
    (ptr3 + 7) (fun j _ hj => hv j (by omega))
    (by rw [hVE]; simp only [length_memcpy]; omega)
  rw [hVE] at v1 v3
  rw [h4] at v3
  simp only [length_memcpy] at v2
  generalize hrv : description_variables h h.descriptor.num_variables 0
    (memcpy q3 ptr3 [']'.toNat, ','.toNat, 0x22, 'v'.toNat, 0x22, ':'.toNat, 0x7b])
    (ptr3 + 7) = rv at v1 v2 v3
  obtain ⟨q5, ptr5⟩ := rv
  simp only at v1 v2 v3
  -- the closing text and the padding
  have h6 := take_memcpy_all q5 [0x7d, 0x7d] ptr5
    (by simp only [List.length_cons, List.length_nil]; omega)
  simp only [List.length_cons, List.length_nil] at h6
  rw [v3] at h6
  have hmsg : ptr5 + 2 - off = 6 + L := by omega
  have hm : (6 + L) &&& 0xFFFFFFF0
      = (6 + L) / 16 * 16 := land_mask_eq _ (by omega)
  have e1 : ((6 + L) / 16 * 16 + 16) % 2 ^ 32
      = (6 + L) / 16 * 16 + 16 := by
    apply Nat.mod_eq_of_lt; omega
  have e2 : ((6 + L) / 16 * 16 + 16 + 2 ^ 32
      - (6 + L) % 2 ^ 32) % 256
      = (6 + L) / 16 * 16 + 16
        - (6 + L) := by
    rw [Nat.mod_eq_of_lt (by omega : 6 + L < 2 ^ 32)]
    omega
  have e3 : ((6 + L) / 16 * 16 + 16
      - (6 + L)) % 256
      = (6 + L) / 16 * 16 + 16
        - (6 + L) := by
    omega
  have h7 := take_memcpy_all (memcpy q5 ptr5 [0x7d, 0x7d])
    (List.replicate ((6 + L) / 16 * 16 + 16
        - (6 + L))
      ((6 + L) / 16 * 16 + 16
        - (6 + L))) (ptr5 + 2)
    (by simp only [length_memcpy, List.length_replicate]; omega)
  rw [h6] at h7
  have hend : ptr5 + 2 + (List.replicate ((6 + L) / 16 * 16
      + 16 - (6 + L))
      ((6 + L) / 16 * 16 + 16
        - (6 + L))).length
      = off + ((6 + L) / 16 * 16 + 16) := by
    simp only [List.length_replicate]; omega
  rw [hend] at h7
  refine ⟨memcpy (memcpy q5 ptr5 [0x7d, 0x7d]) (ptr5 + 2)
    (List.replicate ((6 + L) / 16 * 16 + 16 - (6 + L)) ((6 + L) / 16 * 16 + 16 - (6 + L))),
    ?_, ?_, ?_⟩
  · unfold description
    simp only [hhdr, hrf, hrv, hmsg, hm, e1, e2, memset, e3]
  · simp only [length_memcpy]
    omega
  · rw [h7]
    simp only [List.append_assoc]

theorem handle_describe_eq (c : Primitives) (h : Host) (p : Session) (w : World)
    (token : Nat) (enc : Session) (padded : Nat)
    (hd : description c h p 2 token (peek p.queue 2) (peek p.queue 3) = (enc, padded))
    (r : Int) (w1 : World)
    (hs : blocking_send (poke (poke enc.queue 0 (padded / 256)) 1 (padded % 256)) 0
      ((padded : Int) + 2) w = some (r, w1)) :
    handle_describe c h p w token
      = some (decide (0 ≤ r),
          { enc with queue := poke (poke enc.queue 0 (padded / 256)) 1 (padded % 256) }, w1,
          [.send (slice (poke (poke enc.queue 0 (padded / 256)) 1 (padded % 256)) 0
            (padded + 2))]) := by
  have e3 : ∀ q i, poke q i ((padded >>> 8) &&& 0xff) = poke q i (padded / 256) := by
    intro q i
    apply poke_congr
    rw [Nat.shiftRight_eq_div_pow]
    have : (0xff : Nat) = 2 ^ 8 - 1 := by decide
    rw [this, Nat.and_pow_two_sub_one_eq_mod]
    omega
  have e4 : ∀ q i, poke q i (padded &&& 0xff) = poke q i (padded % 256) := by
    intro q i
    apply poke_congr
    have : (0xff : Nat) = 2 ^ 8 - 1 := by decide
    rw [this, Nat.and_pow_two_sub_one_eq_mod]
  simp only [handle_describe, hd, e3, e4, Option.bind_eq_bind, Option.pure_def, hs,
    Option.some_bind]
  by_cases hr : r < 0
  · have hd : ¬ 0 ≤ r := by omega
    simp [hr, hd]
  · have hd : 0 ≤ r := by omega
    simp [hr, hd]

/-- C16: for a descriptor whose keys the host stores null-terminated and within reach of
the buffer, `description` stages `61 45 m1 m0 token ff`, then the text
`description_text` (the object with the list `f` of the function keys in quotes and the
object `v` of the variable keys in quotes, each with its type) with the entries
comma-separated, every
key cut to 12 bytes and every type written as the digit `'0' + type`, then PKCS#7 padding
of 1 to 16 bytes up to the next multiple of 16; it encrypts that many bytes and returns
the padded length, which the DESCRIBE case writes big-endian in front of the frame it
sends. -/
theorem description_reply (c : Primitives) (h : Host) (p : Session) (w : World)
    (token M : Nat)
    (hf : ∀ j, j < h.descriptor.num_functions →
      0 ∈ h.descriptor.copy_function_key j ∧ (h.descriptor.copy_function_key j).length ≤ M)
    (hv : ∀ j, j < h.descriptor.num_variables →
      0 ∈ h.descriptor.copy_variable_key j ∧ (h.descriptor.copy_variable_key j).length ≤ M)
    (ht : ∀ t, h.return_type_value t ≤ 9)
    (hq : p.queue.length = QUEUE_SIZE)
    (hfit : 2 + 6 + (description_text h).length + 16 + M ≤ p.queue.length) :
    let text := description_text h
    let padded := (6 + text.length) / 16 * 16 + 16
    let pad := padded - (6 + text.length)
    ∃ q : List Nat,
      description c h p 2 token (peek p.queue 2) (peek p.queue 3)
        = (encrypt c { p with queue := q } 2 padded, padded) ∧
      q.length = p.queue.length ∧
      slice q 2 padded
        = [0x61, 0x45, peek p.queue 2 % 256, peek p.queue 3 % 256, token % 256, 0xff]
          ++ text ++ List.replicate pad pad ∧
      1 ≤ pad ∧ pad ≤ 16 ∧ padded % 16 = 0 ∧
      (∀ (r : Int) (w1 : World),
        blocking_send (poke (poke (encrypt c { p with queue := q } 2 padded).queue 0
          (padded / 256)) 1 (padded % 256)) 0 ((padded : Int) + 2) w = some (r, w1) →
        handle_describe c h p w token
          = some (decide (0 ≤ r),
              { encrypt c { p with queue := q } 2 padded with
                queue := poke (poke (encrypt c { p with queue := q } 2 padded).queue 0
                  (padded / 256)) 1 (padded % 256) }, w1,
              [.send (slice (poke (poke (encrypt c { p with queue := q } 2 padded).queue 0
                (padded / 256)) 1 (padded % 256)) 0 (padded + 2))]) ∧
        slice (poke (poke (encrypt c { p with queue := q } 2 padded).queue 0
            (padded / 256)) 1 (padded % 256)) 0 2 = [padded / 256, padded % 256]) := by
  intro text padded pad
  have hQ : QUEUE_SIZE = 640 := rfl
  have ht0 : text.length = (description_text h).length := rfl
  have hp1 : padded = (6 + (description_text h).length) / 16 * 16 + 16 := rfl
  have hp2 : pad = padded - (6 + (description_text h).length) := rfl
  obtain ⟨q, hd, hl, htake⟩ := description_eq c h p 2 token (peek p.queue 2) (peek p.queue 3)
    M hf hv ht hq hfit
  refine ⟨q, hd, hl, ?_, by omega, by omega, by omega, ?_⟩
  · rw [slice_eq_drop_take, htake, List.append_assoc, List.append_assoc,
      List.drop_append_of_le_length (by rw [List.length_take]; omega),
      List.drop_of_length_le (by rw [List.length_take]; omega)]
    simp only [List.nil_append, List.append_assoc]
  · intro r w1 hs
    refine ⟨handle_describe_eq c h p w token _ padded hd r w1 hs, ?_⟩
    have hlen : (encrypt c { p with queue := q } 2 padded).queue.length = p.queue.length := by
      rw [length_encrypt]; exact hl
    rw [slice_two _ (by simp only [length_poke, hlen]; omega),
      peek_poke_other _ _ _ _ (by decide), peek_poke_same _ _ _ (by rw [hlen]; omega),
      peek_poke_same _ _ _ (by rw [length_poke, hlen]; omega)]
    have h1 : padded / 256 % 256 = padded / 256 := by omega
    have h2 : padded % 256 % 256 = padded % 256 := by omega
    rw [h1, h2]

theorem description_reply_witness :
    description_text reference_host
      = "\x7b\"f\":[\"led\",\"brew\"],\"v\":\x7b\"temp\":2\x7d\x7d".toList.map Char.toNat ∧
    (description cleartext reference_host (fresh_with describe_request) 2 7
      (peek (fresh_with describe_request).queue 2)
      (peek (fresh_with describe_request).queue 3)).2 = 48 ∧
    (handle_describe cleartext reference_host (fresh_with describe_request)
        ⟨[0], [], [50], []⟩ 7).map (fun r => r.2.2.1.sent.take 18)
      = some ([0, 48, 0x61, 0x45, 0x12, 0x37, 7, 0xff, 0x7b, 0x22, 'f'.toNat, 0x22,
          ':'.toNat, '['.toNat, 0x22, 'l'.toNat, 'e'.toNat, 'd'.toNat]) :=
  ⟨by decide,
    by
      obtain ⟨q, hd, _⟩ := description_reply cleartext reference_host
        (fresh_with describe_request) ⟨[0], [], [50], []⟩ 7 5 (by decide) (by decide)
        (fun t => by cases t <;> decide) (by decide) (by decide)
      rw [hd]
      show (6 + (description_text reference_host).length) / 16 * 16 + 16 = 48
      decide,
    by decide⟩

/-! ## EVENT -/

theorem peek_of_drop (buf tail : List Nat) (pos b : Nat) (h : buf.drop pos = b :: tail) :
    peek buf pos = b := by
  have := congrArg (fun l => l[0]?) h
  simp only [List.getElem?_drop, Nat.add_zero, List.getElem?_cons_zero] at this
  simp only [peek, List.getD_eq_getElem?_getD, this, Option.getD_some]

theorem drop_succ_of_drop (buf tail : List Nat) (pos b : Nat) (h : buf.drop pos = b :: tail) :
    buf.drop (pos + 1) = tail := by
  have := congrArg (fun l => l.drop 1) h
  simp only [List.drop_drop, List.drop_succ_cons, List.drop_zero] at this
  exact this

theorem option_decode_spec (buf hdr tail : List Nat) (pos n : Nat)
    (hd : buf.drop pos = hdr ++ tail) (hh : OptionHeader hdr n) :
    CoAP.option_decode buf pos = (n, pos + hdr.length) ∧ peek buf pos &&& 0xf0 = 0 ∧
    0 < hdr.length := by
  rcases hh with ⟨rfl, hn⟩ | ⟨e, rfl, he, rfl⟩ | ⟨e1, e0, rfl, he1, he0, rfl⟩
  · have hp := peek_of_drop buf _ pos n hd
    have hnib : n &&& 0x0f = n := by
      have : (0x0f : Nat) = 2 ^ 4 - 1 := by decide
      rw [this, Nat.and_pow_two_sub_one_eq_mod]
      omega
    have hhi : n &&& 0xf0 = 0 := by
      interval_cases n <;> decide
    refine ⟨?_, by rw [hp]; exact hhi, Nat.succ_pos _⟩
    unfold CoAP.option_decode
    rw [hp, hnib]
    simp [hn]
  · have hp := peek_of_drop buf _ pos 13 hd
    have hp1 := peek_of_drop buf _ (pos + 1) e (drop_succ_of_drop buf _ pos 13 hd)
    refine ⟨?_, by rw [hp]; decide, Nat.succ_pos _⟩
    unfold CoAP.option_decode
    have h13 : (13 : Nat) &&& 0x0f = 13 := by decide
    rw [hp, hp1, h13]
    simp
    omega
  · have hp := peek_of_drop buf _ pos 14 hd
    have hd1 := drop_succ_of_drop buf _ pos 14 hd
    have hp1 := peek_of_drop buf _ (pos + 1) e1 hd1
    have hp2 := peek_of_drop buf _ (pos + 1 + 1) e0 (drop_succ_of_drop buf _ (pos + 1) e1 hd1)
    refine ⟨?_, by rw [hp]; decide, Nat.succ_pos _⟩
    unfold CoAP.option_decode
    have h14 : (14 : Nat) &&& 0x0f = 14 := by decide
    rw [hp, hp1, hp2, shl8_or _ _ he0, h14]
    simp
    omega

theorem peek_eq_headD_drop (buf : List Nat) (i : Nat) : peek buf i = (buf.drop i).headD 0 := by
  simp only [peek, List.getD_eq_getElem?_getD, List.headD_eq_head?_getD, List.head?_drop]

theorem drop_memcpy_above (buf src : List Nat) (off n : Nat) (h : off + src.length ≤ n) :
    (memcpy buf off src).drop n = buf.drop n := by
  apply List.ext_getElem?
  intro i
  simp only [List.getElem?_drop, getElem?_memcpy]
  have h3 : ¬ (off ≤ n + i ∧ n + i < off + src.length ∧ n + i < buf.length) := by omega
  simp [h3]

theorem drop_poke_above (buf : List Nat) (i v n : Nat) (h : i < n) :
    (poke buf i v).drop n = buf.drop n := by
  rw [poke_eq_memcpy]
  exact drop_memcpy_above buf _ i n (by simp only [List.length_singleton]; omega)

theorem drop_add_of_drop (buf a b : List Nat) (pos : Nat) (h : buf.drop pos = a ++ b) :
    buf.drop (pos + a.length) = b := by
  rw [← List.drop_drop, h, List.drop_left]

theorem slice_of_drop (buf a b : List Nat) (pos : Nat) (h : buf.drop pos = a ++ b) :
    slice buf pos a.length = a := by
  unfold slice
  rw [h, List.take_left]

theorem event_name_loop_spec (msg_end : Nat) :
    ∀ (segs : List (List Nat × List Nat)) (fuel : Nat) (buf : List Nat)
      (next_src next_dst : Nat) (pre rest : List Nat),
      segs.length < fuel →
      (∀ x ∈ segs, OptionHeader x.1 x.2.length) →
      buf.take next_dst = pre →
      buf.drop next_src = encoded_options segs ++ rest →
      next_dst ≤ next_src →
      next_src + (encoded_options segs).length ≤ msg_end →
      msg_end < buf.length →
      (next_src + (encoded_options segs).length = msg_end ∨ rest.headD 0 &&& 0xf0 ≠ 0) →
      ∃ buf2 : List Nat,
        event_name_loop msg_end fuel buf next_src next_dst
          = some (buf2, next_src + (encoded_options segs).length,
              next_dst + (slash_joined segs).length) ∧
        buf2.take (next_dst + (slash_joined segs).length) = pre ++ slash_joined segs ∧
        buf2.drop (next_src + (encoded_options segs).length) = rest ∧
        buf2.length = buf.length := by
  intro segs
  induction segs with
  | nil =>
    intro fuel buf next_src next_dst pre rest hfuel _ hpre hdrop _ hend _ hstop
    obtain ⟨fuel, rfl⟩ : ∃ f, fuel = f + 1 := ⟨fuel - 1, by
      simp only [List.length_nil] at hfuel; omega⟩
    simp only [encoded_options, slash_joined, List.map_nil, List.flatten_nil,
      List.length_nil, Nat.add_zero, List.nil_append, List.append_nil] at hdrop hend hstop ⊢
    have hcond : ¬ (next_src < msg_end ∧ 0x00 = (peek buf next_src &&& 0xf0)) := by
      rintro ⟨h1, h2⟩
      rcases hstop with h | h
      · omega
      · rw [peek_eq_headD_drop, hdrop] at h2
        exact h h2.symm
    refine ⟨buf, ?_, hpre, hdrop, rfl⟩
    rw [event_name_loop, if_neg hcond]
  | cons x segs ih =>
    intro fuel buf next_src next_dst pre rest hfuel hsegs hpre hdrop hle hend hbuf hstop
    obtain ⟨fuel, rfl⟩ : ∃ f, fuel = f + 1 := ⟨fuel - 1, by
      simp only [List.length_cons] at hfuel; omega⟩
    obtain ⟨hdr, s⟩ := x
    have hx : OptionHeader hdr s.length := hsegs (hdr, s) (List.mem_cons_self _ _)
    have henc : encoded_options ((hdr, s) :: segs) = hdr ++ (s ++ encoded_options segs) := by
      simp [encoded_options]
    have hjoin : slash_joined ((hdr, s) :: segs) = '/'.toNat :: s ++ slash_joined segs := by
      simp [slash_joined]
    rw [henc] at hdrop hend hstop ⊢
    rw [hjoin]
    simp only [List.length_append, List.length_cons] at hend hstop ⊢
    have hd0 : buf.drop next_src = hdr ++ (s ++ encoded_options segs ++ rest) := by
      rw [hdrop]; simp only [List.append_assoc]
    obtain ⟨hdec, hhi, hpos⟩ := option_decode_spec buf hdr _ next_src s.length hd0 hx
    have hcond : next_src < msg_end ∧ 0x00 = (peek buf next_src &&& 0xf0) :=
      ⟨by omega, hhi.symm⟩
    -- the value of the option, and what follows it
    have hd1 : buf.drop (next_src + hdr.length) = s ++ (encoded_options segs ++ rest) := by
      have := drop_add_of_drop buf hdr _ next_src hd0
      rw [this]; simp only [List.append_assoc]
    have hs : slice buf (next_src + hdr.length) s.length = s := slice_of_drop buf s _ _ hd1
    have hd2 : buf.drop (next_src + hdr.length + s.length) = encoded_options segs ++ rest :=
      drop_add_of_drop buf s _ _ hd1
    -- the slash
    have hslash : (poke buf next_dst '/'.toNat).take (next_dst + 1) = pre ++ ['/'.toNat] := by
      rw [take_poke _ _ _ (by omega), hpre]
      rfl
    have hs1 : slice (poke buf next_dst '/'.toNat) (next_src + hdr.length) s.length = s := by
      rw [slice_poke_disjoint _ _ _ _ _ (Or.inr (by omega)), hs]
    -- the buffer after the move
    have hmoved : ∃ buf1 : List Nat,
        (if next_dst + 1 ≠ next_src + hdr.length then
          memcpy (poke buf next_dst '/'.toNat) (next_dst + 1)
            (slice (poke buf next_dst '/'.toNat) (next_src + hdr.length) s.length)
          else poke buf next_dst '/'.toNat) = buf1 ∧
        buf1.take (next_dst + 1 + s.length) = pre ++ '/'.toNat :: s ∧
        buf1.drop (next_src + hdr.length + s.length) = encoded_options segs ++ rest ∧
        buf1.length = buf.length := by
      refine ⟨_, rfl, ?_, ?_, ?_⟩
      · split
        · rw [hs1, take_memcpy_all _ _ _ (by rw [length_poke]; omega), hslash]
          simp
        · rename_i heq
          have heq2 : next_dst + 1 = next_src + hdr.length := by omega
          rw [List.take_add, hslash]
          have : List.take s.length (List.drop (next_dst + 1) (poke buf next_dst '/'.toNat))
              = s := by
            rw [heq2]
            exact hs1
          rw [this]
          simp
      · split
        · rw [hs1, drop_memcpy_above _ _ _ _ (by omega),
            drop_poke_above _ _ _ _ (by omega), hd2]
        · rw [drop_poke_above _ _ _ _ (by omega), hd2]
      · split
        · rw [length_memcpy, length_poke]
        · rw [length_poke]
    obtain ⟨buf1, hb1, ht1, hdr1, hl1⟩ := hmoved
    obtain ⟨buf2, hloop, ht2, hdr2, hl2⟩ := ih fuel buf1 (next_src + hdr.length + s.length)
      (next_dst + 1 + s.length) (pre ++ '/'.toNat :: s) rest
      (by simp only [List.length_cons] at hfuel; omega)
      (fun y hy => hsegs y (List.mem_cons_of_mem _ hy)) ht1 hdr1 (by omega) (by omega)
      (by omega) (by
        rcases hstop with h | h
        · left; omega
        · right; exact h)
    refine ⟨buf2, ?_, ?_, ?_, by rw [hl2, hl1]⟩
    · rw [event_name_loop, if_pos hcond, hdec]
      simp only
      rw [hb1, hloop]
      simp only [Option.some.injEq, Prod.mk.injEq, true_and]
      constructor <;> omega
    · have e : next_dst + (s.length + 1 + (slash_joined segs).length)
          = next_dst + 1 + s.length + (slash_joined segs).length := by omega
      rw [e, ht2]
      simp
    · have e : next_src + (hdr.length + (s.length + (encoded_options segs).length))
          = next_src + hdr.length + s.length + (encoded_options segs).length := by omega
      rw [e, hdr2]

theorem length_le_encoded_options (segs : List (List Nat × List Nat))
    (hsegs : ∀ x ∈ segs, OptionHeader x.1 x.2.length) :
    segs.length ≤ (encoded_options segs).length := by
  induction segs with
  | nil => simp [encoded_options]
  | cons x segs ih =>
    have hx := hsegs x (List.mem_cons_self _ _)
    have hpos : 0 < x.1.length := by
      rcases hx with ⟨h, _⟩ | ⟨e, h, _⟩ | ⟨e1, e0, h, _⟩ <;> rw [h] <;> exact Nat.succ_pos _
    have := ih (fun y hy => hsegs y (List.mem_cons_of_mem _ hy))
    simp only [encoded_options, List.map_cons, List.flatten_cons, List.length_append,
      List.length_cons] at this ⊢
    omega

theorem length_slash_joined_le (segs : List (List Nat × List Nat))
    (hsegs : ∀ x ∈ segs, OptionHeader x.1 x.2.length) :
    (slash_joined segs).length ≤ (encoded_options segs).length := by
  induction segs with
  | nil => simp [slash_joined, encoded_options]
  | cons x segs ih =>
    have hx := hsegs x (List.mem_cons_self _ _)
    have hxpos : 0 < x.1.length := by
      rcases hx with ⟨h, _⟩ | ⟨e, h, _⟩ | ⟨e1, e0, h, _⟩ <;> rw [h] <;> exact Nat.succ_pos _
    have := ih (fun y hy => hsegs y (List.mem_cons_of_mem _ hy))
    simp only [slash_joined, encoded_options, List.map_cons, List.flatten_cons,
      List.length_append, List.length_cons] at this ⊢
    omega

theorem take_poke_below (buf : List Nat) (i v n : Nat) (h : n ≤ i) :
    (poke buf i v).take n = buf.take n := by
  rw [poke_eq_memcpy]
  exact take_memcpy_below buf _ i n h

theorem decode_event_spec (queue pre6 hdr1 s1 : List Nat)
    (segs : List (List Nat × List Nat)) (rest : List Nat) (len : Nat)
    (hq : queue = pre6 ++ hdr1 ++ s1 ++ encoded_options segs ++ rest)
    (hpre6 : pre6.length = 6) (h1 : OptionHeader hdr1 s1.length) (hne : s1 ≠ [])
    (hsegs : ∀ x ∈ segs, OptionHeader x.1 x.2.length)
    (hpad : 1 ≤ peek queue (len - 1) ∧ peek queue (len - 1) ≤ 16)
    (hlen : len ≤ queue.length) (hQ : len ≤ QUEUE_SIZE)
    (hend : 6 + hdr1.length + s1.length + (encoded_options segs).length
      ≤ len - peek queue (len - 1))
    (hstop : 6 + hdr1.length + s1.length + (encoded_options segs).length
        = len - peek queue (len - 1) ∨ rest.headD 0 &&& 0xf0 ≠ 0) :
    ∃ (buf : List Nat) (data : Option Nat),
      decode_event queue len
        = some (some (buf, 6 + hdr1.length, (s1 ++ slash_joined segs).length, data)) ∧
      buf.take (6 + hdr1.length + (s1 ++ slash_joined segs).length + 1)
        = pre6 ++ hdr1 ++ (s1 ++ slash_joined segs) ++ [0] ∧
      buf.length = queue.length := by
  have hQ2 : QUEUE_SIZE = 640 := rfl
  have hs1 : 0 < s1.length := List.length_pos.mpr hne
  have hd6 : queue.drop 6 = hdr1 ++ (s1 ++ encoded_options segs ++ rest) := by
    rw [hq, ← hpre6]
    simp only [List.append_assoc, List.drop_left]
  obtain ⟨hdec, _, hpos⟩ := option_decode_spec queue hdr1 _ 6 s1.length hd6 h1
  have hd7 : queue.drop (6 + hdr1.length + s1.length) = encoded_options segs ++ rest := by
    have h7 := drop_add_of_drop queue hdr1 _ 6 hd6
    rw [List.append_assoc] at h7
    exact drop_add_of_drop queue s1 _ _ h7
  have ht7 : queue.take (6 + hdr1.length + s1.length) = pre6 ++ hdr1 ++ s1 := by
    rw [hq]
    have e : 6 + hdr1.length + s1.length = (pre6 ++ hdr1 ++ s1).length := by
      simp only [List.length_append, hpre6]
    rw [e, List.append_assoc (pre6 ++ hdr1 ++ s1), List.take_left]
  have hfuel : segs.length < 2 * QUEUE_SIZE + 2 := by
    have := length_le_encoded_options segs hsegs
    omega
  obtain ⟨buf2, hloop, ht2, hdr2, hl2⟩ := event_name_loop_spec (len - peek queue (len - 1))
    segs (2 * QUEUE_SIZE + 2) queue (6 + hdr1.length + s1.length)
    (6 + hdr1.length + s1.length) (pre6 ++ hdr1 ++ s1) rest hfuel hsegs ht7 hd7
    (Nat.le_refl _) hend (by omega) hstop
  have hpadc : ¬ (0 = peek queue (len - 1) ∨ 16 < peek queue (len - 1)) := by omega
  have hne0 : ¬ 0 = s1.length := by omega
  have hnl : 6 + hdr1.length + s1.length + (slash_joined segs).length - (6 + hdr1.length)
      = (s1 ++ slash_joined segs).length := by
    simp only [List.length_append]; omega
  have hD : 6 + hdr1.length + (s1 ++ slash_joined segs).length
      = 6 + hdr1.length + s1.length + (slash_joined segs).length := by
    simp only [List.length_append]; omega
  have hsl := length_slash_joined_le segs hsegs
  have hDle : 6 + hdr1.length + s1.length + (slash_joined segs).length < buf2.length := by
    omega
  unfold decode_event
  simp only [hpadc, if_false, hdec, hne0, hloop, hnl]
  by_cases hdata : (if 6 + hdr1.length + s1.length + (encoded_options segs).length
        < len - peek queue (len - 1) ∧
        0x30 = peek buf2 (6 + hdr1.length + s1.length + (encoded_options segs).length) &&& 0xf0
      then (CoAP.option_decode buf2
          (6 + hdr1.length + s1.length + (encoded_options segs).length)).2
        + (CoAP.option_decode buf2
          (6 + hdr1.length + s1.length + (encoded_options segs).length)).1
      else 6 + hdr1.length + s1.length + (encoded_options segs).length)
        < len - peek queue (len - 1) ∧
      0xff = peek buf2 (if 6 + hdr1.length + s1.length + (encoded_options segs).length
        < len - peek queue (len - 1) ∧
        0x30 = peek buf2 (6 + hdr1.length + s1.length + (encoded_options segs).length) &&& 0xf0
      then (CoAP.option_decode buf2
          (6 + hdr1.length + s1.length + (encoded_options segs).length)).2
        + (CoAP.option_decode buf2
          (6 + hdr1.length + s1.length + (encoded_options segs).length)).1
      else 6 + hdr1.length + s1.length + (encoded_options segs).length)
  · simp only [hdata, and_self, if_true]
    refine ⟨_, _, rfl, ?_, by rw [length_poke, length_poke, hl2]⟩
    rw [hD, take_poke _ _ _ (by rw [length_poke]; omega),
      take_poke_below _ _ _ _ (by omega), ht2]
    simp
  · simp only [hdata, if_false]
    refine ⟨_, _, rfl, ?_, by rw [length_poke, hl2]⟩
    rw [hD, take_poke _ _ _ (by omega), ht2]
    simp

theorem dispatch_event_name (hs : List FilteringEventHandler) (buf : List Nat)
    (event_name event_name_length : Nat) (data : Option Nat) :
    ∀ (n i : Nat) (hnd : Nat) (nm : List Nat) (d : Option (List Nat)),
      Effect.event_handler hnd nm d
        ∈ dispatch_event hs buf event_name event_name_length data n i →
      nm = cstr buf event_name := by
  intro n
  induction n with
  | zero => intro i hnd nm d hmem; simp [dispatch_event] at hmem
  | succ n ih =>
    intro i hnd nm d hmem
    unfold dispatch_event at hmem
    split at hmem
    · simp at hmem
    · dsimp only at hmem
      split at hmem
      · simp at hmem
      · split at hmem
        · exact ih _ _ _ _ hmem
        · split at hmem
          · simp only [List.mem_singleton, Effect.event_handler.injEq] at hmem
            exact hmem.2.1
          · exact ih _ _ _ _ hmem

theorem length_slash_joined (segs : List (List Nat × List Nat)) :
    (slash_joined segs).length = (segs.map fun x => x.2.length).sum + segs.length := by
  induction segs with
  | nil => rfl
  | cons x segs ih =>
    simp only [slash_joined, List.map_cons, List.flatten_cons, List.length_append,
      List.length_cons, List.sum_cons] at ih ⊢
    omega

theorem cstr_of_slice (buf name : List Nat) (pos : Nat)
    (hs : slice buf pos (name.length + 1) = name ++ [0]) (hz : ∀ b ∈ name, b ≠ 0) :
    cstr buf pos = name := by
  have hd : buf.drop pos = name ++ 0 :: (buf.drop pos).drop (name.length + 1) := by
    have := List.take_append_drop (name.length + 1) (buf.drop pos)
    unfold slice at hs
    rw [hs] at this
    rw [← this]
    simp
  have hc := cstr_terminated name ((buf.drop pos).drop (name.length + 1)) hz
  unfold cstr at hc ⊢
  rw [List.drop_zero] at hc
  rw [hd]
  exact hc

/-- C20 (amended): for an EVENT frame without a token (token length 0 in the
first byte, so that the path byte the classifier reads is byte 5 and the name options
start at byte 6) with valid padding whose name is encoded as Uri-Path options (a first,
non-empty segment `s1` and further segments, each under a header in the nibble form or in
the 13 or 14 extended form) and followed by something that is not such an option, the
decode returns, leaves in the buffer at the start of the first segment the bytes
`s1 / s2 / ... / sk` and a null byte, gives as the name length the sum of the segment
lengths plus one for each further segment, and that string is the name any handler is
called with. -/
theorem event_name_decode (h : Host) (p : Session) (w : World) (len : Nat)
    (t cd m1 m0 opt path : Nat) (hdr1 s1 : List Nat) (segs : List (List Nat × List Nat))
    (rest : List Nat)
    (hq : p.queue = [t, cd, m1, m0, opt, path] ++ hdr1 ++ s1 ++ encoded_options segs ++ rest)
    (ht : t &&& 0x0F = 0) (h1 : OptionHeader hdr1 s1.length) (hne : s1 ≠ [])
    (hsegs : ∀ x ∈ segs, OptionHeader x.1 x.2.length)
    (hpad : 1 ≤ peek p.queue (len - 1) ∧ peek p.queue (len - 1) ≤ 16)
    (hlen : len ≤ p.queue.length) (hQ : len ≤ QUEUE_SIZE)
    (hend : 6 + hdr1.length + s1.length + (encoded_options segs).length
      ≤ len - peek p.queue (len - 1))
    (hstop : 6 + hdr1.length + s1.length + (encoded_options segs).length
        = len - peek p.queue (len - 1) ∨ rest.headD 0 &&& 0xf0 ≠ 0) :
    let name := s1 ++ slash_joined segs
    let event_name := 6 + hdr1.length
    peek p.queue (5 + (peek p.queue 0 &&& 0x0F)) = path ∧
    ∃ (buf : List Nat) (data : Option Nat) (fx : List Effect),
      decode_event p.queue len = some (some (buf, event_name, name.length, data)) ∧
      slice buf event_name (name.length + 1) = name ++ [0] ∧
      name.length = s1.length + (segs.map fun x => x.2.length).sum + segs.length ∧
      handle_event h p w len = some (true, { p with queue := buf }, w, fx) ∧
      ((∀ b ∈ name, b ≠ 0) →
        cstr buf event_name = name ∧
        ∀ (hnd : Nat) (nm : List Nat) (d : Option (List Nat)),
          Effect.event_handler hnd nm d ∈ fx → nm = name) := by
  intro name event_name
  have hpre6 : [t, cd, m1, m0, opt, path].length = 6 := rfl
  have hpath : peek p.queue (5 + (peek p.queue 0 &&& 0x0F)) = path := by
    have h0 : peek p.queue 0 = t := by rw [hq]; rfl
    rw [h0, ht, hq]
    rfl
  obtain ⟨buf, data, hdec, htake, hl⟩ := decode_event_spec p.queue [t, cd, m1, m0, opt, path]
    hdr1 s1 segs rest len hq hpre6 h1 hne hsegs hpad hlen hQ hend hstop
  have hslice : slice buf event_name (name.length + 1) = name ++ [0] := by
    rw [slice_eq_drop_take]
    have e : event_name + (name.length + 1) = 6 + hdr1.length + name.length + 1 := by
      simp only [event_name]; omega
    rw [e, htake, List.append_assoc,
      List.drop_left' (by simp only [List.length_append, hpre6, event_name])]
  refine ⟨hpath, buf, data, dispatch_event p.event_handlers buf event_name name.length data
    (p.event_handlers.length * h.sizeof_FilteringEventHandler / h.sizeof_EventHandler) 0,
    hdec, hslice, ?_, ?_, ?_⟩
  · simp only [name, List.length_append, length_slash_joined]
    omega
  · unfold handle_event
    rw [hdec]
  · intro hz
    have hc := cstr_of_slice buf name event_name hslice hz
    refine ⟨hc, ?_⟩
    intro hnd nm d hmem
    rw [dispatch_event_name _ _ _ _ _ _ _ hnd nm d hmem, hc]

theorem event_name_decode_witness :
    peek (fresh_with event_request_mixed).queue 0 &&& 0x0F = 0 ∧
    received_message_type (fresh_with event_request_mixed).queue 0 = .EVENT ∧
    (decode_event (fresh_with event_request_mixed).queue 32).map
      (fun r => r.map fun t => (t.2.1, t.2.2.1)) = some (some (7, 17)) ∧
    (handle_event reference_host (listening ['a'.toNat] (fresh_with event_request_mixed))
        ⟨[], [], [], []⟩ 32).map (fun r => r.2.2.2)
      = some [.event_handler 1 ("a/bbbbbbbbbbbbb/c".toList.map Char.toNat)
          (some ['x'.toNat])] ∧
    (handle_event reference_host (listening ['a'.toNat] (fresh_with event_request_abc))
        ⟨[], [], [], []⟩ 16).map (fun r => (slice r.2.1.queue 7 6, r.2.2.2))
      = some ("a/b/c".toList.map Char.toNat ++ [0],
          [.event_handler 1 ("a/b/c".toList.map Char.toNat) (some ['x'.toNat])]) := by
  refine ⟨by decide, by decide, ?_, by decide, by decide⟩
  obtain ⟨_, buf, data, fx, hdec, _⟩ := event_name_decode reference_host
    (fresh_with event_request_mixed) ⟨[], [], [], []⟩ 32
    0x50 0x02 0x12 0x38 0xb1 'e'.toNat [0x01] ['a'.toNat]
    [([0x0d, 0x00], List.replicate 13 'b'.toNat), ([0x01], ['c'.toNat])]
    ([0xff, 'x'.toNat, 5, 5, 5, 5, 5] ++ List.replicate 608 0)
    (by decide) (by decide) (Or.inl ⟨rfl, by decide⟩) (by decide)
    (by
      intro x hx
      simp only [List.mem_cons, List.mem_singleton, List.not_mem_nil, or_false] at hx
      rcases hx with rfl | rfl
      · exact Or.inr (Or.inl ⟨0, rfl, by decide, by decide⟩)
      · exact Or.inl ⟨rfl, by decide⟩)
    (by decide) (by decide) (by decide) (by decide) (Or.inr (by decide))
  rw [hdec]
  rfl

/-- C20 (counterexample): the frame `51 02 12 38 99 b1 65 01 61 ff 78` + 5 pad bytes, a
POST with a one-byte token and the Uri-Path options `e` and `a`, is classified as an
EVENT, for the classifier reads the path byte at `5 + token length`. The decode starts
at byte 6 whatever the token length: it takes the path byte `e` (0x65) for the header of
a five-byte option and gives the name `01 61 ff 78 05` of length 5, not `a`. A handler
subscribed to `a` is not called, and one that takes every name is called with the five
bytes and without data. -/
theorem event_name_with_token_misread :
    event_request_with_token
      = [0x51, 0x02, 0x12, 0x38] ++ [0x99] ++ [0xb1, 'e'.toNat] ++ [0x01] ++ ['a'.toNat]
          ++ encoded_options [] ++ [0xff, 'x'.toNat, 5, 5, 5, 5, 5] ∧
    OptionHeader [0x01] ['a'.toNat].length ∧
    peek event_request_with_token 0 &&& 0x0F = 1 ∧
    received_message_type (fresh_with event_request_with_token).queue 0 = .EVENT ∧
    (decode_event (fresh_with event_request_with_token).queue 16).map
        (fun r => r.map fun t => (t.2.1, t.2.2.1, slice t.1 t.2.1 (t.2.2.1 + 1), t.2.2.2))
      = some (some (7, 5, [0x01, 'a'.toNat, 0xff, 'x'.toNat, 5, 0], none)) ∧
    (handle_event reference_host (listening ['a'.toNat] (fresh_with event_request_with_token))
        ⟨[], [], [], []⟩ 16).map (fun r => r.2.2.2) = some [] ∧
    (handle_event reference_host (listening [] (fresh_with event_request_with_token))
        ⟨[], [], [], []⟩ 16).map (fun r => r.2.2.2)
      = some [.event_handler 1 [0x01, 'a'.toNat, 0xff, 'x'.toNat, 5] none] := by
  refine ⟨by decide, Or.inl ⟨rfl, by decide⟩, by decide, by decide, by decide, by decide,
    by decide⟩

/-! ## The dispatch of an event to the handler table -/

theorem take_length_takeWhile (p : Nat → Bool) (l : List Nat) :
    l.take (l.takeWhile p).length = l.takeWhile p := by
  induction l with
  | nil => rfl
  | cons b bs ih =>
    rw [List.takeWhile_cons]
    by_cases hb : p b = true
    · simp only [hb, if_true, List.length_cons, List.take_succ_cons, ih]
    · simp only [hb, if_false, List.length_nil, List.take_zero]
      rfl

theorem slice_zero_strlen (l : List Nat) : slice l 0 (strlen l 0) = cstr l 0 := by
  unfold slice strlen cstr
  rw [List.drop_zero]
  exact take_length_takeWhile _ l

theorem filter_matches_iff (buf : List Nat) (event_name event_name_length : Nat)
    (e : FilteringEventHandler) (hfit : event_name + event_name_length ≤ buf.length)
    (hcap : e.filter.length ≤ 64) :
    filter_matches (slice buf event_name event_name_length) e = true ↔
      ¬ event_name_length < strlen e.filter 0 ∧
        slice e.filter 0 (strlen e.filter 0) = slice buf event_name (strlen e.filter 0) := by
  have hlen : (slice buf event_name event_name_length).length = event_name_length :=
    length_slice _ _ _ hfit
  have hc : (cstr e.filter 0).length ≤ 64 := by
    have := length_cstr_le e.filter
    omega
  have htake : (cstr e.filter 0).take 64 = cstr e.filter 0 := List.take_of_length_le hc
  unfold filter_matches
  rw [decide_eq_true_iff, htake, slice_zero_strlen]
  constructor
  · intro hp
    have hle : strlen e.filter 0 ≤ event_name_length := by
      have := hp.length_le
      rw [hlen] at this
      exact this
    refine ⟨by omega, ?_⟩
    have := List.prefix_iff_eq_take.mp hp
    rw [this]
    unfold slice strlen
    rw [List.take_take]
    have hm : min (cstr e.filter 0).length event_name_length = (cstr e.filter 0).length :=
      Nat.min_eq_left hle
    rw [hm]
  · rintro ⟨hle, heq⟩
    rw [heq]
    unfold slice
    have : strlen e.filter 0 = min (strlen e.filter 0) event_name_length := by omega
    rw [this, ← List.take_take]
    exact List.take_prefix _ _

theorem first_match_nil (name : List Nat) : first_match [] name = none := rfl

theorem first_match_cons (e : FilteringEventHandler) (rest : List FilteringEventHandler)
    (name : List Nat) :
    first_match (e :: rest) name =
      if e.handler = 0 then none
      else if filter_matches name e = true then some e
      else first_match rest name := by
  unfold first_match
  rw [List.takeWhile_cons]
  by_cases h0 : e.handler = 0
  · simp [h0]
  · have hd : decide (e.handler ≠ 0) = true := by simp [h0]
    simp only [hd, if_true, h0, if_false, List.find?_cons]
    cases hm : filter_matches name e <;> simp

theorem dispatch_event_spec (event_handlers : List FilteringEventHandler) (buf : List Nat)
    (event_name event_name_length : Nat) (data : Option Nat)
    (hfit : event_name + event_name_length ≤ buf.length)
    (hcap : ∀ e ∈ event_handlers, e.filter.length ≤ 64) :
    ∀ (n i : Nat), i ≤ event_handlers.length → event_handlers.length ≤ i + n →
    dispatch_event event_handlers buf event_name event_name_length data n i =
      match first_match (event_handlers.drop i) (slice buf event_name event_name_length) with
      | some e => [.event_handler e.handler (cstr buf event_name) (data.map (cstr buf))]
      | none =>
        if (event_handlers.drop i).all (fun e => decide (e.handler ≠ 0)) = true ∧
            event_handlers.length < i + n
        then [.event_handlers_overrun event_handlers.length] else [] := by
  intro n
  induction n with
  | zero =>
    intro i hi hn
    have : i = event_handlers.length := by omega
    subst this
    rw [List.drop_length, first_match_nil]
    simp [dispatch_event]
  | succ n ih =>
    intro i hi hn
    unfold dispatch_event
    by_cases hlt : i < event_handlers.length
    · have hget : event_handlers.get? i = some event_handlers[i] := List.get?_eq_get hlt
      have hdrop : event_handlers.drop i = event_handlers[i] :: event_handlers.drop (i + 1) :=
        List.drop_eq_getElem_cons hlt
      have hmem : event_handlers[i] ∈ event_handlers := List.getElem_mem _
      have hiff := filter_matches_iff buf event_name event_name_length event_handlers[i] hfit
        (hcap _ hmem)
      rw [hget, hdrop, first_match_cons]
      dsimp only
      by_cases h0 : event_handlers[i].handler = 0
      · simp [h0]
        intro hx
        exact absurd h0 (hx _ (by rw [hdrop]; exact List.mem_cons_self _ _))
      · rw [if_neg h0, if_neg h0]
        have hih := ih (i + 1) (by omega) (by omega)
        have hall : ((event_handlers[i] :: event_handlers.drop (i + 1)).all
              (fun e => decide (e.handler ≠ 0)) = true ∧ event_handlers.length < i + (n + 1))
            ↔ ((event_handlers.drop (i + 1)).all (fun e => decide (e.handler ≠ 0)) = true ∧
              event_handlers.length < i + 1 + n) := by
          simp only [List.all_cons, Bool.and_eq_true, decide_eq_true_eq]
          constructor
          · rintro ⟨⟨_, h2⟩, h3⟩
            exact ⟨h2, by omega⟩
          · rintro ⟨h2, h3⟩
            exact ⟨⟨h0, h2⟩, by omega⟩
        by_cases hshort : event_name_length < strlen event_handlers[i].filter 0
        · have hm : ¬ filter_matches (slice buf event_name event_name_length)
              event_handlers[i] = true := fun hm => (hiff.mp hm).1 hshort
          rw [if_pos hshort, if_neg hm, hih]
          simp only [hall]
        · rw [if_neg hshort]
          by_cases heq : slice event_handlers[i].filter 0 (strlen event_handlers[i].filter 0)
              = slice buf event_name (strlen event_handlers[i].filter 0)
          · rw [if_pos heq, if_pos (hiff.mpr ⟨hshort, heq⟩)]
          · have hm : ¬ filter_matches (slice buf event_name event_name_length)
                event_handlers[i] = true := fun hm => heq (hiff.mp hm).2
            rw [if_neg heq, if_neg hm, hih]
            simp only [hall]
    · have hi2 : i = event_handlers.length := by omega
      subst hi2
      rw [List.get?_eq_none.mpr (Nat.le_refl _), List.drop_length, first_match_nil]
      simp

theorem send_event_denied (c : Primitives)
    (event : List Nat → Nat → Nat → List Nat → Option (List Nat) → Int → Nat → List Nat × Nat)
    (p : Session) (lim : EventLimiter) (w : World) (event_name : List Nat)
    (data : Option (List Nat)) (ttl : Int) (event_type : Nat) (now : Nat) (w1 : World)
    (hu : p.updating = false) (hm : callback_millis w = some (now, w1))
    (hd : (rate_limit lim (is_system event_name) now).1 = true) :
    send_event c event p lim w event_name data ttl event_type
      = some (false, p, (rate_limit lim (is_system event_name) now).2, w1) := by
  simp only [send_event, hu, hm, Option.bind_eq_bind, Option.pure_def, Option.some_bind,
    Bool.false_eq_true, if_false]
  rw [if_pos hd]

theorem send_event_admitted (c : Primitives)
    (event : List Nat → Nat → Nat → List Nat → Option (List Nat) → Int → Nat → List Nat × Nat)
    (p : Session) (lim : EventLimiter) (w : World) (event_name : List Nat)
    (data : Option (List Nat)) (ttl : Int) (event_type : Nat) (now : Nat) (w1 : World)
    (r : Int) (w2 : World)
    (hu : p.updating = false) (hm : callback_millis w = some (now, w1))
    (hd : (rate_limit lim (is_system event_name) now).1 = false)
    (hs : blocking_send (stage_event c event p event_name data ttl event_type).1.queue 0
      (stage_event c event p event_name data ttl event_type).2 w1 = some (r, w2)) :
    send_event c event p lim w event_name data ttl event_type
      = some (decide (0 ≤ r), (stage_event c event p event_name data ttl event_type).1,
          (rate_limit lim (is_system event_name) now).2, w2) := by
  simp only [send_event, hu, hm, Option.bind_eq_bind, Option.pure_def, Option.some_bind,
    Bool.false_eq_true, if_false]
  rw [if_neg (by rw [hd]; decide)]
  simp only [hs, Option.some_bind]

theorem stage_event_updating (c : Primitives)
    (event : List Nat → Nat → Nat → List Nat → Option (List Nat) → Int → Nat → List Nat × Nat)
    (p : Session) (event_name : List Nat) (data : Option (List Nat)) (ttl : Int)
    (event_type : Nat) :
    (stage_event c event p event_name data ttl event_type).1.updating = p.updating := rfl

theorem burst_run (c : Primitives)
    (event : List Nat → Nat → Nat → List Nat → Option (List Nat) → Int → Nat → List Nat × Nat)
    (p p1 p2 p3 p4 : Session) (event_name : List Nat) (data : Option (List Nat)) (ttl : Int)
    (event_type : Nat) (w0 w1 w2 w3 w4 w5 w6 w7 w8 w9 w10 : World) (r1 r2 r3 r4 : Int)
    (hn : is_system event_name = false) (hu : p.updating = false)
    (hp1 : (stage_event c event p event_name data ttl event_type).1 = p1)
    (hp2 : (stage_event c event p1 event_name data ttl event_type).1 = p2)
    (hp3 : (stage_event c event p2 event_name data ttl event_type).1 = p3)
    (hp4 : (stage_event c event p3 event_name data ttl event_type).1 = p4)
    (hm1 : callback_millis w0 = some (0, w1))
    (hs1 : blocking_send p1.queue 0 (stage_event c event p event_name data ttl event_type).2 w1
      = some (r1, w2))
    (hm2 : callback_millis w2 = some (200, w3))
    (hs2 : blocking_send p2.queue 0 (stage_event c event p1 event_name data ttl event_type).2 w3
      = some (r2, w4))
    (hm3 : callback_millis w4 = some (400, w5))
    (hs3 : blocking_send p3.queue 0 (stage_event c event p2 event_name data ttl event_type).2 w5
      = some (r3, w6))
    (hm4 : callback_millis w6 = some (600, w7))
    (hs4 : blocking_send p4.queue 0 (stage_event c event p3 event_name data ttl event_type).2 w7
      = some (r4, w8))
    (hm5 : callback_millis w8 = some (800, w9))
    (hm6 : callback_millis w9 = some (1001, w10))
    (hr : 0 ≤ r1 ∧ 0 ≤ r2 ∧ 0 ≤ r3 ∧ 0 ≤ r4) :
    send_events c event p EventLimiter.initial w0
        (List.replicate 6 (event_name, data, ttl, event_type))
      = some ([true, true, true, true, false, false], p4,
          ⟨0, 0, [1001, 200, 400, 600, 800], 1⟩, w10) := by
  have hu1 : p1.updating = false := by rw [← hp1, stage_event_updating, hu]
  have hu2 : p2.updating = false := by rw [← hp2, stage_event_updating, hu1]
  have hu3 : p3.updating = false := by rw [← hp3, stage_event_updating, hu2]
  have hu4 : p4.updating = false := by rw [← hp4, stage_event_updating, hu3]
  have e1 := send_event_admitted c event p EventLimiter.initial w0 event_name data ttl
    event_type 0 w1 r1 w2 hu hm1 (by rw [hn]; rfl) (by rw [hp1]; exact hs1)
  have l1 : (rate_limit EventLimiter.initial false 0).2
      = ⟨0, 0, [0, 4294966296, 4294966296, 4294966296, 4294966296], 1⟩ := by decide
  rw [hn, l1, hp1] at e1
  have e2 := send_event_admitted c event p1
    ⟨0, 0, [0, 4294966296, 4294966296, 4294966296, 4294966296], 1⟩ w2 event_name data ttl
    event_type 200 w3 r2 w4 hu1 hm2 (by rw [hn]; rfl) (by rw [hp2]; exact hs2)
  have l2 : (rate_limit ⟨0, 0, [0, 4294966296, 4294966296, 4294966296, 4294966296], 1⟩ false
      200).2 = ⟨0, 0, [0, 200, 4294966296, 4294966296, 4294966296], 2⟩ := by decide
  rw [hn, l2, hp2] at e2
  have e3 := send_event_admitted c event p2
    ⟨0, 0, [0, 200, 4294966296, 4294966296, 4294966296], 2⟩ w4 event_name data ttl
    event_type 400 w5 r3 w6 hu2 hm3 (by rw [hn]; rfl) (by rw [hp3]; exact hs3)
  have l3 : (rate_limit ⟨0, 0, [0, 200, 4294966296, 4294966296, 4294966296], 2⟩ false
      400).2 = ⟨0, 0, [0, 200, 400, 4294966296, 4294966296], 3⟩ := by decide
  rw [hn, l3, hp3] at e3
  have e4 := send_event_admitted c event p3
    ⟨0, 0, [0, 200, 400, 4294966296, 4294966296], 3⟩ w6 event_name data ttl
    event_type 600 w7 r4 w8 hu3 hm4 (by rw [hn]; rfl) (by rw [hp4]; exact hs4)
  have l4 : (rate_limit ⟨0, 0, [0, 200, 400, 4294966296, 4294966296], 3⟩ false
      600).2 = ⟨0, 0, [0, 200, 400, 600, 4294966296], 4⟩ := by decide
  rw [hn, l4, hp4] at e4
  have e5 := send_event_denied c event p4 ⟨0, 0, [0, 200, 400, 600, 4294966296], 4⟩ w8
    event_name data ttl event_type 800 w9 hu4 hm5 (by rw [hn]; rfl)
  have l5 : (rate_limit ⟨0, 0, [0, 200, 400, 600, 4294966296], 4⟩ false
      800).2 = ⟨0, 0, [0, 200, 400, 600, 800], 0⟩ := by decide
  rw [hn, l5] at e5
  have e6 := send_event_denied c event p4 ⟨0, 0, [0, 200, 400, 600, 800], 0⟩ w9
    event_name data ttl event_type 1001 w10 hu4 hm6 (by rw [hn]; rfl)
  have l6 : (rate_limit ⟨0, 0, [0, 200, 400, 600, 800], 0⟩ false
      1001).2 = ⟨0, 0, [1001, 200, 400, 600, 800], 1⟩ := by decide
  rw [hn, l6] at e6
  have d1 : decide (0 ≤ r1) = true := decide_eq_true hr.1
  have d2 : decide (0 ≤ r2) = true := decide_eq_true hr.2.1
  have d3 : decide (0 ≤ r3) = true := decide_eq_true hr.2.2.1
  have d4 : decide (0 ≤ r4) = true := decide_eq_true hr.2.2.2
  rw [d1] at e1
  rw [d2] at e2
  rw [d3] at e3
  rw [d4] at e4
  simp only [List.replicate, send_events, e1, e2, e3, e4, e5, e6]

/-- C22 (amended): from freshly initialised statics, with `updating` false and every send
succeeding, six `send_event` calls for a name that is not a system event made at
millis() = 0, 200, 400, 600, 800 and 1001 return true, true, true, true, false, false:
the call at 800 ms is denied and has been written into the ring, so the call at 1001 ms
finds the fourth attempt before it, at 200 ms, less than 1000 ms back and is denied as
well. -/
theorem burst_of_six_calls (c : Primitives)
    (event : List Nat → Nat → Nat → List Nat → Option (List Nat) → Int → Nat → List Nat × Nat)
    (p p1 p2 p3 p4 : Session) (event_name : List Nat) (data : Option (List Nat)) (ttl : Int)
    (event_type : Nat) (w0 w1 w2 w3 w4 w5 w6 w7 w8 w9 w10 : World) (r1 r2 r3 r4 : Int)
    (hn : is_system event_name = false) (hu : p.updating = false)
    (hp1 : (stage_event c event p event_name data ttl event_type).1 = p1)
    (hp2 : (stage_event c event p1 event_name data ttl event_type).1 = p2)
    (hp3 : (stage_event c event p2 event_name data ttl event_type).1 = p3)
    (hp4 : (stage_event c event p3 event_name data ttl event_type).1 = p4)
    (hm1 : callback_millis w0 = some (0, w1))
    (hs1 : blocking_send p1.queue 0 (stage_event c event p event_name data ttl event_type).2 w1
      = some (r1, w2))
    (hm2 : callback_millis w2 = some (200, w3))
    (hs2 : blocking_send p2.queue 0 (stage_event c event p1 event_name data ttl event_type).2 w3
      = some (r2, w4))
    (hm3 : callback_millis w4 = some (400, w5))
    (hs3 : blocking_send p3.queue 0 (stage_event c event p2 event_name data ttl event_type).2 w5
      = some (r3, w6))
    (hm4 : callback_millis w6 = some (600, w7))
    (hs4 : blocking_send p4.queue 0 (stage_event c event p3 event_name data ttl event_type).2 w7
      = some (r4, w8))
    (hm5 : callback_millis w8 = some (800, w9))
    (hm6 : callback_millis w9 = some (1001, w10))
    (hr : 0 ≤ r1 ∧ 0 ≤ r2 ∧ 0 ≤ r3 ∧ 0 ≤ r4) :
    send_events c event p EventLimiter.initial w0
        (List.replicate 6 (event_name, data, ttl, event_type))
      = some ([true, true, true, true, false, false], p4,
          ⟨0, 0, [1001, 200, 400, 600, 800], 1⟩, w10) :=
  burst_run c event p p1 p2 p3 p4 event_name data ttl event_type w0 w1 w2 w3 w4 w5 w6 w7 w8 w9
    w10 r1 r2 r3 r4 hn hu hp1 hp2 hp3 hp4 hm1 hs1 hm2 hs2 hm3 hs3 hm4 hs4 hm5 hm6 hr

theorem burst_of_six_calls_witness :
    ∃ (p4 : Session) (w10 : World),
      send_events cleartext event_post fresh EventLimiter.initial burst_of_six
          (List.replicate 6 ("temp".toList.map Char.toNat, some ['x'.toNat], 60, 0))
        = some ([true, true, true, true, false, false], p4,
            ⟨0, 0, [1001, 200, 400, 600, 800], 1⟩, w10) :=
  ⟨_, _, burst_of_six_calls cleartext event_post fresh _ _ _ _
    ("temp".toList.map Char.toNat) (some ['x'.toNat]) 60 0 burst_of_six
    ⟨[0, 200, 200, 400, 400, 600, 600, 800, 1001, 1001], [], [18, 18, 18, 18, 18], []⟩
    ⟨[200, 200, 400, 400, 600, 600, 800, 1001, 1001], [], [18, 18, 18, 18], _⟩
    ⟨[200, 400, 400, 600, 600, 800, 1001, 1001], [], [18, 18, 18, 18], _⟩
    ⟨[400, 400, 600, 600, 800, 1001, 1001], [], [18, 18, 18], _⟩
    ⟨[400, 600, 600, 800, 1001, 1001], [], [18, 18, 18], _⟩
    ⟨[600, 600, 800, 1001, 1001], [], [18, 18], _⟩
    ⟨[600, 800, 1001, 1001], [], [18, 18], _⟩
    ⟨[800, 1001, 1001], [], [18], _⟩
    ⟨[1001, 1001], [], [18], _⟩
    ⟨[1001], [], [18], _⟩
    18 18 18 18 rfl rfl rfl rfl rfl rfl rfl
    (blocking_send_all_at_once _ 0 18 (by decide) 0 _ [] _ [])
    rfl (blocking_send_all_at_once _ 0 18 (by decide) 200 _ [] _ _)
    rfl (blocking_send_all_at_once _ 0 18 (by decide) 400 _ [] _ _)
    rfl (blocking_send_all_at_once _ 0 18 (by decide) 600 _ [] _ _)
    rfl rfl (by decide)⟩

theorem burst_of_six_sixth_denied :
    (send_events cleartext event_post fresh EventLimiter.initial burst_of_six
        (List.replicate 6 ("temp".toList.map Char.toNat, some ['x'.toNat], 60, 0))).map
      (fun r => r.1) = some [true, true, true, true, false, false] ∧
    (send_events cleartext event_post fresh EventLimiter.initial burst_of_six
        (List.replicate 6 ("temp".toList.map Char.toNat, some ['x'.toNat], 60, 0))).map
      (fun r => r.1) ≠ some [true, true, true, true, false, true] := by
  have h := burst_run cleartext event_post fresh _ _ _ _
    ("temp".toList.map Char.toNat) (some ['x'.toNat]) 60 0 burst_of_six
    ⟨[0, 200, 200, 400, 400, 600, 600, 800, 1001, 1001], [], [18, 18, 18, 18, 18], []⟩
    ⟨[200, 200, 400, 400, 600, 600, 800, 1001, 1001], [], [18, 18, 18, 18], _⟩
    ⟨[200, 400, 400, 600, 600, 800, 1001, 1001], [], [18, 18, 18, 18], _⟩
    ⟨[400, 400, 600, 600, 800, 1001, 1001], [], [18, 18, 18], _⟩
    ⟨[400, 600, 600, 800, 1001, 1001], [], [18, 18, 18], _⟩
    ⟨[600, 600, 800, 1001, 1001], [], [18, 18], _⟩
    ⟨[600, 800, 1001, 1001], [], [18, 18], _⟩
    ⟨[800, 1001, 1001], [], [18], _⟩
    ⟨[1001, 1001], [], [18], _⟩
    ⟨[1001], [], [18], _⟩
    18 18 18 18 rfl rfl rfl rfl rfl rfl rfl
    (blocking_send_all_at_once _ 0 18 (by decide) 0 _ [] _ [])
    rfl (blocking_send_all_at_once _ 0 18 (by decide) 200 _ [] _ _)
    rfl (blocking_send_all_at_once _ 0 18 (by decide) 400 _ [] _ _)
    rfl (blocking_send_all_at_once _ 0 18 (by decide) 600 _ [] _ _)
    rfl rfl (by decide)
  rw [h]
  exact ⟨rfl, by decide⟩

theorem rate_limit_recent (lim : EventLimiter) (now : Nat)
    (hlen : lim.recent_event_ticks.length = 5) (hidx : lim.evt_tick_idx < 5) :
    (rate_limit lim false now).2.recent = now :: lim.recent.take 4 ∧
    (rate_limit lim false now).1 = decide (tick_sub now (lim.recent.getD 3 0) < 1000) ∧
    (rate_limit lim false now).2.recent_event_ticks.length = 5 ∧
    (rate_limit lim false now).2.evt_tick_idx < 5 := by
  obtain ⟨lm, ev, ring, idx⟩ := lim
  dsimp only at hlen hidx
  rcases ring with _ | ⟨a, _ | ⟨b, _ | ⟨c, _ | ⟨d, _ | ⟨e, _ | ⟨f, r⟩⟩⟩⟩⟩⟩ <;>
    simp only [List.length_cons, List.length_nil] at hlen <;> try omega
  interval_cases idx <;>
    simp [rate_limit, EventLimiter.recent, List.range, List.range.loop]

theorem getD_three_append_take (a b : List Nat) (t : Nat) :
    (a ++ t :: b.take 4).getD 3 0 = (a ++ t :: b).getD 3 0 := by
  rcases a with _ | ⟨a0, _ | ⟨a1, _ | ⟨a2, _ | ⟨a3, a⟩⟩⟩⟩ <;>
    rcases b with _ | ⟨b0, _ | ⟨b1, _ | ⟨b2, _ | ⟨b3, b⟩⟩⟩⟩ <;> rfl

theorem admitted_spec (ts : List Nat) :
    ∀ (lim : EventLimiter), lim.recent_event_ticks.length = 5 → lim.evt_tick_idx < 5 →
      ∀ j, j < ts.length →
        (admitted false lim ts).getD j false
          = !decide (tick_sub (ts.getD j 0) (((ts.take j).reverse ++ lim.recent).getD 3 0) < 1000) := by
  induction ts with
  | nil => intro lim _ _ j hj; exact absurd hj (Nat.not_lt_zero _)
  | cons t ts ih =>
    intro lim hlen hidx j hj
    obtain ⟨hrec, hv, hlen2, hidx2⟩ := rate_limit_recent lim t hlen hidx
    cases j with
    | zero =>
      show (!(rate_limit lim false t).1) = _
      rw [hv]
      rfl
    | succ k =>
      have hk : k < ts.length := by simpa using hj
      show (admitted false (rate_limit lim false t).2 ts).getD k false = _
      rw [ih _ hlen2 hidx2 k hk, hrec, getD_three_append_take]
      simp only [List.take_succ_cons, List.reverse_cons, List.append_assoc, List.singleton_append,
        List.getD_cons_succ]

theorem getD_reverse_take (ts : List Nat) (j : Nat) (h4 : 4 ≤ j) (hj : j ≤ ts.length)
    (rest : List Nat) :
    ((ts.take j).reverse ++ rest).getD 3 0 = ts.getD (j - 4) 0 := by
  have hl : (ts.take j).length = j := by rw [List.length_take]; omega
  have h3 : 3 < (ts.take j).reverse.length := by rw [List.length_reverse, hl]; omega
  rw [List.getD_append _ _ _ _ h3, List.getD_eq_getElem _ _ h3, List.getElem_reverse,
    List.getElem_take, List.getD_eq_getElem _ _ (by omega)]
  congr 1
  omega

theorem tick_sub_of_le (a b : Nat) (hba : b ≤ a) (ha : a < 2 ^ 32) : tick_sub a b = a - b := by
  unfold tick_sub
  have hb : b < 2 ^ 32 := by omega
  rw [Nat.mod_eq_of_lt ha, Nat.mod_eq_of_lt hb]
  have : a + 2 ^ 32 - b = (a - b) + 2 ^ 32 := by omega
  rw [this, Nat.add_mod_right, Nat.mod_eq_of_lt (by omega)]

theorem admitted_fifth (ts : List Nat) (hmono : ts.Pairwise (fun a b => a ≤ b))
    (hwrap : ∀ t ∈ ts, t < 2 ^ 32) (i j : Nat) (hij : i + 4 ≤ j) (hj : j < ts.length)
    (hadm : (admitted false EventLimiter.initial ts).getD j false = true) :
    ts.getD i 0 + 1000 ≤ ts.getD j 0 := by
  have hspec := admitted_spec ts EventLimiter.initial rfl (by decide) j hj
  rw [hadm, getD_reverse_take ts j (by omega) (by omega)] at hspec
  have hj4 : j - 4 < ts.length := by omega
  have hi : i < ts.length := by omega
  rw [List.getD_eq_getElem _ _ hj, List.getD_eq_getElem _ _ hj4] at hspec
  rw [List.getD_eq_getElem _ _ hj, List.getD_eq_getElem _ _ hi]
  have hle : ts[j - 4] ≤ ts[j] :=
    List.pairwise_iff_getElem.mp hmono (j - 4) j hj4 hj (by omega)
  have hile : ts[i] ≤ ts[j - 4] := by
    by_cases he : i = j - 4
    · subst he; exact Nat.le_refl _
    · exact List.pairwise_iff_getElem.mp hmono i (j - 4) hi hj4 (by omega)
  rw [tick_sub_of_le _ _ hle (hwrap _ (List.getElem_mem _))] at hspec
  have : ¬ ts[j] - ts[j - 4] < 1000 := by simpa using hspec.symm
  omega

theorem admitted_window (ts : List Nat) (hmono : ts.Pairwise (fun a b => a ≤ b))
    (hwrap : ∀ t ∈ ts, t < 2 ^ 32) (start : Nat) :
    ((List.range ts.length).filter fun j =>
        (admitted false EventLimiter.initial ts).getD j false &&
          decide (start ≤ ts.getD j 0 ∧ ts.getD j 0 < start + 1000)).length ≤ 4 := by
  generalize hL : ((List.range ts.length).filter fun j =>
        (admitted false EventLimiter.initial ts).getD j false &&
          decide (start ≤ ts.getD j 0 ∧ ts.getD j 0 < start + 1000)) = L
  by_contra hlen
  have h5 : 5 ≤ L.length := by omega
  have hpw : L.Pairwise (fun a b => a < b) := by
    rw [← hL]
    exact (List.pairwise_lt_range _).filter _
  have hall : ∀ x ∈ L, x < ts.length ∧
      (admitted false EventLimiter.initial ts).getD x false = true ∧
      start ≤ ts.getD x 0 ∧ ts.getD x 0 < start + 1000 := by
    intro x hx
    rw [← hL, List.mem_filter, List.mem_range, Bool.and_eq_true, decide_eq_true_iff] at hx
    exact ⟨hx.1, hx.2.1, hx.2.2.1, hx.2.2.2⟩
  have hmem : ∀ k (hk : k < L.length), L[k] < ts.length ∧
      (admitted false EventLimiter.initial ts).getD L[k] false = true ∧
      start ≤ ts.getD L[k] 0 ∧ ts.getD L[k] 0 < start + 1000 :=
    fun k hk => hall _ (List.getElem_mem _)
  have h01 := List.pairwise_iff_getElem.mp hpw 0 1 (by omega) (by omega) (by omega)
  have h12 := List.pairwise_iff_getElem.mp hpw 1 2 (by omega) (by omega) (by omega)
  have h23 := List.pairwise_iff_getElem.mp hpw 2 3 (by omega) (by omega) (by omega)
  have h34 := List.pairwise_iff_getElem.mp hpw 3 4 (by omega) (by omega) (by omega)
  obtain ⟨_, _, hs0, _⟩ := hmem 0 (by omega)
  obtain ⟨hl4, ha4, _, he4⟩ := hmem 4 (by omega)
  have := admitted_fifth ts hmono hwrap L[0] L[4] (by omega) hl4 ha4
  omega

/-- C23: for calls of `send_event` for names that are not system events, made at times
`ts` that never decrease and stay below 2^32, from the initial statics on: in any window
of 1000 ms the rate limiting block lets at most 4 calls pass, any five calls it lets pass
have at least 1000 ms between the first and the fifth; a call it does not let pass makes
`send_event` return false, and a call it lets pass goes on to stage and send the event. -/
theorem at_most_four_per_second (ts : List Nat) (hmono : ts.Pairwise (fun a b => a ≤ b))
    (hwrap : ∀ t ∈ ts, t < 2 ^ 32) :
    (∀ start : Nat,
      ((List.range ts.length).filter fun j =>
        (admitted false EventLimiter.initial ts).getD j false &&
          decide (start ≤ ts.getD j 0 ∧ ts.getD j 0 < start + 1000)).length ≤ 4) ∧
    (∀ a1 a2 a3 a4 a5 : Nat, a1 < a2 → a2 < a3 → a3 < a4 → a4 < a5 → a5 < ts.length →
      (admitted false EventLimiter.initial ts).getD a1 false = true →
      (admitted false EventLimiter.initial ts).getD a2 false = true →
      (admitted false EventLimiter.initial ts).getD a3 false = true →
      (admitted false EventLimiter.initial ts).getD a4 false = true →
      (admitted false EventLimiter.initial ts).getD a5 false = true →
      ts.getD a1 0 + 1000 ≤ ts.getD a5 0) ∧
    (∀ (c : Primitives)
      (event : List Nat → Nat → Nat → List Nat → Option (List Nat) → Int → Nat → List Nat × Nat)
      (p : Session) (lim : EventLimiter) (w w1 : World) (event_name : List Nat)
      (data : Option (List Nat)) (ttl : Int) (event_type now : Nat),
      is_system event_name = false → p.updating = false →
      callback_millis w = some (now, w1) → (rate_limit lim false now).1 = true →
      send_event c event p lim w event_name data ttl event_type
        = some (false, p, (rate_limit lim false now).2, w1)) ∧
    (∀ (c : Primitives)
      (event : List Nat → Nat → Nat → List Nat → Option (List Nat) → Int → Nat → List Nat × Nat)
      (p : Session) (lim : EventLimiter) (w w1 w2 : World) (event_name : List Nat)
      (data : Option (List Nat)) (ttl : Int) (event_type now : Nat) (r : Int),
      is_system event_name = false → p.updating = false →
      callback_millis w = some (now, w1) → (rate_limit lim false now).1 = false →
      blocking_send (stage_event c event p event_name data ttl event_type).1.queue 0
        (stage_event c event p event_name data ttl event_type).2 w1 = some (r, w2) →
      send_event c event p lim w event_name data ttl event_type
        = some (decide (0 ≤ r), (stage_event c event p event_name data ttl event_type).1,
            (rate_limit lim false now).2, w2)) := by
  refine ⟨admitted_window ts hmono hwrap, ?_, ?_, ?_⟩
  · intro a1 a2 a3 a4 a5 h12 h23 h34 h45 h5 _ _ _ _ ha5
    exact admitted_fifth ts hmono hwrap a1 a5 (by omega) h5 ha5
  · intro c event p lim w w1 event_name data ttl event_type now hn hu hm hd
    have h := send_event_denied c event p lim w event_name data ttl event_type now w1 hu hm
      (by rw [hn]; exact hd)
    rw [hn] at h
    exact h
  · intro c event p lim w w1 w2 event_name data ttl event_type now r hn hu hm hd hs
    have h := send_event_admitted c event p lim w event_name data ttl event_type now w1 r w2
      hu hm (by rw [hn]; exact hd) hs
    rw [hn] at h
    exact h

theorem at_most_four_per_second_witness :
    admitted false EventLimiter.initial [0, 200, 400, 600, 800, 1001, 1600]
      = [true, true, true, true, false, false, true] ∧
    ((List.range 7).filter fun j =>
        (admitted false EventLimiter.initial [0, 200, 400, 600, 800, 1001, 1600]).getD j false &&
          decide (601 ≤ [0, 200, 400, 600, 800, 1001, 1600].getD j 0 ∧
            [0, 200, 400, 600, 800, 1001, 1600].getD j 0 < 601 + 1000)).length ≤ 4 ∧
    [0, 200, 400, 600, 800, 1001, 1600].getD 0 0 + 1000
      ≤ [0, 200, 400, 600, 800, 1001, 1600].getD 6 0 :=
  ⟨by decide,
    (at_most_four_per_second [0, 200, 400, 600, 800, 1001, 1600] (by decide) (by decide)).1 601,
    (at_most_four_per_second [0, 200, 400, 600, 800, 1001, 1600] (by decide) (by decide)).2.1
      0 1 2 3 6 (by decide) (by decide) (by decide) (by decide) (by decide)
      (by decide) (by decide) (by decide) (by decide) (by decide)⟩

theorem tolower_eq_iff (b t : Nat) (ht : 97 ≤ t ∧ t ≤ 122) :
    tolower b = t ↔ b = t ∨ b + 32 = t := by
  unfold tolower
  have hA : 'A'.toNat = 65 := rfl
  have hZ : 'Z'.toNat = 90 := rfl
  rw [hA, hZ]
  split <;> omega

theorem is_system_iff (name : List Nat) : is_system name = true ↔ starts_with_spark name := by
  unfold is_system starts_with_spark
  rcases name with _ | ⟨a, _ | ⟨b, _ | ⟨c, _ | ⟨d, _ | ⟨e, rest⟩⟩⟩⟩⟩
  · simp
  · simp
  · simp
  · simp
  · simp
  · have hs : "spark".toList.map Char.toNat = [115, 112, 97, 114, 107] := by decide
    have hS : "SPARK".toList.map Char.toNat = [83, 80, 65, 82, 75] := by decide
    rw [hs, hS]
    have hlen : ¬ ((a :: b :: c :: d :: e :: rest).length = 0 ∨
        (a :: b :: c :: d :: e :: rest).length < 5) := by
      simp only [List.length_cons]; omega
    rw [if_neg hlen]
    simp only [List.take_succ_cons, List.take_zero, List.map_cons, List.map_nil,
      decide_eq_true_eq, List.cons.injEq, and_true, List.length_cons]
    rw [tolower_eq_iff a 115 (by omega), tolower_eq_iff b 112 (by omega),
      tolower_eq_iff c 97 (by omega), tolower_eq_iff d 114 (by omega),
      tolower_eq_iff e 107 (by omega)]
    constructor
    · rintro ⟨h0, h1, h2, h3, h4⟩
      refine ⟨by omega, ?_⟩
      intro i hi
      interval_cases i <;> simp only [List.getD_cons_zero, List.getD_cons_succ] <;> omega
    · rintro ⟨_, h⟩
      have h0 := h 0 (by omega)
      have h1 := h 1 (by omega)
      have h2 := h 2 (by omega)
      have h3 := h 3 (by omega)
      have h4 := h 4 (by omega)
      simp only [List.getD_cons_zero, List.getD_cons_succ] at h0 h1 h2 h3 h4
      omega

theorem rate_limit_system_same (lim : EventLimiter) (now : Nat)
    (hb : (now >>> 16) % 2 ^ 16 = lim.lastMinute) (hk : lim.eventsThisMinute < 255) :
    rate_limit lim true now
      = (false, { lim with eventsThisMinute := lim.eventsThisMinute + 1 }) := by
  have h1 : ¬ ((now >>> 16) % 2 ^ 16 = lim.lastMinute ∧ lim.eventsThisMinute = 255) := by omega
  have h2 : (lim.eventsThisMinute + 1) % 256 = lim.eventsThisMinute + 1 :=
    Nat.mod_eq_of_lt (by omega)
  simp only [rate_limit, if_true]
  rw [if_neg h1, if_pos hb, h2]

theorem rate_limit_system_full (lim : EventLimiter) (now : Nat)
    (hb : (now >>> 16) % 2 ^ 16 = lim.lastMinute) (hk : lim.eventsThisMinute = 255) :
    rate_limit lim true now = (true, lim) := by
  simp only [rate_limit, if_true, hb, hk, and_self]

theorem rate_limit_system_new (lim : EventLimiter) (now : Nat)
    (hb : (now >>> 16) % 2 ^ 16 ≠ lim.lastMinute) :
    rate_limit lim true now
      = (false, { lim with lastMinute := (now >>> 16) % 2 ^ 16, eventsThisMinute := 1 }) := by
  simp only [rate_limit, if_true, hb, false_and, if_false]

theorem admitted_system_run (ts : List Nat) (b : Nat)
    (hb : ∀ t ∈ ts, (t >>> 16) % 2 ^ 16 = b) :
    ∀ (lim : EventLimiter), lim.lastMinute = b → lim.eventsThisMinute ≤ 255 →
      ∀ i, i < ts.length →
        (admitted true lim ts).getD i false = decide (lim.eventsThisMinute + i < 255) := by
  induction ts with
  | nil => intro lim _ _ i hi; exact absurd hi (Nat.not_lt_zero _)
  | cons t ts ih =>
    intro lim hl hk i hi
    have ht : (t >>> 16) % 2 ^ 16 = lim.lastMinute := by
      rw [hl]; exact hb t (List.mem_cons_self _ _)
    have hb2 : ∀ x ∈ ts, (x >>> 16) % 2 ^ 16 = b := fun x hx => hb x (List.mem_cons_of_mem _ hx)
    by_cases hfull : lim.eventsThisMinute = 255
    · have hr := rate_limit_system_full lim t ht hfull
      cases i with
      | zero =>
        show (!(rate_limit lim true t).1) = _
        rw [hr, hfull]
        rfl
      | succ k =>
        show (admitted true (rate_limit lim true t).2 ts).getD k false = _
        rw [hr, ih hb2 lim hl hk k (by simpa using hi), hfull]
        simp
    · have hr := rate_limit_system_same lim t ht (by omega)
      cases i with
      | zero =>
        show (!(rate_limit lim true t).1) = _
        rw [hr]
        simp
        omega
      | succ k =>
        show (admitted true (rate_limit lim true t).2 ts).getD k false = _
        rw [hr]
        dsimp only
        rw [ih hb2 { lim with eventsThisMinute := lim.eventsThisMinute + 1 } hl
          (by show lim.eventsThisMinute + 1 ≤ 255; omega) k (by simpa using hi)]
        show decide (lim.eventsThisMinute + 1 + k < 255) = _
        congr 1
        rw [eq_iff_iff]
        omega

theorem admitted_system_bucket (ts : List Nat) (b : Nat)
    (hb : ∀ t ∈ ts, (t >>> 16) % 2 ^ 16 = b) (lim : EventLimiter)
    (henter : lim.lastMinute ≠ b ∨ (lim.lastMinute = b ∧ lim.eventsThisMinute = 0)) :
    ∀ i, i < ts.length → (admitted true lim ts).getD i false = decide (i < 255) := by
  rcases henter with hne | ⟨hl, h0⟩
  · intro i hi
    cases ts with
    | nil => exact absurd hi (Nat.not_lt_zero _)
    | cons t ts =>
      have ht : (t >>> 16) % 2 ^ 16 ≠ lim.lastMinute := by
        rw [hb t (List.mem_cons_self _ _)]; exact fun h => hne h.symm
      have hr := rate_limit_system_new lim t ht
      cases i with
      | zero =>
        show (!(rate_limit lim true t).1) = _
        rw [hr]
        rfl
      | succ k =>
        show (admitted true (rate_limit lim true t).2 ts).getD k false = _
        rw [hr]
        dsimp only
        rw [admitted_system_run ts b (fun x hx => hb x (List.mem_cons_of_mem _ hx))
          { lim with lastMinute := (t >>> 16) % 2 ^ 16, eventsThisMinute := 1 }
          (hb t (List.mem_cons_self _ _)) (by show 1 ≤ 255; omega) k (by simpa using hi)]
        show decide (1 + k < 255) = _
        congr 1
        rw [eq_iff_iff]
        omega
  · intro i hi
    rw [admitted_system_run ts b hb lim hl (by omega) i hi, h0, Nat.zero_add]

theorem rate_limit_system_ring (lim : EventLimiter) (now : Nat) :
    (rate_limit lim true now).2.recent_event_ticks = lim.recent_event_ticks ∧
    (rate_limit lim true now).2.evt_tick_idx = lim.evt_tick_idx ∧
    ∀ (ring : List Nat) (idx : Nat),
      (rate_limit { lim with recent_event_ticks := ring, evt_tick_idx := idx } true now).1
        = (rate_limit lim true now).1 := by
  by_cases hb : (now >>> 16) % 2 ^ 16 = lim.lastMinute
  · by_cases hk : lim.eventsThisMinute = 255
    · rw [rate_limit_system_full lim now hb hk]
      refine ⟨rfl, rfl, fun ring idx => ?_⟩
      rw [rate_limit_system_full
        { lim with recent_event_ticks := ring, evt_tick_idx := idx } now hb hk]
    · have h1 : ¬ ((now >>> 16) % 2 ^ 16 = lim.lastMinute ∧ lim.eventsThisMinute = 255) :=
        fun h => hk h.2
      refine ⟨?_, ?_, fun ring idx => ?_⟩ <;>
        simp only [rate_limit, if_true] <;> rw [if_neg h1, if_pos hb]
      rw [if_neg h1]
  · rw [rate_limit_system_new lim now hb]
    refine ⟨rfl, rfl, fun ring idx => ?_⟩
    rw [rate_limit_system_new
      { lim with recent_event_ticks := ring, evt_tick_idx := idx } now hb]

/-- C24: a name is a system event name if and only if it has at least 5 characters and
its first 5 are `spark` in upper or lower case. Of the calls for system events made while
the upper 16 bits of the 32-bit millis() keep one value, counted from the call that
finds the statics at another value or at a count of zero, the first 255 pass the rate
limiting block and every further one is turned down, `send_event` returning false; a
call that finds another value than the recorded one passes and leaves the count at 1;
and the block for system events neither reads nor writes the ring of the other events. -/
theorem system_event_limit (ts : List Nat) (b : Nat) (lim : EventLimiter)
    (hb : ∀ t ∈ ts, (t >>> 16) % 2 ^ 16 = b)
    (henter : lim.lastMinute ≠ b ∨ (lim.lastMinute = b ∧ lim.eventsThisMinute = 0)) :
    (∀ name : List Nat, is_system name = true ↔ starts_with_spark name) ∧
    (∀ i, i < ts.length → (admitted true lim ts).getD i false = decide (i < 255)) ∧
    (∀ (c : Primitives)
      (event : List Nat → Nat → Nat → List Nat → Option (List Nat) → Int → Nat → List Nat × Nat)
      (p : Session) (lim1 : EventLimiter) (w w1 : World) (event_name : List Nat)
      (data : Option (List Nat)) (ttl : Int) (event_type now : Nat),
      is_system event_name = true → p.updating = false →
      callback_millis w = some (now, w1) →
      (now >>> 16) % 2 ^ 16 = lim1.lastMinute → lim1.eventsThisMinute = 255 →
      send_event c event p lim1 w event_name data ttl event_type = some (false, p, lim1, w1)) ∧
    (∀ (lim1 : EventLimiter) (now : Nat), (now >>> 16) % 2 ^ 16 ≠ lim1.lastMinute →
      rate_limit lim1 true now
        = (false, { lim1 with lastMinute := (now >>> 16) % 2 ^ 16, eventsThisMinute := 1 })) ∧
    (∀ (lim1 : EventLimiter) (now : Nat),
      (rate_limit lim1 true now).2.recent_event_ticks = lim1.recent_event_ticks ∧
      (rate_limit lim1 true now).2.evt_tick_idx = lim1.evt_tick_idx ∧
      ∀ (ring : List Nat) (idx : Nat),
        (rate_limit { lim1 with recent_event_ticks := ring, evt_tick_idx := idx } true now).1
          = (rate_limit lim1 true now).1) ∧
    (∀ now : Nat, now < 2 ^ 32 → (now >>> 16) % 2 ^ 16 = now / 2 ^ 16) := by
  refine ⟨is_system_iff, admitted_system_bucket ts b hb lim henter, ?_,
    rate_limit_system_new, rate_limit_system_ring, ?_⟩
  · intro c event p lim1 w w1 event_name data ttl event_type now hn hu hm hbk hk
    have h := send_event_denied c event p lim1 w event_name data ttl event_type now w1 hu hm
      (by rw [hn, rate_limit_system_full lim1 now hbk hk])
    rw [hn, rate_limit_system_full lim1 now hbk hk] at h
    exact h
  · intro now hnow
    rw [Nat.shiftRight_eq_div_pow]
    exact Nat.mod_eq_of_lt (by omega)

theorem system_event_limit_witness :
    (admitted true EventLimiter.initial (List.replicate 300 70000)).getD 254 false = true ∧
    (admitted true EventLimiter.initial (List.replicate 300 70000)).getD 255 false = false ∧
    (is_system ("Spark/status".toList.map Char.toNat) = true
      ↔ starts_with_spark ("Spark/status".toList.map Char.toNat)) :=
  ⟨(system_event_limit (List.replicate 300 70000) 1 EventLimiter.initial
      (fun t ht => by rw [List.eq_of_mem_replicate ht]; decide) (Or.inl (by decide))).2.1 254
      (by decide),
    (system_event_limit (List.replicate 300 70000) 1 EventLimiter.initial
      (fun t ht => by rw [List.eq_of_mem_replicate ht]; decide) (Or.inl (by decide))).2.1 255
      (by decide),
    (system_event_limit (List.replicate 300 70000) 1 EventLimiter.initial
      (fun t ht => by rw [List.eq_of_mem_replicate ht]; decide) (Or.inl (by decide))).1 _⟩

theorem rate_limit_system_denied (lim : EventLimiter) (now : Nat)
    (hd : (rate_limit lim true now).1 = true) : (rate_limit lim true now).2 = lim := by
  by_cases hb : (now >>> 16) % 2 ^ 16 = lim.lastMinute
  · by_cases hk : lim.eventsThisMinute = 255
    · rw [rate_limit_system_full lim now hb hk]
    · have h1 : ¬ ((now >>> 16) % 2 ^ 16 = lim.lastMinute ∧ lim.eventsThisMinute = 255) :=
        fun h => hk h.2
      simp only [rate_limit, if_true] at hd
      rw [if_neg h1] at hd
      exact absurd hd Bool.false_ne_true
  · rw [rate_limit_system_new lim now hb] at hd
    exact absurd hd Bool.false_ne_true

/-- C25 (amended): whenever `send_event` is denied by a rate limit it returns false and
leaves the session as it was, so the message-id counter, `iv_send` and the staging buffer
are the same before and after the call. A denial by the system limit leaves the statics
of the rate limiter unchanged as well. A denial by the limit for the other events has
written the time of the call into the ring slot at the index and advanced the index by
one modulo 5, the counter and the bucket index being unchanged: the denied attempt is
recorded and counts against later attempts. -/
theorem denied_send_event_effects (c : Primitives)
    (event : List Nat → Nat → Nat → List Nat → Option (List Nat) → Int → Nat → List Nat × Nat)
    (p : Session) (lim : EventLimiter) (w w1 : World) (event_name : List Nat)
    (data : Option (List Nat)) (ttl : Int) (event_type now : Nat)
    (hu : p.updating = false) (hm : callback_millis w = some (now, w1))
    (hd : (rate_limit lim (is_system event_name) now).1 = true) :
    ∃ lim1 : EventLimiter,
      send_event c event p lim w event_name data ttl event_type = some (false, p, lim1, w1) ∧
      (is_system event_name = true → lim1 = lim) ∧
      (is_system event_name = false →
        lim1 = { lim with
          recent_event_ticks := lim.recent_event_ticks.set lim.evt_tick_idx now
          evt_tick_idx := (lim.evt_tick_idx + 1) % 5 }) := by
  refine ⟨(rate_limit lim (is_system event_name) now).2,
    send_event_denied c event p lim w event_name data ttl event_type now w1 hu hm hd, ?_, ?_⟩
  · intro hs
    rw [hs] at hd ⊢
    exact rate_limit_system_denied lim now hd
  · intro hs
    rw [hs]
    rfl

theorem denied_send_event_effects_witness :
    ∃ lim1 : EventLimiter,
      send_event cleartext event_post fresh ⟨1, 255, List.replicate 5 0, 0⟩
          ⟨[70000], [], [], []⟩ ("spark/status".toList.map Char.toNat) none 60 0
        = some (false, fresh, lim1, ⟨[], [], [], []⟩) ∧
      (is_system ("spark/status".toList.map Char.toNat) = true →
        lim1 = ⟨1, 255, List.replicate 5 0, 0⟩) ∧
      (is_system ("spark/status".toList.map Char.toNat) = false →
        lim1 = { (⟨1, 255, List.replicate 5 0, 0⟩ : EventLimiter) with
          recent_event_ticks := (List.replicate 5 0).set 0 70000
          evt_tick_idx := (0 + 1) % 5 }) :=
  denied_send_event_effects cleartext event_post fresh ⟨1, 255, List.replicate 5 0, 0⟩
    ⟨[70000], [], [], []⟩ ⟨[], [], [], []⟩ ("spark/status".toList.map Char.toNat) none 60 0
    70000 rfl rfl (by decide)

theorem denied_attempt_is_recorded :
    send_event cleartext event_post fresh ⟨0, 0, [0, 200, 400, 600, 4294966296], 4⟩
        ⟨[800], [], [], []⟩ ("temp".toList.map Char.toNat) (some ['x'.toNat]) 60 0
      = some (false, fresh, ⟨0, 0, [0, 200, 400, 600, 800], 0⟩, ⟨[], [], [], []⟩) ∧
    (⟨0, 0, [0, 200, 400, 600, 800], 0⟩ : EventLimiter)
      ≠ ⟨0, 0, [0, 200, 400, 600, 4294966296], 4⟩ ∧
    (rate_limit ⟨0, 0, [0, 200, 400, 600, 4294966296], 4⟩ false 1001).1 = false ∧
    (rate_limit ⟨0, 0, [0, 200, 400, 600, 800], 0⟩ false 1001).1 = true := by
  refine ⟨?_, by decide, by decide, by decide⟩
  exact send_event_denied cleartext event_post fresh ⟨0, 0, [0, 200, 400, 600, 4294966296], 4⟩
    ⟨[800], [], [], []⟩ ("temp".toList.map Char.toNat) (some ['x'.toNat]) 60 0 800
    ⟨[], [], [], []⟩ rfl rfl (by decide)

/-! ## Adding and removing event handlers -/

/-- C26: with an entry for `foo`, the handler and `MY_DEVICES` under the device id
`aaaaaaaaaaaa` in the table, `add_event_handler` with the same name, handler and scope
and the device id `bbbbbbbbbbbb` returns true and stores an entry, and the same call made
again returns true and stores a second, identical entry: `event_handler_exists` answers
from the first slot that agrees in handler, scope and name and never reaches the entry
the first call stored. -/
theorem add_event_handler_twice_duplicates :
    registered foo_for_one_device
      = [("foo".toList.map Char.toNat, 1, .MY_DEVICES, "aaaaaaaaaaaa".toList.map Char.toNat)] ∧
    event_handler_exists (c_string "foo") 1 .MY_DEVICES (some (c_string "bbbbbbbbbbbb"))
      (add_event_handler foo_for_one_device (c_string "foo") 1 .MY_DEVICES
        (some (c_string "bbbbbbbbbbbb"))).2.event_handlers = false ∧
    (add_event_handler foo_for_one_device (c_string "foo") 1 .MY_DEVICES
      (some (c_string "bbbbbbbbbbbb"))).1 = true ∧
    (add_event_handler
      (add_event_handler foo_for_one_device (c_string "foo") 1 .MY_DEVICES
        (some (c_string "bbbbbbbbbbbb"))).2
      (c_string "foo") 1 .MY_DEVICES (some (c_string "bbbbbbbbbbbb"))).1 = true ∧
    registered (add_event_handler
      (add_event_handler foo_for_one_device (c_string "foo") 1 .MY_DEVICES
        (some (c_string "bbbbbbbbbbbb"))).2
      (c_string "foo") 1 .MY_DEVICES (some (c_string "bbbbbbbbbbbb"))).2
      = [("foo".toList.map Char.toNat, 1, .MY_DEVICES, "aaaaaaaaaaaa".toList.map Char.toNat),
         ("foo".toList.map Char.toNat, 1, .MY_DEVICES, "bbbbbbbbbbbb".toList.map Char.toNat),
         ("foo".toList.map Char.toNat, 1, .MY_DEVICES, "bbbbbbbbbbbb".toList.map Char.toNat)] := by
  decide

/-- C27: with an entry for `foobar` and the handler in the table, `add_event_handler` for
the name `foo` with the same handler, scope and no device id returns true and stores
nothing, so that an event named `foo/1` finds no handler: `event_handler_exists` compares
only the `strnlen(event_name)` leading bytes of the filter with the name and takes the
entry for `foobar` as the one asked for. -/
theorem add_event_handler_skips_shorter_name :
    registered foobar_only
      = [("foobar".toList.map Char.toNat, 1, .MY_DEVICES, [])] ∧
    event_handler_exists (c_string "foo") 1 .MY_DEVICES none foobar_only.event_handlers
      = true ∧
    add_event_handler foobar_only (c_string "foo") 1 .MY_DEVICES none = (true, foobar_only) ∧
    first_match
      (add_event_handler foobar_only (c_string "foo") 1 .MY_DEVICES none).2.event_handlers
      ("foo/1".toList.map Char.toNat) = none := by
  decide

theorem set_append_mid {α : Type} (a b : List α) (x y : α) :
    (a ++ x :: b).set a.length y = a ++ y :: b := by
  induction a with
  | nil => rfl
  | cons h t ih => simp only [List.cons_append, List.length_cons, List.set_cons_succ, ih]

theorem get?_append_mid {α : Type} (a b : List α) (x : α) :
    (a ++ x :: b).get? a.length = some x := by
  induction a with
  | nil => rfl
  | cons h t ih => simpa using ih

theorem remove_event_handlers_loop_spec (event_name : List Nat) :
    ∀ (rest keep mid : List FilteringEventHandler), (∀ e ∈ mid, e.handler = 0) →
      ∃ cleared : List FilteringEventHandler,
        remove_event_handlers_loop event_name rest.length (keep.length + mid.length)
            keep.length (keep ++ mid ++ rest)
          = keep ++ rest.filter (fun e => !strcmp_eq event_name e.filter) ++ cleared ∧
        cleared.length
          = mid.length + (rest.filter fun e => strcmp_eq event_name e.filter).length ∧
        ∀ e ∈ cleared, e.handler = 0 := by
  intro rest
  induction rest with
  | nil =>
    intro keep mid hmid
    exact ⟨mid, by simp [remove_event_handlers_loop], by simp, hmid⟩
  | cons e rest ih =>
    intro keep mid hmid
    have hget : (keep ++ mid ++ e :: rest).get? (keep.length + mid.length) = some e := by
      rw [← List.length_append]
      exact get?_append_mid _ _ _
    rw [List.length_cons, remove_event_handlers_loop, hget]
    dsimp only
    by_cases hm : strcmp_eq event_name e.filter = true
    · rw [if_pos hm]
      have hset : (keep ++ mid ++ e :: rest).set (keep.length + mid.length) e.zeroed
          = keep ++ (mid ++ [e.zeroed]) ++ rest := by
        rw [← List.length_append, set_append_mid]
        simp
      obtain ⟨cleared, heq, hlen, hall⟩ := ih keep (mid ++ [e.zeroed]) (by
        intro x hx
        rcases List.mem_append.mp hx with h | h
        · exact hmid x h
        · rw [List.mem_singleton.mp h]; rfl)
      rw [List.length_append, List.length_singleton, ← Nat.add_assoc] at heq
      rw [hset, heq]
      refine ⟨cleared, ?_, ?_, hall⟩
      · simp [List.filter_cons, hm]
      · rw [hlen]
        simp [List.filter_cons, hm]
        omega
    · rw [if_neg hm]
      have hmf : strcmp_eq event_name e.filter = false := by simpa using hm
      cases mid with
      | nil =>
        have hd : ¬ keep.length ≠ keep.length + ([] : List FilteringEventHandler).length := by
          simp
        rw [if_neg hd]
        obtain ⟨cleared, heq, hlen, hall⟩ := ih (keep ++ [e]) [] (by simp)
        simp only [List.length_append, List.length_singleton, List.length_nil, Nat.add_zero,
          List.append_nil, List.append_assoc, List.singleton_append] at heq hlen ⊢
        rw [heq]
        exact ⟨cleared, by simp [List.filter_cons, hmf], by simp [List.filter_cons, hmf, hlen],
          hall⟩
      | cons m mid =>
        have hd : keep.length ≠ keep.length + (m :: mid).length := by
          simp only [List.length_cons]; omega
        rw [if_pos hd]
        have hset : ((keep ++ (m :: mid) ++ e :: rest).set keep.length e).set
            (keep.length + (m :: mid).length) e.zeroed
            = (keep ++ [e]) ++ (mid ++ [e.zeroed]) ++ rest := by
          have e1 : keep ++ (m :: mid) ++ e :: rest = keep ++ m :: (mid ++ e :: rest) := by simp
          rw [e1, set_append_mid]
          have e2 : keep ++ e :: (mid ++ e :: rest) = (keep ++ e :: mid) ++ e :: rest := by simp
          have e3 : keep.length + (m :: mid).length = (keep ++ e :: mid).length := by simp
          rw [e2, e3, set_append_mid]
          simp
        obtain ⟨cleared, heq, hlen, hall⟩ := ih (keep ++ [e]) (mid ++ [e.zeroed]) (by
          intro x hx
          rcases List.mem_append.mp hx with h | h
          · exact hmid x (List.mem_cons_of_mem _ h)
          · rw [List.mem_singleton.mp h]; rfl)
        have e4 : (keep ++ [e]).length + (mid ++ [e.zeroed]).length
            = keep.length + (m :: mid).length + 1 := by
          simp only [List.length_append, List.length_cons, List.length_nil]; omega
        have e5 : (keep ++ [e]).length = keep.length + 1 := by simp
        rw [e4, e5] at heq
        rw [hset, heq]
        refine ⟨cleared, by simp [List.filter_cons, hmf], ?_, hall⟩
        rw [hlen]
        simp [List.filter_cons, hmf]

theorem remove_event_handlers_named (p : Session) (event_name : List Nat) :
    ∃ cleared : List FilteringEventHandler,
      (remove_event_handlers p (some event_name)).event_handlers
        = p.event_handlers.filter (fun e => !strcmp_eq event_name e.filter) ++ cleared ∧
      cleared.length
        = (p.event_handlers.filter fun e => strcmp_eq event_name e.filter).length ∧
      ∀ e ∈ cleared, e.handler = 0 := by
  obtain ⟨cleared, heq, hlen, hall⟩ :=
    remove_event_handlers_loop_spec event_name p.event_handlers [] [] (by simp)
  refine ⟨cleared, ?_, by simpa using hlen, hall⟩
  simpa using heq

theorem compact_of_all_empty (l : List FilteringEventHandler) (h : ∀ e ∈ l, e.handler = 0) :
    Compact l := by
  unfold Compact
  induction l with
  | nil => exact List.Pairwise.nil
  | cons a l ih =>
    exact List.Pairwise.cons (fun b hb _ => h b (List.mem_cons_of_mem _ hb))
      (ih fun e he => h e (List.mem_cons_of_mem _ he))

theorem compact_append (a b : List FilteringEventHandler) (ha : Compact a)
    (hb : ∀ e ∈ b, e.handler = 0) : Compact (a ++ b) := by
  unfold Compact at ha ⊢
  rw [List.pairwise_append]
  exact ⟨ha, compact_of_all_empty b hb, fun _ _ y hy _ => hb y hy⟩

theorem compact_split (l : List FilteringEventHandler) (h : Compact l) :
    l = l.filter (fun e => decide (e.handler ≠ 0)) ++ l.filter (fun e => decide (e.handler = 0)) ∧
    l.takeWhile (fun e => decide (e.handler ≠ 0)) = l.filter (fun e => decide (e.handler ≠ 0)) := by
  unfold Compact at h
  induction l with
  | nil => exact ⟨rfl, rfl⟩
  | cons a l ih =>
    obtain ⟨hrel, hl⟩ := List.pairwise_cons.mp h
    obtain ⟨ih1, ih2⟩ := ih hl
    by_cases ha : a.handler = 0
    · have hall : ∀ b ∈ l, b.handler = 0 := fun b hb => hrel b hb ha
      have hf1 : l.filter (fun e => decide (e.handler ≠ 0)) = [] := by
        rw [List.filter_eq_nil_iff]
        intro b hb
        simp [hall b hb]
      have hf2 : l.filter (fun e => decide (e.handler = 0)) = l := by
        rw [List.filter_eq_self]
        intro b hb
        simp [hall b hb]
      simp [List.filter_cons, List.takeWhile_cons, ha, hf1, hf2]
      exact hall
    · constructor
      · simp only [List.filter_cons, ha, ne_eq, not_false_eq_true, decide_True, if_true,
          decide_False, if_false, List.cons_append, Bool.false_eq_true]
        rw [← ih1]
      · simp only [List.takeWhile_cons, List.filter_cons, ha, ne_eq, not_false_eq_true,
          decide_True, if_true]
        rw [ih2]

theorem add_event_handler_loop_compact (event_name : List Nat) (handler : Nat)
    (scope : SubscriptionScope) (id : Option (List Nat)) (hh : handler ≠ 0) :
    ∀ (l t : List FilteringEventHandler), Compact l →
      add_event_handler_loop event_name handler scope id l = some t → Compact t := by
  intro l
  induction l with
  | nil => intro t _ h; exact absurd h (by simp [add_event_handler_loop])
  | cons e rest ih =>
    intro t hc h
    unfold Compact at hc
    obtain ⟨_, hrest⟩ := List.pairwise_cons.mp hc
    unfold add_event_handler_loop at h
    by_cases he : e.handler = 0
    · rw [if_pos he] at h
      rw [← Option.some.inj h]
      exact List.Pairwise.cons (fun _ _ h0 => absurd h0 hh) hrest
    · rw [if_neg he] at h
      obtain ⟨t1, ht1, rfl⟩ := Option.map_eq_some'.mp h
      exact List.Pairwise.cons (fun _ _ h0 => absurd h0 he) (ih t1 hrest ht1)

theorem subscribed_compact (p : Session) (hp : Subscribed p) : Compact p.event_handlers := by
  induction hp with
  | init p id sp cp =>
    apply compact_of_all_empty
    intro e he
    simp only [init, List.mem_map] at he
    obtain ⟨_, _, rfl⟩ := he
    rfl
  | add p event_name handler scope id _ hh ih =>
    unfold add_event_handler
    split
    · exact ih
    · split
      · next t ht => exact add_event_handler_loop_compact event_name handler scope id hh _ t ih ht
      · exact ih
  | remove p event_name _ ih =>
    cases event_name with
    | none =>
      apply compact_of_all_empty
      intro e he
      simp only [remove_event_handlers, List.mem_map] at he
      obtain ⟨_, _, rfl⟩ := he
      rfl
    | some event_name =>
      obtain ⟨cleared, heq, _, hall⟩ := remove_event_handlers_named p event_name
      rw [heq]
      exact compact_append _ _ (List.Pairwise.sublist (List.filter_sublist _) ih) hall

theorem first_match_compact (l : List FilteringEventHandler) (hc : Compact l)
    (name : List Nat) :
    first_match l name
      = (l.filter fun e => decide (e.handler ≠ 0)).find? (filter_matches name) := by
  unfold first_match
  rw [(compact_split l hc).2]

/-- C29: in every state reached from `init` by calls of `add_event_handler` with a handler
and calls of `remove_event_handlers`, every entry of the table with a handler comes before
every empty slot. So the slots before the first empty one are all the entries with a
handler, the entry the dispatch of an event picks is the first among all of them whose
filter matches, and when the filter of some entry with a handler matches the decoded
name, the dispatch of the EVENT case calls a handler. -/
theorem handler_table_stays_compact (p : Session) (hp : Subscribed p) :
    Compact p.event_handlers ∧
    (∀ (i j : Nat) (hi : i < p.event_handlers.length) (hj : j < p.event_handlers.length),
      i < j → p.event_handlers[i].handler = 0 → p.event_handlers[j].handler = 0) ∧
    p.event_handlers.takeWhile (fun e => decide (e.handler ≠ 0))
      = p.event_handlers.filter (fun e => decide (e.handler ≠ 0)) ∧
    (∀ name : List Nat, first_match p.event_handlers name
      = (p.event_handlers.filter fun e => decide (e.handler ≠ 0)).find? (filter_matches name)) ∧
    (∀ (buf : List Nat) (event_name event_name_length : Nat) (data : Option Nat) (n : Nat),
      event_name + event_name_length ≤ buf.length →
      (∀ e ∈ p.event_handlers, e.filter.length ≤ 64) →
      p.event_handlers.length ≤ n →
      (∃ e ∈ p.event_handlers, e.handler ≠ 0 ∧
        filter_matches (slice buf event_name event_name_length) e = true) →
      ∃ e ∈ p.event_handlers, e.handler ≠ 0 ∧
        filter_matches (slice buf event_name event_name_length) e = true ∧
        dispatch_event p.event_handlers buf event_name event_name_length data n 0
          = [.event_handler e.handler (cstr buf event_name) (data.map (cstr buf))]) := by
  have hc := subscribed_compact p hp
  refine ⟨hc, List.pairwise_iff_getElem.mp hc, (compact_split _ hc).2,
    first_match_compact _ hc, ?_⟩
  intro buf event_name event_name_length data n hfit hcap hn ⟨e, he, he0, hem⟩
  have hspec := dispatch_event_spec p.event_handlers buf event_name event_name_length data
    hfit hcap n 0 (Nat.zero_le _) (by omega)
  rw [List.drop_zero, first_match_compact _ hc] at hspec
  have hmem : e ∈ p.event_handlers.filter fun e => decide (e.handler ≠ 0) := by
    rw [List.mem_filter]
    exact ⟨he, by simpa using he0⟩
  cases hfind : (p.event_handlers.filter fun e => decide (e.handler ≠ 0)).find?
      (filter_matches (slice buf event_name event_name_length)) with
  | none =>
    rw [List.find?_eq_none] at hfind
    exact absurd hem (hfind e hmem)
  | some e1 =>
    rw [hfind] at hspec
    have h1 := List.mem_of_find?_eq_some hfind
    rw [List.mem_filter] at h1
    exact ⟨e1, h1.1, by simpa using h1.2, List.find?_some hfind, hspec⟩

theorem handler_table_stays_compact_witness :
    Compact (remove_event_handlers
      (foo_bar_foo_handlers (init fresh (List.replicate 12 1) [] []))
      (some (c_string "foo"))).event_handlers ∧
    registered (remove_event_handlers
      (foo_bar_foo_handlers (init fresh (List.replicate 12 1) [] []))
      (some (c_string "foo")))
      = [("bar".toList.map Char.toNat, 2, .MY_DEVICES, [])] :=
  ⟨(handler_table_stays_compact _
      (Subscribed.remove _ (some (c_string "foo"))
        (Subscribed.add _ (c_string "foo") 3 .MY_DEVICES none
          (Subscribed.add _ (c_string "bar") 2 .MY_DEVICES none
            (Subscribed.add _ (c_string "foo") 1 .MY_DEVICES none
              (Subscribed.init fresh (List.replicate 12 1) [] []) (by decide))
            (by decide))
          (by decide)))).1,
    by decide⟩

/-! ## Replies staged at the end of the buffer -/

theorem stage_variable_value_string_announces (c : Primitives) (h : Host) (p : Session)
    (token : Nat) (s : List Nat) (n padded : Nat)
    (hs : s = (h.descriptor.get_variable (cstr (variable_key p.queue) 0)).as_string)
    (hn : n = min s.length (QUEUE_SIZE - 18)) (hpad : padded = (6 + n) / 16 * 16 + 16)
    (ht : h.descriptor.variable_type (cstr (variable_key p.queue) 0) = .STRING)
    (hq : 2 ≤ p.queue.length) :
    (stage_variable_value c h p token).queue.length = p.queue.length ∧
    (peek (stage_variable_value c h p token).queue 0 <<< 8)
      + peek (stage_variable_value c h p token).queue 1 + 2 = padded + 2 := by
  have hQ : QUEUE_SIZE = 640 := rfl
  have hn2 : n ≤ 622 := by
    have := Nat.min_le_right s.length (QUEUE_SIZE - 18)
    rw [← hn, hQ] at this
    exact this
  have hst := stage_variable_value_string_eq c h p token s n padded hs hn hpad ht
  generalize hE : encrypt c { p with
          queue := memcpy (poke (poke p.queue 0 0) 1 16) 2
            ([0x61, 0x45, peek p.queue 2 % 256, peek p.queue 3 % 256, token % 256, 0xff]
              ++ s.take n ++ List.replicate (padded - (6 + n)) (padded - (6 + n))) }
            2 padded = enc at hst
  have hlen : enc.queue.length = p.queue.length := by
    rw [← hE, length_encrypt]
    simp only [length_memcpy, length_poke]
  have h0 : peek (stage_variable_value c h p token).queue 0 = padded / 256 := by
    rw [hst]
    dsimp only
    rw [peek_poke_same _ _ _ (by rw [length_poke, hlen]; omega)]
    omega
  have h1 : peek (stage_variable_value c h p token).queue 1 = padded % 256 := by
    rw [hst]
    dsimp only
    rw [peek_poke_other _ _ _ _ (by decide), peek_poke_same _ _ _ (by rw [hlen]; omega)]
    omega
  constructor
  · rw [hst]
    dsimp only
    rw [length_poke, length_poke, hlen]
  · rw [h0, h1, Nat.shiftLeft_eq]
    omega

theorem length_stage_empty_ack (c : Primitives) (p : Session) (len : Nat) :
    (stage_empty_ack c p len).queue.length = p.queue.length := by
  unfold stage_empty_ack empty_ack
  rw [length_encrypt]
  simp only [memset, length_memcpy, length_poke]

theorem length_fresh_with (bytes : List Nat) : (fresh_with bytes).queue.length = 640 := by
  unfold fresh_with
  show (memcpy fresh.queue 0 bytes).length = 640
  rw [length_memcpy]
  exact List.length_replicate _ _

/-- C30: the host holds a STRING variable of 622 characters and the request for it
arrives: the reply staged at offset 0 announces 640 bytes behind the two prefix bytes, so
642 bytes are written and handed to `blocking_send` from a staging buffer of 640. And a
FUNCTION_CALL frame of 640 bytes passes the length check and has its empty ACK staged at
offset 640: none of the 18 bytes lies inside the buffer. -/
theorem staged_reply_overruns_queue :
    QUEUE_SIZE = 640 ∧
    (stage_variable_value cleartext (string_host 622) (fresh_with variable_request) 7).queue.length
      = 640 ∧
    (peek (stage_variable_value cleartext (string_host 622)
        (fresh_with variable_request) 7).queue 0 <<< 8)
      + peek (stage_variable_value cleartext (string_host 622)
        (fresh_with variable_request) 7).queue 1 + 2 = 642 ∧
    full_frame_function_call_request.length = 640 ∧
    ¬ (full_frame_function_call_request.length > QUEUE_SIZE) ∧
    (stage_empty_ack cleartext (fresh_with full_frame_function_call_request) 640).queue.length
      = 640 ∧
    slice (stage_empty_ack cleartext (fresh_with full_frame_function_call_request) 640).queue
      640 18 = [] := by
  have h := stage_variable_value_string_announces cleartext (string_host 622)
    (fresh_with variable_request) 7 (List.replicate 622 'a'.toNat) 622 640 rfl (by decide)
    (by decide) rfl (by rw [length_fresh_with]; decide)
  have hl := length_stage_empty_ack cleartext (fresh_with full_frame_function_call_request) 640
  rw [length_fresh_with] at h hl
  refine ⟨rfl, h.1, h.2, by decide, by decide, hl, ?_⟩
  unfold slice
  rw [List.drop_of_length_le (by rw [hl])]
  rfl

/-! ## The loop bound of the event dispatch -/

/-- C31: the table holds four entries with a handler, none of whose filters is a leading
part of the name `foobar`, and the EVENT frame for `foobar` arrives: the loop bound is
`sizeof(event_handlers) / sizeof(EventHandler)`, 88 for four slots of 88 bytes and a
pointer of 4, so after the four slots the loop reads the slot at index 4, past the end of
the table. For every table without an empty slot and without a match the loop does so as
soon as its bound exceeds the size of the table, whereas `add_event_handler`, bounded by
the number of slots, returns false on the same table. -/
theorem event_dispatch_leaves_table :
    (four_handlers (fresh_with event_request_foobar)).event_handlers.length = 4 ∧
    registered (four_handlers (fresh_with event_request_foobar))
      = [(['a'.toNat], 1, .MY_DEVICES, []), (['b'.toNat], 2, .MY_DEVICES, []),
         (['c'.toNat], 3, .MY_DEVICES, []), (['d'.toNat], 4, .MY_DEVICES, [])] ∧
    (four_handlers (fresh_with event_request_foobar)).event_handlers.length
        * reference_host.sizeof_FilteringEventHandler / reference_host.sizeof_EventHandler
      = 88 ∧
    (handle_event reference_host (four_handlers (fresh_with event_request_foobar))
        ⟨[], [], [], []⟩ 16).map (fun r => r.2.2.2)
      = some [.event_handlers_overrun 4] ∧
    (add_event_handler (four_handlers (fresh_with event_request_foobar)) (c_string "e") 5
        .MY_DEVICES none).1 = false ∧
    ∀ (event_handlers : List FilteringEventHandler) (buf : List Nat)
      (event_name event_name_length : Nat) (data : Option Nat) (n : Nat),
      event_name + event_name_length ≤ buf.length →
      (∀ e ∈ event_handlers, e.filter.length ≤ 64) →
      (∀ e ∈ event_handlers, e.handler ≠ 0) →
      (∀ e ∈ event_handlers,
        filter_matches (slice buf event_name event_name_length) e = false) →
      event_handlers.length < n →
      dispatch_event event_handlers buf event_name event_name_length data n 0
        = [.event_handlers_overrun event_handlers.length] := by
  refine ⟨by decide, by decide, by decide, by decide, by decide, ?_⟩
  intro event_handlers buf event_name event_name_length data n hfit hcap hfull hno hn
  have hspec := dispatch_event_spec event_handlers buf event_name event_name_length data
    hfit hcap n 0 (Nat.zero_le _) (by omega)
  rw [List.drop_zero, Nat.zero_add] at hspec
  have hall : event_handlers.all (fun e => decide (e.handler ≠ 0)) = true := by
    rw [List.all_eq_true]
    intro e he
    simpa using hfull e he
  have hfm : first_match event_handlers (slice buf event_name event_name_length) = none := by
    unfold first_match
    rw [List.find?_eq_none]
    intro e he
    rw [hno e ((List.takeWhile_sublist _).subset he)]
    decide
  rw [hspec, hfm]
  dsimp only
  rw [if_pos ⟨hall, hn⟩]

/-! ## Popping from the ring buffer -/

theorem memcpy_eq (buf src : List Nat) (off : Nat) (hfit : off + src.length ≤ buf.length) :
    memcpy buf off src = buf.take off ++ src ++ buf.drop (off + src.length) := by
  have h1 := take_memcpy_all buf src off hfit
  have h2 := drop_memcpy buf src off hfit
  have h3 : (memcpy buf off src).drop (off + src.length) = buf.drop (off + src.length) := by
    rw [← List.drop_drop, h2, List.drop_left]
  rw [← List.take_append_drop (off + src.length) (memcpy buf off src), h1, h3]

theorem wrapped_ring_eq :
    wrapped_ring
      = ⟨[7, 8, 9, 10, 11] ++ List.replicate 630 1 ++ [2, 3, 4, 5, 6], 630, 5, 640⟩ := by
  have s1 : store (List.replicate 640 0) 0 (fetch (List.replicate 635 1) 0 (size_t 635))
      = List.replicate 635 1 ++ List.replicate 5 0 := by
    show memcpy (List.replicate 640 0) 0 (slice (List.replicate 635 1) 0 635) = _
    have hs : slice (List.replicate 635 1) 0 635 = List.replicate 635 1 := by simp [slice]
    rw [hs, memcpy_eq _ _ _ (by simp)]
    simp
  have s2 : store (store (List.replicate 635 1 ++ List.replicate 5 0) 635
        (fetch [2, 3, 4, 5, 6, 7, 8, 9, 10, 11] 0 (size_t 5))) 0
        (fetch [2, 3, 4, 5, 6, 7, 8, 9, 10, 11] 5 (size_t 5))
      = [7, 8, 9, 10, 11] ++ List.replicate 630 1 ++ [2, 3, 4, 5, 6] := by
    show memcpy (memcpy (List.replicate 635 1 ++ List.replicate 5 0) 635 [2, 3, 4, 5, 6]) 0
      [7, 8, 9, 10, 11] = _
    rw [memcpy_eq _ [2, 3, 4, 5, 6] 635 (by simp)]
    have h5 : (List.replicate 635 1 ++ List.replicate 5 0).take 635 = List.replicate 635 1 :=
      List.take_left' (by simp)
    have h6 : (List.replicate 635 1 ++ List.replicate 5 0).drop (635 + [2, 3, 4, 5, 6].length)
        = ([] : List Nat) := List.drop_of_length_le (by simp)
    rw [h5, h6, List.append_nil, memcpy_eq _ [7, 8, 9, 10, 11] 0 (by simp)]
    have h7 : (List.replicate 635 1 ++ [2, 3, 4, 5, 6]).drop (0 + [7, 8, 9, 10, 11].length)
        = List.replicate 630 (1 : Nat) ++ [2, 3, 4, 5, 6] := by
      have : List.replicate 635 (1 : Nat) = List.replicate 5 1 ++ List.replicate 630 1 := by
        rw [← List.replicate_add]
      rw [this, List.append_assoc]
      exact List.drop_left' (by simp)
    rw [h7, List.take_zero, List.nil_append, List.append_assoc]
  have e1 : queue_push (queue_init (List.replicate 640 0)) (List.replicate 635 1) 635
      = (635, ⟨List.replicate 635 1 ++ List.replicate 5 0, 0, 635, 640⟩) := by
    rw [← s1]
    rfl
  have e2 : queue_pop ⟨List.replicate 635 1 ++ List.replicate 5 0, 0, 635, 640⟩
      (List.replicate 630 0) 630
      = (630, ⟨List.replicate 635 1 ++ List.replicate 5 0, 630, 635, 640⟩,
          store (List.replicate 630 0) 0
            (fetch (List.replicate 635 1 ++ List.replicate 5 0) 0 (size_t 630))) := rfl
  have e3 : queue_push ⟨List.replicate 635 1 ++ List.replicate 5 0, 630, 635, 640⟩
      [2, 3, 4, 5, 6, 7, 8, 9, 10, 11] 10
      = (10, ⟨[7, 8, 9, 10, 11] ++ List.replicate 630 1 ++ [2, 3, 4, 5, 6], 630, 5, 640⟩) := by
    rw [← s2]
    rfl
  unfold wrapped_ring
  simp only [e1, e2, e3]

theorem queue_pop_wrapped_short (b : RingBuffer) (dst : List Nat) (length : Int)
    (hw : b.queue_back < b.queue_front) (hb : 0 ≤ b.queue_back)
    (hlen : length < b.queue_mem_boundary - b.queue_front) :
    queue_pop b dst length
      = (length,
          { b with queue_front := length - (b.queue_mem_boundary - b.queue_front) },
          store (store dst 0
              (fetch b.queue b.queue_front (size_t (b.queue_mem_boundary - b.queue_front))))
            (b.queue_mem_boundary - b.queue_front)
            (fetch b.queue 0 (size_t (length - (b.queue_mem_boundary - b.queue_front))))) := by
  have h1 : ¬ b.queue_back ≥ b.queue_front := by omega
  have h2 : length - (b.queue_mem_boundary - b.queue_front) < b.queue_back - 0 := by omega
  simp only [queue_pop, h1, if_false, h2, if_true]
  refine Prod.ext ?_ (Prod.ext ?_ rfl)
  · show b.queue_mem_boundary - b.queue_front
      + (length - (b.queue_mem_boundary - b.queue_front)) = length
    omega
  · show ({ b with queue_front := 0 + (length - (b.queue_mem_boundary - b.queue_front)) }
      : RingBuffer) = _
    rw [Int.zero_add]

/-- C32: the buffer holds 15 bytes, 10 of them between the read index 630 and the end
of the region and 5 at its start, and `queue_pop(dst, 4)` is called: the first `memcpy`
copies all 10 bytes of the tail to `dst`, the second is called with the count -6, and the
read index is set 6 bytes before the region, while the call returns 4. It is so in every
state whose data wraps when fewer bytes are asked for than lie before the end of the
region: the read index ends up before the region. -/
theorem queue_pop_short_of_tail :
    wrapped_ring.queue_front = 630 ∧ wrapped_ring.queue_back = 5 ∧
    wrapped_ring.queue_mem_boundary = 640 ∧
    queue_bytes_available wrapped_ring = QUEUE_SIZE - 15 - 1 ∧
    fetch wrapped_ring.queue 630 10 ++ fetch wrapped_ring.queue 0 5
      = [1, 1, 1, 1, 1, 2, 3, 4, 5, 6, 7, 8, 9, 10, 11] ∧
    (queue_pop wrapped_ring (List.replicate 20 0xEE) 4).1 = 4 ∧
    (queue_pop wrapped_ring (List.replicate 20 0xEE) 4).2.1.queue_front = -6 ∧
    slice (queue_pop wrapped_ring (List.replicate 20 0xEE) 4).2.2 0 10
      = [1, 1, 1, 1, 1, 2, 3, 4, 5, 6] ∧
    size_t (-6) = 4294967290 ∧
    ∀ (b : RingBuffer) (dst : List Nat) (length : Int),
      b.queue_back < b.queue_front → 0 ≤ b.queue_back →
      length < b.queue_mem_boundary - b.queue_front →
      (queue_pop b dst length).1 = length ∧
      (queue_pop b dst length).2.1.queue_front
        = length - (b.queue_mem_boundary - b.queue_front) ∧
      (queue_pop b dst length).2.1.queue_front < 0 := by
  rw [wrapped_ring_eq]
  refine ⟨by decide, by decide, by decide, by decide, by decide, by decide, by decide,
    by decide, by decide, ?_⟩
  intro b dst length hw hb hlen
  rw [queue_pop_wrapped_short b dst length hw hb hlen]
  exact ⟨rfl, rfl, by show length - (b.queue_mem_boundary - b.queue_front) < 0; omega⟩

/-! ## Replies staged inside the queue: FUNCTION_CALL and CHUNK -/

theorem slice_two_at (l : List Nat) (off : Nat) (h : off + 2 ≤ l.length) :
    slice l off 2 = [peek l off, peek l (off + 1)] := by
  have hd : slice l off 2 = slice (l.drop off) 0 2 := by simp [slice]
  rw [hd, slice_two _ (by rw [List.length_drop]; omega)]
  simp [peek, List.getD_eq_getElem?_getD, List.getElem?_drop]

theorem staged_frame_at (c : Primitives) (p : Session) (q src : List Nat) (off : Nat)
    (hq : off + 18 ≤ q.length)
    (hp : p.queue = memcpy (poke (poke q off 0) (off + 1) 16) (off + 2) src) (Q : List Nat)
    (hQ : Q = (encrypt c p (off + 2) 16).queue) :
    slice Q off 18 = 0 :: 16 :: slice Q (off + 2) 16 ∧ (slice Q (off + 2) 16).length = 16 := by
  subst hQ
  have hlen : (encrypt c p (off + 2) 16).queue.length = q.length := by
    rw [length_encrypt, hp]
    simp only [length_memcpy, length_poke]
  have h02 : slice (encrypt c p (off + 2) 16).queue off 2 = [0, 16] := by
    rw [slice_encrypt_before c p (off + 2) 16 off 2 (Nat.le_refl _), hp,
      slice_memcpy_disjoint _ _ (off + 2) off 2 (Or.inl (Nat.le_refl _)),
      slice_two_at _ _ (by simp only [length_poke]; omega),
      peek_poke_other _ _ _ _ (by omega), peek_poke_same _ _ _ (by omega),
      peek_poke_same _ _ _ (by simp only [length_poke]; omega)]
  generalize (encrypt c p (off + 2) 16).queue = Q at hlen h02
  refine ⟨?_, length_slice _ _ _ (by omega)⟩
  rw [show (18 : Nat) = 2 + 16 from rfl, slice_add, h02]
  simp only [List.cons_append, List.nil_append]

theorem cstr_append_zero (s rest : List Nat) : cstr (s ++ 0 :: rest) 0 = cstr s 0 := by
  unfold cstr
  rw [List.drop_zero, List.drop_zero]
  induction s with
  | nil => simp
  | cons b bs ih =>
    by_cases hb : b = 0
    · simp [hb]
    · have hd : decide (b ≠ 0) = true := by simp [hb]
      rw [List.cons_append, List.takeWhile_cons, List.takeWhile_cons]
      simp only [hd, if_true, ih]

theorem function_key_spec (q : List Nat) (hkey : function_key_length q ≤ MAX_FUNCTION_KEY_LENGTH)
    (hq : 8 + function_key_length q ≤ q.length) :
    function_key q = slice q 8 (function_key_length q)
      ++ List.replicate (13 - function_key_length q) 0 ∧
    cstr (function_key q) 0 = cstr (slice q 8 (function_key_length q)) 0 ∧
    (cstr (function_key q) 0).length ≤ MAX_FUNCTION_KEY_LENGTH := by
  have hk : function_key_length q ≤ 12 := hkey
  have hl : (slice q 8 (function_key_length q)).length = function_key_length q :=
    length_slice _ _ _ hq
  have h1 : function_key q = slice q 8 (function_key_length q)
      ++ List.replicate (13 - function_key_length q) 0 := by
    unfold function_key
    rw [memcpy_eq _ _ _ (by rw [hl, List.length_replicate]; omega), hl]
    simp only [List.take_zero, List.nil_append, Nat.zero_add, List.drop_replicate]
  have h2 : cstr (function_key q) 0 = cstr (slice q 8 (function_key_length q)) 0 := by
    rw [h1, show 13 - function_key_length q = (12 - function_key_length q) + 1 by omega,
      List.replicate_succ, cstr_append_zero]
  refine ⟨h1, h2, ?_⟩
  rw [h2]
  have := length_cstr_le (slice q 8 (function_key_length q))
  unfold MAX_FUNCTION_KEY_LENGTH
  omega

/-- C11: a FUNCTION_CALL request whose argument is shorter than `MAX_FUNCTION_ARG_LENGTH`
is answered, in this order, by the empty ACK `60 00 m1 m0` + 12 bytes of 0c with the
request's message id, one call of `call_function(key, arg)`, and the frame
`51 44 mid_hi mid_lo token ff r3 r2 r1 r0` + 6 bytes of 06, `mid` a fresh message id and
`r3..r0` the return value big-endian; the value 1 gives `00 00 00 01`. Each of the two
frames sent is `00 10` and the 16 cipher bytes. Stated for requests whose key has at most
`MAX_FUNCTION_KEY_LENGTH` bytes (`hkey`: the key and its null byte lie inside
`char function_key[13]`) and whose replies, staged at `queue + len`, lie inside the queue
(`hfit`). -/
theorem function_call_reply (c : Primitives) (h : Host) (p : Session) (w : World)
    (len token : Nat) (r1 : Int) (w1 : World)
    (hkey : function_key_length p.queue ≤ MAX_FUNCTION_KEY_LENGTH)
    (hwf : (function_query p.queue).1 + 1 + (function_query p.queue).2 ≤ len)
    (hmax : (function_query p.queue).2 < h.MAX_FUNCTION_ARG_LENGTH)
    (hfit : len + 18 ≤ p.queue.length)
    (hs1 : blocking_send (stage_empty_ack c p len).queue len 18 w = some (r1, w1))
    (hr1 : 0 ≤ r1) :
    let key := cstr (function_key p.queue) 0
    let arg := cstr (function_arg p.queue) 0
    let rv := h.descriptor.call_function key arg
    let mid := (p._message_id + 1) % 2 ^ 16
    let acked := stage_empty_ack c p len
    let staged := function_return c
      { acked with queue := poke (poke acked.queue len 0) (len + 1) 16 } (len + 2) token rv
    (∀ (r2 : Int) (w2 : World), blocking_send staged.queue len 18 w1 = some (r2, w2) →
      handle_function_call c h p w len token
        = some (decide (0 ≤ r2), staged, w2,
            [.send (slice acked.queue len 18), .call_function key arg,
              .send (slice staged.queue len 18)])) ∧
    acked = encrypt c { p with
      queue := memcpy (poke (poke p.queue len 0) (len + 1) 16) (len + 2)
        [0x60, 0x00, peek p.queue 2 % 256, peek p.queue 3 % 256,
          12, 12, 12, 12, 12, 12, 12, 12, 12, 12, 12, 12] } (len + 2) 16 ∧
    staged = encrypt c { acked with
      _message_id := mid
      queue := memcpy (poke (poke acked.queue len 0) (len + 1) 16) (len + 2)
        [0x51, 0x44, mid / 256, mid % 256, token % 256, 0xff,
          int_byte rv 24, int_byte rv 16, int_byte rv 8, int_byte rv 0,
          6, 6, 6, 6, 6, 6] } (len + 2) 16 ∧
    ((2 ^ 24 * int_byte rv 24 + 2 ^ 16 * int_byte rv 16 + 2 ^ 8 * int_byte rv 8
      + int_byte rv 0 : Nat) : Int) = rv % 2 ^ 32 ∧
    (rv = 1 → [int_byte rv 24, int_byte rv 16, int_byte rv 8, int_byte rv 0]
      = [0, 0, 0, 1]) ∧
    (slice acked.queue len 18 = 0 :: 16 :: slice acked.queue (len + 2) 16 ∧
      (slice acked.queue (len + 2) 16).length = 16) ∧
    (slice staged.queue len 18 = 0 :: 16 :: slice staged.queue (len + 2) 16 ∧
      (slice staged.queue (len + 2) 16).length = 16) ∧
    function_key p.queue = slice p.queue 8 (function_key_length p.queue)
      ++ List.replicate (13 - function_key_length p.queue) 0 ∧
    key = cstr (slice p.queue 8 (function_key_length p.queue)) 0 ∧
    key.length ≤ MAX_FUNCTION_KEY_LENGTH := by
  intro key arg rv mid acked staged
  have hge := function_query_fst_ge p.queue
  have hsl := slice_stage_empty_ack_below c p len
  have hkeyeq : function_key acked.queue = function_key p.queue :=
    function_key_eq_below _ _ len hsl (by omega)
  have hquery : function_query acked.queue = function_query p.queue :=
    function_query_eq_below _ _ len hsl (by omega)
  have harg : function_arg acked.queue = function_arg p.queue :=
    function_arg_eq_below _ _ len hsl hwf
  have hacked : acked = _ := stage_empty_ack_eq c p len (by omega)
  have hmid : acked._message_id = p._message_id := by rw [hacked]; rfl
  have hstaged : staged = encrypt c { acked with
      _message_id := mid
      queue := memcpy (poke (poke acked.queue len 0) (len + 1) 16) (len + 2)
        [0x51, 0x44, mid / 256, mid % 256, token % 256, 0xff,
          int_byte rv 24, int_byte rv 16, int_byte rv 8, int_byte rv 0,
          6, 6, 6, 6, 6, 6] } (len + 2) 16 := by
    show function_return c _ (len + 2) token rv = _
    rw [function_return_eq, hmid]
  have hlacked : acked.queue.length = p.queue.length := length_stage_empty_ack c p len
  have hspec := function_key_spec p.queue hkey (by omega)
  refine ⟨?_, hacked, hstaged, int_byte_big_endian rv, ?_, ?_, ?_, hspec.1, hspec.2.1,
    hspec.2.2⟩
  · intro r2 w2 hs2
    rw [handle_function_call_eq, hs1]
    have hr1' : ¬ 0 > r1 := by omega
    have hmax' : ¬ h.MAX_FUNCTION_ARG_LENGTH ≤ (function_query acked.queue).2 := by
      rw [hquery]; omega
    simp only [Option.some_bind, hr1', hmax', if_false, hkeyeq, harg]
    rw [hs2]
    rfl
  · intro h1
    rw [h1]
    decide
  · exact staged_frame_at c _ p.queue _ len hfit rfl _ (congrArg Session.queue hacked)
  · exact staged_frame_at c _ acked.queue _ len (by omega) rfl _
      (congrArg Session.queue hstaged)

theorem function_call_reply_witness :
    function_key_length (fresh_with function_call_request).queue ≤ MAX_FUNCTION_KEY_LENGTH ∧
    (function_query (fresh_with function_call_request).queue).1 + 1
      + (function_query (fresh_with function_call_request).queue).2 ≤ 16 ∧
    (function_query (fresh_with function_call_request).queue).2
      < reference_host.MAX_FUNCTION_ARG_LENGTH ∧
    16 + 18 ≤ (fresh_with function_call_request).queue.length ∧
    ((handle_function_call cleartext reference_host (fresh_with function_call_request)
        ⟨[0, 0], [], [18, 18], []⟩ 16 7).map fun r => (r.1, r.2.2.2.get? 1))
      = some (true, some (.call_function ['l'.toNat, 'e'.toNat, 'd'.toNat]
          ['o'.toNat, 'n'.toNat])) ∧
    xorBlock (slice (function_return cleartext
          { stage_empty_ack cleartext (fresh_with function_call_request) 16 with
            queue := poke (poke (stage_empty_ack cleartext
              (fresh_with function_call_request) 16).queue 16 0) 17 16 } 18 7 1).queue 18 16)
        (stage_empty_ack cleartext (fresh_with function_call_request) 16).iv_send
      = [0x51, 0x44, 0x00, 0x01, 7, 0xff, 0, 0, 0, 1, 6, 6, 6, 6, 6, 6] :=
  ⟨by decide, by decide, by decide, by rw [length_fresh_with]; decide,
    by
      rw [(function_call_reply cleartext reference_host (fresh_with function_call_request)
        ⟨[0, 0], [], [18, 18], []⟩ 16 7 18
        ⟨[0], [], [18], slice (stage_empty_ack cleartext
          (fresh_with function_call_request) 16).queue 16 18⟩
        (by decide) (by decide) (by decide) (by rw [length_fresh_with]; decide)
        (by decide) (by decide)).1 18
        ⟨[], [], [], slice (stage_empty_ack cleartext
          (fresh_with function_call_request) 16).queue 16 18 ++
          slice (function_return cleartext
          { stage_empty_ack cleartext (fresh_with function_call_request) 16 with
            queue := poke (poke (stage_empty_ack cleartext
              (fresh_with function_call_request) 16).queue 16 0) 17 16 } 18 7 1).queue 16 18⟩
        (by decide)]
      rfl,
    by decide⟩

/-- C12: the argument length of a FUNCTION_CALL is decoded from the low nibble `n` of the
option header after the function key: `n` below 13, `13 +` the next byte for 13,
`269 +` the big-endian value of the next two bytes for 14; the argument buffer holds
exactly that many bytes taken right after the length field, then a null byte; and, once
the ACK has gone out, the handler returns false without a call of `call_function` when
the decoded length is `MAX_FUNCTION_ARG_LENGTH` or more, and calls `call_function` once,
with the key and that argument, when it is below. Stated for requests whose key has at
most `MAX_FUNCTION_KEY_LENGTH` bytes (`hkey`) and whose replies, staged at `queue + len`,
lie inside the queue (`hfit`). -/
theorem function_call_argument (c : Primitives) (h : Host) (p : Session) (w : World)
    (len token : Nat) (r1 : Int) (w1 : World)
    (hkey : function_key_length p.queue ≤ MAX_FUNCTION_KEY_LENGTH)
    (hwf : (function_query p.queue).1 < len)
    (hfit : len + 18 ≤ p.queue.length)
    (hs1 : blocking_send (stage_empty_ack c p len).queue len 18 w = some (r1, w1))
    (hr1 : 0 ≤ r1) :
    let i := 8 + function_key_length p.queue
    let n := peek p.queue i &&& 0x0F
    let q_index := (function_query p.queue).1
    let query_length := (function_query p.queue).2
    let acked := stage_empty_ack c p len
    let key := cstr (slice p.queue 8 (function_key_length p.queue)) 0
    let arg := cstr (function_arg acked.queue) 0
    let staged := function_return c
      { acked with queue := poke (poke acked.queue len 0) (len + 1) 16 } (len + 2) token
      (h.descriptor.call_function key arg)
    (n < 13 → q_index = i ∧ query_length = n) ∧
    (n = 13 → q_index = i + 1 ∧ query_length = 13 + peek p.queue (i + 1)) ∧
    (n = 14 → q_index = i + 2 ∧
      query_length = 269 + ((peek p.queue (i + 1) <<< 8) ||| peek p.queue (i + 2)) ∧
      (peek p.queue (i + 2) < 256 →
        query_length = 269 + (peek p.queue (i + 1) * 256 + peek p.queue (i + 2)))) ∧
    function_arg acked.queue = slice acked.queue (q_index + 1) query_length ++ [0] ∧
    (q_index + 1 + query_length ≤ len →
      function_arg acked.queue = slice p.queue (q_index + 1) query_length ++ [0] ∧
      (slice p.queue (q_index + 1) query_length).length = query_length ∧
      ((∀ b ∈ slice p.queue (q_index + 1) query_length, b ≠ 0) →
        arg = slice p.queue (q_index + 1) query_length)) ∧
    (h.MAX_FUNCTION_ARG_LENGTH ≤ query_length →
      handle_function_call c h p w len token
        = some (false, acked, w1, [.send (slice acked.queue len 18)])) ∧
    (query_length < h.MAX_FUNCTION_ARG_LENGTH →
      ∀ (r2 : Int) (w2 : World), blocking_send staged.queue len 18 w1 = some (r2, w2) →
        handle_function_call c h p w len token
          = some (decide (0 ≤ r2), staged, w2,
              [.send (slice acked.queue len 18), .call_function key arg,
                .send (slice staged.queue len 18)])) ∧
    (slice acked.queue len 18).length = 18 ∧
    (slice staged.queue len 18).length = 18 := by
  intro i n q_index query_length acked key arg staged
  have hge := function_query_fst_ge p.queue
  have hsl := slice_stage_empty_ack_below c p len
  have hquery : function_query acked.queue = function_query p.queue :=
    function_query_eq_below _ _ len hsl hwf
  have hkeyeq : function_key acked.queue = function_key p.queue :=
    function_key_eq_below _ _ len hsl (by omega)
  have hspec := function_key_spec p.queue hkey (by omega)
  have hlacked : acked.queue.length = p.queue.length := length_stage_empty_ack c p len
  have hlstaged : staged.queue.length = p.queue.length := by
    show (function_return c _ (len + 2) token _).queue.length = _
    rw [function_return_eq, length_encrypt]
    simp only [length_memcpy, length_poke]
    exact hlacked
  have heq := handle_function_call_eq c h p w len token
  rw [hs1] at heq
  have hr1' : ¬ 0 > r1 := by omega
  simp only [Option.some_bind, hr1', if_false, hquery, hkeyeq, hspec.2.1] at heq
  refine ⟨?_, ?_, ?_, ?_, ?_, ?_, ?_, length_slice _ _ _ (by omega),
    length_slice _ _ _ (by omega)⟩
  · intro hn
    have h13 : ¬ 13 = n := by omega
    have h14 : ¬ 14 = n := by omega
    constructor
    · show (function_query p.queue).1 = i
      unfold function_query
      simp only [h13, h14, if_false, i, n]
    · show (function_query p.queue).2 = n
      unfold function_query
      simp only [h13, h14, if_false, i, n]
  · intro hn
    have h13 : 13 = n := hn.symm
    constructor
    · show (function_query p.queue).1 = i + 1
      unfold function_query
      simp only [h13, if_true, i, n]
    · show (function_query p.queue).2 = _
      unfold function_query
      simp only [h13, if_true, i, n]
  · intro hn
    have h13 : ¬ 13 = n := by omega
    have h14 : 14 = n := hn.symm
    have e2 : (function_query p.queue).2
        = 269 + ((peek p.queue (i + 1) <<< 8) ||| peek p.queue (i + 2)) := by
      unfold function_query
      simp only [h13, h14, if_true, if_false, i, n, Nat.add_assoc, Nat.reduceAdd]
      omega
    refine ⟨?_, e2, ?_⟩
    · show (function_query p.queue).1 = i + 2
      unfold function_query
      simp only [h13, h14, if_true, if_false, i, n]
    · intro hb
      show (function_query p.queue).2 = _
      rw [e2, shl8_or _ _ hb]
  · show function_arg acked.queue = _
    unfold function_arg
    rw [hquery]
  · intro hend
    have harg : function_arg acked.queue = function_arg p.queue :=
      function_arg_eq_below _ _ len hsl hend
    refine ⟨harg, length_slice _ _ _ (by omega), ?_⟩
    intro hz
    show cstr (function_arg acked.queue) 0 = _
    rw [harg]
    exact cstr_terminated _ [] hz
  · intro hm
    rw [heq, if_pos hm]
  · intro hlt r2 w2 hs2
    have hm : ¬ h.MAX_FUNCTION_ARG_LENGTH ≤ (function_query p.queue).2 := by
      show ¬ _ ≤ query_length
      omega
    rw [heq, if_neg hm]
    show (blocking_send staged.queue len 18 w1).bind _ = _
    rw [hs2]
    rfl

theorem function_call_argument_witness :
    function_query (fresh_with function_call_request).queue = (11, 2) ∧
    function_query (fresh_with oversize_function_call_request).queue = (12, 64) ∧
    ((handle_function_call cleartext reference_host (fresh_with function_call_request)
        ⟨[0, 0], [], [18, 18], []⟩ 16 7).map
        fun r => (r.1, r.2.2.2.length, r.2.2.2.get? 1, r.2.2.1.sent.length))
      = some (true, 3,
          some (.call_function ['l'.toNat, 'e'.toNat, 'd'.toNat] ['o'.toNat, 'n'.toNat]),
          36) ∧
    handle_function_call cleartext reference_host (fresh_with oversize_function_call_request)
        ⟨[0], [], [18], []⟩ 80 7
      = some (false, stage_empty_ack cleartext (fresh_with oversize_function_call_request) 80,
          ⟨[], [], [], slice (stage_empty_ack cleartext
            (fresh_with oversize_function_call_request) 80).queue 80 18⟩,
          [.send (slice (stage_empty_ack cleartext
            (fresh_with oversize_function_call_request) 80).queue 80 18)]) :=
  ⟨by decide, by decide,
    by
      rw [(function_call_argument cleartext reference_host (fresh_with function_call_request)
        ⟨[0, 0], [], [18, 18], []⟩ 16 7 18
        ⟨[0], [], [18], slice (stage_empty_ack cleartext
          (fresh_with function_call_request) 16).queue 16 18⟩
        (by decide) (by decide) (by rw [length_fresh_with]; decide)
        (by decide) (by decide)).2.2.2.2.2.2.1 (by decide) 18
        ⟨[], [], [], slice (stage_empty_ack cleartext
          (fresh_with function_call_request) 16).queue 16 18 ++
          slice (function_return cleartext
          { stage_empty_ack cleartext (fresh_with function_call_request) 16 with
            queue := poke (poke (stage_empty_ack cleartext
              (fresh_with function_call_request) 16).queue 16 0) 17 16 } 18 7
            (reference_host.descriptor.call_function
              (cstr (slice (fresh_with function_call_request).queue 8
                (function_key_length (fresh_with function_call_request).queue)) 0)
              (cstr (function_arg (stage_empty_ack cleartext
                (fresh_with function_call_request) 16).queue) 0))).queue 16 18⟩
        (by decide)]
      rfl,
    (function_call_argument cleartext reference_host
      (fresh_with oversize_function_call_request) ⟨[0], [], [18], []⟩ 80 7 18
      ⟨[], [], [], slice (stage_empty_ack cleartext
        (fresh_with oversize_function_call_request) 80).queue 80 18⟩
      (by decide) (by decide) (by rw [length_fresh_with]; decide)
      (by decide) (by decide)).2.2.2.2.2.1 (by decide)⟩

theorem staged_frame_of_header (c : Primitives) (p : Session) (off : Nat)
    (hlen : off + 18 ≤ p.queue.length) (hh : slice p.queue off 2 = [0, 16]) (Q : List Nat)
    (hQ : Q = (encrypt c p (off + 2) 16).queue) :
    slice Q off 18 = 0 :: 16 :: slice Q (off + 2) 16 ∧ (slice Q (off + 2) 16).length = 16 := by
  subst hQ
  have hl : (encrypt c p (off + 2) 16).queue.length = p.queue.length := length_encrypt c p _ _
  have h02 : slice (encrypt c p (off + 2) 16).queue off 2 = [0, 16] := by
    rw [slice_encrypt_before c p (off + 2) 16 off 2 (Nat.le_refl _), hh]
  generalize (encrypt c p (off + 2) 16).queue = Q at hl h02
  refine ⟨?_, length_slice _ _ _ (by omega)⟩
  rw [show (18 : Nat) = 2 + 16 from rfl, slice_add, h02]
  simp only [List.cons_append, List.nil_append]

theorem reply_frame_after (c : Primitives) (acked : Session) (off mid : Nat) (src : List Nat)
    (hlen : off + 18 ≤ acked.queue.length) (hh : slice acked.queue off 2 = [0, 16])
    (R : Session)
    (hR : R = encrypt c { acked with
      _message_id := mid
      queue := memcpy acked.queue (off + 2) src } (off + 2) 16) :
    slice R.queue off 18 = 0 :: 16 :: slice R.queue (off + 2) 16 ∧
    (slice R.queue (off + 2) 16).length = 16 := by
  apply staged_frame_of_header c
    { acked with _message_id := mid, queue := memcpy acked.queue (off + 2) src } off
  · show off + 18 ≤ (memcpy acked.queue (off + 2) src).length
    rw [length_memcpy]
    exact hlen
  · show slice (memcpy acked.queue (off + 2) src) off 2 = [0, 16]
    rw [slice_memcpy_disjoint _ _ _ _ _ (Or.inl (Nat.le_refl _)), hh]
  · rw [hR]

theorem chunk_frame_after (c : Primitives) (acked : Session) (off token code n : Nat)
    (hlen : off + 18 ≤ acked.queue.length) (hh : slice acked.queue off 2 = [0, 16])
    (R : Session)
    (hR : R = chunk_received c acked (off + 2) token code ∨
      R = chunk_missed c acked (off + 2) n) :
    slice R.queue off 18 = 0 :: 16 :: slice R.queue (off + 2) 16 ∧
    (slice R.queue (off + 2) 16).length = 16 := by
  rcases hR with hR | hR
  · rw [chunk_received_eq] at hR
    exact reply_frame_after c acked off _ _ hlen hh R hR
  · rw [chunk_missed_eq] at hR
    exact reply_frame_after c acked off _ _ hlen hh R hR

/-- C18: a CHUNK frame is answered, in this order, by the empty ACK with the request's
message id, the call of `save_firmware_chunk` on the chunk bytes, and one more frame
(for a frame whose CRC field matches the computed CRC as for any other, since the
comparison does not decide anything): `chunk_received` with code
OK and the request's token when the returned index `n` exceeds the `chunk_index` before
the message, `chunk_missed(n)` when it does not; afterwards `chunk_index` is `n` and
`last_chunk_millis` is the clock value read when the message was taken up. Each of the
two frames sent is `00 10` and the 16 cipher bytes. Stated for frames whose pad byte
leaves a chunk of zero or more bytes after the 15 bytes before it (`hpad`: the lengths
`len - 13 - pad` and `len - 15 - pad` handed to the callbacks are not negative) and whose
replies, staged at `queue + len`, lie inside the queue (`hfit`). -/
theorem chunk_reply (c : Primitives) (h : Host) (p : Session) (w : World)
    (len token now : Nat) (w0 : World) (r1 : Int) (w1 : World) (h16 : 16 ≤ len)
    (hpad : 15 + peek p.queue (len - 1) ≤ len)
    (hfit : len + 18 ≤ p.queue.length)
    (hm : callback_millis w = some (now, w0))
    (hs1 : blocking_send (stage_empty_ack c { p with last_chunk_millis := now } len).queue
      len 18 w0 = some (r1, w1))
    (hr1 : 0 ≤ r1) :
    let acked := stage_empty_ack c { p with last_chunk_millis := now } len
    let chunk := slice p.queue 15 (len - 15 - peek p.queue (len - 1))
    let n := h.save_firmware_chunk chunk % 2 ^ 16
    let mid := (p._message_id + 1) % 2 ^ 16
    let replied :=
      if n > p.chunk_index then chunk_received c acked (len + 2) token h.ChunkReceivedCode_OK
      else chunk_missed c acked (len + 2) n
    acked = encrypt c { p with
      last_chunk_millis := now
      queue := memcpy (poke (poke p.queue len 0) (len + 1) 16) (len + 2)
        [0x60, 0x00, peek p.queue 2 % 256, peek p.queue 3 % 256,
          12, 12, 12, 12, 12, 12, 12, 12, 12, 12, 12, 12] } (len + 2) 16 ∧
    (n > p.chunk_index → replied = encrypt c { acked with
      _message_id := mid
      queue := memcpy acked.queue (len + 2) [0x51, h.ChunkReceivedCode_OK % 256, mid / 256,
        mid % 256, token % 256, 11, 11, 11, 11, 11, 11, 11, 11, 11, 11, 11] } (len + 2) 16) ∧
    (n ≤ p.chunk_index → replied = encrypt c { acked with
      _message_id := mid
      queue := memcpy acked.queue (len + 2) [0x40, 0x01, mid / 256, mid % 256, 0xb1,
        'c'.toNat, 0xff, n / 256 % 256, n % 256, 7, 7, 7, 7, 7, 7, 7] } (len + 2) 16) ∧
    (∀ (r2 : Int) (w2 : World), blocking_send replied.queue len 18 w1 = some (r2, w2) →
      handle_chunk c h p w len token
        = some (decide (0 ≤ r2), { replied with chunk_index := n }, w2,
            [.send (slice acked.queue len 18),
              .calculate_crc (slice p.queue 13 (len - 13 - peek p.queue (len - 1))),
              .save_firmware_chunk chunk, .send (slice replied.queue len 18)]) ∧
      ({ replied with chunk_index := n } : Session).chunk_index = n ∧
      replied.last_chunk_millis = now) ∧
    ((chunk.length : Int) = (len : Int) - 15 - (peek p.queue (len - 1) : Int) ∧
      ((slice p.queue 13 (len - 13 - peek p.queue (len - 1))).length : Int)
        = (len : Int) - 13 - (peek p.queue (len - 1) : Int)) ∧
    (slice acked.queue len 18 = 0 :: 16 :: slice acked.queue (len + 2) 16 ∧
      (slice acked.queue (len + 2) 16).length = 16) ∧
    (slice replied.queue len 18 = 0 :: 16 :: slice replied.queue (len + 2) 16 ∧
      (slice replied.queue (len + 2) 16).length = 16) := by
  intro acked chunk n mid replied
  have hd := chunk_data_eq_below c { p with last_chunk_millis := now } len h16
  have hidx : acked.chunk_index = p.chunk_index := rfl
  have hmid : acked._message_id = p._message_id := rfl
  have hacked : acked = _ := stage_empty_ack_eq c { p with last_chunk_millis := now } len
    (by omega)
  have hlacked : acked.queue.length = p.queue.length := length_stage_empty_ack c _ len
  have hfacked := staged_frame_at c _ p.queue _ len hfit rfl _ (congrArg Session.queue hacked)
  have hhead : slice acked.queue len 2 = [0, 16] := by
    have h2 : slice acked.queue len 2 = (slice acked.queue len 18).take 2 := by
      simp [slice, List.take_take]
    rw [h2, hfacked.1]
    rfl
  refine ⟨hacked, ?_, ?_, ?_, ?_, hfacked, ?_⟩
  · intro hgt
    simp only [replied, hgt, if_true]
    rw [chunk_received_eq, hmid]
  · intro hle
    have hng : ¬ n > p.chunk_index := by omega
    simp only [replied, hng, if_false]
    rw [chunk_missed_eq, hmid]
  · intro r2 w2 hs2
    refine ⟨?_, rfl, ?_⟩
    · rw [handle_chunk_eq c h p w len token now w0 r1 w1 acked replied chunk n hm rfl hs1 hr1
        hd.2.2.1.symm rfl rfl, hs2, hd.2.1]
      rfl
    · simp only [replied]
      split
      · rw [chunk_received_eq]; rfl
      · rw [chunk_missed_eq]; rfl
  · constructor
    · show ((slice p.queue 15 (len - 15 - peek p.queue (len - 1))).length : Int) = _
      rw [length_slice _ _ _ (by omega)]
      omega
    · rw [length_slice _ _ _ (by omega)]
      omega
  · apply chunk_frame_after c acked len token h.ChunkReceivedCode_OK n (by omega) hhead
    by_cases hgt : n > p.chunk_index
    · left
      simp only [replied, hgt, if_true]
    · right
      simp only [replied, hgt, if_false]

theorem chunk_reply_witness :
    reference_host.calculate_crc (slice (chunk_request [0, 0, 0, 0]) 13 16)
      = be32_at (chunk_request [0, 0, 0, 0]) 8 ∧
    15 + peek (fresh_with (chunk_request [0, 0, 0, 0])).queue (32 - 1) ≤ 32 ∧
    32 + 18 ≤ (fresh_with (chunk_request [0, 0, 0, 0])).queue.length ∧
    (handle_chunk cleartext reference_host (fresh_with (chunk_request [0, 0, 0, 0]))
        ⟨[5, 5, 5], [], [18, 18], []⟩ 32 7).map
      (fun r => (r.1, r.2.1.chunk_index, r.2.1.last_chunk_millis, r.2.2.2.get? 2))
      = some (true, 1, 5, some (.save_firmware_chunk ((List.range 16).drop 2))) :=
  ⟨by decide, by decide, by rw [length_fresh_with]; decide,
    by
      rw [((chunk_reply cleartext reference_host (fresh_with (chunk_request [0, 0, 0, 0]))
        ⟨[5, 5, 5], [], [18, 18], []⟩ 32 7 5 ⟨[5, 5], [], [18, 18], []⟩ 18
        ⟨[5], [], [18], [0, 16, 0x60, 0x00, 0x12, 0x35,
          12, 12, 12, 12, 12, 12, 12, 12, 12, 12, 12, 12]⟩
        (by decide) (by decide) (by rw [length_fresh_with]; decide)
        (by decide) (by decide) (by decide)).2.2.2.1 18
        ⟨[], [], [], [0, 16, 0x60, 0x00, 0x12, 0x35,
          12, 12, 12, 12, 12, 12, 12, 12, 12, 12, 12, 12,
          0, 16, 0x31, 0x44, 0x12, 0x34, 11, 7, 7, 7, 7, 7, 7, 7, 7, 7, 7, 7]⟩
        (by decide)).1]
      decide⟩

end SparkProtocol
